import Mathlib

/-!
# CPanel: a verification development for the case orchestrator, the edge graph, the
particles and the wake

Shallow embedding of `cpCase.cpp`, `edge.cpp`, `particle.cpp` and `wake.cpp`.

Conventions of the embedding.

* A C++ `double` is an element of a field `K` with exact arithmetic (rounding is not
  modelled).  Definitions are generic in `K`, so they evaluate over `ℚ`; statements that
  need trigonometry instantiate `K` with `ℝ`.
* `Eigen::Vector3d` is `Fin 3 → K`, `Eigen::Matrix3d` is `Matrix (Fin 3) (Fin 3) K`,
  `Eigen::VectorXd` is `List K` and `Eigen::MatrixXd` is a list of rows.
* Pointers into the geometry (`bodyPanel*`, `wakePanel*`, `cpNode*`) are indices into the
  vectors that own the objects; a null or dangling pointer is an index with no element,
  and dereferencing it makes the operation return `none`.
* Member functions become functions from the state before the call to the state after it.
  A `for (int i = 0; i < n; i++)` loop is `forLoop body n`, which runs `body 0`, ...,
  `body (n-1)` in this order.
* Library routines (`cos`, `sin`, `acos`, `sqrt`, `M_PI`, the BiCGSTAB solver) and member
  functions whose bodies are in other translation units are parameters, collected in `libm`,
  `externals`, `wakeExternals`, `runOps`, `kernelMath` and `wakeParams`.
* In `particle.cpp`, in `wake.cpp` and in the geometric members of `edge`, a division by a
  divisor that is not a literal is `cdiv`, which returns `none` when the divisor is zero.
  In `edge::checkTE`, whose angles only feed a comparison, a division by zero gives NaN,
  which is `none` too, and a comparison with NaN is false (`nanLess`).
* A routine that may call `std::exit` returns an `exits`, which tells a return from an exit.
* What `run` writes to `std::cout` is a list of insertions; the list of calls that `run`
  makes is kept beside it as a history.
-/

namespace CPanel

/-! ## Linear algebra -/

/-- The type `Eigen::Vector3d`. -/
abbrev Vector3d (K : Type) := Fin 3 → K

/-- The type `Eigen::Matrix3d`. -/
abbrev Matrix3d (K : Type) := Matrix (Fin 3) (Fin 3) K

/-- The type `Eigen::VectorXd`. -/
abbrev VectorXd (K : Type) := List K

/-- The type `Eigen::MatrixXd`, stored as its list of rows. -/
abbrev MatrixXd (K : Type) := List (List K)

/-- Inner product of two dynamic vectors (one row of a matrix-vector product). -/
def rowDot {K : Type} [Field K] : List K → List K → K
  | a :: as, b :: bs => a * b + rowDot as bs
  | _, _ => 0

/-- The product `M * v` of a dynamic matrix and a dynamic vector. -/
def mulVecXd {K : Type} [Field K] (M : MatrixXd K) (v : VectorXd K) : VectorXd K :=
  M.map (fun row => rowDot row v)

/-- The unary minus of a dynamic vector. -/
def negXd {K : Type} [Field K] (v : VectorXd K) : VectorXd K :=
  v.map (fun a => -a)

/-- The scalar multiple `k * v` of a dynamic vector. -/
def smulXd {K : Type} [Field K] (k : K) (v : VectorXd K) : VectorXd K :=
  v.map (fun a => k * a)

/-- The member `dot` of `Eigen::Vector3d`. -/
def dot {K : Type} [Field K] (a b : Vector3d K) : K :=
  a 0 * b 0 + a 1 * b 1 + a 2 * b 2

/-- A division of doubles whose divisor is computed: `none` is a division by zero.  The
translations of particle.cpp and of wake.cpp, the geometric members of `edge` and the angles
of `edge::checkTE` use it for every divisor that is not a literal. -/
def cdiv {K : Type} [LinearOrderedField K] (a b : K) : Option K :=
  if b = 0 then none else some (a / b)

/-- The comparison `a < b` of two doubles of which each may be NaN (`none`): a comparison
with NaN is false. -/
def nanLess {K : Type} [LinearOrderedField K] (a b : Option K) : Bool :=
  match a, b with
  | some x, some y => decide (x < y)
  | _, _ => false

/-- A `for (int i = 0; i < n; i++)` loop over a state that may fail:
`body 0` runs first and `body (n-1)` last. -/
def forLoop {σ : Type} (body : Nat → σ → Option σ) : Nat → σ → Option σ
  | 0, s => some s
  | k + 1, s => (forLoop body k s).bind (body k)

/-- The routines of `<math.h>` the code calls. -/
structure libm (K : Type) where
  /-- The function `cos`. -/
  cos : K → K
  /-- The function `sin`. -/
  sin : K → K
  /-- The function `acos`. -/
  acos : K → K
  /-- The constant `M_PI`. -/
  pi : K
  /-- The function `sqrt`, which `Eigen::Vector3d::norm` calls. -/
  sqrt : K → K

/-! ## cpCase: frames (`windToBody`, `bodyToWind`) -/

/-- The matrix `T` that `cpCase::windToBody` builds and stores in `transform`
(cpCase.cpp lines 161-173); `alpha` and `beta` are in degrees. -/
def windToBodyT {K : Type} [Field K] (m : libm K) (alpha beta : K) : Matrix3d K :=
  let alpha := alpha * (m.pi / 180)
  let beta := beta * (m.pi / 180)
  Matrix.of ![![m.cos alpha * m.cos beta, m.cos alpha * m.sin beta, -m.sin alpha],
              ![-m.sin beta, m.cos beta, 0],
              ![m.sin alpha * m.cos beta, m.sin alpha * m.sin beta, m.cos alpha]]

/-! ## Data model -/

/-- The fields of `bodyPanel` (and of its base class `panel`) that the case orchestrator and
the edge graph read or write. -/
structure bodyPanel (K : Type) where
  /-- Centroid, `getCenter()`. -/
  center : Vector3d K
  /-- Outward normal, `getNormal()`. -/
  normal : Vector3d K
  /-- Bezier-smoothed normal, `getBezNormal()`. -/
  bezNormal : Vector3d K
  /-- Panel area, `getArea()`. -/
  area : K
  /-- Surface id, `getID()`. -/
  ID : Int
  /-- Source strength, `getSigma()`. -/
  sourceStrength : K
  /-- Doublet strength, `getMu()`. -/
  doubletStrength : K
  /-- Velocity potential stored by `setPotential`. -/
  potential : K
  /-- Surface velocity, `getGlobalV()`. -/
  velocity : Vector3d K
  /-- Pressure coefficient, `getCp()`. -/
  Cp : K
  /-- The trailing edge recorded by `setTEpanel`, a pointer to an edge. -/
  TEedge : Option Nat

/-- The fields of `wakePanel` (and of its base class `panel`) that the case orchestrator and
the edge graph read or write. -/
structure wakePanel (K : Type) where
  /-- Centroid, `getCenter()`. -/
  center : Vector3d K
  /-- Normal, `getNormal()`. -/
  normal : Vector3d K
  /-- Doublet strength, `getMu()`. -/
  doubletStrength : K
  /-- Doublet strength of the previous step, `getPrevStrength()`. -/
  prevStrength : K
  /-- Velocity potential stored by `setPotential`. -/
  potential : K
  /-- Pointer to the upper parent body panel (null until `setParentPanels`). -/
  upperPan : Option Nat
  /-- Pointer to the lower parent body panel (null until `setParentPanels`). -/
  lowerPan : Option Nat
  /-- Pointer to the vortex filament recorded by `setVortFil` (null until then). -/
  vortFil : Option Nat
  /-- Pointer to the wake recorded by `setParentWake` (null until then). -/
  parentWake : Option Nat

/-- The members of `particle` that `cpCase.cpp` reads or writes: those the constructor
(particle.cpp lines 26-29) receives from the collapse, and the public accumulator `velOn`. -/
structure particle (K : Type) where
  /-- Position. -/
  pos : Vector3d K
  /-- Vector strength. -/
  strength : Vector3d K
  /-- Core radius. -/
  radius : K
  /-- Velocity of the previous step. -/
  previousVelInfl : Vector3d K
  /-- Strength update of the previous step. -/
  previousStrengthUpdate : Vector3d K
  /-- Accumulated velocity, the member `velOn`. -/
  velOn : Vector3d K

/-- A vortex filament as `collapseWakeForEachEdge` constructs it:
`vortexFil(p1, p2, strength, parentPanel)`. -/
structure vortexFil (K : Type) where
  /-- First end point. -/
  p1 : Vector3d K
  /-- Second end point. -/
  p2 : Vector3d K
  /-- Circulation. -/
  strength : K
  /-- Pointer to the wake panel the filament was emitted from. -/
  parentPan : Nat

/-- The members of `cpCase` (cpCase.h lines 36-121), with the parts of `geometry` and of
`inputParams` the case reaches through its pointers `geom` and `params`. -/
structure cpCase (K : Type) where
  /-- Doublet influence matrix, `geom->getA()`. -/
  A : MatrixXd K
  /-- Source influence matrix, `geom->getB()`. -/
  B : MatrixXd K
  /-- Body panels, `*bPanels`. -/
  bPanels : List (bodyPanel K)
  /-- Wake panels, `*wPanels`. -/
  wPanels : List (wakePanel K)
  /-- Reference area, `params->Sref`. -/
  Sref : K
  /-- Reference span, `params->bref`. -/
  bref : K
  /-- Reference chord, `params->cref`. -/
  cref : K
  /-- Moment reference point, `params->cg`. -/
  cg : Vector3d K
  /-- Freestream speed. -/
  Vmag : K
  /-- Prandtl-Glauert factor. -/
  PG : K
  /-- Time step counter (`int timeStep = 0`). -/
  timeStep : Nat
  /-- Number of unsteady steps (`numSteps`). -/
  numSteps : Nat
  /-- Time step size. -/
  dt : K
  /-- Flag `startingWake`. -/
  startingWake : Bool
  /-- Flag `accelerate`. -/
  accelerate : Bool
  /-- Flag `rungeKuttaStep`. -/
  rungeKuttaStep : Bool
  /-- Lift coefficient history, the vector `CL`. -/
  CL : List K
  /-- Freestream velocity in the body frame. -/
  Vinf : Vector3d K
  /-- Wind-to-body matrix. -/
  transform : Matrix3d K
  /-- Vortex particles. -/
  particles : List (particle K)
  /-- Vortex filaments. -/
  filaments : List (vortexFil K)
  /-- The particles held by the octree that `FMM` was last built on. -/
  FMM : List (particle K)
  /-- Source strengths, one entry per body panel. -/
  sigmas : VectorXd K
  /-- Body-frame force coefficients. -/
  Fbody : Vector3d K
  /-- Wind-frame force coefficients. -/
  Fwind : Vector3d K
  /-- Moment coefficients, roll, pitch, yaw. -/
  CM : Vector3d K

/-- Member functions of other translation units, and of the Eigen library, that
`cpCase.cpp` calls.  Each is a parameter of the embedding. -/
structure externals (K : Type) where
  /-- The calls `Eigen::BiCGSTAB::compute(A)`, `solve(rhs)` and `error()`: the solution
  vector and the reported residual. -/
  bicgstab : MatrixXd K → VectorXd K → VectorXd K × K
  /-- The value that `panel::setPotential(Vinf)` stores in a body panel. -/
  bodyPotential : Vector3d K → bodyPanel K → K
  /-- The value that `panel::setPotential(Vinf)` stores in a wake panel. -/
  wakePotential : Vector3d K → wakePanel K → K
  /-- The function `vortexFil::velInfl(POI)`. -/
  filVelInfl : vortexFil K → Vector3d K → Vector3d K
  /-- The function `particle::partVelInfl(POI)`. -/
  partVelInfl : particle K → Vector3d K → Vector3d K
  /-- The function `particleFMM::barnesHut(POI)` on the tree built from the given particles. -/
  barnesHut : List (particle K) → Vector3d K → Vector3d K
  /-- The velocity that `bodyPanel::computeVelocity(PG, Vinf, Vpart)` stores in the panel with
  the given index; it reads the strengths of the neighbouring panels. -/
  panelVelocity : K → Vector3d K → Vector3d K → List (bodyPanel K) → Nat → Vector3d K
  /-- The value that `bodyPanel::computeCp(Vmag)` stores in the panel. -/
  panelCp : K → bodyPanel K → K
  /-- The function `bodyPanel::computeMoments(cg)`. -/
  computeMoments : Vector3d K → bodyPanel K → Vector3d K

/-! ## Panel setters -/

/-- The setter `bodyPanel::setMu(double)`. -/
def bodyPanel.setMu {K : Type} (p : bodyPanel K) (dubStrength : K) : bodyPanel K :=
  { p with doubletStrength := dubStrength }

/-- Modelled from the spec: `bodyPanel::setSigma(Vinf, Vnorm)`, whose body is in
bodyPanel.cpp.  Section 4.1: "σ := −n·(V_inf + V_other) − V_normal_prescribed". -/
def bodyPanel.setSigma {K : Type} [Field K] (p : bodyPanel K) (V : Vector3d K) (Vnorm : K) :
    bodyPanel K :=
  { p with sourceStrength := -(dot p.normal V) - Vnorm }

/-- The call `panel::setPotential(Vinf)` on a body panel: it stores the potential. -/
def bodyPanel.setPotential {K : Type} (ext : externals K) (p : bodyPanel K) (Vinf : Vector3d K) :
    bodyPanel K :=
  { p with potential := ext.bodyPotential Vinf p }

/-- The setter `wakePanel::setPrevStrength(double)`. -/
def wakePanel.setPrevStrength {K : Type} (w : wakePanel K) (previous : K) : wakePanel K :=
  { w with prevStrength := previous }

/-- Modelled from the spec: `wakePanel::setMu()`, whose body is in wakePanel.cpp.
Section 4.5: "set each wake panel's μ as (μ_upper − μ_lower)".  The two parents are read
through the panel's pointers from the body panels as they are at the time of the call. -/
def wakePanel.setMu {K : Type} [Field K] (w : wakePanel K) (bPanels : List (bodyPanel K)) :
    Option (wakePanel K) := do
  let u ← w.upperPan
  let l ← w.lowerPan
  let upper ← bPanels[u]?
  let lower ← bPanels[l]?
  some { w with doubletStrength := upper.doubletStrength - lower.doubletStrength }

/-- The call `panel::setPotential(Vinf)` on a wake panel: it stores the potential. -/
def wakePanel.setPotential {K : Type} (ext : externals K) (w : wakePanel K) (Vinf : Vector3d K) :
    wakePanel K :=
  { w with potential := ext.wakePotential Vinf w }

/-! ## cpCase: source strengths and the linear solve -/

/-- The call `VectorXd::resize(n)`: a vector of the right size is kept, any other is
reallocated (the fresh entries, unspecified in Eigen, are zero here). -/
def resizeXd {K : Type} [Field K] (v : VectorXd K) (n : Nat) : VectorXd K :=
  if v.length = n then v else List.replicate n 0

/-- The velocity that `cpCase::setSourceStrengths` hands to `setSigma` for a panel with
centroid `c` (cpCase.cpp lines 195-205): the freestream plus the sum over the filaments. -/
def sourceVelocity {K : Type} [Field K] (ext : externals K) (s : cpCase K) (c : Vector3d K) :
    Vector3d K :=
  let sumVelInfl : Vector3d K := 0
  let sumVelInfl := s.filaments.foldl (fun acc f => acc + ext.filVelInfl f c) sumVelInfl
  s.Vinf + sumVelInfl

/-- The function `cpCase::setSourceStrengths` (cpCase.cpp lines 190-208). -/
def setSourceStrengths {K : Type} [Field K] (ext : externals K) (s : cpCase K) :
    Option (cpCase K) :=
  let s := { s with sigmas := resizeXd s.sigmas s.bPanels.length }
  forLoop (fun i s => do
      let p ← s.bPanels[i]?
      -- line 198: the value returned by `FMM.barnesHut` is not used
      let _discarded := if s.accelerate && decide (s.timeStep > 0)
        then ext.barnesHut s.FMM p.center else 0
      let p := p.setSigma (sourceVelocity ext s p.center) 0
      if i < s.sigmas.length then
        some { s with bPanels := s.bPanels.set i p, sigmas := s.sigmas.set i p.sourceStrength }
      else none)
    s.bPanels.length s

/-- The right-hand side `-(*B)*sigmas` of both solves (cpCase.cpp lines 216 and 249). -/
def RHS {K : Type} [Field K] (s : cpCase K) : VectorXd K :=
  negXd (mulVecXd s.B s.sigmas)

/-- The loop over the body panels of both solves (cpCase.cpp lines 228-232 and 261-266). -/
def writeBodyMu {K : Type} (ext : externals K) (doubletStrengths : VectorXd K) (s : cpCase K) :
    Option (cpCase K) :=
  forLoop (fun i s => do
      let p ← s.bPanels[i]?
      let d ← doubletStrengths[i]?
      some { s with bPanels := s.bPanels.set i ((p.setMu d).setPotential ext s.Vinf) })
    s.bPanels.length s

/-- The function `cpCase::solveMatrixEq` (cpCase.cpp lines 210-241): the flag `converged`
and the state after the call. -/
def solveMatrixEq {K : Type} [LinearOrderedField K] (ext : externals K) (s : cpCase K) :
    Option (Bool × cpCase K) :=
  let converged := true
  let res := ext.bicgstab s.A (RHS s)
  let doubletStrengths := res.1
  let converged := if res.2 > (10 : K) ^ (-10 : ℤ) then false else converged
  do
    let s ← writeBodyMu ext doubletStrengths s
    let s ← forLoop (fun i s => do
        let w ← s.wPanels[i]?
        let w ← w.setMu s.bPanels
        some { s with wPanels := s.wPanels.set i (w.setPotential ext s.Vinf) })
      s.wPanels.length s
    some (converged, s)

/-- The function `cpCase::solveVPmatrixEq` (cpCase.cpp lines 243-274). -/
def solveVPmatrixEq {K : Type} [LinearOrderedField K] (ext : externals K) (s : cpCase K) :
    Option (Bool × cpCase K) :=
  let converged := true
  let res := ext.bicgstab s.A (RHS s)
  let doubletStrengths := res.1
  let converged := if res.2 > (10 : K) ^ (-10 : ℤ) then false else converged
  do
    let s ← writeBodyMu ext doubletStrengths s
    let s ← forLoop (fun i s => do
        let w ← s.wPanels[i]?
        let w := w.setPrevStrength w.doubletStrength
        let w ← w.setMu s.bPanels
        some { s with wPanels := s.wPanels.set i (w.setPotential ext s.Vinf) })
      s.wPanels.length s
    some (converged, s)

/-! ## Predicates and example data -/

/-- Both parent pointers of a wake panel are set and point into a vector of `n` body
panels. -/
def wakePanel.hasParents {K : Type} (w : wakePanel K) (n : Nat) : Bool :=
  match w.upperPan, w.lowerPan with
  | some u, some l => decide (u < n) && decide (l < n)
  | _, _ => false

/-- The Kutta condition on the stored strengths: every wake panel's doublet strength is
the doublet strength of its upper parent minus that of its lower parent. -/
def kuttaHolds {K : Type} [Field K] (s : cpCase K) : Prop :=
  ∀ w ∈ s.wPanels, ∃ u l upper lower, w.upperPan = some u ∧ w.lowerPan = some l ∧
    s.bPanels[u]? = some upper ∧ s.bPanels[l]? = some lower ∧
    w.doubletStrength = upper.doubletStrength - lower.doubletStrength

/-- A body panel with the given centroid, normal and doublet strength, unit area, surface
id 1 and every other field zero. -/
def demoBody (c n : Vector3d ℚ) (mu : ℚ) : bodyPanel ℚ :=
  { center := c, normal := n, bezNormal := n, area := 1, ID := 1, sourceStrength := 0,
    doubletStrength := mu, potential := 0, velocity := 0, Cp := 0, TEedge := none }

/-- A wake panel in the plane `z = 0` with the given parents and doublet strength. -/
def demoWake (upper lower : Option Nat) (mu : ℚ) : wakePanel ℚ :=
  { center := ![2, 0, 0], normal := ![0, 0, 1], doubletStrength := mu, prevStrength := 0,
    potential := 0, upperPan := upper, lowerPan := lower, vortFil := none, parentWake := none }

/-- External routines for the examples: the solver returns `A * rhs` as its solution and the
first entry of the right-hand side as its residual; the potentials are
zero; every filament and particle induces the velocity `(1, 0, 0)`. -/
def demoExt : externals ℚ :=
  { bicgstab := fun A b => (mulVecXd A b, b.headD 0)
    bodyPotential := fun _ _ => 0
    wakePotential := fun _ _ => 0
    filVelInfl := fun _ _ => ![1, 0, 0]
    partVelInfl := fun _ _ => ![1, 0, 0]
    barnesHut := fun _ _ => ![1, 0, 0]
    panelVelocity := fun _ V _ _ _ => V
    panelCp := fun _ _ => 1
    computeMoments := fun _ _ => ![1, 1, 1] }

/-- A case with two body panels (an upper one at `z = 1`, a lower one at `z = -1`) and one
wake panel whose parents they are. -/
def demoCase : cpCase ℚ :=
  { A := [[1, 0], [0, 1]], B := [[1, 0], [0, 1]]
    bPanels := [demoBody ![0, 0, 1] ![1, 0, 0] 5, demoBody ![0, 0, -1] ![-1, 0, 0] 7]
    wPanels := [demoWake (some 0) (some 1) 3]
    Sref := 1, bref := 1, cref := 1, cg := 0, Vmag := 1, PG := 1
    timeStep := 0, numSteps := 1, dt := 1, startingWake := true, accelerate := true
    rungeKuttaStep := false
    CL := [], Vinf := ![1, 0, 0], transform := 1
    particles := [], filaments := [], FMM := [], sigmas := [-1, 1]
    Fbody := 0, Fwind := 0, CM := 0 }

/-- The solution vector and the residual that the solver reports for the system of the
case. -/
def solverResult {K : Type} [Field K] (ext : externals K) (s : cpCase K) : VectorXd K × K :=
  ext.bicgstab s.A (RHS s)

/-- The example case at time step 1 with one particle in the list and in the tree, with
the given value of `accelerate`. -/
def demoStepOne (acc : Bool) : cpCase ℚ :=
  { demoCase with
    timeStep := 1
    accelerate := acc
    particles := [{ pos := ![3, 0, 0], strength := ![0, 1, 0], radius := 1,
                    previousVelInfl := 0, previousStrengthUpdate := 0, velOn := 0 }]
    FMM := [{ pos := ![3, 0, 0], strength := ![0, 1, 0], radius := 1,
              previousVelInfl := 0, previousStrengthUpdate := 0, velOn := 0 }] }

/-! ## cpCase: frames and force integration -/

/-- The function `cpCase::windToBody` (cpCase.cpp lines 159-182): the state with the new
`transform` and the returned body-frame velocity. -/
def windToBody {K : Type} [Field K] (m : libm K) (s : cpCase K) (V alpha beta : K) :
    cpCase K × Vector3d K :=
  let T := windToBodyT m alpha beta
  let Vt : Vector3d K := ![V, 0, 0]
  let s := { s with transform := T }
  let Vel := s.transform.mulVec Vt
  (s, Vel)

/-- The function `cpCase::bodyToWind` (cpCase.cpp lines 184-188). -/
def bodyToWind {K : Type} [Field K] (s : cpCase K) (vec : Vector3d K) : Vector3d K :=
  let T := s.transform.transpose
  T.mulVec vec

/-- The quotient `v / c` of a vector by a scalar. -/
def vdiv {K : Type} [Field K] (v : Vector3d K) (c : K) : Vector3d K :=
  fun i => v i / c

/-- The call `bodyPanel::computeVelocity(PG, Vinf, Vpart)` on panel `i`: it stores the
surface velocity, whose value is a parameter. -/
def bodyPanel.computeVelocity {K : Type} (ext : externals K) (p : bodyPanel K) (PG : K)
    (Vinf Vpart : Vector3d K) (bPanels : List (bodyPanel K)) (i : Nat) : bodyPanel K :=
  { p with velocity := ext.panelVelocity PG Vinf Vpart bPanels i }

/-- The call `bodyPanel::computeCp(Vmag)`: it stores the pressure coefficient, whose value
is a parameter. -/
def bodyPanel.computeCp {K : Type} (ext : externals K) (p : bodyPanel K) (Vmag : K) :
    bodyPanel K :=
  { p with Cp := ext.panelCp Vmag p }

/-- The function `cpCase::compVelocity` (cpCase.cpp lines 277-305). -/
def compVelocity {K : Type} [Field K] (ext : externals K) (s : cpCase K) : Option (cpCase K) := do
  let s := { s with CM := 0 }
  let s := { s with Fbody := 0 }
  let s ← forLoop (fun i s => do
      let p ← s.bPanels[i]?
      let sumPartInfl : Vector3d K := 0
      let sumPartInfl := s.particles.foldl (fun acc q => acc + ext.partVelInfl q p.center)
        sumPartInfl
      let p := p.computeVelocity ext s.PG s.Vinf sumPartInfl s.bPanels i
      let p := p.computeCp ext s.Vmag
      let s := { s with bPanels := s.bPanels.set i p }
      let s := { s with Fbody := s.Fbody + vdiv ((-p.Cp * p.area) • p.bezNormal) s.Sref }
      let moment := ext.computeMoments s.cg p
      let s := { s with CM := ![s.CM 0 + moment 0 / (s.Sref * s.bref),
                                s.CM 1 + moment 1 / (s.Sref * s.cref),
                                s.CM 2 + moment 2 / (s.Sref * s.bref)] }
      some s)
    s.bPanels.length s
  let s := { s with Fwind := bodyToWind s s.Fbody }
  some { s with CL := s.CL ++ [s.Fbody 2] }

/-- The contribution of one body panel to `Fbody`: `-Cp * area * bezNormal / Sref`. -/
def forceTerm {K : Type} [Field K] (Sref : K) (p : bodyPanel K) : Vector3d K :=
  vdiv ((-p.Cp * p.area) • p.bezNormal) Sref

/-- The contribution of one body panel to `CM`: the roll and yaw components of its moment
over `Sref * bref`, the pitch component over `Sref * cref`. -/
def momentTerm {K : Type} [Field K] (ext : externals K) (s : cpCase K) (p : bodyPanel K) :
    Vector3d K :=
  ![ext.computeMoments s.cg p 0 / (s.Sref * s.bref),
    ext.computeMoments s.cg p 1 / (s.Sref * s.cref),
    ext.computeMoments s.cg p 2 / (s.Sref * s.bref)]

/-! ## The edge graph (`edge.cpp`) -/

/-- The members of `cpNode` that `edge.cpp` reads or writes. -/
structure cpNode (K : Type) where
  /-- Position, `getPnt()`. -/
  pnt : Vector3d K
  /-- Trailing-edge flag, set by `setTE()`. -/
  TE : Bool
  /-- Incident edges, extended by `addEdge(edge*)`. -/
  edges : List Nat

/-- The members of `edge`: the two nodes, the adjacent body and wake panels (pointers) and
the flag `TE`. -/
structure edge where
  /-- First node. -/
  n1 : Nat
  /-- Second node. -/
  n2 : Nat
  /-- Adjacent body panels, `bodyPans`. -/
  bodyPans : List Nat
  /-- Adjacent wake panels, `wakePans`. -/
  wakePans : List Nat
  /-- Trailing-edge flag. -/
  TE : Bool

/-- The objects an edge reaches through its pointers: the vectors of nodes, edges, body
panels and wake panels that own them. -/
structure geometry (K : Type) where
  /-- All nodes. -/
  nodes : List (cpNode K)
  /-- All edges. -/
  edges : List edge
  /-- All body panels. -/
  bPanels : List (bodyPanel K)
  /-- All wake panels. -/
  wPanels : List (wakePanel K)

/-- The member `norm` of `Eigen::Vector3d`. -/
def norm3 {K : Type} [Field K] (m : libm K) (v : Vector3d K) : K :=
  m.sqrt (dot v v)

/-- The call `n->setTE()` on the node `n`. -/
def geometry.nodeSetTE {K : Type} (g : geometry K) (n : Nat) : Option (geometry K) := do
  let nd ← g.nodes[n]?
  some { g with nodes := g.nodes.set n { nd with TE := true } }

/-- The call `n->addEdge(e)` on the node `n`. -/
def geometry.nodeAddEdge {K : Type} (g : geometry K) (n e : Nat) : Option (geometry K) := do
  let nd ← g.nodes[n]?
  some { g with nodes := g.nodes.set n { nd with edges := nd.edges ++ [e] } }

/-- The call `w->setParentPanels(upper, lower)` on the wake panel `w`: it stores the two
pointers. -/
def geometry.setParentPanels {K : Type} (g : geometry K) (w upper lower : Nat) :
    Option (geometry K) := do
  let wp ← g.wPanels[w]?
  some { g with wPanels := g.wPanels.set w { wp with upperPan := some upper, lowerPan := some lower } }

/-- The call `b->setTEpanel(e)` on the body panel `b`: it stores the edge. -/
def geometry.setTEpanel {K : Type} (g : geometry K) (b e : Nat) : Option (geometry K) := do
  let p ← g.bPanels[b]?
  some { g with bPanels := g.bPanels.set b { p with TEedge := some e } }

/-- The assignment `TE = true` in the edge `e`. -/
def geometry.edgeSetTE {K : Type} (g : geometry K) (e : Nat) : Option (geometry K) := do
  let ed ← g.edges[e]?
  some { g with edges := g.edges.set e { ed with TE := true } }

/-- The constructor `edge::edge(nn1, nn2)` (edge.cpp lines 28-32): the new edge is owned by
the edge vector, and the returned number is the pointer to it. -/
def edge.construct {K : Type} (g : geometry K) (nn1 nn2 : Nat) : Option (geometry K × Nat) := do
  let e := g.edges.length
  let fresh : edge := { n1 := nn1, n2 := nn2, bodyPans := [], wakePans := [], TE := false }
  let g := { g with edges := g.edges ++ [fresh] }
  let g ← g.nodeAddEdge nn1 e
  let g ← g.nodeAddEdge nn2 e
  some (g, e)

/-- The function `edge::checkTE` (edge.cpp lines 48-109) on the edge `e`.  The angles `theta1`
and `theta2` (lines 62-63) are NaN, here `none`, when the product of the two norms they divide
by is zero; the test `theta1 < theta2` is then false and `bodyPans[1]` becomes the upper
panel. -/
def checkTE {K : Type} [LinearOrderedField K] (m : libm K) (g : geometry K) (e : Nat) :
    Option (geometry K) := do
  let ed ← g.edges[e]?
  if ed.bodyPans.length = 2 then
    if ed.wakePans.length = 1 then
      let g ← g.edgeSetTE e
      let w0 ← ed.wakePans[0]?
      let b0 ← ed.bodyPans[0]?
      let b1 ← ed.bodyPans[1]?
      let wake0 ← g.wPanels[w0]?
      let body0 ← g.bPanels[b0]?
      let body1 ← g.bPanels[b1]?
      let normal := wake0.normal
      let v1 := body0.center - wake0.center
      let v2 := body1.center - wake0.center
      let theta1 := (cdiv (dot v1 normal) (norm3 m v1 * norm3 m normal)).map m.acos
      let theta2 := (cdiv (dot v2 normal) (norm3 m v2 * norm3 m normal)).map m.acos
      let upper := if nanLess theta1 theta2 then b0 else b1
      let lower := if nanLess theta1 theta2 then b1 else b0
      let g ← g.setParentPanels w0 upper lower
      let g ← g.nodeSetTE ed.n1
      let g ← g.nodeSetTE ed.n2
      some g
    else
      let b0 ← ed.bodyPans[0]?
      let b1 ← ed.bodyPans[1]?
      let body0 ← g.bPanels[b0]?
      let body1 ← g.bPanels[b1]?
      let angle := m.acos (dot body0.normal body1.normal)
      if angle > 4.7 * m.pi / 6 ∧ body0.ID = body1.ID then
        let g ← g.edgeSetTE e
        let g ← g.nodeSetTE ed.n1
        let g ← g.nodeSetTE ed.n2
        let g ← g.setTEpanel b0 e
        let g ← g.setTEpanel b1 e
        some g
      else some g
  else some g

/-- The function `edge::addBodyPan` (edge.cpp lines 34-39) on the edge `e`. -/
def addBodyPan {K : Type} [LinearOrderedField K] (m : libm K) (g : geometry K) (e b : Nat) :
    Option (geometry K) := do
  let ed ← g.edges[e]?
  let g := { g with edges := g.edges.set e { ed with bodyPans := ed.bodyPans ++ [b] } }
  checkTE m g e

/-- The function `edge::addWakePan` (edge.cpp lines 41-45) on the edge `e`. -/
def addWakePan {K : Type} [LinearOrderedField K] (m : libm K) (g : geometry K) (e w : Nat) :
    Option (geometry K) := do
  let ed ← g.edges[e]?
  let g := { g with edges := g.edges.set e { ed with wakePans := ed.wakePans ++ [w] } }
  checkTE m g e

/-- The function `edge::isTE` (edge.cpp line 111) on the edge `e`. -/
def isTE {K : Type} (g : geometry K) (e : Nat) : Option Bool :=
  (g.edges[e]?).map (fun ed => ed.TE)

/-- A call of `addBodyPan` or of `addWakePan` with its argument. -/
inductive edgeCall where
  /-- The call `addBodyPan(b)`. -/
  | addBodyPan (b : Nat)
  /-- The call `addWakePan(w)`. -/
  | addWakePan (w : Nat)

/-- One call on the edge `e`. -/
def applyCall {K : Type} [LinearOrderedField K] (m : libm K) (e : Nat) :
    edgeCall → geometry K → Option (geometry K)
  | edgeCall.addBodyPan b, g => addBodyPan m g e b
  | edgeCall.addWakePan w, g => addWakePan m g e w

/-- The calls of a list, made in order on the edge `e`. -/
def applyCalls {K : Type} [LinearOrderedField K] (m : libm K) (e : Nat) :
    List edgeCall → geometry K → Option (geometry K)
  | [], g => some g
  | c :: cs, g => (applyCall m e c g).bind (applyCalls m e cs)

/-- Condition (a) of the trailing-edge invariant: exactly two body panels and exactly one
wake panel. -/
def edge.twoBodyOneWake (ed : edge) : Bool :=
  ed.bodyPans.length == 2 && ed.wakePans.length == 1

/-- Condition (b) of the trailing-edge invariant: the edge has two body panels, the angle
`acos(n0 . n1)` between their normals exceeds `4.7 * pi / 6`, and they have the same surface
id. -/
def edge.sharpSameSurface {K : Type} [LinearOrderedField K] (m : libm K) (g : geometry K)
    (ed : edge) : Bool :=
  match ed.bodyPans with
  | [b0, b1] =>
    match g.bPanels[b0]?, g.bPanels[b1]? with
    | some body0, some body1 =>
      decide (m.acos (dot body0.normal body1.normal) > 4.7 * m.pi / 6) &&
        decide (body0.ID = body1.ID)
    | _, _ => false
  | _ => false

/-- The pointers of a call point into the vectors of the geometry. -/
def edgeCall.valid {K : Type} (g : geometry K) : edgeCall → Bool
  | edgeCall.addBodyPan b => decide (b < g.bPanels.length)
  | edgeCall.addWakePan w => decide (w < g.wPanels.length)

/-- The condition under which `checkTE` sets the flag: (a) or (b). -/
def edge.teCondition {K : Type} [LinearOrderedField K] (m : libm K) (g : geometry K)
    (ed : edge) : Bool :=
  ed.twoBodyOneWake || ed.sharpSameSurface m g

/-- The edge with the panel of a call appended to its list. -/
def edge.extend (ed : edge) : edgeCall → edge
  | edgeCall.addBodyPan b => { ed with bodyPans := ed.bodyPans ++ [b] }
  | edgeCall.addWakePan w => { ed with wakePans := ed.wakePans ++ [w] }

/-- The condition of `checkTE` held after one of the calls of the list, made on the edge
`ed`. -/
def teHistory {K : Type} [LinearOrderedField K] (m : libm K) (g : geometry K) :
    edge → List edgeCall → Bool
  | _, [] => false
  | ed, c :: cs => (ed.extend c).teCondition m g || teHistory m g (ed.extend c) cs

/-- A geometry with two nodes, no edge, two body panels with the same normal and the surface
ids 1 and 2, and two wake panels. -/
def demoGeometry (K : Type) [Field K] : geometry K :=
  { nodes := [{ pnt := ![0, 0, 0], TE := false, edges := [] },
              { pnt := ![0, 1, 0], TE := false, edges := [] }]
    edges := []
    bPanels := [{ center := ![-1, 0, 1], normal := ![0, 0, 1], bezNormal := ![0, 0, 1], area := 1,
                  ID := 1, sourceStrength := 0, doubletStrength := 0, potential := 0,
                  velocity := 0, Cp := 0, TEedge := none },
                { center := ![-1, 0, -1], normal := ![0, 0, 1], bezNormal := ![0, 0, 1], area := 1,
                  ID := 2, sourceStrength := 0, doubletStrength := 0, potential := 0,
                  velocity := 0, Cp := 0, TEedge := none }]
    wPanels := [{ center := ![1, 0, 0], normal := ![0, 0, 1], doubletStrength := 0,
                  prevStrength := 0, potential := 0, upperPan := none, lowerPan := none,
                  vortFil := none, parentWake := none },
                { center := ![1, 0, 0], normal := ![0, 0, 1], doubletStrength := 0,
                  prevStrength := 0, potential := 0, upperPan := none, lowerPan := none,
                  vortFil := none, parentWake := none }] }

/-- Two body panels and then two wake panels are added to an edge. -/
def demoCalls : List edgeCall :=
  [edgeCall.addBodyPan 0, edgeCall.addBodyPan 1, edgeCall.addWakePan 0, edgeCall.addWakePan 1]

/-! ## cpCase: the driver `run` -/

/-- One insertion into `std::cout`. -/
inductive coutItem (K : Type) where
  /-- A string. -/
  | str (s : String)
  /-- An `int` or a `size_t`. -/
  | int (n : Nat)
  /-- A `double`. -/
  | dbl (x : K)
  /-- The manipulator `std::endl`. -/
  | endl
  /-- The manipulator `std::flush`. -/
  | flush
  /-- The manipulator `std::setw(n)`. -/
  | setw (n : Nat)
  /-- The manipulator `std::left`. -/
  | left

/-- A call that `cpCase::run` makes; the two solves carry the flag they return. -/
inductive call where
  /-- The call `setSourceStrengths()`. -/
  | setSourceStrengths
  /-- The call `solveMatrixEq()` and its result. -/
  | solveMatrixEq (converged : Bool)
  /-- The call `solveVPmatrixEq()` and its result. -/
  | solveVPmatrixEq (converged : Bool)
  /-- The call `compVelocity()`. -/
  | compVelocity
  /-- The call `writeFiles()`. -/
  | writeFiles
  /-- The call `collapseWakeForEachEdge()`. -/
  | collapseWakeForEachEdge
  /-- The rebuild of the octree and `FMM.build` (cpCase.cpp lines 54-61). -/
  | rebuildOctree
  /-- The call `convectParticles()`. -/
  | convectParticles
  /-- The call `trefftzPlaneAnalysis()`. -/
  | trefftzPlaneAnalysis
  /-- The call `createStreamlines()`. -/
  | createStreamlines
  /-- The call `stabilityDerivatives()`. -/
  | stabilityDerivatives

/-- The member functions of `cpCase` that `run` calls and that are parameters of `run`
here. -/
structure runOps (K : Type) where
  /-- The function `cpCase::writeFiles`. -/
  writeFiles : cpCase K → Option (cpCase K)
  /-- The function `cpCase::collapseWakeForEachEdge`. -/
  collapseWakeForEachEdge : cpCase K → Option (cpCase K)
  /-- The function `cpCase::convectParticles`. -/
  convectParticles : cpCase K → Option (cpCase K)
  /-- The function `cpCase::trefftzPlaneAnalysis`. -/
  trefftzPlaneAnalysis : cpCase K → Option (cpCase K)
  /-- The function `cpCase::createStreamlines`. -/
  createStreamlines : cpCase K → Option (cpCase K)
  /-- The function `cpCase::stabilityDerivatives`. -/
  stabilityDerivatives : cpCase K → Option (cpCase K)

/-- The state of a call of `run`: the case, what `run` itself has written to `std::cout`, and
the history of the calls `run` has made (a ghost variable). -/
structure runState (K : Type) where
  /-- The case object. -/
  c : cpCase K
  /-- The insertions into `std::cout`, oldest first. -/
  cout : List (coutItem K)
  /-- The calls made, oldest first. -/
  trace : List call

/-- Insertions into `std::cout`. -/
def runState.print {K : Type} (r : runState K) (items : List (coutItem K)) : runState K :=
  { r with cout := r.cout ++ items }

/-- A call of a member function, recorded in the history. -/
def runState.call {K : Type} (r : runState K) (name : call)
    (f : cpCase K → Option (cpCase K)) : Option (runState K) := do
  let c ← f r.c
  some { r with c := c, trace := r.trace ++ [name] }

/-- The statement `timeStep++`. -/
def runState.incTimeStep {K : Type} (r : runState K) : runState K :=
  { r with c := { r.c with timeStep := r.c.timeStep + 1 } }

/-- The string `check` of `run`, a check mark. -/
def check : String := "✓"

/-- The warning of `run`. -/
def warning : String := "*** Warning : Solution did not converge ***"

/-- The rebuild of the octree (cpCase.cpp lines 54-61): the tree is emptied and filled with
the particles, their accumulators `velOn` are cleared, and `FMM` is built on the tree. -/
def rebuildOctree {K : Type} [Field K] (s : cpCase K) : cpCase K :=
  let s := { s with particles := s.particles.map (fun (p : particle K) => { p with velOn := 0 }) }
  { s with FMM := s.particles }

/-- One iteration of the loop over the time steps in `run` (cpCase.cpp lines 41-81); the
first component is the local variable `converged`. -/
def runStep {K : Type} [LinearOrderedField K] (ext : externals K) (ops : runOps K)
    (st : Bool × runState K) : Option (Bool × runState K) := do
  let r := st.2
  let r := r.print [coutItem.str "Time step ", coutItem.int r.c.timeStep, coutItem.str "/",
    coutItem.dbl (r.c.numSteps : K), coutItem.str ". Flow time = ",
    coutItem.dbl ((r.c.timeStep : K) * r.c.dt), coutItem.endl]
  let r ← r.call call.collapseWakeForEachEdge ops.collapseWakeForEachEdge
  let r ← (if r.c.accelerate then r.call call.rebuildOctree (fun s => some (rebuildOctree s))
    else some r)
  let r := r.print [coutItem.str "Setting source strengths...", coutItem.endl]
  let r ← r.call call.setSourceStrengths (setSourceStrengths ext)
  let r := r.print [coutItem.str "Solving singularity strengths...", coutItem.endl]
  let res ← solveVPmatrixEq ext r.c
  let converged := res.1
  let r := { r with c := res.2, trace := r.trace ++ [call.solveVPmatrixEq converged] }
  let r := r.print [coutItem.str "writing files", coutItem.endl]
  let r ← r.call call.writeFiles ops.writeFiles
  let r := r.incTimeStep
  let r := r.print [coutItem.str "Convecting ", coutItem.int r.c.particles.length,
    coutItem.str " particles", coutItem.endl]
  let r ← r.call call.convectParticles ops.convectParticles
  some (converged, r)

/-- The block of `run` that a vortex-particle case executes (cpCase.cpp lines 30-91); the
first component is the local variable `converged`. -/
def runUnsteady {K : Type} [LinearOrderedField K] (ext : externals K) (ops : runOps K)
    (st : Bool × runState K) : Option (Bool × runState K) := do
  let converged := st.1
  let r := st.2
  let r := r.print [coutItem.str "Writing timestep ", coutItem.int r.c.timeStep,
    coutItem.str " files...", coutItem.endl]
  let r ← r.call call.compVelocity (compVelocity ext)
  let r ← r.call call.writeFiles ops.writeFiles
  let r := r.incTimeStep
  let st ← forLoop (fun _ st => runStep ext ops st) r.c.numSteps (converged, r)
  let r := st.2
  let r := r.print [coutItem.str "CL=["]
  let r := r.print (r.c.CL.flatMap (fun cl => [coutItem.dbl cl, coutItem.str ", "]))
  let r := r.print [coutItem.str "];", coutItem.endl]
  some (st.1, r)

/-- The insertion of `check` or of `X`, left-aligned in a field of the given width, that
`run` makes when `printFlag` is set. -/
def runState.mark {K : Type} (r : runState K) (printFlag : Bool) (width : Nat) (text : String)
    (last : coutItem K) : runState K :=
  if printFlag then r.print [coutItem.setw width, coutItem.left, coutItem.str text, last] else r

/-- The function `cpCase::run` (cpCase.cpp lines 19-157). -/
def run {K : Type} [LinearOrderedField K] (ext : externals K) (ops : runOps K)
    (printFlag surfStreamFlag stabDerivFlag vortPartFlag : Bool) (s : cpCase K) :
    Option (runState K) := do
  let r : runState K := { c := s, cout := [], trace := [] }
  let r ← r.call call.setSourceStrengths (setSourceStrengths ext)
  let res ← solveMatrixEq ext r.c
  let converged := res.1
  let r := { r with c := res.2, trace := r.trace ++ [call.solveMatrixEq converged] }
  let r := r.print [coutItem.str "starting wake", coutItem.endl]
  let st ← (if vortPartFlag then runUnsteady ext ops (converged, r) else some (converged, r))
  let converged := st.1
  let r := st.2
  let r := r.mark printFlag 17 check coutItem.flush
  let r ← r.call call.compVelocity (compVelocity ext)
  let r := r.mark printFlag 17 check coutItem.flush
  let r ← r.call call.trefftzPlaneAnalysis ops.trefftzPlaneAnalysis
  let r := r.mark printFlag 18 check coutItem.flush
  let r ← (if surfStreamFlag then
      (r.call call.createStreamlines ops.createStreamlines).map
        (fun r => r.mark printFlag 16 check coutItem.flush)
    else some (r.mark printFlag 16 "X" coutItem.flush))
  let r ← (if stabDerivFlag then
      (r.call call.stabilityDerivatives ops.stabilityDerivatives).map
        (fun r => r.mark printFlag 23 check coutItem.endl)
    else some (r.mark printFlag 23 "X" coutItem.endl))
  let r := if !converged && printFlag then r.print [coutItem.str warning, coutItem.endl] else r
  let r ← (if printFlag then
      (if !vortPartFlag then r.call call.writeFiles ops.writeFiles else some r)
    else some r)
  some r

/-- The flag that a call returned, for the two solves. -/
def call.solveFlag : call → Option Bool
  | call.solveMatrixEq b => some b
  | call.solveVPmatrixEq b => some b
  | _ => none

/-- The flag returned by the most recent solve of a history. -/
def lastSolve (t : List call) : Option Bool :=
  t.foldl (fun acc c => match c.solveFlag with
    | some b => some b
    | none => acc) none

/-- The case is ready for a solve: the matrix `A` has one row per body panel and every wake
panel has valid parents. -/
def wellFormed {K : Type} (s : cpCase K) : Prop :=
  s.A.length = s.bPanels.length ∧ ∀ w ∈ s.wPanels, w.hasParents s.bPanels.length = true

/-- A member function returns and keeps the case ready for a solve. -/
def keepsWellFormed {K : Type} (f : cpCase K → Option (cpCase K)) : Prop :=
  ∀ s, wellFormed s → ∃ s2, f s = some s2 ∧ wellFormed s2

/-- The invariant of `run`: the case is ready for a solve, the warning has not been
written, and the local variable `converged` is the flag of the last solve. -/
def runGood {K : Type} (st : Bool × runState K) : Prop :=
  wellFormed st.2.c ∧ coutItem.str warning ∉ st.2.cout ∧ lastSolve st.2.trace = some st.1

/-- The member functions that are parameters of `run` return and keep the case ready for a
solve. -/
def runOps.keep {K : Type} (ops : runOps K) : Prop :=
  keepsWellFormed ops.writeFiles ∧ keepsWellFormed ops.collapseWakeForEachEdge ∧
  keepsWellFormed ops.convectParticles ∧ keepsWellFormed ops.trefftzPlaneAnalysis ∧
  keepsWellFormed ops.createStreamlines ∧ keepsWellFormed ops.stabilityDerivatives

/-- Member functions for the examples: `collapseWakeForEachEdge` appends one filament and the
others change nothing. -/
def demoOps : runOps ℚ :=
  { writeFiles := fun s => some s
    collapseWakeForEachEdge := fun s => some { s with
      filaments := s.filaments ++ [{ p1 := ![2, 0, 0], p2 := ![2, 1, 0], strength := 1,
                                     parentPan := 0 }] }
    convectParticles := fun s => some s
    trefftzPlaneAnalysis := fun s => some s
    createStreamlines := fun s => some s
    stabilityDerivatives := fun s => some s }

/-- The external routines of the examples with a filament velocity of `(-2, 0, 0)`. -/
def demoExtBack : externals ℚ :=
  { demoExt with filVelInfl := fun _ _ => ![-2, 0, 0] }

/-- A case with one body panel facing the freestream, no wake panel and one time step. -/
def tinyCase : cpCase ℚ :=
  { A := [[1]], B := [[1]]
    bPanels := [demoBody ![0, 0, 0] ![1, 0, 0] 0]
    wPanels := []
    Sref := 1, bref := 1, cref := 1, cg := 0, Vmag := 1, PG := 1
    timeStep := 0, numSteps := 1, dt := 1, startingWake := true, accelerate := false
    rungeKuttaStep := false
    CL := [], Vinf := ![1, 0, 0], transform := 1
    particles := [], filaments := [], FMM := [], sigmas := []
    Fbody := 0, Fwind := 0, CM := 0 }

/-- A body panel above the plane `z = 0`, for the examples. -/
def teBodyUpper (K : Type) [Field K] : bodyPanel K :=
  { center := ![-1, 0, 1], normal := ![0, 0, 1], bezNormal := ![0, 0, 1], area := 1, ID := 1,
    sourceStrength := 0, doubletStrength := 0, potential := 0, velocity := 0, Cp := 0,
    TEedge := none }

/-- A body panel below the plane `z = 0`, for the examples. -/
def teBodyLower (K : Type) [Field K] : bodyPanel K :=
  { center := ![-1, 0, -1], normal := ![0, 0, -1], bezNormal := ![0, 0, -1], area := 1, ID := 1,
    sourceStrength := 0, doubletStrength := 0, potential := 0, velocity := 0, Cp := 0,
    TEedge := none }

/-- Member functions of `panel`, `wakePanel`, `bodyPanel`, `cpNode` and `particle` that the
wake routines of `cpCase.cpp` call and whose bodies are in other translation units.  Each is
a parameter of the embedding; wake panels and nodes are named by their pointers. -/
structure wakeExternals (K : Type) where
  /-- The function `panel::edgesInOrder()` of a wake panel: pointers to its edges. -/
  edgesInOrder : Nat → List Nat
  /-- The function `panel::pointsInOrder()` of a wake panel: pointers to its nodes. -/
  pointsInOrder : Nat → List Nat
  /-- The function `wakePanel::getPartRadius(Vinf, dt)`. -/
  getPartRadius : Nat → Vector3d K → K → K
  /-- The function `cpNode::firstProjNode(dt, Vmag)`. -/
  firstProjNode : Nat → K → K → Vector3d K
  /-- The function `cpNode::secProjNode(dt, Vmag)`. -/
  secProjNode : Nat → K → K → Vector3d K
  /-- The function `bodyPanel::panelV(POI)`. -/
  bodyPanelV : bodyPanel K → Vector3d K → Vector3d K
  /-- The function `wakePanel::panelV(POI)`. -/
  wakePanelV : wakePanel K → Vector3d K → Vector3d K
  /-- The value of the member `velOn` of a particle that has just been constructed (the
  constructor of particle.cpp does not name it). -/
  velOn : Vector3d K

/-- How a routine that may call `std::exit` ends. -/
inductive exits (α : Type) where
  /-- The routine returned. -/
  | returned (a : α)
  /-- The routine called `std::exit(0)`. -/
  | exited

/-- The function `cpNode::getPnt()` through a pointer to a node. -/
def getPnt {K : Type} (g : geometry K) (n : Nat) : Option (Vector3d K) :=
  (g.nodes[n]?).map (fun (nd : cpNode K) => nd.pnt)

/-- The function `cpCase::edgeIsUsed` (cpCase.cpp lines 727-735). -/
def edgeIsUsed (thisEdge : Nat) : List Nat → Bool
  | [] => false
  | e :: pEdges => if thisEdge = e then true else edgeIsUsed thisEdge pEdges

/-- The function `edge::getOtherWakePan` (edge.cpp lines 135-146): the first wake panel of the
edge that is not `currentPan`, and `nullptr` (here `none`) when there is none. -/
def edge.getOtherWakePan (ed : edge) (currentPan : Nat) : Option Nat :=
  ed.wakePans.find? (fun w => decide (w ≠ currentPan))

/-- The function `cpCase::edgeStrength` (cpCase.cpp lines 737-784); `none` is a read through
an invalid pointer or past the end of a vector. -/
def edgeStrength {K : Type} [Field K] (wx : wakeExternals K) (g : geometry K) (s : cpCase K)
    (pan curEdge edgeNum : Nat) : Option (Vector3d K) := do
  let p ← s.wPanels[pan]?
  let pts := wx.pointsInOrder pan
  if edgeNum = 2 then
    let nj ← pts[2]?
    let Rj ← getPnt g nj
    let ni ← pts[3]?
    let Ri ← getPnt g ni
    if s.startingWake then
      some ((p.doubletStrength - p.prevStrength) • (Ri - Rj))
    else
      some 0
  else if edgeNum = 1 then
    let ed ← g.edges[curEdge]?
    let otherPan := ed.getOtherWakePan pan
    let nj ← pts[1]?
    let Rj ← getPnt g nj
    let ni ← pts[2]?
    let Ri ← getPnt g ni
    match otherPan with
    | some q => do
      let other ← s.wPanels[q]?
      some ((p.doubletStrength - other.doubletStrength) • (Ri - Rj))
    | none => some (p.doubletStrength • (Ri - Rj))
  else
    let ed ← g.edges[curEdge]?
    let otherPan := ed.getOtherWakePan pan
    let nj ← pts[3]?
    let Rj ← getPnt g nj
    let ni ← pts[0]?
    let Ri ← getPnt g ni
    match otherPan with
    | some q => do
      let other ← s.wPanels[q]?
      some ((p.doubletStrength - other.doubletStrength) • (Ri - Rj))
    | none => some (p.doubletStrength • (Ri - Rj))

/-- The function `cpCase::seedPos` (cpCase.cpp lines 786-806); `none` is a read past the end
of the vector of nodes, and `exits.exited` the branch that prints the error and calls
`std::exit(0)`. -/
def seedPos {K : Type} [Field K] (m : libm K) (wx : wakeExternals K) (s : cpCase K)
    (pan edgeNum : Nat) : Option (exits (Vector3d K)) :=
  let nodes := wx.pointsInOrder pan
  if edgeNum = 0 then do
    let n0 ← nodes[0]?
    let n1 ← nodes[1]?
    some (exits.returned (vdiv (wx.firstProjNode n0 s.dt (norm3 m s.Vinf) +
      wx.firstProjNode n1 s.dt (norm3 m s.Vinf)) 2))
  else if edgeNum = 1 then do
    let n1 ← nodes[1]?
    some (exits.returned (vdiv (wx.firstProjNode n1 s.dt (norm3 m s.Vinf) +
      wx.secProjNode n1 s.dt (norm3 m s.Vinf)) 2))
  else if edgeNum = 2 then do
    let n0 ← nodes[0]?
    let n1 ← nodes[1]?
    some (exits.returned (vdiv (wx.secProjNode n0 s.dt (norm3 m s.Vinf) +
      wx.secProjNode n1 s.dt (norm3 m s.Vinf)) 2))
  else if edgeNum = 3 then do
    let n0 ← nodes[0]?
    some (exits.returned (vdiv (wx.firstProjNode n0 s.dt (norm3 m s.Vinf) +
      wx.secProjNode n0 s.dt (norm3 m s.Vinf)) 2))
  else
    some exits.exited

/-- One pass of the body of the inner loop of `cpCase::collapseWakeForEachEdge` (cpCase.cpp
lines 685-694) for wake panel `i` and edge number `j`.  The state is the local vector
`usedEdges` and the case; once the process has exited nothing more is executed. -/
def collapseEdge {K : Type} [Field K] (m : libm K) (wx : wakeExternals K) (g : geometry K)
    (i j : Nat) (st : exits (List Nat × cpCase K)) : Option (exits (List Nat × cpCase K)) :=
  match st with
  | exits.exited => some exits.exited
  | exits.returned (usedEdges, s) => do
    let pEdges := wx.edgesInOrder i
    let e ← pEdges[j]?
    if !edgeIsUsed e usedEdges then
      let usedEdges := usedEdges ++ [e]
      let pos ← seedPos m wx s i j
      match pos with
      | exits.exited => some exits.exited
      | exits.returned pos => do
        let strength ← edgeStrength wx g s i e j
        let radius := wx.getPartRadius i s.Vinf s.dt
        let p : particle K :=
          { pos := pos, strength := strength, radius := radius, previousVelInfl := 0,
            previousStrengthUpdate := 0, velOn := wx.velOn }
        some (exits.returned (usedEdges, { s with particles := s.particles ++ [p] }))
    else
      some (exits.returned (usedEdges, s))

/-- The first loop nest of `cpCase::collapseWakeForEachEdge` (cpCase.cpp lines 681-695): for
every wake panel, the edge numbers `j = 1, 2, 3` in turn. -/
def collapseParticles {K : Type} [Field K] (m : libm K) (wx : wakeExternals K) (g : geometry K)
    (s : cpCase K) : Option (exits (List Nat × cpCase K)) :=
  forLoop (fun i st => forLoop (fun k st => collapseEdge m wx g i (k + 1) st) 3 st)
    s.wPanels.length (exits.returned ([], s))

/-- The statement `filaments[i]->setStrength(-(*wPanels)[i]->getMu())`. -/
def resetFilament {K : Type} [Field K] (i : Nat) (s : cpCase K) : Option (cpCase K) := do
  let fil ← s.filaments[i]?
  let w ← s.wPanels[i]?
  some { s with filaments := s.filaments.set i { fil with strength := -w.doubletStrength } }

/-- The body of the loop that creates the filaments (cpCase.cpp lines 699-711): the new
filament is pushed onto `filaments` and its pointer stored in the wake panel. -/
def createFilament {K : Type} [Field K] (wx : wakeExternals K) (g : geometry K) (i : Nat)
    (s : cpCase K) : Option (cpCase K) := do
  let w ← s.wPanels[i]?
  let n2 ← (wx.pointsInOrder i)[2]?
  let p1 ← getPnt g n2
  let n3 ← (wx.pointsInOrder i)[3]?
  let p2 ← getPnt g n3
  let fil : vortexFil K :=
    if s.startingWake then { p1 := p1, p2 := p2, strength := -w.doubletStrength, parentPan := i }
    else { p1 := p1, p2 := p2, strength := 0, parentPan := i }
  some { s with
    filaments := s.filaments ++ [fil]
    wPanels := s.wPanels.set i { w with vortFil := some s.filaments.length } }

/-- The second part of `cpCase::collapseWakeForEachEdge` (cpCase.cpp lines 697-723). -/
def collapseFilaments {K : Type} [Field K] (wx : wakeExternals K) (g : geometry K)
    (s : cpCase K) : Option (cpCase K) :=
  if s.timeStep = 1 then
    forLoop (createFilament wx g) s.wPanels.length s
  else
    if s.startingWake then
      forLoop resetFilament s.wPanels.length s
    else
      forLoop resetFilament s.wPanels.length s

/-- The function `cpCase::collapseWakeForEachEdge` (cpCase.cpp lines 678-725). -/
def collapseWakeForEachEdge {K : Type} [Field K] (m : libm K) (wx : wakeExternals K)
    (g : geometry K) (s : cpCase K) : Option (exits (cpCase K)) := do
  let st ← collapseParticles m wx g s
  match st with
  | exits.exited => some exits.exited
  | exits.returned (_, s) => do
    let s ← collapseFilaments wx g s
    some (exits.returned s)

/-- The member `isZero()` of `Eigen::Vector3d` with its default precision for `double`:
every coefficient is at most `1e-12` in absolute value. -/
def isZero {K : Type} [LinearOrderedField K] (v : Vector3d K) : Bool :=
  decide (|v 0| ≤ 1e-12 ∧ |v 1| ≤ 1e-12 ∧ |v 2| ≤ 1e-12)

/-- The function `cpCase::velocityInflFromEverything` (cpCase.cpp lines 808-841). -/
def velocityInflFromEverything {K : Type} [Field K] (ext : externals K) (wx : wakeExternals K)
    (s : cpCase K) (POI : Vector3d K) : Vector3d K :=
  let velOnPart := s.Vinf
  let velOnPart := s.bPanels.foldl (fun acc p => acc + wx.bodyPanelV p POI) velOnPart
  let velOnPart := s.wPanels.foldl (fun acc w => acc + wx.wakePanelV w POI) velOnPart
  let velOnPart :=
    if s.accelerate then velOnPart + ext.barnesHut s.FMM POI
    else s.particles.foldl (fun acc p => acc + ext.partVelInfl p POI) velOnPart
  let velOnPart := s.filaments.foldl (fun acc f => acc + ext.filVelInfl f POI) velOnPart
  velOnPart

/-- The body of the first loop of `cpCase::convectParticles` (cpCase.cpp lines 850-880); the
state is the local vector `newPartPositions` and the case. -/
def convectStep {K : Type} [LinearOrderedField K] (ext : externals K) (wx : wakeExternals K)
    (i : Nat) (st : List (Vector3d K) × cpCase K) : Option (List (Vector3d K) × cpCase K) := do
  let newPartPositions := st.1
  let s := st.2
  let p ← s.particles[i]?
  if s.rungeKuttaStep then
    let POI := p.pos
    let k1 := velocityInflFromEverything ext wx s POI
    let k2 := velocityInflFromEverything ext wx s (POI + vdiv (s.dt • k1) 2)
    let k3 := velocityInflFromEverything ext wx s (POI + vdiv (s.dt • k2) 2)
    let k4 := velocityInflFromEverything ext wx s (POI + s.dt • k3)
    some (newPartPositions ++ [POI + s.dt • (vdiv k1 6 + vdiv k2 3 + vdiv k3 3 + vdiv k4 6)], s)
  else
    let velOnPart := velocityInflFromEverything ext wx s p.pos
    let newPos :=
      if isZero p.previousVelInfl then p.pos + s.dt • velOnPart
      else p.pos + s.dt • ((1.5 : K) • velOnPart - (0.5 : K) • p.previousVelInfl)
    let p := { p with previousVelInfl := velOnPart }
    some (newPartPositions ++ [newPos], { s with particles := s.particles.set i p })

/-- The body of the second loop of `cpCase::convectParticles` (cpCase.cpp lines 882-885). -/
def convectSetPos {K : Type} (newPartPositions : List (Vector3d K)) (i : Nat) (s : cpCase K) :
    Option (cpCase K) := do
  let p ← s.particles[i]?
  let pos ← newPartPositions[i]?
  some { s with particles := s.particles.set i { p with pos := pos } }

/-- The function `cpCase::convectParticles` (cpCase.cpp lines 843-886). -/
def convectParticles {K : Type} [LinearOrderedField K] (ext : externals K)
    (wx : wakeExternals K) (s : cpCase K) : Option (cpCase K) := do
  let st ← forLoop (convectStep ext wx) s.particles.length ([], s)
  forLoop (convectSetPos st.1) st.2.particles.length st.2

/-- Example data: two quadrilateral wake panels side by side.  The nodes 0, 1, 2 lie on the
trailing edge and the nodes 3, 4, 5 one unit downstream; node `n` is the point
`(n / 3, n % 3, 0)`.  Panel 0 has the nodes 0, 1, 4, 3 and the edges 0, 1, 2, 3; panel 1 has
the nodes 1, 2, 5, 4 and the edges 4, 5, 6, 1, so that edge 1 is shared. -/
def wakeDemoExt (K : Type) [Field K] : wakeExternals K :=
  { edgesInOrder := fun i => if i = 0 then [0, 1, 2, 3] else [4, 5, 6, 1]
    pointsInOrder := fun i => if i = 0 then [0, 1, 4, 3] else [1, 2, 5, 4]
    getPartRadius := fun _ _ dt => dt
    firstProjNode := fun n dt V => ![((n / 3 : Nat) : K) + dt * V, ((n % 3 : Nat) : K), 0]
    secProjNode := fun n dt V => ![((n / 3 : Nat) : K) + 2 * (dt * V), ((n % 3 : Nat) : K), 0]
    bodyPanelV := fun _ _ => 0
    wakePanelV := fun w _ => ![w.doubletStrength, 0, 0]
    velOn := 0 }

/-- The nodes and edges of the two example wake panels. -/
def wakeDemoGeometry (K : Type) [Field K] : geometry K :=
  { nodes := [{ pnt := ![0, 0, 0], TE := true, edges := [0, 3] },
              { pnt := ![0, 1, 0], TE := true, edges := [0, 1, 4] },
              { pnt := ![0, 2, 0], TE := true, edges := [4, 5] },
              { pnt := ![1, 0, 0], TE := false, edges := [2, 3] },
              { pnt := ![1, 1, 0], TE := false, edges := [1, 2, 6] },
              { pnt := ![1, 2, 0], TE := false, edges := [5, 6] }]
    edges := [{ n1 := 0, n2 := 1, bodyPans := [], wakePans := [0], TE := true },
              { n1 := 1, n2 := 4, bodyPans := [], wakePans := [0, 1], TE := false },
              { n1 := 4, n2 := 3, bodyPans := [], wakePans := [0], TE := false },
              { n1 := 3, n2 := 0, bodyPans := [], wakePans := [0], TE := false },
              { n1 := 1, n2 := 2, bodyPans := [], wakePans := [1], TE := true },
              { n1 := 2, n2 := 5, bodyPans := [], wakePans := [1], TE := false },
              { n1 := 5, n2 := 4, bodyPans := [], wakePans := [1], TE := false }]
    bPanels := []
    wPanels := [] }

/-- An example wake panel with the given doublet strengths. -/
def wakeDemoPanel (K : Type) [Field K] (mu previous : K) : wakePanel K :=
  { center := 0, normal := ![0, 0, 1], doubletStrength := mu, prevStrength := previous,
    potential := 0, upperPan := none, lowerPan := none, vortFil := none, parentWake := none }

/-- An example case at the given time step: the two example wake panels with doublet
strengths 3 and 5 (previously 1 and 1), no body panel, and the given particles and
filaments. -/
def wakeDemoCase (K : Type) [Field K] (timeStep : Nat) (particles : List (particle K))
    (filaments : List (vortexFil K)) : cpCase K :=
  { A := [], B := []
    bPanels := []
    wPanels := [wakeDemoPanel K 3 1, wakeDemoPanel K 5 1]
    Sref := 1, bref := 1, cref := 1, cg := 0, Vmag := 1, PG := 1
    timeStep := timeStep, numSteps := 2, dt := 1, startingWake := true, accelerate := false
    rungeKuttaStep := false
    CL := [], Vinf := ![1, 0, 0], transform := 1
    particles := particles, filaments := filaments, FMM := [], sigmas := []
    Fbody := 0, Fwind := 0, CM := 0 }

/-- A math library for the examples over the rationals; its square root is exact at 0 and
at 1, the only arguments the examples give it. -/
def demoLibm : libm ℚ :=
  { cos := fun _ => 1, sin := fun _ => 0, acos := fun _ => 0, pi := 3, sqrt := fun x => x }

/-- The particle that the collapse constructs for edge number `j` of wake panel `i`
(cpCase.cpp lines 687-691). -/
def seedParticle {K : Type} [Field K] (m : libm K) (wx : wakeExternals K) (g : geometry K)
    (s : cpCase K) (i j : Nat) : Option (particle K) := do
  let e ← (wx.edgesInOrder i)[j]?
  let pos ← seedPos m wx s i j
  match pos with
  | exits.exited => none
  | exits.returned pos => do
    let strength ← edgeStrength wx g s i e j
    some { pos := pos, strength := strength, radius := wx.getPartRadius i s.Vinf s.dt,
           previousVelInfl := 0, previousStrengthUpdate := 0, velOn := wx.velOn }

/-- The edge at position `c.2` of `edgesInOrder()` of wake panel `c.1`. -/
def edgeAt {K : Type} (wx : wakeExternals K) (c : Nat × Nat) : Option Nat :=
  (wx.edgesInOrder c.1)[c.2]?

/-- The pointers of the wake are valid: every wake panel has four edges and four nodes that
exist, and the wake panels of its edges exist. -/
def wakeReady {K : Type} (wx : wakeExternals K) (g : geometry K) (s : cpCase K) : Prop :=
  ∀ i, i < s.wPanels.length → ∀ j, j < 4 →
    (∃ e ed, (wx.edgesInOrder i)[j]? = some e ∧ g.edges[e]? = some ed ∧
      ∀ w ∈ ed.wakePans, w < s.wPanels.length) ∧
    (∃ n nd, (wx.pointsInOrder i)[j]? = some n ∧ g.nodes[n]? = some nd)

/-- Position `c` of the wake is visited no later than edge number `k` of wake panel `i`. -/
def passedBy (i k : Nat) (c : Nat × Nat) : Prop :=
  c.1 < i ∨ (c.1 = i ∧ c.2 ≤ k)

/-- The invariant of the first loop nest of the collapse, after edge number `k` of wake panel
`i`: the process has not exited, the particles appended so far are the seed particles of the
positions `emitted`, whose edges are the used edges, all different, and every position visited
so far has its edge among them, at a position visited no later. -/
def collapseInv {K : Type} [Field K] (m : libm K) (wx : wakeExternals K) (g : geometry K)
    (s : cpCase K) (i k : Nat) (st : exits (List Nat × cpCase K)) : Prop :=
  ∃ (emitted : List (Nat × Nat)) (news : List (particle K)) (used : List Nat),
    st = exits.returned (used, { s with particles := s.particles ++ news }) ∧
    emitted.map (edgeAt wx) = used.map some ∧
    emitted.map (fun c => seedParticle m wx g s c.1 c.2) = news.map some ∧
    (∀ c ∈ emitted, c.1 < s.wPanels.length ∧ 1 ≤ c.2 ∧ c.2 ≤ 3 ∧ passedBy i k c) ∧
    used.Nodup ∧
    (∀ c : Nat × Nat, c.1 < s.wPanels.length → 1 ≤ c.2 → c.2 ≤ 3 → passedBy i k c →
      ∃ c' ∈ emitted, edgeAt wx c' = edgeAt wx c ∧ passedBy c.1 c.2 c')

/-- The position that `convectParticles` computes for a particle (cpCase.cpp lines 854-875),
with every velocity evaluated on the case `s`. -/
def newPosition {K : Type} [LinearOrderedField K] (ext : externals K) (wx : wakeExternals K)
    (s : cpCase K) (p : particle K) : Vector3d K :=
  if s.rungeKuttaStep then
    let POI := p.pos
    let k1 := velocityInflFromEverything ext wx s POI
    let k2 := velocityInflFromEverything ext wx s (POI + vdiv (s.dt • k1) 2)
    let k3 := velocityInflFromEverything ext wx s (POI + vdiv (s.dt • k2) 2)
    let k4 := velocityInflFromEverything ext wx s (POI + s.dt • k3)
    POI + s.dt • (vdiv k1 6 + vdiv k2 3 + vdiv k3 3 + vdiv k4 6)
  else
    let velOnPart := velocityInflFromEverything ext wx s p.pos
    if isZero p.previousVelInfl then p.pos + s.dt • velOnPart
    else p.pos + s.dt • ((1.5 : K) • velOnPart - (0.5 : K) • p.previousVelInfl)

/-- The previous velocity that a particle holds after `convectParticles` (cpCase.cpp line
877), with the velocity evaluated on the case `s`. -/
def newPrevVelInfl {K : Type} [LinearOrderedField K] (ext : externals K) (wx : wakeExternals K)
    (s : cpCase K) (p : particle K) : Vector3d K :=
  if s.rungeKuttaStep then p.previousVelInfl
  else velocityInflFromEverything ext wx s p.pos

/-- The velocity that a particle induces does not depend on the previous velocity the
particle stores. -/
def ignoresPrevVelInfl {K : Type} (ext : externals K) : Prop :=
  ∀ (p : particle K) (v POI : Vector3d K),
    ext.partVelInfl { p with previousVelInfl := v } POI = ext.partVelInfl p POI

/-- External routines for the examples of the convection: particles and filaments induce no
velocity. -/
def stillExt : externals ℚ :=
  { demoExt with
    partVelInfl := fun _ _ => 0
    filVelInfl := fun _ _ => 0
    barnesHut := fun _ _ => 0 }

/-- A particle at the origin as the collapse creates it: its previous velocity is zero. -/
def freshParticle : particle ℚ :=
  { pos := 0, strength := 0, radius := 1, previousVelInfl := 0, previousStrengthUpdate := 0,
    velOn := 0 }

/-- An example case for the convection: the freestream `(1, 0, 0)`, time step size 1, the
Adams-Bashforth integrator, and one wake panel of doublet strength `mu`, which induces the
velocity `(mu, 0, 0)` everywhere (`wakeDemoExt`). -/
def driftCase (mu : ℚ) (particles : List (particle ℚ)) : cpCase ℚ :=
  { wakeDemoCase ℚ 1 particles [] with wPanels := [wakeDemoPanel ℚ mu 0] }

/-- The calls of one time step of a vortex-particle run, in the order of cpCase.cpp lines
41-81: the collapse of the wake, the rebuild of the octree when `accelerate` is set, the
source strengths, the solve, the output files and the convection. -/
def stepCalls (t : List call) : Prop :=
  ∃ conv : Bool,
    t = [call.collapseWakeForEachEdge, call.setSourceStrengths, call.solveVPmatrixEq conv,
      call.writeFiles, call.convectParticles] ∨
    t = [call.collapseWakeForEachEdge, call.rebuildOctree, call.setSourceStrengths,
      call.solveVPmatrixEq conv, call.writeFiles, call.convectParticles]

/-- The history `CL` and the number of time steps are the same in two cases. -/
def sameSeries {K : Type} (s s2 : cpCase K) : Prop :=
  s2.CL = s.CL ∧ s2.numSteps = s.numSteps

/-- A member function leaves the history `CL` and the number of time steps as they are. -/
def keepsSeries {K : Type} (f : cpCase K → Option (cpCase K)) : Prop :=
  ∀ s s2, f s = some s2 → sameSeries s s2

/-- The member functions that are parameters of `run` leave the history `CL` and the number
of time steps as they are. -/
def runOps.keepSeries {K : Type} (ops : runOps K) : Prop :=
  keepsSeries ops.writeFiles ∧ keepsSeries ops.collapseWakeForEachEdge ∧
  keepsSeries ops.convectParticles ∧ keepsSeries ops.trefftzPlaneAnalysis ∧
  keepsSeries ops.createStreamlines ∧ keepsSeries ops.stabilityDerivatives

/-- The one-panel example with two time steps. -/
def twoStepCase : cpCase ℚ :=
  { tinyCase with numSteps := 2 }

/-! ## particle.cpp: the interaction kernels -/

/-- The member `cross` of `Eigen::Vector3d`. -/
def cross {K : Type} [Field K] (a b : Vector3d K) : Vector3d K :=
  ![a 1 * b 2 - a 2 * b 1, a 2 * b 0 - a 0 * b 2, a 0 * b 1 - a 1 * b 0]

/-- What particle.cpp takes from `<math.h>` beyond `libm`, and the constant `coreOverlap` of
particle.h.  The function `pow` stands for the calls with an exponent that is not an integer;
a call `pow(x, n)` with an integer `n` is the power `x ^ n`. -/
structure kernelMath (K : Type) where
  /-- The function `pow`. -/
  pow : K → K → K
  /-- The function `exp`. -/
  exp : K → K
  /-- The function `erf`. -/
  erf : K → K
  /-- The constant `coreOverlap`. -/
  coreOverlap : K

/-- The function `particle::velInflAlgSmooth` (particle.cpp lines 31-38). -/
def particle.velInflAlgSmooth {K : Type} [LinearOrderedField K] (m : libm K)
    (km : kernelMath K) (this : particle K) (POI : Vector3d K) : Option (Vector3d K) := do
  let sigma := km.coreOverlap * this.radius
  let dist := POI - this.pos
  let c ← cdiv (-1) (4 * m.pi)
  let q ← cdiv (c * ((norm3 m dist) ^ 2 + 2.5 * sigma ^ 2))
    (km.pow ((norm3 m dist) ^ 2 + sigma ^ 2) 2.5)
  some (q • cross dist this.strength)

/-- The symmetrised core size of two particles with the radii `r1` and `r2`, the expression
`std::sqrt(pow(coreOverlap*r1,2) + pow(coreOverlap*r2,2))/std::sqrt(2)` of particle.cpp lines
50, 90 and 131. -/
def sigmaPair {K : Type} [LinearOrderedField K] (m : libm K) (km : kernelMath K) (r1 r2 : K) :
    Option K :=
  cdiv (m.sqrt ((km.coreOverlap * r1) ^ 2 + (km.coreOverlap * r2) ^ 2)) (m.sqrt 2)

/-- The factor `-1/pow(sigma,3)*K` of the two functions `velInfl`, with `K` as in particle.cpp
lines 56 and 72. -/
def velKernel {K : Type} [LinearOrderedField K] (m : libm K) (km : kernelMath K)
    (sigma rho : K) : Option K := do
  let a ← cdiv 1 (4 * m.pi * rho)
  let e ← cdiv rho (km.pow 2 0.5)
  let b ← cdiv 1 (km.pow (2 * m.pi) 1.5)
  let kern ← cdiv (a * km.erf e - b * km.exp (-0.5 * rho * rho)) (rho * rho)
  let c ← cdiv (-1) (sigma ^ 3)
  some (c * kern)

/-- The function `particle::velInfl(particle* part)` (particle.cpp lines 42-58); `thisPtr` and
`partPtr` are the addresses of the two particles, `this` and `part` what they point to. -/
def particle.velInfl {K : Type} [LinearOrderedField K] (m : libm K) (km : kernelMath K)
    (thisPtr partPtr : Nat) (this part : particle K) : Option (Vector3d K) :=
  if thisPtr = partPtr then some 0
  else if thisPtr = partPtr then some 0
  else do
    let sigma ← sigmaPair m km this.radius part.radius
    let dist := part.pos - this.pos
    let rho ← cdiv (norm3 m dist) sigma
    let f ← velKernel m km sigma rho
    some (f • cross dist this.strength)

/-- The function `particle::velInfl(const Eigen::Vector3d& POI)` (particle.cpp lines
60-77). -/
def particle.velInflPOI {K : Type} [LinearOrderedField K] (m : libm K) (km : kernelMath K)
    (this : particle K) (POI : Vector3d K) : Option (Vector3d K) :=
  if norm3 m (this.pos - POI) = 0 then some 0
  else do
    let sigma := km.coreOverlap * this.radius
    let dist := POI - this.pos
    let rho ← cdiv (norm3 m dist) sigma
    let f ← velKernel m km sigma rho
    some (f • cross dist this.strength)

/-- The values of `xi`, `K` and `F` of `particle::vortexStretching` (particle.cpp lines 92-98),
in this order. -/
def stretchingCoeffs {K : Type} [LinearOrderedField K] (m : libm K) (km : kernelMath K)
    (rho : K) : Option (K × K × K) := do
  let x ← cdiv 1 (km.pow (2 * m.pi) 1.5)
  let xi := x * km.exp (-rho * rho / 2)
  let g ← cdiv 1 (4 * m.pi * rho)
  let e ← cdiv rho (m.sqrt 2)
  let G := g * km.erf e
  let kern ← cdiv (G - xi) (rho * rho)
  let F ← cdiv (3 * kern - xi) (rho * rho)
  some (xi, kern, F)

/-- The matrix `inflMat` of `particle::vortexStretching` (particle.cpp lines 100-110), from
the values of `K`, `1/(sigij*sigij)`, `-1/(sigij*sigij)` and `F`. -/
def inflMat {K : Type} [Field K] (kern s1 s2 F : K) (Xi Xj : Vector3d K) : Matrix3d K :=
  Matrix.of (fun k l =>
    if k = l then kern - s1 * F * (Xi k - Xj k) * (Xi l - Xj l)
    else s2 * F * (Xi k - Xj k) * (Xi l - Xj l))

/-- The cross-product matrix `alphaTilda` of `particle::vortexStretching` (particle.cpp lines
112-114). -/
def alphaTilda {K : Type} [Field K] (a : Vector3d K) : Matrix3d K :=
  Matrix.of ![![0, -a 2, a 1], ![a 2, 0, -a 0], ![-a 1, a 0, 0]]

/-- The product `velGradient * this->strength` of `particle::vortexStretching` (particle.cpp
lines 116-117), from the value of `1/pow(sigij,3)`. -/
def velGradientTimes {K : Type} [Field K] (s3 : K) (tilda infl : Matrix3d K)
    (strength : Vector3d K) : Vector3d K :=
  (s3 • (tilda * infl)).mulVec strength

/-- The part of `particle::vortexStretching` after the cutoff (particle.cpp lines 90-117). -/
def particle.stretchingKernel {K : Type} [LinearOrderedField K] (m : libm K)
    (km : kernelMath K) (this part : particle K) : Option (Vector3d K) := do
  let Xi := this.pos
  let Xj := part.pos
  let sigij ← sigmaPair m km this.radius part.radius
  let rho ← cdiv (norm3 m (Xi - Xj)) sigij
  let coeffs ← stretchingCoeffs m km rho
  let s1 ← cdiv 1 (sigij * sigij)
  let s2 ← cdiv (-1) (sigij * sigij)
  let s3 ← cdiv 1 (sigij ^ 3)
  some (velGradientTimes s3 (alphaTilda part.strength)
    (inflMat coeffs.2.1 s1 s2 coeffs.2.2 Xi Xj) this.strength)

/-- The function `particle::vortexStretching` (particle.cpp lines 80-118). -/
def particle.vortexStretching {K : Type} [LinearOrderedField K] (m : libm K)
    (km : kernelMath K) (this part : particle K) : Option (Vector3d K) :=
  if norm3 m (this.pos - part.pos) > 5 * this.radius then some 0
  else this.stretchingKernel m km part

/-- The function `particle::viscousDiffusion` (particle.cpp lines 121-140). -/
def particle.viscousDiffusion {K : Type} [LinearOrderedField K] (m : libm K)
    (km : kernelMath K) (this part : particle K) : Option (Vector3d K) := do
  let nu : K := 1.983e-5
  let Xi := this.pos
  let Xj := part.pos
  let sigij ← sigmaPair m km this.radius part.radius
  let rho ← cdiv (norm3 m (Xi - Xj)) sigij
  let Vi := 4 * m.pi / 3 * this.radius ^ 3
  let Vj := 4 * m.pi / 3 * part.radius ^ 3
  let x ← cdiv 1 (km.pow (2 * m.pi) 1.5 * rho ^ 3)
  let xi := x * km.exp (-rho * rho / 2)
  let c ← cdiv (2 * nu) (sigij * sigij)
  some ((c * xi) • (Vi • part.strength - Vj • this.strength))

/-- A particle for the examples of the kernels: at `(x, 0, 0)`, with the strength `(0, 0, 1)`
and the radius `r`. -/
def kernelParticle (K : Type) [Field K] (x r : K) : particle K :=
  { pos := ![x, 0, 0], strength := ![0, 0, 1], radius := r, previousVelInfl := 0,
    previousStrengthUpdate := 0, velOn := 0 }

/-! ## wake.cpp: the wake of one trailing edge -/

/-- What `wake.cpp` reads of a `wakeLine`. -/
structure wakeLine (K : Type) where
  /-- Spanwise station, `getY()`. -/
  Y : K
  /-- Circulation, `getStrength()`. -/
  strength : K
  /-- First end, `getP1()`. -/
  p1 : Vector3d K
  /-- Second end, `getP2()`. -/
  p2 : Vector3d K

/-- The members of `wake` that `addPanel`, `isSameWake`, `mergeWake`, `addWakeLine` and
`trefftzPlane` read or write.  The wake panels are pointers; the wake lines, which the wake
owns, are stored by value. -/
structure wake (K : Type) where
  /-- Pointers to the wake panels, `wpanels`. -/
  wpanels : List Nat
  /-- The wake lines, `wakeLines`. -/
  wakeLines : List (wakeLine K)
  /-- Smallest x of the wake. -/
  x0 : K
  /-- Largest x of the wake. -/
  xf : K
  /-- Smallest y of the wake. -/
  yMin : K
  /-- Largest y of the wake. -/
  yMax : K
  /-- Smallest z of the wake. -/
  z0 : K
  /-- Largest z of the wake. -/
  zf : K
  /-- Normal of the first panel. -/
  normal : Vector3d K
  /-- Spanwise stations of the Trefftz-plane survey, `yLoc`. -/
  yLoc : VectorXd K
  /-- Sectional lift coefficients, `Cl`. -/
  Cl : VectorXd K
  /-- Sectional drag coefficients, `Cd`. -/
  Cd : VectorXd K
  /-- Lift coefficient of the wake. -/
  CL : K
  /-- Induced-drag coefficient of the wake. -/
  CD : K

/-- Library routines and member functions of other translation units that `wake.cpp` calls.
Panels are named by their pointers. -/
structure wakeParams (K : Type) where
  /-- The function `panel::getNodes()` of a wake panel: pointers to its nodes. -/
  getNodes : Nat → List Nat
  /-- The function `wakePanel::isTEpanel()`. -/
  isTEpanel : Nat → Bool
  /-- The function `panel::getEdges()` of a body panel: pointers to its edges. -/
  getEdges : Nat → List Nat
  /-- The function `asin`. -/
  asin : K → K
  /-- The function `geometry::wakePotential`. -/
  wakePotential : Vector3d K → K
  /-- Row 0 of `getF()` of the least-squares object `chtlsnd(xx0, dX, 3, Xb, Vb, V0)` that is
  built from the column `dX`. -/
  chtlsndRow : List K → List K
  /-- The call of `std::sort` with the comparison `w1->getY() < w2->getY()`. -/
  sortLines : List (wakeLine K) → List (wakeLine K)

/-- One axis of the bounding-box update of `wake::addPanel` (wake.cpp lines 62-69, 70-77 and
78-85): the pair `(lower, upper)` after a coordinate `c` has been seen. -/
def growBounds {K : Type} [LinearOrderedField K] (c : K) (b : K × K) : K × K :=
  if c > b.2 then (b.1, c)
  else if c < b.1 then (c, b.2)
  else b

/-- The first branch of `wake::addPanel` (wake.cpp lines 46-57): the first panel of a wake
sets the six bounds and the normal. -/
def addPanelInit {K : Type} (wp : wakeParams K) (g : geometry K) (w : wake K) (wPan : Nat) :
    Option (wake K) :=
  if w.wpanels.length = 0 then do
    let n ← (wp.getNodes wPan)[0]?
    let pnt ← getPnt g n
    let p ← g.wPanels[wPan]?
    some { w with yMax := pnt 1, yMin := pnt 1, x0 := pnt 0, xf := pnt 0, z0 := pnt 2,
                  zf := pnt 2, normal := p.normal }
  else some w

/-- The body of the loop of `wake::addPanel` (wake.cpp lines 61-85) for the node `i`. -/
def addPanelNode {K : Type} [LinearOrderedField K] (g : geometry K) (nodes : List Nat)
    (i : Nat) (w : wake K) : Option (wake K) := do
  let n ← nodes[i]?
  let pnt ← getPnt g n
  let y := growBounds (pnt 1) (w.yMin, w.yMax)
  let x := growBounds (pnt 0) (w.x0, w.xf)
  let z := growBounds (pnt 2) (w.z0, w.zf)
  some { w with yMin := y.1, yMax := y.2, x0 := x.1, xf := x.2, z0 := z.1, zf := z.2 }

/-- The function `wake::addPanel` (wake.cpp lines 42-88). -/
def wake.addPanel {K : Type} [LinearOrderedField K] (wp : wakeParams K) (g : geometry K)
    (w : wake K) (wPan : Nat) : Option (wake K) := do
  let nodes := wp.getNodes wPan
  let w ← addPanelInit wp g w wPan
  let w ← forLoop (addPanelNode g nodes) nodes.length w
  some { w with wpanels := w.wpanels ++ [wPan] }

/-- The function `wake::isSameWake` (wake.cpp lines 90-104); `thisPtr` and `otherPtr` are the
addresses of the two wakes. -/
def wake.isSameWake {K : Type} [LinearOrderedField K] (thisPtr otherPtr : Nat)
    (w other : wake K) : Bool :=
  if otherPtr = thisPtr then false
  else
    let eps : K := (10 : K) ^ (-2 : ℤ)
    if |other.x0 - w.x0| < eps ∧ |other.z0 - w.z0| < eps ∧ |other.xf - w.xf| < eps ∧
        |other.zf - w.zf| < eps then true
    else false

/-- The function `wake::addWakeLine` (wake.cpp lines 140-144). -/
def wake.addWakeLine {K : Type} (wp : wakeParams K) (w : wake K) (wl : wakeLine K) : wake K :=
  { w with wakeLines := wp.sortLines (w.wakeLines ++ [wl]) }

/-- The body of the first loop of `wake::mergeWake` (wake.cpp lines 112-114): the panel joins
the wake and records it as its parent. -/
def mergePanel {K : Type} (thisPtr : Nat) (pans : List Nat) (i : Nat)
    (st : wake K × List (wakePanel K)) : Option (wake K × List (wakePanel K)) := do
  let w ← pans[i]?
  let p ← st.2[w]?
  some ({ st.1 with wpanels := st.1.wpanels ++ [w] },
        st.2.set w { p with parentWake := some thisPtr })

/-- The body of the second loop of `wake::mergeWake` (wake.cpp lines 121-122): a copy of the
line is added. -/
def mergeLine {K : Type} (wp : wakeParams K) (otherLines : List (wakeLine K)) (i : Nat)
    (w : wake K) : Option (wake K) := do
  let wLine ← otherLines[i]?
  some (w.addWakeLine wp wLine)

/-- The function `wake::mergeWake` (wake.cpp lines 106-133) for another wake `other`;
`thisPtr` is the address of this wake and `wPanels` the vector that owns the wake panels. -/
def wake.mergeWake {K : Type} [LinearOrderedField K] (wp : wakeParams K) (thisPtr : Nat)
    (w other : wake K) (wPanels : List (wakePanel K)) :
    Option (wake K × List (wakePanel K)) := do
  let pans := other.wpanels
  let st ← forLoop (mergePanel thisPtr pans) pans.length (w, wPanels)
  let otherLines := other.wakeLines
  let w ← forLoop (mergeLine wp otherLines) otherLines.length st.1
  let w := if other.yMin < w.yMin then { w with yMin := other.yMin } else w
  let w := if other.yMax > w.yMax then { w with yMax := other.yMax } else w
  some (w, st.2)

/-- The body of the loop of `wake::wakeStrength` (wake.cpp lines 496-500) for the index `i`:
the pair `(wl1, wl2)` of pointers, null (`none`) until a bracket is found. -/
def bracketLine {K : Type} [LinearOrderedField K] (lines : List (wakeLine K)) (y : K)
    (i : Nat) (st : Option (wakeLine K × wakeLine K)) :
    Option (Option (wakeLine K × wakeLine K)) := do
  let a ← lines[i]?
  let b ← lines[i + 1]?
  if a.Y ≤ y ∧ b.Y > y then some (some (a, b)) else some st

/-- The choice of `wl1` and `wl2` in `wake::wakeStrength` (wake.cpp lines 480-502).  The outer
`none` is a read past the end of `wakeLines`; the inner one is the pair of null pointers. -/
def bracketLines {K : Type} [LinearOrderedField K] (w : wake K) (y : K) :
    Option (Option (wakeLine K × wakeLine K)) := do
  let l1 ← w.wakeLines[1]?
  if y < l1.Y then do
    let l0 ← w.wakeLines[0]?
    some (some (l0, l1))
  else do
    let last ← w.wakeLines[w.wakeLines.length - 1]?
    if y ≥ last.Y then do
      let last2 ← w.wakeLines[w.wakeLines.length - 2]?
      some (some (last2, last))
    else
      let n := w.wakeLines.length - 1 - 1
      forLoop (fun k st => bracketLine w.wakeLines y (k + 1) st) n none

/-- The function `wake::wakeStrength` (wake.cpp lines 478-506). -/
def wake.wakeStrength {K : Type} [LinearOrderedField K] (w : wake K) (y : K) : Option K := do
  let found ← bracketLines w y
  let wl ← found
  let interp ← cdiv (y - wl.1.Y) (wl.2.Y - wl.1.Y)
  some (wl.1.strength + interp * (wl.2.strength - wl.1.strength))

/-- A loop that returns from its function at the first element for which the body returns a
value: the outer `none` is a failure, `some none` the end of the loop without a return. -/
def firstReturn {α β : Type} (body : α → Option (Option β)) : List α → Option (Option β)
  | [] => some none
  | a :: as =>
    match body a with
    | none => none
    | some (some b) => some (some b)
    | some none => firstReturn body as

/-- The body of the inner loop of `wake::pntInWake` (wake.cpp lines 617-635) for the edge `e`
of the upper parent of a wake panel with the normal `normal`. -/
def pntInWakeEdge {K : Type} [LinearOrderedField K] (g : geometry K) (normal : Vector3d K)
    (x y : K) (e : Nat) : Option (Option (Vector3d K)) := do
  let ed ← g.edges[e]?
  if ed.TE then
    let p1 ← getPnt g ed.n1
    let p2 ← getPnt g ed.n2
    if (p1 1 ≤ y ∧ p2 1 ≥ y) ∨ (p1 1 ≥ y ∧ p2 1 ≤ y) then
      let t ← cdiv (y - p1 1) (p2 1 - p1 1)
      let tvec := p2 - p1
      let pnt := p1 + t • tvec
      let out := -(cross normal ![0, 1, 0])
      let out := if out 0 < 0 then (-1 : K) • out else out
      let scale ← cdiv (x - pnt 0) (out 0)
      some (some (pnt + scale • out))
    else some none
  else some none

/-- The body of the outer loop of `wake::pntInWake` (wake.cpp lines 612-637) for the wake
panel `i`. -/
def pntInWakePanel {K : Type} [LinearOrderedField K] (wp : wakeParams K) (g : geometry K)
    (x y : K) (i : Nat) : Option (Option (Vector3d K)) :=
  if wp.isTEpanel i then do
    let p ← g.wPanels[i]?
    let upper ← p.upperPan
    let _ ← g.bPanels[upper]?
    firstReturn (pntInWakeEdge g p.normal x y) (wp.getEdges upper)
  else some none

/-- The function `wake::pntInWake` (wake.cpp lines 601-640). -/
def wake.pntInWake {K : Type} [LinearOrderedField K] (wp : wakeParams K) (g : geometry K)
    (w : wake K) (x y : K) : Option (Vector3d K) :=
  (firstReturn (pntInWakePanel wp g x y) w.wpanels).map (fun r => r.getD 0)

/-- The values of `r`, `delZ` and `theta` of `wake::Vradial` after wake.cpp lines 511-529. -/
def radialOffset {K : Type} [LinearOrderedField K] (m : libm K) (wp : wakeParams K)
    (w : wake K) (pWake : Vector3d K) : Option (K × K × K) := do
  let theta := m.pi / 4
  let dZmax : K := 0.3
  let r := if pWake 1 ≥ 0 then w.yMax - pWake 1 else pWake 1 - w.yMin
  let delZ := r * m.sin theta
  if delZ > dZmax then do
    let q ← cdiv dZmax r
    some (r, dZmax, wp.asin q)
  else some (r, delZ, theta)

/-- The point `POI` of `wake::Vradial` (wake.cpp lines 515 and 530-539). -/
def radialPOI {K : Type} [LinearOrderedField K] (m : libm K) (w : wake K)
    (pWake : Vector3d K) (r theta : K) : Vector3d K :=
  ![pWake 0,
    if pWake 1 ≥ 0 then w.yMax - r * m.cos theta else w.yMin + r * m.cos theta,
    pWake 2 + r * m.sin theta]

/-- The body of the loop of `wake::Vradial` (wake.cpp lines 564-584); the state is
`(dPhiy, dPhiz, dY, dZ)`. -/
def radialSample {K : Type} [Field K] (wp : wakeParams K) (POI : Vector3d K)
    (dz step phiPOI : K) (i : Nat) (st : List K × List K × List K × List K) :
    Option (List K × List K × List K × List K) :=
  let delta := -dz + (i : K) * step
  let pnt1 := POI + delta • ![0, 1, 0]
  let pnt2 := POI + delta • ![0, 0, 1]
  let phiPnt1 := wp.wakePotential pnt1
  let phiPnt2 := wp.wakePotential pnt2
  if i < st.1.length ∧ i < st.2.1.length ∧ i < st.2.2.1.length ∧ i < st.2.2.2.length then
    some (st.1.set i (phiPnt1 - phiPOI), st.2.1.set i (phiPnt2 - phiPOI),
          st.2.2.1.set i (pnt1 1 - POI 1), st.2.2.2.set i (pnt2 2 - POI 2))
  else none

/-- The function `wake::Vradial` (wake.cpp lines 508-597).  The four arrays are created
without values and every entry is written by the loop; they start here filled with zeros. -/
def wake.Vradial {K : Type} [LinearOrderedField K] (m : libm K) (wp : wakeParams K)
    (w : wake K) (pWake : Vector3d K) : Option K := do
  let off ← radialOffset m wp w pWake
  let POI := radialPOI m w pWake off.1 off.2.2
  let nPnts : Nat := if 6 % 2 ≠ 0 then 6 + 1 else 6
  let dz := 0.5 * off.2.1
  let step := 2 * dz / (((nPnts : Int) - 1 : Int) : K)
  let phiPOI := wp.wakePotential POI
  let zeros : List K := List.replicate nPnts 0
  let st ← forLoop (radialSample wp POI dz step phiPOI) nPnts (zeros, zeros, zeros, zeros)
  let v := rowDot (wp.chtlsndRow st.2.2.1) st.1
  let w := rowDot (wp.chtlsndRow st.2.2.2) st.2.1
  some (m.sqrt (v ^ 2 + w ^ 2))

/-- The body of the first loop of `wake::trefftzPlane` (wake.cpp lines 169-175) for the
index `i`; the state is the pair of the local vectors `(w, dPhi)` and the wake. -/
def trefftzProbe {K : Type} [LinearOrderedField K] (m : libm K) (wp : wakeParams K)
    (g : geometry K) (Vinf Sref step xTrefftz : K) (i : Nat)
    (st : (List K × List K) × wake K) : Option ((List K × List K) × wake K) := do
  let wk := st.2
  let y := wk.yMin + (i : K) * step
  let wk := { wk with yLoc := wk.yLoc.set i y }
  let pWake ← wk.pntInWake wp g xTrefftz y
  let wi ← wk.Vradial m wp pWake
  let s ← wk.wakeStrength y
  let dPhii := -s
  let cl ← cdiv (2 * dPhii) (Vinf * Sref)
  let cd ← cdiv (dPhii * wi) (Vinf * Vinf * Sref)
  if i < wk.yLoc.length ∧ i < wk.Cl.length ∧ i < wk.Cd.length then
    some ((st.1.1.set i wi, st.1.2.set i dPhii),
          { wk with Cl := wk.Cl.set i cl, Cd := wk.Cd.set i cd })
  else none

/-- The body of the second loop of `wake::trefftzPlane` (wake.cpp lines 183-185) for the
index `i`. -/
def simpsonStep {K : Type} [Field K] (step : K) (i : Nat) (w : wake K) : Option (wake K) := do
  let l0 ← w.Cl[i]?
  let l1 ← w.Cl[i + 1]?
  let l2 ← w.Cl[i + 2]?
  let d0 ← w.Cd[i]?
  let d1 ← w.Cd[i + 1]?
  let d2 ← w.Cd[i + 2]?
  some { w with CL := w.CL + 1.0 / 3 * step * (l0 + 4 * l1 + l2),
                CD := w.CD + 1.0 / 3 * step * (d0 + 4 * d1 + d2) }

/-- The state of `wake::trefftzPlane` before its first loop (wake.cpp lines 155-162): `yLoc`
has `nPnts + 1` entries, of which the first and the last are set, and `Cl` and `Cd` are
zero. -/
def trefftzStart {K : Type} [Field K] (w : wake K) (nPnts : Nat) : wake K :=
  { w with yLoc := ((resizeXd w.yLoc (nPnts + 1)).set 0 w.yMin).set nPnts w.yMax,
           Cl := List.replicate (nPnts + 1) 0,
           Cd := List.replicate (nPnts + 1) 0 }

/-- The function `wake::trefftzPlane` (wake.cpp lines 146-188).  The second loop,
`while (i < Cl.rows()-2)` with `i += 2`, runs for `i = 0, 2, 4, ...`, which is
`(Cl.rows() - 1) / 2` times. -/
def wake.trefftzPlane {K : Type} [LinearOrderedField K] (m : libm K) (wp : wakeParams K)
    (g : geometry K) (w : wake K) (Vinf Sref : K) : Option (wake K) := do
  let nPnts : Nat := if 164 % 2 ≠ 0 then 164 + 1 else 164
  let step := (w.yMax - w.yMin) / (nPnts : K)
  let zeros : List K := List.replicate (nPnts + 1) 0
  let xTrefftz := w.x0 + 2 * (w.xf - w.x0) / 3
  let st ← forLoop (fun k st => trefftzProbe m wp g Vinf Sref step xTrefftz (k + 1) st)
    (nPnts - 1) ((zeros, zeros), trefftzStart w nPnts)
  let w := { st.2 with CL := 0, CD := 0 }
  forLoop (fun k w => simpsonStep step (2 * k) w) ((w.Cl.length - 1) / 2) w

/-! ## edge.cpp: the geometric members -/

/-- The function `edge::sameEdge` (edge.cpp lines 113-120). -/
def edge.sameEdge (ed : edge) (node1 node2 : Nat) : Bool :=
  if (node1 = ed.n1 ∧ node2 = ed.n2) ∨ (node1 = ed.n2 ∧ node2 = ed.n1) then true else false

/-- The function `edge::length` (edge.cpp line 164). -/
def edge.length {K : Type} [Field K] (m : libm K) (g : geometry K) (ed : edge) : Option K := do
  let p2 ← getPnt g ed.n2
  let p1 ← getPnt g ed.n1
  some (norm3 m (p2 - p1))

/-- The function `edge::getVector` (edge.cpp lines 174-177). -/
def edge.getVector {K : Type} [Field K] (g : geometry K) (ed : edge) :
    Option (Vector3d K) := do
  let p2 ← getPnt g ed.n2
  let p1 ← getPnt g ed.n1
  some (p2 - p1)

/-- The function `edge::getMidPoint` (edge.cpp lines 179-182). -/
def edge.getMidPoint {K : Type} [Field K] (g : geometry K) (ed : edge) :
    Option (Vector3d K) := do
  let p1 ← getPnt g ed.n1
  let v ← ed.getVector g
  some (p1 + (0.5 : K) • v)

/-- The function `edge::flipDir` (edge.cpp lines 198-205). -/
def edge.flipDir (ed : edge) : edge :=
  let temp := ed.n1
  { ed with n1 := ed.n2, n2 := temp }

/-- The function `edge::distToEdge` (edge.cpp lines 212-218). -/
def edge.distToEdge {K : Type} [LinearOrderedField K] (m : libm K) (g : geometry K)
    (ed : edge) (pnt : Vector3d K) : Option K := do
  let p2 ← getPnt g ed.n2
  let p1 ← getPnt g ed.n1
  let edgeVec := p2 - p1
  let pntVec := pnt - p1
  cdiv (norm3 m (cross pntVec edgeVec)) (norm3 m edgeVec)

/-! ## wake.cpp: sequences of calls and example data -/

/-- A sequence of calls of `wake::addPanel` on one wake, first call first. -/
def wake.addPanels {K : Type} [LinearOrderedField K] (wp : wakeParams K) (g : geometry K) :
    List Nat → wake K → Option (wake K)
  | [], w => some w
  | p :: ps, w => (w.addPanel wp g p).bind (wake.addPanels wp g ps)

/-- The positions of the nodes of the wake panels `pans`. -/
def panelPoints {K : Type} (wp : wakeParams K) (g : geometry K) (pans : List Nat) :
    List (Vector3d K) :=
  pans.flatMap (fun p => (wp.getNodes p).filterMap (getPnt g))

/-- The six bounds of the wake are the tight bounding box of the points `S`: every point is
inside, and each bound is the coordinate of one of the points. -/
def boxOf {K : Type} [LinearOrderedField K] (S : List (Vector3d K)) (w : wake K) : Prop :=
  (∀ q ∈ S, w.x0 ≤ q 0 ∧ q 0 ≤ w.xf ∧ w.yMin ≤ q 1 ∧ q 1 ≤ w.yMax ∧ w.z0 ≤ q 2 ∧ q 2 ≤ w.zf) ∧
  (∃ q ∈ S, q 0 = w.x0) ∧ (∃ q ∈ S, q 0 = w.xf) ∧ (∃ q ∈ S, q 1 = w.yMin) ∧
  (∃ q ∈ S, q 1 = w.yMax) ∧ (∃ q ∈ S, q 2 = w.z0) ∧ (∃ q ∈ S, q 2 = w.zf)

/-- A call that changes the wake lines of a wake. -/
inductive wakeCall (K : Type) where
  /-- The call `addWakeLine(wl)`. -/
  | addWakeLine (wl : wakeLine K)
  /-- The call `mergeWake(other)` with another wake. -/
  | mergeWake (other : wake K)

/-- One call on the wake at the address `thisPtr`; the state is the wake and the vector that
owns the wake panels. -/
def applyWakeCall {K : Type} [LinearOrderedField K] (wp : wakeParams K) (thisPtr : Nat)
    (st : wake K × List (wakePanel K)) : wakeCall K → Option (wake K × List (wakePanel K))
  | wakeCall.addWakeLine wl => some (st.1.addWakeLine wp wl, st.2)
  | wakeCall.mergeWake other => st.1.mergeWake wp thisPtr other st.2

/-- A sequence of calls on the wake at the address `thisPtr`, first call first. -/
def applyWakeCalls {K : Type} [LinearOrderedField K] (wp : wakeParams K) (thisPtr : Nat) :
    List (wakeCall K) → wake K × List (wakePanel K) → Option (wake K × List (wakePanel K))
  | [], st => some st
  | c :: cs, st => (applyWakeCall wp thisPtr st c).bind (applyWakeCalls wp thisPtr cs)

/-- The lines that a call hands to the wake: the line of `addWakeLine`, and the lines of the
other wake of `mergeWake`. -/
def wakeCall.lines {K : Type} : wakeCall K → List (wakeLine K)
  | wakeCall.addWakeLine wl => [wl]
  | wakeCall.mergeWake other => other.wakeLines

/-- The order `w1->getY() <= w2->getY()` of two wake lines. -/
def lineLE {K : Type} [LinearOrderedField K] (a b : wakeLine K) : Prop :=
  a.Y ≤ b.Y

/-- What the C++ standard promises of `std::sort` with the comparison
`w1->getY() < w2->getY()`: the result is a rearrangement of the input in which no line comes
before a line with a smaller station. -/
def sortsLines {K : Type} [LinearOrderedField K] (wp : wakeParams K) : Prop :=
  ∀ l : List (wakeLine K), (wp.sortLines l).Perm l ∧ (wp.sortLines l).Pairwise lineLE

/-- A wake that has just been constructed: no panel, no line. -/
def emptyWake (K : Type) [Field K] : wake K :=
  { wpanels := [], wakeLines := [], x0 := 0, xf := 0, yMin := 0, yMax := 0, z0 := 0, zf := 0,
    normal := 0, yLoc := [], Cl := [], Cd := [], CL := 0, CD := 0 }

/-- A wake line for the examples at the station `y` with the circulation `s`. -/
def demoLine (K : Type) [Field K] (y s : K) : wakeLine K :=
  { Y := y, strength := s, p1 := ![0, y, 0], p2 := ![1, y, 0] }

/-- An insertion sort of wake lines by their stations, for the examples. -/
def insertLine {K : Type} [LinearOrderedField K] (a : wakeLine K) :
    List (wakeLine K) → List (wakeLine K)
  | [] => [a]
  | b :: l => if a.Y ≤ b.Y then a :: b :: l else b :: insertLine a l

/-- Parameters for the examples: the two panels of `wakeDemoGeometry`, of which both are
trailing-edge panels whose upper parent has the edges 0 and 4; the potential of the wake is
zero and the lines are sorted by insertion. -/
def demoWakeParams (K : Type) [LinearOrderedField K] : wakeParams K :=
  { getNodes := fun i => if i = 0 then [0, 1, 4, 3] else [1, 2, 5, 4]
    isTEpanel := fun _ => true
    getEdges := fun _ => [0, 4]
    asin := fun _ => 0
    wakePotential := fun _ => 0
    chtlsndRow := fun _ => []
    sortLines := fun l => l.foldr insertLine [] }

/-- The example geometry with its two wake panels and one body panel, the upper parent of
both. -/
def wakeBoxGeometry (K : Type) [Field K] : geometry K :=
  { wakeDemoGeometry K with
    bPanels := [teBodyUpper K]
    wPanels := [{ wakeDemoPanel K 3 1 with upperPan := some 0 },
                { wakeDemoPanel K 5 1 with upperPan := some 0 }] }

/-- Three calls for the examples: a line at the station 2, a merge with a wake of one panel
and lines at the stations 1 and 3, and a line at the station 0. -/
def demoWakeCalls : List (wakeCall ℚ) :=
  [wakeCall.addWakeLine (demoLine ℚ 2 5),
   wakeCall.mergeWake { emptyWake ℚ with wpanels := [1],
                                          wakeLines := [demoLine ℚ 1 3, demoLine ℚ 3 1] },
   wakeCall.addWakeLine (demoLine ℚ 0 7)]

/-- The composite Simpson sum of the nodal values `f 0, ..., f 164` over 164 intervals of the
width `step`: `(step/3)` times the sum over `k = 0..81` of
`f (2k) + 4 f (2k+1) + f (2k+2)`. -/
def simpsonSum {K : Type} [Field K] (step : K) (f : Nat → K) : K :=
  step / 3 * ∑ k ∈ Finset.range 82, (f (2 * k) + 4 * f (2 * k + 1) + f (2 * k + 2))

/-- Nodal values that are `f i` at the inner nodes `i = 1..163` and zero at the two end
nodes 0 and 164. -/
def innerNodes {K : Type} [Field K] (f : Nat → K) (i : Nat) : K :=
  if 1 ≤ i ∧ i ≤ 163 then f i else 0

/-- A wake of the one panel 0 of `wakeBoxGeometry`, with two wake lines at the stations 0 and
1 that have the strengths `s0` and `s1`. -/
def demoTrefftzWake (K : Type) [Field K] (s0 s1 : K) : wake K :=
  { emptyWake K with wpanels := [0], wakeLines := [demoLine K 0 s0, demoLine K 1 s1],
                     x0 := 0, xf := 1, yMin := 0, yMax := 1 }

/-- The sum over all ordered pairs `(i, j)` of different indices below `n` of the
contributions `d i j`, in the order of the two loops of `particleStrengthUpdateGaussian`
(cpCase.cpp lines 939-946) with their test `i != j`. -/
def pairSum {K : Type} [Field K] (d : Nat → Nat → Vector3d K) (n : Nat) : Vector3d K :=
  ∑ i ∈ Finset.range n, ∑ j ∈ Finset.range n, if i ≠ j then d i j else 0

/-- Stand-ins over the rationals for `pow`, `exp` and `erf`, with `coreOverlap = 1`, for the
examples. -/
def demoKernelMath : kernelMath ℚ :=
  { pow := fun x _ => x, exp := fun _ => 1, erf := fun x => x, coreOverlap := 1 }

/-- Two particles for the examples, one unit apart, with different strengths. -/
def demoPair : List (particle ℚ) :=
  [kernelParticle ℚ 0 1, { kernelParticle ℚ 1 1 with strength := ![1, 0, 0] }]

/-- A wake with three wake lines, at the stations 0, 1 and 3 with the strengths 1, 3 and 2,
for the examples. -/
def demoThreeLines : wake ℚ :=
  { emptyWake ℚ with wakeLines := [demoLine ℚ 0 1, demoLine ℚ 1 3, demoLine ℚ 3 2] }

/-- The wake line number `k` of `demoThreeLines`. -/
def demoThreeLine (k : Nat) : wakeLine ℚ :=
  if k = 0 then demoLine ℚ 0 1 else if k = 1 then demoLine ℚ 1 3 else demoLine ℚ 3 2

/-- The edge `e` lets the inner loop of `wake::pntInWake` go on: it exists, and it is no
trailing edge (the test of wake.cpp line 615 fails) or its two nodes exist and their y
coordinates do not span `y` (the test of line 619 fails). -/
def edgeMisses {K : Type} [LinearOrderedField K] (g : geometry K) (y : K) (e : Nat) : Prop :=
  ∃ ed, g.edges[e]? = some ed ∧
    (ed.TE = false ∨ ∃ p1 p2, getPnt g ed.n1 = some p1 ∧ getPnt g ed.n2 = some p2 ∧
      ¬ ((p1 1 ≤ y ∧ p2 1 ≥ y) ∨ (p1 1 ≥ y ∧ p2 1 ≤ y)))

/-- The wake panel `i` lets the outer loop of `wake::pntInWake` go on: it is no trailing-edge
panel (the test of wake.cpp line 610 fails), or it and its upper parent exist and every edge
of the parent lets the inner loop go on. -/
def panelMisses {K : Type} [LinearOrderedField K] (wp : wakeParams K) (g : geometry K) (y : K)
    (i : Nat) : Prop :=
  wp.isTEpanel i = false ∨ ∃ p u, g.wPanels[i]? = some p ∧ p.upperPan = some u ∧
    (g.bPanels[u]?).isSome = true ∧ ∀ e ∈ wp.getEdges u, edgeMisses g y e

/-- The member `normalized` of `Eigen::Vector3d` (Eigen 3.3 and later): the vector divided by
its norm, and the vector itself when its squared norm is not positive. -/
def normalized {K : Type} [LinearOrderedField K] (m : libm K) (v : Vector3d K) : Vector3d K :=
  let z := dot v v
  if z > 0 then vdiv v (m.sqrt z) else v

/-- The function `edge::TEgamma` (edge.cpp lines 230-238); `getMu()` of a wake panel is its
doublet strength.  The result `none` is a read past the end of `wakePans` or through an
invalid pointer. -/
def edge.TEgamma {K : Type} [LinearOrderedField K] (m : libm K) (g : geometry K) (ed : edge) :
    Option (Vector3d K) :=
  if ed.TE then do
    let w ← ed.wakePans[0]?
    let wp ← g.wPanels[w]?
    let v ← ed.getVector g
    some (wp.doubletStrength • normalized m v)
  else some 0

/-- A geometry with two nodes, no edge, and the two body panels of the examples: their normals
are opposite and both are of the surface 1. -/
def sharpGeometry (K : Type) [Field K] : geometry K :=
  { demoGeometry K with bPanels := [teBodyUpper K, teBodyLower K] }

/-- The positions 1, 2 and 3 of the wake panels `0, ..., n-1`, in the order of the loops of
`cpCase::collapseWakeForEachEdge` (cpCase.cpp lines 681 and 683). -/
def wakePositions (n : Nat) : List (Nat × Nat) :=
  (List.range n).flatMap (fun i => [(i, 1), (i, 2), (i, 3)])

/-- The number of different edges at the positions 1 to 3 of `edgesInOrder()` of the wake
panels `0, ..., n-1`. -/
def distinctWakeEdges {K : Type} (wx : wakeExternals K) (n : Nat) : Nat :=
  ((wakePositions n).filterMap (edgeAt wx)).dedup.length

/-- The counts of a case that a vortex-particle run keeps track of: the number of particles,
the time step, the number of time steps, the number of wake panels and the number of
filaments. -/
def caseCounts {K : Type} (s : cpCase K) : Nat × Nat × Nat × Nat × Nat :=
  (s.particles.length, s.timeStep, s.numSteps, s.wPanels.length, s.filaments.length)

/-- A member function returns on a case that is ready for a solve, keeps it ready and leaves
its counts as they are. -/
def keepsCounts {K : Type} (f : cpCase K → Option (cpCase K)) : Prop :=
  ∀ s, wellFormed s → ∃ s2, f s = some s2 ∧ wellFormed s2 ∧ caseCounts s2 = caseCounts s

/-- The four member functions for output and post-processing among the parameters of `run`
return, keep the case ready for a solve and leave its counts as they are. -/
def runOps.keepCounts {K : Type} (outOps : runOps K) : Prop :=
  keepsCounts outOps.writeFiles ∧ keepsCounts outOps.trefftzPlaneAnalysis ∧
  keepsCounts outOps.createStreamlines ∧ keepsCounts outOps.stabilityDerivatives

/-- The call of `collapseWakeForEachEdge` as `run` makes it: a call of `std::exit` inside it
ends the run, which is no return (`none`). -/
def collapseOrExit {K : Type} [Field K] (m : libm K) (wx : wakeExternals K) (g : geometry K)
    (s : cpCase K) : Option (cpCase K) :=
  match collapseWakeForEachEdge m wx g s with
  | some (exits.returned s2) => some s2
  | _ => none

/-- The member functions that `run` calls in a vortex-particle case: the collapse of the wake
and the convection are the functions of cpCase.cpp, and the four functions for output and
post-processing are those of `outOps`. -/
def vortexOps {K : Type} [LinearOrderedField K] (m : libm K) (ext : externals K)
    (wx : wakeExternals K) (g : geometry K) (outOps : runOps K) : runOps K :=
  { outOps with
    collapseWakeForEachEdge := collapseOrExit m wx g
    convectParticles := convectParticles ext wx }

/-- A fresh example case for a vortex-particle run of two time steps: one body panel, the
parent of the two example wake panels, no particles and no filaments. -/
def vortexDemoCase : cpCase ℚ :=
  { wakeDemoCase ℚ 0 [] [] with
    A := [[1]], B := [[1]]
    bPanels := [demoBody ![0, 0, 0] ![1, 0, 0] 0]
    wPanels := [{ wakeDemoPanel ℚ 3 1 with upperPan := some 0, lowerPan := some 0 },
                { wakeDemoPanel ℚ 5 1 with upperPan := some 0, lowerPan := some 0 }] }

/-- Output and post-processing functions for the examples, which change nothing. -/
def quietOps : runOps ℚ :=
  { writeFiles := fun s => some s
    collapseWakeForEachEdge := fun s => some s
    convectParticles := fun s => some s
    trefftzPlaneAnalysis := fun s => some s
    createStreamlines := fun s => some s
    stabilityDerivatives := fun s => some s }

/-- The calls of one time step of a vortex-particle run (cpCase.cpp lines 41-81) in which the
test `if(accelerate)` of line 49 reads the value `acc` and the solve returns `conv`: the
collapse of the wake, the rebuild of the octree exactly when `acc` is set, the source
strengths, the solve, the output files and the convection. -/
def stepBlock (acc conv : Bool) : List call :=
  [call.collapseWakeForEachEdge] ++ (if acc then [call.rebuildOctree] else []) ++
    [call.setSourceStrengths, call.solveVPmatrixEq conv, call.writeFiles, call.convectParticles]

/-- A member function leaves the flag `accelerate` as it is. -/
def keepsAccelerate {K : Type} (f : cpCase K → Option (cpCase K)) : Prop :=
  ∀ s s2, f s = some s2 → s2.accelerate = s.accelerate

/-- The member functions that are parameters of `run` and that it calls up to the last time
step leave the flag `accelerate` as it is. -/
def runOps.keepAccelerate {K : Type} (ops : runOps K) : Prop :=
  keepsAccelerate ops.writeFiles ∧ keepsAccelerate ops.collapseWakeForEachEdge ∧
  keepsAccelerate ops.convectParticles

/-- A wake of the one wake panel 0 of the example geometry, which spans the strip from
`y = 0` to `y = 1`, with its one wake line, at the middle of the strip. -/
def demoSingleWake (K : Type) [Field K] : wake K :=
  { emptyWake K with wpanels := [0], wakeLines := [demoLine K (1 / 2) 1],
                     x0 := 0, xf := 1, yMin := 0, yMax := 1 }

/-! # Theorems -/

/-! ## Loops -/

theorem forLoop_invariant {σ : Type} (body : Nat → σ → Option σ) (P : Nat → σ → Prop)
    (n : Nat) (s : σ) (h0 : P 0 s)
    (hstep : ∀ k t, k < n → P k t → ∃ t', body k t = some t' ∧ P (k + 1) t') :
    ∃ t, forLoop body n s = some t ∧ P n t := by
  induction n with
  | zero => exact ⟨s, rfl, h0⟩
  | succ m ih =>
    obtain ⟨t, ht, hP⟩ := ih (fun k t hk hP => hstep k t (Nat.lt_succ_of_lt hk) hP)
    obtain ⟨t', ht', hP'⟩ := hstep m t (Nat.lt_succ_self m) hP
    exact ⟨t', by simp [forLoop, ht, ht'], hP'⟩

/-- A loop whose body acts on a component of the state is the loop on that component. -/
theorem forLoop_lift {σ τ : Type} (inj : τ → σ) (body : Nat → σ → Option σ)
    (body' : Nat → τ → Option τ) (h : ∀ i t, body i (inj t) = (body' i t).map inj)
    (n : Nat) (t : τ) : forLoop body n (inj t) = (forLoop body' n t).map inj := by
  induction n with
  | zero => rfl
  | succ m ih =>
    simp only [forLoop, ih]
    cases forLoop body' m t with
    | none => rfl
    | some u => simp [h]

/-- A loop that replaces element `i` of a list by `f i` of it, for every index, maps the
list. -/
theorem forLoop_set {α : Type} (f : Nat → α → Option α) (l r : List α)
    (hlen : r.length = l.length)
    (hf : ∀ j (h : j < l.length) (h' : j < r.length), f j (l.get ⟨j, h⟩) = some (r.get ⟨j, h'⟩)) :
    forLoop (fun i m => (m[i]?).bind (fun a => (f i a).bind (fun b => some (m.set i b))))
      l.length l = some r := by
  obtain ⟨t, ht, hlt, hget⟩ := forLoop_invariant
    (fun i m => (m[i]?).bind (fun a => (f i a).bind (fun b => some (m.set i b))))
    (fun k t => t.length = l.length ∧ ∀ j, t[j]? = if j < k then r[j]? else l[j]?)
    l.length l ⟨rfl, fun j => by simp⟩
    (by
      rintro k t hk ⟨hlt, hget⟩
      have hkt : k < t.length := by omega
      have hkr : k < r.length := by omega
      have hk' := hget k
      simp only [lt_irrefl, if_false] at hk'
      have hpk : t[k] = l[k] := by
        rw [List.getElem?_eq_getElem hkt, List.getElem?_eq_getElem hk] at hk'
        exact Option.some.inj hk'
      have hfk := hf k hk hkr
      simp only [List.get_eq_getElem] at hfk
      refine ⟨t.set k r[k], ?_, ?_, ?_⟩
      · simp [List.getElem?_eq_getElem hkt, hpk, hfk]
      · simp [hlt]
      · intro j
        simp only [List.getElem?_set]
        by_cases hjk : k = j
        · subst hjk
          simp [hkt, hkr, List.getElem?_eq_getElem]
        · simp only [hjk, if_false]
          rw [hget j]
          have : (j < k + 1) = (j < k) := by
            apply propext; omega
          simp only [this])
  rw [ht]
  congr 1
  apply List.ext_getElem?
  intro j
  rw [hget j]
  by_cases hj : j < l.length
  · simp [hj]
  · simp only [hj, if_false]
    have h1 : l[j]? = none := by simp; omega
    have h2 : r[j]? = none := by simp; omega
    rw [h1, h2]

/-- Closed form of the body-panel loop of the two solves. -/
theorem writeBodyMu_eq {K : Type} (ext : externals K) (x : VectorXd K) (s : cpCase K)
    (hx : x.length = s.bPanels.length) :
    writeBodyMu ext x s = some { s with
      bPanels := List.zipWith (fun p d => (p.setMu d).setPotential ext s.Vinf) s.bPanels x } := by
  have hlift := forLoop_lift (fun l => { s with bPanels := l })
    (fun i s => do
      let p ← s.bPanels[i]?
      let d ← x[i]?
      some { s with bPanels := s.bPanels.set i ((p.setMu d).setPotential ext s.Vinf) })
    (fun i m => (m[i]?).bind (fun a =>
      ((x[i]?).map (fun d => (a.setMu d).setPotential ext s.Vinf)).bind (fun b => some (m.set i b))))
    (by
      intro i t
      cases h1 : t[i]? with
      | none => simp [h1]
      | some p =>
        cases h2 : x[i]? with
        | none => simp [h1, h2]
        | some d => simp [h1, h2])
    s.bPanels.length s.bPanels
  have hset := forLoop_set (fun i a => (x[i]?).map (fun d => (a.setMu d).setPotential ext s.Vinf))
    s.bPanels (List.zipWith (fun p d => (p.setMu d).setPotential ext s.Vinf) s.bPanels x)
    (by simp [hx])
    (by
      intro j h h'
      have hjx : j < x.length := by omega
      simp [List.getElem?_eq_getElem hjx])
  unfold writeBodyMu
  exact hlift.trans (by rw [hset]; rfl)

/-- Closed form of a loop that maps the wake panels. -/
theorem wakeLoop_eq {K : Type} (f : cpCase K → wakePanel K → Option (wakePanel K))
    (s : cpCase K) (hf : ∀ l, f { s with wPanels := l } = f s)
    (hsome : ∀ w ∈ s.wPanels, (f s w).isSome) :
    forLoop (fun i s => do
        let w ← s.wPanels[i]?
        let w ← f s w
        some { s with wPanels := s.wPanels.set i w })
      s.wPanels.length s
    = some { s with wPanels := s.wPanels.map (fun w => (f s w).getD w) } := by
  have hlift := forLoop_lift (fun l => { s with wPanels := l })
    (fun i s => do
        let w ← s.wPanels[i]?
        let w ← f s w
        some { s with wPanels := s.wPanels.set i w })
    (fun i m => (m[i]?).bind (fun a => (f s a).bind (fun b => some (m.set i b))))
    (by
      intro i t
      cases h1 : t[i]? with
      | none => simp [h1]
      | some w =>
        cases h2 : f s w with
        | none => simp [h1, h2, hf]
        | some d => simp [h1, h2, hf])
    s.wPanels.length s.wPanels
  have hset := forLoop_set (fun _ a => f s a) s.wPanels (s.wPanels.map (fun w => (f s w).getD w))
    (by simp)
    (by
      intro j h h'
      have hm := hsome (s.wPanels.get ⟨j, h⟩) (List.get_mem _ _ _)
      obtain ⟨b, hb⟩ := Option.isSome_iff_exists.mp hm
      simp only [List.get_eq_getElem] at hb
      simp [hb])
  exact hlift.trans (by rw [hset]; rfl)

/-- What `wakePanel::setMu` returns on a panel with valid parents. -/
theorem wakePanel_setMu_of_hasParents {K : Type} [Field K] (w : wakePanel K)
    (bP : List (bodyPanel K)) (h : w.hasParents bP.length = true) :
    ∃ u l upper lower, w.upperPan = some u ∧ w.lowerPan = some l ∧
      bP[u]? = some upper ∧ bP[l]? = some lower ∧
      w.setMu bP = some { w with doubletStrength := upper.doubletStrength - lower.doubletStrength } := by
  unfold wakePanel.hasParents at h
  cases hu : w.upperPan with
  | none => simp [hu] at h
  | some u =>
    cases hl : w.lowerPan with
    | none => simp [hu, hl] at h
    | some l =>
      simp only [hu, hl, Bool.and_eq_true, decide_eq_true_eq] at h
      refine ⟨u, l, bP[u], bP[l], rfl, rfl, List.getElem?_eq_getElem h.1,
        List.getElem?_eq_getElem h.2, ?_⟩
      simp [wakePanel.setMu, hu, hl, List.getElem?_eq_getElem h.1, List.getElem?_eq_getElem h.2]

/-- The state after the wake loop of `solveMatrixEq` (`prev = false`) or of
`solveVPmatrixEq` (`prev = true`), run on a state whose wake parents are valid. -/
theorem wakeMuLoop_eq {K : Type} [Field K] (ext : externals K) (prev : Bool) (s : cpCase K)
    (hpar : ∀ w ∈ s.wPanels, w.hasParents s.bPanels.length = true) :
    ∃ wl, forLoop (fun i s => do
        let w ← s.wPanels[i]?
        let w := if prev then w.setPrevStrength w.doubletStrength else w
        let w ← w.setMu s.bPanels
        some { s with wPanels := s.wPanels.set i (w.setPotential ext s.Vinf) })
      s.wPanels.length s = some { s with wPanels := wl } ∧
      wl.map (fun w => (w.upperPan, w.lowerPan)) = s.wPanels.map (fun w => (w.upperPan, w.lowerPan)) ∧
      wl.map (fun w => w.prevStrength) =
        s.wPanels.map (fun w => if prev then w.doubletStrength else w.prevStrength) ∧
      kuttaHolds { s with wPanels := wl } := by
  have key : ∀ w ∈ s.wPanels, ∃ u l upper lower, w.upperPan = some u ∧ w.lowerPan = some l ∧
      s.bPanels[u]? = some upper ∧ s.bPanels[l]? = some lower ∧
      (((if prev then w.setPrevStrength w.doubletStrength else w).setMu s.bPanels).map
        (fun v => v.setPotential ext s.Vinf)) =
      some { w with
        doubletStrength := upper.doubletStrength - lower.doubletStrength
        prevStrength := if prev then w.doubletStrength else w.prevStrength
        potential := ext.wakePotential s.Vinf { w with
          doubletStrength := upper.doubletStrength - lower.doubletStrength
          prevStrength := if prev then w.doubletStrength else w.prevStrength } } := by
    intro w hw
    obtain ⟨u, l, upper, lower, hu, hl, hgu, hgl, -⟩ :=
      wakePanel_setMu_of_hasParents w s.bPanels (hpar w hw)
    refine ⟨u, l, upper, lower, hu, hl, hgu, hgl, ?_⟩
    cases prev <;>
      simp [wakePanel.setMu, wakePanel.setPrevStrength, wakePanel.setPotential, hu, hl, hgu, hgl]
  have hloop := wakeLoop_eq
    (fun (s : cpCase K) (w : wakePanel K) =>
      ((if prev then w.setPrevStrength w.doubletStrength else w).setMu s.bPanels).map
        (fun v => wakePanel.setPotential ext v s.Vinf)) s (fun _ => rfl)
    (by
      intro w hw
      obtain ⟨u, l, upper, lower, -, -, -, -, h⟩ := key w hw
      simp only [h, Option.isSome_some])
  refine ⟨s.wPanels.map (fun w =>
    (((if prev then w.setPrevStrength w.doubletStrength else w).setMu s.bPanels).map
        (fun v => wakePanel.setPotential ext v s.Vinf)).getD w), ?_, ?_, ?_, ?_⟩
  · rw [← hloop]
    congr 1
    funext i t
    cases h1 : t.wPanels[i]? with
    | none => simp [h1]
    | some w =>
      cases h2 : (if prev then w.setPrevStrength w.doubletStrength else w).setMu t.bPanels with
      | none => simp [h1, h2]
      | some d => simp [h1, h2]
  · rw [List.map_map]
    apply List.map_congr_left
    intro w hw
    obtain ⟨u, l, upper, lower, hu, hl, -, -, h⟩ := key w hw
    simp only [Function.comp, h, Option.getD_some]
  · rw [List.map_map]
    apply List.map_congr_left
    intro w hw
    obtain ⟨u, l, upper, lower, hu, hl, -, -, h⟩ := key w hw
    simp only [Function.comp, h, Option.getD_some]
  · intro w1 hw1
    simp only [List.mem_map] at hw1
    obtain ⟨w, hw, rfl⟩ := hw1
    obtain ⟨u, l, upper, lower, hu, hl, hgu, hgl, h⟩ := key w hw
    refine ⟨u, l, upper, lower, ?_, ?_, hgu, hgl, ?_⟩ <;> simp only [h, Option.getD_some, hu, hl]

/-- The results of `solveMatrixEq` and of `solveVPmatrixEq` on a state whose wake parents
are valid and for a solver that returns one value per body panel. -/
theorem solve_spec {K : Type} [LinearOrderedField K] (ext : externals K) (s : cpCase K)
    (hx : (solverResult ext s).1.length = s.bPanels.length)
    (hpar : ∀ w ∈ s.wPanels, w.hasParents s.bPanels.length = true) (prev : Bool) :
    ∃ bl wl, (if prev then solveVPmatrixEq ext s else solveMatrixEq ext s) =
        some (!decide ((solverResult ext s).2 > (10 : K) ^ (-10 : ℤ)),
          { s with bPanels := bl, wPanels := wl }) ∧
      bl.map (fun p => p.doubletStrength) = (solverResult ext s).1 ∧
      wl.map (fun w => (w.upperPan, w.lowerPan)) = s.wPanels.map (fun w => (w.upperPan, w.lowerPan)) ∧
      wl.map (fun w => w.prevStrength) =
        s.wPanels.map (fun w => if prev then w.doubletStrength else w.prevStrength) ∧
      kuttaHolds { s with bPanels := bl, wPanels := wl } := by
  have hb := writeBodyMu_eq ext (solverResult ext s).1 s hx
  obtain ⟨bl, hbl⟩ : ∃ bl, bl = List.zipWith
      (fun p d => (bodyPanel.setMu p d).setPotential ext s.Vinf) s.bPanels (solverResult ext s).1 :=
    ⟨_, rfl⟩
  rw [← hbl] at hb
  have hlen : bl.length = s.bPanels.length := by simp [hbl, hx]
  obtain ⟨wl, hw, hpars, hprev, hk⟩ := wakeMuLoop_eq ext prev { s with bPanels := bl }
    (by intro w hw; rw [hlen]; exact hpar w hw)
  refine ⟨bl, wl, ?_, ?_, hpars, hprev, hk⟩
  · cases prev
    · simp only [Bool.false_eq_true, if_false] at hw ⊢
      simp only [solveMatrixEq]
      rw [show ext.bicgstab s.A (RHS s) = solverResult ext s from rfl, hb]
      simp only [Option.bind_eq_bind, Option.some_bind] at hw ⊢
      rw [hw]
      by_cases he : (solverResult ext s).2 > (10 : K) ^ (-10 : ℤ) <;> simp [he]
    · simp only [if_true] at hw ⊢
      simp only [solveVPmatrixEq]
      rw [show ext.bicgstab s.A (RHS s) = solverResult ext s from rfl, hb]
      simp only [Option.bind_eq_bind, Option.some_bind] at hw ⊢
      rw [hw]
      by_cases he : (solverResult ext s).2 > (10 : K) ^ (-10 : ℤ) <;> simp [he]
  · rw [hbl, List.map_zipWith]
    apply List.ext_getElem?
    intro j
    simp only [List.getElem?_zipWith, bodyPanel.setPotential, bodyPanel.setMu]
    cases h1 : s.bPanels[j]? with
    | none =>
      have : (solverResult ext s).1[j]? = none := by
        rw [List.getElem?_eq_none_iff] at h1 ⊢
        omega
      simp [this]
    | some p =>
      cases h2 : (solverResult ext s).1[j]? with
      | none => simp
      | some d => simp

/-- C1. After `solveMatrixEq` and after `solveVPmatrixEq` (which both return, for a solver
that yields one value per body panel and wake panels whose parent pointers are valid), the
body panels carry the solution vector of that solve, the wake panels and their parents are
the same as before, and every wake panel's doublet strength is the doublet strength now
stored in its upper parent minus the one now stored in its lower parent. -/
theorem solve_wake_doublet_is_parent_difference {K : Type} [LinearOrderedField K]
    (ext : externals K) (s : cpCase K)
    (hx : (solverResult ext s).1.length = s.bPanels.length)
    (hpar : ∀ w ∈ s.wPanels, w.hasParents s.bPanels.length = true) :
    ∃ c1 s1 c2 s2, solveMatrixEq ext s = some (c1, s1) ∧ solveVPmatrixEq ext s = some (c2, s2) ∧
      (s1.bPanels.map (fun p => p.doubletStrength) = (solverResult ext s).1 ∧
        s1.wPanels.map (fun w => (w.upperPan, w.lowerPan)) =
          s.wPanels.map (fun w => (w.upperPan, w.lowerPan)) ∧
        kuttaHolds s1) ∧
      (s2.bPanels.map (fun p => p.doubletStrength) = (solverResult ext s).1 ∧
        s2.wPanels.map (fun w => (w.upperPan, w.lowerPan)) =
          s.wPanels.map (fun w => (w.upperPan, w.lowerPan)) ∧
        kuttaHolds s2) := by
  obtain ⟨bl1, wl1, h1, hb1, hp1, -, hk1⟩ := solve_spec ext s hx hpar false
  obtain ⟨bl2, wl2, h2, hb2, hp2, -, hk2⟩ := solve_spec ext s hx hpar true
  exact ⟨_, _, _, _, h1, h2, ⟨hb1, hp1, hk1⟩, ⟨hb2, hp2, hk2⟩⟩

theorem solve_wake_doublet_is_parent_difference_witness :
    ((solverResult demoExt demoCase).1.length = demoCase.bPanels.length ∧
      ∀ w ∈ demoCase.wPanels, w.hasParents demoCase.bPanels.length = true) ∧
    ∃ c1 s1 c2 s2, solveMatrixEq demoExt demoCase = some (c1, s1) ∧
      solveVPmatrixEq demoExt demoCase = some (c2, s2) ∧
      (s1.bPanels.map (fun p => p.doubletStrength) = (solverResult demoExt demoCase).1 ∧
        s1.wPanels.map (fun w => (w.upperPan, w.lowerPan)) =
          demoCase.wPanels.map (fun w => (w.upperPan, w.lowerPan)) ∧
        kuttaHolds s1) ∧
      (s2.bPanels.map (fun p => p.doubletStrength) = (solverResult demoExt demoCase).1 ∧
        s2.wPanels.map (fun w => (w.upperPan, w.lowerPan)) =
          demoCase.wPanels.map (fun w => (w.upperPan, w.lowerPan)) ∧
        kuttaHolds s2) :=
  ⟨⟨by rfl, by decide⟩, solve_wake_doublet_is_parent_difference demoExt demoCase (by rfl) (by decide)⟩

/-- C2. `solveVPmatrixEq` returns (for a solver that yields one value per body panel and
wake panels whose parent pointers are valid), and afterwards the previous strength stored in
every wake panel is the doublet strength that panel had before the call. -/
theorem solveVP_saves_previous_doublet {K : Type} [LinearOrderedField K]
    (ext : externals K) (s : cpCase K)
    (hx : (solverResult ext s).1.length = s.bPanels.length)
    (hpar : ∀ w ∈ s.wPanels, w.hasParents s.bPanels.length = true) :
    ∃ c s2, solveVPmatrixEq ext s = some (c, s2) ∧
      s2.wPanels.map (fun w => w.prevStrength) = s.wPanels.map (fun w => w.doubletStrength) := by
  obtain ⟨bl, wl, h, -, -, hprev, -⟩ := solve_spec ext s hx hpar true
  exact ⟨_, _, h, by simpa using hprev⟩

theorem solveVP_saves_previous_doublet_witness :
    ((solverResult demoExt demoCase).1.length = demoCase.bPanels.length ∧
      ∀ w ∈ demoCase.wPanels, w.hasParents demoCase.bPanels.length = true) ∧
    ∃ c s2, solveVPmatrixEq demoExt demoCase = some (c, s2) ∧
      s2.wPanels.map (fun w => w.prevStrength) =
        demoCase.wPanels.map (fun w => w.doubletStrength) :=
  ⟨⟨by rfl, by decide⟩, solveVP_saves_previous_doublet demoExt demoCase (by rfl) (by decide)⟩

/-- C3. `solveMatrixEq` and `solveVPmatrixEq` call the solver on the matrix `A` and the
right-hand side `-(B * sigmas)`; each returns `false` exactly when the residual the solver
reports is strictly greater than `10^(-10)`, and in either case the body panels afterwards
carry the solution vector the solver returned. -/
theorem solve_converged_iff_residual_small {K : Type} [LinearOrderedField K]
    (ext : externals K) (s : cpCase K)
    (hx : (ext.bicgstab s.A (negXd (mulVecXd s.B s.sigmas))).1.length = s.bPanels.length)
    (hpar : ∀ w ∈ s.wPanels, w.hasParents s.bPanels.length = true) :
    ∃ c1 s1 c2 s2, solveMatrixEq ext s = some (c1, s1) ∧ solveVPmatrixEq ext s = some (c2, s2) ∧
      (c1 = false ↔ (ext.bicgstab s.A (negXd (mulVecXd s.B s.sigmas))).2 > (10 : K) ^ (-10 : ℤ)) ∧
      (c2 = false ↔ (ext.bicgstab s.A (negXd (mulVecXd s.B s.sigmas))).2 > (10 : K) ^ (-10 : ℤ)) ∧
      s1.bPanels.map (fun p => p.doubletStrength) =
        (ext.bicgstab s.A (negXd (mulVecXd s.B s.sigmas))).1 ∧
      s2.bPanels.map (fun p => p.doubletStrength) =
        (ext.bicgstab s.A (negXd (mulVecXd s.B s.sigmas))).1 := by
  obtain ⟨bl1, wl1, h1, hb1, -, -, -⟩ := solve_spec ext s hx hpar false
  obtain ⟨bl2, wl2, h2, hb2, -, -, -⟩ := solve_spec ext s hx hpar true
  refine ⟨_, _, _, _, h1, h2, ?_, ?_, hb1, hb2⟩ <;>
    simp [solverResult, RHS]

theorem solve_converged_iff_residual_small_witness :
    ((demoExt.bicgstab demoCase.A (negXd (mulVecXd demoCase.B demoCase.sigmas))).1.length =
        demoCase.bPanels.length ∧
      ∀ w ∈ demoCase.wPanels, w.hasParents demoCase.bPanels.length = true) ∧
    ∃ c1 s1 c2 s2, solveMatrixEq demoExt demoCase = some (c1, s1) ∧
      solveVPmatrixEq demoExt demoCase = some (c2, s2) ∧
      (c1 = false ↔
        (demoExt.bicgstab demoCase.A (negXd (mulVecXd demoCase.B demoCase.sigmas))).2 >
          (10 : ℚ) ^ (-10 : ℤ)) ∧
      (c2 = false ↔
        (demoExt.bicgstab demoCase.A (negXd (mulVecXd demoCase.B demoCase.sigmas))).2 >
          (10 : ℚ) ^ (-10 : ℤ)) ∧
      s1.bPanels.map (fun p => p.doubletStrength) =
        (demoExt.bicgstab demoCase.A (negXd (mulVecXd demoCase.B demoCase.sigmas))).1 ∧
      s2.bPanels.map (fun p => p.doubletStrength) =
        (demoExt.bicgstab demoCase.A (negXd (mulVecXd demoCase.B demoCase.sigmas))).1 :=
  ⟨⟨by rfl, by decide⟩, solve_converged_iff_residual_small demoExt demoCase (by rfl) (by decide)⟩

/-! ## Source strengths -/

/-- The accumulation loop over a list of vectors is the sum of the list. -/
theorem foldl_add_eq_sum {α : Type} {K : Type} [Field K] (g : α → Vector3d K) (l : List α)
    (a : Vector3d K) : l.foldl (fun acc f => acc + g f) a = a + (l.map g).sum := by
  induction l generalizing a with
  | nil => simp
  | cons f fs ih => simp [ih, add_assoc]

/-- Closed form of `setSourceStrengths`: every body panel receives its source strength and
the vector `sigmas` lists them. -/
theorem setSourceStrengths_eq {K : Type} [Field K] (ext : externals K) (s : cpCase K) :
    setSourceStrengths ext s = some { s with
      bPanels := s.bPanels.map (fun p => p.setSigma (sourceVelocity ext s p.center) 0)
      sigmas := s.bPanels.map (fun p => -(dot p.normal (sourceVelocity ext s p.center)) - 0) } := by
  obtain ⟨sl0, hsl0, hsl0len⟩ : ∃ sl0, sl0 = resizeXd s.sigmas s.bPanels.length ∧
      sl0.length = s.bPanels.length := by
    refine ⟨_, rfl, ?_⟩
    unfold resizeXd
    split <;> simp [*]
  have hsv : ∀ (bl : List (bodyPanel K)) (sl : List K) (c : Vector3d K),
      sourceVelocity ext { s with bPanels := bl, sigmas := sl } c = sourceVelocity ext s c :=
    fun _ _ _ => rfl
  have hinv := forLoop_invariant
    (fun (i : Nat) (s : cpCase K) => do
      let p ← s.bPanels[i]?
      let _discarded := if s.accelerate && decide (s.timeStep > 0)
        then ext.barnesHut s.FMM p.center else 0
      let p := p.setSigma (sourceVelocity ext s p.center) 0
      if i < s.sigmas.length then
        some { s with bPanels := s.bPanels.set i p, sigmas := s.sigmas.set i p.sourceStrength }
      else none)
    (fun (k : Nat) (t : cpCase K) => ∃ bl sl, t = { s with bPanels := bl, sigmas := sl } ∧
      bl.length = s.bPanels.length ∧ sl.length = s.bPanels.length ∧
      (∀ j, bl[j]? = if j < k then
        (s.bPanels.map (fun p => p.setSigma (sourceVelocity ext s p.center) 0))[j]?
        else s.bPanels[j]?) ∧
      (∀ j, j < k → sl[j]? =
        (s.bPanels.map (fun p => -(dot p.normal (sourceVelocity ext s p.center)) - 0))[j]?))
    s.bPanels.length { s with sigmas := sl0 }
    ⟨s.bPanels, sl0, rfl, rfl, hsl0len, fun j => by simp, fun j hj => by omega⟩
    (by
      rintro k t hk ⟨bl, sl, rfl, hbl, hsl, hgb, hgs⟩
      have hkb : k < bl.length := by omega
      have hks : k < sl.length := by omega
      have hk' := hgb k
      simp only [lt_irrefl, if_false] at hk'
      have hpk : bl[k] = s.bPanels[k] := by
        rw [List.getElem?_eq_getElem hkb, List.getElem?_eq_getElem hk] at hk'
        exact Option.some.inj hk'
      refine ⟨_, ?_, bl.set k (bl[k].setSigma (sourceVelocity ext s bl[k].center) 0),
        sl.set k (bl[k].setSigma (sourceVelocity ext s bl[k].center) 0).sourceStrength,
        rfl, ?_, ?_, ?_, ?_⟩
      · simp [List.getElem?_eq_getElem hkb, hks, hsv]
      · simp [hbl]
      · simp [hsl]
      · intro j
        simp only [List.getElem?_set]
        by_cases hjk : k = j
        · subst hjk
          simp [hkb, hk, hpk, List.getElem?_eq_getElem]
        · simp only [hjk, if_false]
          rw [hgb j]
          have : (j < k + 1) = (j < k) := by
            apply propext; omega
          simp only [this]
      · intro j hj
        simp only [List.getElem?_set]
        by_cases hjk : k = j
        · subst hjk
          simp [hks, hk, hpk, List.getElem?_eq_getElem, bodyPanel.setSigma]
        · simp only [hjk, if_false]
          exact hgs j (by omega))
  obtain ⟨t, ht, bl, sl, rfl, hbl, hsl, hgb, hgs⟩ := hinv
  unfold setSourceStrengths
  rw [← hsl0]
  refine ht.trans ?_
  congr 2
  · apply List.ext_getElem?
    intro j
    rw [hgb j]
    by_cases hj : j < s.bPanels.length
    · simp [hj]
    · simp only [hj, if_false]
      have h1 : s.bPanels[j]? = none := by simp; omega
      simp [h1]
  · apply List.ext_getElem?
    intro j
    by_cases hj : j < s.bPanels.length
    · exact hgs j hj
    · have h1 : s.bPanels[j]? = none := by simp; omega
      have h2 : sl[j]? = none := by simp; omega
      simp [h1, h2]

/-- C5. `setSourceStrengths` returns; afterwards each body panel `i` (same normal and
centroid as before) has source strength `-n_i . (Vinf + sum over the filaments f of
f.velInfl(center_i))`, entry `i` of `sigmas` is that panel's source strength, and with no
filaments the source strength is `-n_i . Vinf`. -/
theorem setSourceStrengths_sigma {K : Type} [Field K] (ext : externals K) (s : cpCase K) :
    ∃ s1, setSourceStrengths ext s = some s1 ∧
      s1.bPanels.length = s.bPanels.length ∧
      s1.sigmas = s1.bPanels.map (fun p => p.sourceStrength) ∧
      ∀ (i : Nat) (p : bodyPanel K), s.bPanels[i]? = some p → ∃ p1 : bodyPanel K,
        s1.bPanels[i]? = some p1 ∧
        p1.normal = p.normal ∧ p1.center = p.center ∧
        p1.sourceStrength =
          -(dot p.normal (s.Vinf + (s.filaments.map (fun f => ext.filVelInfl f p.center)).sum)) ∧
        (s.filaments = [] → p1.sourceStrength = -(dot p.normal s.Vinf)) := by
  refine ⟨_, setSourceStrengths_eq ext s, by simp, ?_, ?_⟩
  · simp [bodyPanel.setSigma]
  · intro i p hp
    refine ⟨p.setSigma (sourceVelocity ext s p.center) 0, by simp [hp], rfl, rfl, ?_, ?_⟩
    · simp [bodyPanel.setSigma, sourceVelocity, foldl_add_eq_sum]
    · intro hfil
      simp [bodyPanel.setSigma, sourceVelocity, hfil]

/-- C6. At time step 1, with one particle in the list and in the tree and a particle
velocity of `(1, 0, 0)` at every point (from `barnesHut` and from the direct sum alike), the
velocity that `setSourceStrengths` hands to `setSigma` is the freestream `(1, 0, 0)` alone at
every centroid, and the source strengths stored are `-n . Vinf`, that is `-1` and `1`, for
`accelerate` on and off; with the particle velocity added they would be `-2` and `2`. -/
theorem setSourceStrengths_omits_particle_velocity :
    (∀ acc c, sourceVelocity demoExt (demoStepOne acc) c = ![1, 0, 0] ∧
      demoExt.barnesHut (demoStepOne acc).FMM c = ![1, 0, 0] ∧
      ((demoStepOne acc).particles.map (fun q => demoExt.partVelInfl q c)).sum = ![1, 0, 0]) ∧
    (∀ acc, (setSourceStrengths demoExt (demoStepOne acc)).map (fun s => s.sigmas) =
      some [-1, 1]) ∧
    (demoStepOne true).bPanels.map (fun p => -(dot p.normal
      ((demoStepOne true).Vinf + demoExt.barnesHut (demoStepOne true).FMM p.center))) = [-2, 2] ∧
    (demoStepOne false).bPanels.map (fun p => -(dot p.normal
      ((demoStepOne false).Vinf +
        ((demoStepOne false).particles.map (fun q => demoExt.partVelInfl q p.center)).sum))) =
      [-2, 2] := by
  refine ⟨?_, ?_, ?_, ?_⟩
  · intro acc c
    refine ⟨?_, ?_, ?_⟩
    · simp [sourceVelocity, demoStepOne, demoCase]
    · simp [demoExt]
    · simp [demoStepOne, demoExt]
  · intro acc
    rw [setSourceStrengths_eq]
    simp [demoStepOne, demoCase, demoBody, sourceVelocity, dot]
  · simp [demoStepOne, demoCase, demoBody, demoExt, dot]
    norm_num
  · simp [demoStepOne, demoCase, demoBody, demoExt, dot]
    norm_num

/-- One row of a matrix-vector product is linear in the vector. -/
theorem rowDot_smulXd {K : Type} [Field K] (k : K) (row v : List K) :
    rowDot row (smulXd k v) = k * rowDot row v := by
  induction row generalizing v with
  | nil => simp [rowDot]
  | cons a as ih =>
    cases v with
    | nil => simp [rowDot, smulXd]
    | cons b bs =>
      have := ih bs
      simp only [smulXd] at this
      simp only [rowDot, smulXd, List.map_cons, this]
      ring

/-- The matrix-vector product is linear in the vector. -/
theorem mulVecXd_smulXd {K : Type} [Field K] (k : K) (M : MatrixXd K) (v : VectorXd K) :
    mulVecXd M (smulXd k v) = smulXd k (mulVecXd M v) := by
  simp only [mulVecXd, smulXd, List.map_map, Function.comp_def]
  apply List.map_congr_left
  intro row _
  exact rowDot_smulXd k row v

/-- The unary minus commutes with scaling. -/
theorem negXd_smulXd {K : Type} [Field K] (k : K) (v : VectorXd K) :
    negXd (smulXd k v) = smulXd k (negXd v) := by
  simp [negXd, smulXd, Function.comp_def]

/-- C7. With no filaments, replacing `Vinf` by `k * Vinf` multiplies by `k` the source
strength that `setSourceStrengths` stores in every body panel, every entry of `sigmas` and
every entry of the right-hand side `-(B * sigmas)`; hence, when `A` is injective on vectors
with one entry per body panel, exact solutions `mu` of `A mu = rhs` and `muk` of the scaled
system satisfy `muk = k * mu`. -/
theorem source_assembly_linear_in_Vinf {K : Type} [Field K] (ext : externals K) (s : cpCase K)
    (k : K) (hfil : s.filaments = []) :
    ∃ s1 sk, setSourceStrengths ext s = some s1 ∧
      setSourceStrengths ext { s with Vinf := k • s.Vinf } = some sk ∧
      sk.bPanels.map (fun p => p.sourceStrength) =
        smulXd k (s1.bPanels.map (fun p => p.sourceStrength)) ∧
      sk.sigmas = smulXd k s1.sigmas ∧
      RHS sk = smulXd k (RHS s1) ∧
      ∀ mu muk : VectorXd K,
        (∀ x y : VectorXd K, x.length = s.bPanels.length → y.length = s.bPanels.length →
          mulVecXd s.A x = mulVecXd s.A y → x = y) →
        mu.length = s.bPanels.length → muk.length = s.bPanels.length →
        mulVecXd s1.A mu = RHS s1 → mulVecXd sk.A muk = RHS sk → muk = smulXd k mu := by
  have hsig : ∀ p : bodyPanel K,
      -(dot p.normal (sourceVelocity ext { s with Vinf := k • s.Vinf } p.center)) - 0 =
        k * (-(dot p.normal (sourceVelocity ext s p.center)) - 0) := by
    intro p
    simp only [sourceVelocity, hfil, List.foldl_nil, dot, Pi.add_apply, Pi.smul_apply,
      Pi.zero_apply, smul_eq_mul]
    ring
  have hsigmas : List.map (fun p : bodyPanel K =>
        -(dot p.normal (sourceVelocity ext { s with Vinf := k • s.Vinf } p.center)) - 0) s.bPanels =
      smulXd k (List.map (fun p : bodyPanel K =>
        -(dot p.normal (sourceVelocity ext s p.center)) - 0) s.bPanels) := by
    simp only [smulXd, List.map_map, Function.comp_def, hsig]
  have hrhs : RHS { s with
        sigmas := List.map (fun p : bodyPanel K =>
          -(dot p.normal (sourceVelocity ext { s with Vinf := k • s.Vinf } p.center)) - 0) s.bPanels } =
      smulXd k (RHS { s with
        sigmas := List.map (fun p : bodyPanel K =>
          -(dot p.normal (sourceVelocity ext s p.center)) - 0) s.bPanels }) := by
    simp only [RHS, hsigmas, mulVecXd_smulXd, negXd_smulXd]
  refine ⟨_, _, setSourceStrengths_eq ext s, setSourceStrengths_eq ext _, ?_, hsigmas, ?_, ?_⟩
  · simp only [List.map_map, Function.comp_def, bodyPanel.setSigma, smulXd, hsig]
  · exact hrhs
  · intro mu muk hinj hmu hmuk h1 hk
    apply hinj _ _ hmuk (by simpa [smulXd] using hmu)
    have h1a : mulVecXd s.A mu = RHS { s with
        sigmas := List.map (fun p : bodyPanel K =>
          -(dot p.normal (sourceVelocity ext s p.center)) - 0) s.bPanels } := h1
    have hka : mulVecXd s.A muk = RHS { s with
        sigmas := List.map (fun p : bodyPanel K =>
          -(dot p.normal (sourceVelocity ext { s with Vinf := k • s.Vinf } p.center)) - 0) s.bPanels } := hk
    rw [mulVecXd_smulXd, h1a, hka, hrhs]

theorem source_assembly_linear_in_Vinf_witness :
    demoCase.filaments = [] ∧
    ∃ s1 sk, setSourceStrengths demoExt demoCase = some s1 ∧
      setSourceStrengths demoExt { demoCase with Vinf := (2 : ℚ) • demoCase.Vinf } = some sk ∧
      sk.bPanels.map (fun p => p.sourceStrength) =
        smulXd 2 (s1.bPanels.map (fun p => p.sourceStrength)) ∧
      sk.sigmas = smulXd 2 s1.sigmas ∧
      RHS sk = smulXd 2 (RHS s1) ∧
      ∀ mu muk : VectorXd ℚ,
        (∀ x y : VectorXd ℚ, x.length = demoCase.bPanels.length →
          y.length = demoCase.bPanels.length →
          mulVecXd demoCase.A x = mulVecXd demoCase.A y → x = y) →
        mu.length = demoCase.bPanels.length → muk.length = demoCase.bPanels.length →
        mulVecXd s1.A mu = RHS s1 → mulVecXd sk.A muk = RHS sk → muk = smulXd 2 mu :=
  ⟨rfl, source_assembly_linear_in_Vinf demoExt demoCase 2 rfl⟩

/-! ## Frames -/

/-- The entries of the matrix of `windToBody`. -/
theorem windToBodyT_eq {K : Type} [Field K] (m : libm K) (alpha beta : K) :
    windToBodyT m alpha beta =
      Matrix.of ![![m.cos (alpha * (m.pi / 180)) * m.cos (beta * (m.pi / 180)),
                   m.cos (alpha * (m.pi / 180)) * m.sin (beta * (m.pi / 180)),
                   -m.sin (alpha * (m.pi / 180))],
                 ![-m.sin (beta * (m.pi / 180)), m.cos (beta * (m.pi / 180)), 0],
                 ![m.sin (alpha * (m.pi / 180)) * m.cos (beta * (m.pi / 180)),
                   m.sin (alpha * (m.pi / 180)) * m.sin (beta * (m.pi / 180)),
                   m.cos (alpha * (m.pi / 180))]] := rfl

/-- A matrix of this shape is orthogonal when the two pairs satisfy the Pythagorean
identity. -/
theorem rotation_shape_orthogonal {K : Type} [Field K] (ca sa cb sb : K)
    (ha : sa ^ 2 + ca ^ 2 = 1) (hb : sb ^ 2 + cb ^ 2 = 1) :
    (Matrix.of ![![ca * cb, ca * sb, -sa], ![-sb, cb, 0], ![sa * cb, sa * sb, ca]]).transpose *
      Matrix.of ![![ca * cb, ca * sb, -sa], ![-sb, cb, 0], ![sa * cb, sa * sb, ca]] =
      (1 : Matrix3d K) := by
  ext i j
  fin_cases i <;> fin_cases j
  · simp only [Matrix.mul_apply, Matrix.transpose_apply, Fin.sum_univ_three, Matrix.of_apply]
    simp
    linear_combination (cb ^ 2) * ha + hb
  · simp only [Matrix.mul_apply, Matrix.transpose_apply, Fin.sum_univ_three, Matrix.of_apply]
    simp
    linear_combination (cb * sb) * ha
  · simp only [Matrix.mul_apply, Matrix.transpose_apply, Fin.sum_univ_three, Matrix.of_apply]
    simp
    ring
  · simp only [Matrix.mul_apply, Matrix.transpose_apply, Fin.sum_univ_three, Matrix.of_apply]
    simp
    linear_combination (cb * sb) * ha
  · simp only [Matrix.mul_apply, Matrix.transpose_apply, Fin.sum_univ_three, Matrix.of_apply]
    simp
    linear_combination (sb ^ 2) * ha + hb
  · simp only [Matrix.mul_apply, Matrix.transpose_apply, Fin.sum_univ_three, Matrix.of_apply]
    simp
    ring
  · simp only [Matrix.mul_apply, Matrix.transpose_apply, Fin.sum_univ_three, Matrix.of_apply]
    simp
    ring
  · simp only [Matrix.mul_apply, Matrix.transpose_apply, Fin.sum_univ_three, Matrix.of_apply]
    simp
    ring
  · simp only [Matrix.mul_apply, Matrix.transpose_apply, Fin.sum_univ_three, Matrix.of_apply]
    simp
    linear_combination ha

/-- C9. Over the reals, with the `cos`, `sin` and `pi` of the real numbers, the matrix that
`windToBody` stores in `transform` is a rotation for every `V`, `alpha`, `beta`: its
transpose is its inverse on both sides and its determinant is 1.  Hence `bodyToWind` maps the
velocity returned by `windToBody` back to `(V, 0, 0)`, that velocity has Euclidean norm `|V|`,
and for `alpha = beta = 0` it is `(V, 0, 0)`. -/
theorem windToBody_is_rotation (s : cpCase ℝ) (V alpha beta : ℝ) :
    (windToBody (libm.mk Real.cos Real.sin Real.arccos Real.pi Real.sqrt) s V alpha beta).1.transform.transpose *
        (windToBody (libm.mk Real.cos Real.sin Real.arccos Real.pi Real.sqrt) s V alpha beta).1.transform = 1 ∧
    (windToBody (libm.mk Real.cos Real.sin Real.arccos Real.pi Real.sqrt) s V alpha beta).1.transform *
        (windToBody (libm.mk Real.cos Real.sin Real.arccos Real.pi Real.sqrt) s V alpha beta).1.transform.transpose
        = 1 ∧
    (windToBody (libm.mk Real.cos Real.sin Real.arccos Real.pi Real.sqrt) s V alpha beta).1.transform.det = 1 ∧
    bodyToWind (windToBody (libm.mk Real.cos Real.sin Real.arccos Real.pi Real.sqrt) s V alpha beta).1
        (windToBody (libm.mk Real.cos Real.sin Real.arccos Real.pi Real.sqrt) s V alpha beta).2 = ![V, 0, 0] ∧
    Real.sqrt (dot (windToBody (libm.mk Real.cos Real.sin Real.arccos Real.pi Real.sqrt) s V alpha beta).2
        (windToBody (libm.mk Real.cos Real.sin Real.arccos Real.pi Real.sqrt) s V alpha beta).2) = |V| ∧
    (windToBody (libm.mk Real.cos Real.sin Real.arccos Real.pi Real.sqrt) s V 0 0).2 = ![V, 0, 0] := by
  have hpyth : ∀ x : ℝ, Real.sin x ^ 2 + Real.cos x ^ 2 = 1 := Real.sin_sq_add_cos_sq
  have ha := hpyth (alpha * (Real.pi / 180))
  have hb := hpyth (beta * (Real.pi / 180))
  have horth : (windToBodyT (libm.mk Real.cos Real.sin Real.arccos Real.pi Real.sqrt) alpha beta).transpose *
      windToBodyT (libm.mk Real.cos Real.sin Real.arccos Real.pi Real.sqrt) alpha beta = 1 := by
    rw [windToBodyT_eq]
    exact rotation_shape_orthogonal _ _ _ _ ha hb
  refine ⟨horth, Matrix.mul_eq_one_comm.mp horth, ?_, ?_, ?_, ?_⟩
  · show (windToBodyT (libm.mk Real.cos Real.sin Real.arccos Real.pi Real.sqrt) alpha beta).det = 1
    rw [windToBodyT_eq, Matrix.det_fin_three]
    simp
    linear_combination (Real.cos (beta * (Real.pi / 180)) ^ 2 +
      Real.sin (beta * (Real.pi / 180)) ^ 2) * ha + hb
  · show (windToBodyT (libm.mk Real.cos Real.sin Real.arccos Real.pi Real.sqrt) alpha beta).transpose.mulVec
      ((windToBodyT (libm.mk Real.cos Real.sin Real.arccos Real.pi Real.sqrt) alpha beta).mulVec ![V, 0, 0]) =
      ![V, 0, 0]
    rw [Matrix.mulVec_mulVec, horth, Matrix.one_mulVec]
  · have hVel : dot (windToBody (libm.mk Real.cos Real.sin Real.arccos Real.pi Real.sqrt) s V alpha beta).2
        (windToBody (libm.mk Real.cos Real.sin Real.arccos Real.pi Real.sqrt) s V alpha beta).2 = V ^ 2 := by
      show dot ((windToBodyT (libm.mk Real.cos Real.sin Real.arccos Real.pi Real.sqrt) alpha beta).mulVec
          ![V, 0, 0])
        ((windToBodyT (libm.mk Real.cos Real.sin Real.arccos Real.pi Real.sqrt) alpha beta).mulVec
          ![V, 0, 0]) = V ^ 2
      rw [windToBodyT_eq]
      simp only [dot, Matrix.mulVec, Matrix.dotProduct, Fin.sum_univ_three, Matrix.of_apply]
      simp
      linear_combination (V ^ 2 * Real.cos (beta * (Real.pi / 180)) ^ 2) * ha + V ^ 2 * hb
    rw [hVel, Real.sqrt_sq_eq_abs]
  · show (windToBodyT (libm.mk Real.cos Real.sin Real.arccos Real.pi Real.sqrt) 0 0).mulVec ![V, 0, 0] =
      ![V, 0, 0]
    rw [windToBodyT_eq]
    ext i
    fin_cases i <;>
      simp [Matrix.mulVec, Matrix.dotProduct, Fin.sum_univ_three]

/-! ## Force integration -/

/-- Overwriting position `k` and then taking `k + 1` elements appends the new element to
the first `k`. -/
theorem take_succ_set {α : Type} (l : List α) (k : Nat) (a : α) (hk : k < l.length) :
    (l.set k a).take (k + 1) = l.take k ++ [a] := by
  induction l generalizing k with
  | nil => simp at hk
  | cons b bs ih =>
    cases k with
    | zero => simp
    | succ n =>
      have hn : n < bs.length := by simpa using hk
      simp [ih n hn]

/-- Overwriting an element by one with the same image leaves the list of images as it
is. -/
theorem map_set_same {α β : Type} (f : α → β) (l : List α) (k : Nat) (a : α)
    (hk : k < l.length) (h : f a = f (l.get ⟨k, hk⟩)) : (l.set k a).map f = l.map f := by
  induction l generalizing k with
  | nil => simp at hk
  | cons b bs ih =>
    cases k with
    | zero => simpa using h
    | succ n =>
      have hn : n < bs.length := by simpa using hk
      simp only [List.set_cons_succ, List.map_cons]
      rw [ih n hn (by simpa using h)]

/-- Closed form of `compVelocity`: the body panels after the call have the areas and Bezier
normals they had, and the forces and moments are the sums over them. -/
theorem compVelocity_eq {K : Type} [Field K] (ext : externals K) (s : cpCase K) :
    ∃ bl : List (bodyPanel K), bl.length = s.bPanels.length ∧
      bl.map (fun p => (p.area, p.bezNormal)) = s.bPanels.map (fun p => (p.area, p.bezNormal)) ∧
      ∀ F0 M0, compVelocity ext { s with Fbody := F0, CM := M0 } = some { s with
        bPanels := bl
        Fbody := (bl.map (forceTerm s.Sref)).sum
        CM := (bl.map (momentTerm ext s)).sum
        Fwind := s.transform.transpose.mulVec (bl.map (forceTerm s.Sref)).sum
        CL := s.CL ++ [(bl.map (forceTerm s.Sref)).sum 2] } := by
  have hinv := forLoop_invariant
    (fun (i : Nat) (s : cpCase K) => do
      let p ← s.bPanels[i]?
      let sumPartInfl : Vector3d K := 0
      let sumPartInfl := s.particles.foldl (fun acc q => acc + ext.partVelInfl q p.center)
        sumPartInfl
      let p := p.computeVelocity ext s.PG s.Vinf sumPartInfl s.bPanels i
      let p := p.computeCp ext s.Vmag
      let s := { s with bPanels := s.bPanels.set i p }
      let s := { s with Fbody := s.Fbody + vdiv ((-p.Cp * p.area) • p.bezNormal) s.Sref }
      let moment := ext.computeMoments s.cg p
      let s := { s with CM := ![s.CM 0 + moment 0 / (s.Sref * s.bref),
                                s.CM 1 + moment 1 / (s.Sref * s.cref),
                                s.CM 2 + moment 2 / (s.Sref * s.bref)] }
      some s)
    (fun (k : Nat) (t : cpCase K) => ∃ bl : List (bodyPanel K),
      t = { s with
        bPanels := bl
        Fbody := ((bl.take k).map (forceTerm s.Sref)).sum
        CM := ((bl.take k).map (momentTerm ext s)).sum } ∧
      bl.length = s.bPanels.length ∧
      bl.map (fun p => (p.area, p.bezNormal)) = s.bPanels.map (fun p => (p.area, p.bezNormal)))
    s.bPanels.length { s with CM := 0, Fbody := 0 }
    ⟨s.bPanels, by simp, rfl, rfl⟩
    (by
      rintro k t hk ⟨bl, rfl, hbl, hframe⟩
      have hkb : k < bl.length := by omega
      obtain ⟨q, hq⟩ : ∃ q, q = ((bl.get ⟨k, hkb⟩).computeVelocity ext s.PG s.Vinf
          (s.particles.foldl (fun acc q => acc + ext.partVelInfl q (bl.get ⟨k, hkb⟩).center) 0)
          bl k).computeCp ext s.Vmag := ⟨_, rfl⟩
      have hqa : (q.area, q.bezNormal) = ((bl.get ⟨k, hkb⟩).area, (bl.get ⟨k, hkb⟩).bezNormal) := by
        rw [hq]; rfl
      refine ⟨_, ?_, bl.set k q, rfl, by simp [hbl], ?_⟩
      · simp only [List.getElem?_eq_getElem hkb, Option.bind_eq_bind, Option.some_bind]
        simp only [List.get_eq_getElem] at hq
        rw [← hq, take_succ_set bl k q hkb]
        simp only [List.map_append, List.sum_append, List.map_cons, List.map_nil, List.sum_cons,
          List.sum_nil, add_zero]
        congr 2
        funext i
        fin_cases i <;> simp [momentTerm]
      · rw [map_set_same (fun p => (p.area, p.bezNormal)) bl k q hkb hqa, hframe])
  obtain ⟨t, ht, bl, rfl, hbl, hframe⟩ := hinv
  have htake : bl.take s.bPanels.length = bl := by
    rw [← hbl]; exact List.take_length bl
  rw [htake] at ht
  have hc : ∀ F0 M0, compVelocity ext { s with Fbody := F0, CM := M0 } = some { s with
      bPanels := bl
      Fbody := (bl.map (forceTerm s.Sref)).sum
      CM := (bl.map (momentTerm ext s)).sum
      Fwind := s.transform.transpose.mulVec (bl.map (forceTerm s.Sref)).sum
      CL := s.CL ++ [(bl.map (forceTerm s.Sref)).sum 2] } := by
    intro F0 M0
    unfold compVelocity
    simp only [Option.bind_eq_bind] at ht ⊢
    rw [ht]
    rfl
  exact ⟨bl, hbl, hframe, hc⟩

/-- C8. `compVelocity` returns; the areas and Bezier normals of the body panels are
unchanged; `Fbody` is the sum over the body panels of `-Cp * area * bezNormal / Sref` with
the pressure coefficients just stored, whatever `Fbody` and `CM` held before the call; `CM`
is the sum of the panels' moments with the roll and yaw components over `Sref * bref` and the
pitch component over `Sref * cref`; and `Fwind` is `transpose(transform) * Fbody`. -/
theorem compVelocity_forces {K : Type} [Field K] (ext : externals K) (s : cpCase K) :
    ∃ s1, compVelocity ext s = some s1 ∧
      s1.bPanels.map (fun p => (p.area, p.bezNormal)) =
        s.bPanels.map (fun p => (p.area, p.bezNormal)) ∧
      s1.Fbody = (s1.bPanels.map (fun p => vdiv ((-p.Cp * p.area) • p.bezNormal) s.Sref)).sum ∧
      s1.CM = (s1.bPanels.map (fun p =>
        ![ext.computeMoments s.cg p 0 / (s.Sref * s.bref),
          ext.computeMoments s.cg p 1 / (s.Sref * s.cref),
          ext.computeMoments s.cg p 2 / (s.Sref * s.bref)])).sum ∧
      s1.Fwind = s.transform.transpose.mulVec s1.Fbody ∧
      ∀ F0 M0, compVelocity ext { s with Fbody := F0, CM := M0 } = some s1 := by
  obtain ⟨bl, -, hframe, hc⟩ := compVelocity_eq ext s
  exact ⟨_, hc s.Fbody s.CM, hframe, rfl, rfl, rfl, hc⟩

/-! ## The trailing-edge flag -/

theorem sharp_eq {K : Type} [LinearOrderedField K] (m : libm K) (g : geometry K)
    (n1 n2 b0 b1 : Nat) (wakePans : List Nat) (TE : Bool)
    (hb0 : b0 < g.bPanels.length) (hb1 : b1 < g.bPanels.length) :
    edge.sharpSameSurface m g ⟨n1, n2, [b0, b1], wakePans, TE⟩ =
      decide (m.acos (dot g.bPanels[b0].normal g.bPanels[b1].normal) > 4.7 * m.pi / 6 ∧
          g.bPanels[b0].ID = g.bPanels[b1].ID) := by
  simp only [edge.sharpSameSurface, List.getElem?_eq_getElem hb0, List.getElem?_eq_getElem hb1]
  rw [Bool.decide_and]

theorem sharp_false_of_length {K : Type} [LinearOrderedField K] (m : libm K) (g : geometry K)
    (ed : edge) (h2 : ed.bodyPans.length ≠ 2) : ed.sharpSameSurface m g = false := by
  unfold edge.sharpSameSurface
  split
  · rename_i b0 b1 h
    rw [h] at h2
    exact absurd rfl h2
  · rfl

set_option maxHeartbeats 2000000 in
theorem checkTE_spec {K : Type} [LinearOrderedField K] (m : libm K) (g : geometry K) (e : Nat)
    (ed : edge) (hed : g.edges[e]? = some ed)
    (hn1 : ed.n1 < g.nodes.length) (hn2 : ed.n2 < g.nodes.length)
    (hb : ∀ b ∈ ed.bodyPans, b < g.bPanels.length)
    (hw : ∀ w ∈ ed.wakePans, w < g.wPanels.length) :
    ∃ g2, checkTE m g e = some g2 ∧
      g2.edges[e]? = some { ed with TE := ed.TE || ed.teCondition m g } ∧
      g2.nodes.length = g.nodes.length ∧ g2.bPanels.length = g.bPanels.length ∧
      g2.wPanels.length = g.wPanels.length ∧
      g2.bPanels.map (fun p => (p.normal, p.ID)) = g.bPanels.map (fun p => (p.normal, p.ID)) := by
  have he : e < g.edges.length := by
    by_contra hcon
    rw [List.getElem?_eq_none (by omega)] at hed
    exact absurd hed (by simp)
  obtain ⟨n1, n2, bodyPans, wakePans, TE⟩ := ed
  simp only at hn1 hn2 hb hw
  by_cases h2 : bodyPans.length = 2
  · obtain ⟨b0, b1, rfl⟩ := List.length_eq_two.mp h2
    have hb0 : b0 < g.bPanels.length := hb b0 (by simp)
    have hb1 : b1 < g.bPanels.length := hb b1 (by simp)
    by_cases h1 : wakePans.length = 1
    · obtain ⟨w0, rfl⟩ := List.length_eq_one.mp h1
      have hw0 : w0 < g.wPanels.length := hw w0 (by simp)
      have hn2s : ∀ x, n2 < (g.nodes.set n1 x).length := by intro x; simpa using hn2
      simp only [checkTE, hed, geometry.edgeSetTE, geometry.setParentPanels,
        geometry.nodeSetTE, Option.bind_eq_bind, Option.some_bind, List.length_cons,
        List.length_nil, if_true, List.getElem?_cons_zero, List.getElem?_cons_succ,
        List.getElem?_eq_getElem hw0, List.getElem?_eq_getElem hb0, List.getElem?_eq_getElem hb1,
        List.getElem?_eq_getElem hn1, List.getElem?_eq_getElem (hn2s _)]
      refine ⟨_, rfl, ?_, ?_, ?_, ?_, ?_⟩
      · simp [he, edge.teCondition, edge.twoBodyOneWake]
      · simp
      · simp
      · simp
      · simp
    · have hcond : edge.twoBodyOneWake ⟨n1, n2, [b0, b1], wakePans, TE⟩ = false := by
        simp [edge.twoBodyOneWake, h1]
      by_cases hs : m.acos (dot g.bPanels[b0].normal g.bPanels[b1].normal) > 4.7 * m.pi / 6 ∧
          g.bPanels[b0].ID = g.bPanels[b1].ID
      · have hn2s : ∀ x, n2 < (g.nodes.set n1 x).length := by intro x; simpa using hn2
        have hb1s : ∀ x, b1 < (g.bPanels.set b0 x).length := by intro x; simpa using hb1
        simp only [checkTE, hed, geometry.edgeSetTE, geometry.setTEpanel,
          geometry.nodeSetTE, Option.bind_eq_bind, Option.some_bind, List.length_cons,
          List.length_nil, if_true, List.getElem?_cons_zero, List.getElem?_cons_succ,
          List.getElem?_eq_getElem hb0, List.getElem?_eq_getElem hb1, h1, if_false,
          List.getElem?_eq_getElem hn1, List.getElem?_eq_getElem (hn2s _),
          List.getElem?_eq_getElem (hb1s _)]
        rw [if_pos hs]
        refine ⟨_, rfl, ?_, ?_, ?_, ?_, ?_⟩
        · have hsh := sharp_eq m g n1 n2 b0 b1 wakePans TE hb0 hb1
          rw [decide_eq_true hs] at hsh
          simp [he, edge.teCondition, hsh]
        · simp
        · simp
        · simp
        · refine (map_set_same (fun p => (p.normal, p.ID)) _ b1 _ (hb1s _) ?_).trans
            (map_set_same (fun p => (p.normal, p.ID)) _ b0 _ hb0 ?_) <;> rfl
      · simp only [checkTE, hed, Option.bind_eq_bind, Option.some_bind, List.length_cons,
          List.length_nil, if_true, List.getElem?_cons_zero, List.getElem?_cons_succ,
          List.getElem?_eq_getElem hb0, List.getElem?_eq_getElem hb1, h1, if_false]
        rw [if_neg hs]
        refine ⟨_, rfl, ?_, rfl, rfl, rfl, rfl⟩
        have hsh := sharp_eq m g n1 n2 b0 b1 wakePans TE hb0 hb1
        rw [decide_eq_false hs] at hsh
        simp [hed, edge.teCondition, hcond, hsh]
  · have hcond : edge.teCondition m g ⟨n1, n2, bodyPans, wakePans, TE⟩ = false := by
      simp [edge.teCondition, edge.twoBodyOneWake, h2,
        sharp_false_of_length m g ⟨n1, n2, bodyPans, wakePans, TE⟩ h2]
    simp only [checkTE, hed, Option.bind_eq_bind, Option.some_bind, h2, if_false]
    exact ⟨_, rfl, by simp [hed, hcond], rfl, rfl, rfl, rfl⟩

/-- Condition (b) reads only the normals and the surface ids of the body panels. -/
theorem sharp_congr {K : Type} [LinearOrderedField K] (m : libm K) (g g2 : geometry K)
    (ed ed2 : edge) (hbp : ed2.bodyPans = ed.bodyPans)
    (hmap : g2.bPanels.map (fun p => (p.normal, p.ID)) = g.bPanels.map (fun p => (p.normal, p.ID))) :
    ed2.sharpSameSurface m g2 = ed.sharpSameSurface m g := by
  have hget : ∀ b : Nat, (g2.bPanels[b]?).map (fun p : bodyPanel K => (p.normal, p.ID)) =
      (g.bPanels[b]?).map (fun p : bodyPanel K => (p.normal, p.ID)) := by
    intro b
    rw [← List.getElem?_map, ← List.getElem?_map, hmap]
  unfold edge.sharpSameSurface
  rw [hbp]
  split
  · rename_i b0 b1 _
    have h0 := hget b0
    have h1 := hget b1
    cases hg0 : g.bPanels[b0]? with
    | none =>
      rw [hg0] at h0
      have : g2.bPanels[b0]? = none := by simpa using h0
      simp [this]
    | some p0 =>
      rw [hg0] at h0
      obtain ⟨q0, hq0, hq0e⟩ : ∃ q0, g2.bPanels[b0]? = some q0 ∧
          (q0.normal, q0.ID) = (p0.normal, p0.ID) := by
        cases hq : g2.bPanels[b0]? with
        | none => rw [hq] at h0; simp at h0
        | some q0 => rw [hq] at h0; exact ⟨q0, rfl, by simpa using h0⟩
      cases hg1 : g.bPanels[b1]? with
      | none =>
        rw [hg1] at h1
        have : g2.bPanels[b1]? = none := by simpa using h1
        simp [this, hq0]
      | some p1 =>
        rw [hg1] at h1
        obtain ⟨q1, hq1, hq1e⟩ : ∃ q1, g2.bPanels[b1]? = some q1 ∧
            (q1.normal, q1.ID) = (p1.normal, p1.ID) := by
          cases hq : g2.bPanels[b1]? with
          | none => rw [hq] at h1; simp at h1
          | some q1 => rw [hq] at h1; exact ⟨q1, rfl, by simpa using h1⟩
        simp only [hq0, hq1]
        rw [(Prod.mk.inj hq0e).1, (Prod.mk.inj hq0e).2, (Prod.mk.inj hq1e).1,
          (Prod.mk.inj hq1e).2]
  · rfl

/-- The condition of `checkTE` reads only the two panel lists of the edge and the normals
and surface ids of the body panels. -/
theorem teCondition_congr {K : Type} [LinearOrderedField K] (m : libm K) (g g2 : geometry K)
    (ed ed2 : edge) (hbp : ed2.bodyPans = ed.bodyPans) (hwp : ed2.wakePans = ed.wakePans)
    (hmap : g2.bPanels.map (fun p => (p.normal, p.ID)) = g.bPanels.map (fun p => (p.normal, p.ID))) :
    ed2.teCondition m g2 = ed.teCondition m g := by
  unfold edge.teCondition edge.twoBodyOneWake
  rw [sharp_congr m g g2 ed ed2 hbp hmap, hbp, hwp]

/-- The history of the condition reads only the two panel lists of the edge and the normals
and surface ids of the body panels. -/
theorem teHistory_congr {K : Type} [LinearOrderedField K] (m : libm K) (g g2 : geometry K)
    (cs : List edgeCall) (ed ed2 : edge)
    (hbp : ed2.bodyPans = ed.bodyPans) (hwp : ed2.wakePans = ed.wakePans)
    (hmap : g2.bPanels.map (fun p => (p.normal, p.ID)) = g.bPanels.map (fun p => (p.normal, p.ID))) :
    teHistory m g2 ed2 cs = teHistory m g ed cs := by
  induction cs generalizing ed ed2 with
  | nil => rfl
  | cons c cs ih =>
    have hb1 : (ed2.extend c).bodyPans = (ed.extend c).bodyPans := by
      cases c <;> simp [edge.extend, hbp]
    have hw1 : (ed2.extend c).wakePans = (ed.extend c).wakePans := by
      cases c <;> simp [edge.extend, hwp]
    simp only [teHistory]
    rw [teCondition_congr m g g2 _ _ hb1 hw1 hmap, ih _ _ hb1 hw1]

/-- One call of `addBodyPan` or `addWakePan` on an edge whose pointers are valid: the panel
is appended and the flag is the old flag or the condition of `checkTE` on the new lists. -/
theorem applyCall_spec {K : Type} [LinearOrderedField K] (m : libm K) (g : geometry K) (e : Nat)
    (ed : edge) (c : edgeCall) (hed : g.edges[e]? = some ed)
    (hn1 : ed.n1 < g.nodes.length) (hn2 : ed.n2 < g.nodes.length)
    (hb : ∀ b ∈ ed.bodyPans, b < g.bPanels.length)
    (hw : ∀ w ∈ ed.wakePans, w < g.wPanels.length) (hc : c.valid g = true) :
    ∃ g2, applyCall m e c g = some g2 ∧
      g2.edges[e]? = some { ed.extend c with TE := ed.TE || (ed.extend c).teCondition m g } ∧
      g2.nodes.length = g.nodes.length ∧ g2.bPanels.length = g.bPanels.length ∧
      g2.wPanels.length = g.wPanels.length ∧
      g2.bPanels.map (fun p => (p.normal, p.ID)) = g.bPanels.map (fun p => (p.normal, p.ID)) := by
  have he : e < g.edges.length := by
    by_contra hcon
    rw [List.getElem?_eq_none (by omega)] at hed
    exact absurd hed (by simp)
  have hstep : ∃ g2, checkTE m { g with edges := g.edges.set e (ed.extend c) } e = some g2 ∧
      g2.edges[e]? = some { ed.extend c with TE := ed.TE || (ed.extend c).teCondition m g } ∧
      g2.nodes.length = g.nodes.length ∧ g2.bPanels.length = g.bPanels.length ∧
      g2.wPanels.length = g.wPanels.length ∧
      g2.bPanels.map (fun p => (p.normal, p.ID)) = g.bPanels.map (fun p => (p.normal, p.ID)) := by
    cases c with
    | addBodyPan b =>
      refine checkTE_spec m { g with edges := g.edges.set e (ed.extend (edgeCall.addBodyPan b)) }
        e (ed.extend (edgeCall.addBodyPan b)) (by simp [he]) hn1 hn2 ?_ hw
      intro x hx
      simp only [edge.extend, List.mem_append, List.mem_singleton] at hx
      rcases hx with hx | rfl
      · exact hb x hx
      · simpa [edgeCall.valid] using hc
    | addWakePan w =>
      refine checkTE_spec m { g with edges := g.edges.set e (ed.extend (edgeCall.addWakePan w)) }
        e (ed.extend (edgeCall.addWakePan w)) (by simp [he]) hn1 hn2 hb ?_
      intro x hx
      simp only [edge.extend, List.mem_append, List.mem_singleton] at hx
      rcases hx with hx | rfl
      · exact hw x hx
      · simpa [edgeCall.valid] using hc
  obtain ⟨g2, h1, h2⟩ := hstep
  refine ⟨g2, ?_, h2⟩
  cases c with
  | addBodyPan b =>
    simp only [applyCall, addBodyPan, hed, Option.bind_eq_bind, Option.some_bind]
    exact h1
  | addWakePan w =>
    simp only [applyCall, addWakePan, hed, Option.bind_eq_bind, Option.some_bind]
    exact h1

/-- The panel lists after a list of calls depend only on the panel lists before them; the
nodes are unchanged. -/
theorem foldl_extend_lists (cs : List edgeCall) (ed ed2 : edge)
    (hbp : ed2.bodyPans = ed.bodyPans) (hwp : ed2.wakePans = ed.wakePans) :
    (cs.foldl edge.extend ed2).bodyPans = (cs.foldl edge.extend ed).bodyPans ∧
    (cs.foldl edge.extend ed2).wakePans = (cs.foldl edge.extend ed).wakePans ∧
    (cs.foldl edge.extend ed).n1 = ed.n1 ∧ (cs.foldl edge.extend ed).n2 = ed.n2 := by
  induction cs generalizing ed ed2 with
  | nil => exact ⟨hbp, hwp, rfl, rfl⟩
  | cons c cs ih =>
    have hb1 : (ed2.extend c).bodyPans = (ed.extend c).bodyPans := by
      cases c <;> simp [edge.extend, hbp]
    have hw1 : (ed2.extend c).wakePans = (ed.extend c).wakePans := by
      cases c <;> simp [edge.extend, hwp]
    obtain ⟨h1, h2, h3, h4⟩ := ih (ed.extend c) (ed2.extend c) hb1 hw1
    refine ⟨h1, h2, ?_, ?_⟩
    · simp only [List.foldl_cons]; rw [h3]; cases c <;> rfl
    · simp only [List.foldl_cons]; rw [h4]; cases c <;> rfl

/-- The history of the condition is true exactly when the condition held after some
non-empty initial part of the calls. -/
theorem teHistory_iff {K : Type} [LinearOrderedField K] (m : libm K) (g : geometry K)
    (cs : List edgeCall) (ed : edge) :
    teHistory m g ed cs = true ↔
      ∃ k, 0 < k ∧ k ≤ cs.length ∧ ((cs.take k).foldl edge.extend ed).teCondition m g = true := by
  induction cs generalizing ed with
  | nil =>
    simp only [teHistory, List.length_nil]
    constructor
    · intro h; exact absurd h (by simp)
    · rintro ⟨k, h0, h1, -⟩; omega
  | cons c cs ih =>
    simp only [teHistory, Bool.or_eq_true, ih]
    constructor
    · rintro (h | ⟨k, h0, h1, h⟩)
      · exact ⟨1, by omega, by simp, by simpa using h⟩
      · exact ⟨k + 1, by omega, by simpa using h1, by simpa using h⟩
    · rintro ⟨k, h0, h1, h⟩
      cases k with
      | zero => omega
      | succ n =>
        cases n with
        | zero => left; simpa using h
        | succ j =>
          right
          exact ⟨j + 1, by omega, by simpa using h1, by simpa using h⟩

/-- A list of calls on an edge whose pointers are valid: the panels are appended in order and
the flag is the old flag or the history of the condition of `checkTE`. -/
theorem applyCalls_spec {K : Type} [LinearOrderedField K] (m : libm K) (e : Nat)
    (cs : List edgeCall) (g : geometry K) (ed : edge) (hed : g.edges[e]? = some ed)
    (hn1 : ed.n1 < g.nodes.length) (hn2 : ed.n2 < g.nodes.length)
    (hb : ∀ b ∈ ed.bodyPans, b < g.bPanels.length)
    (hw : ∀ w ∈ ed.wakePans, w < g.wPanels.length) (hc : ∀ c ∈ cs, c.valid g = true) :
    ∃ g2, applyCalls m e cs g = some g2 ∧
      g2.edges[e]? = some { cs.foldl edge.extend ed with TE := ed.TE || teHistory m g ed cs } ∧
      g2.nodes.length = g.nodes.length ∧ g2.bPanels.length = g.bPanels.length ∧
      g2.wPanels.length = g.wPanels.length ∧
      g2.bPanels.map (fun p => (p.normal, p.ID)) = g.bPanels.map (fun p => (p.normal, p.ID)) := by
  induction cs generalizing g ed with
  | nil =>
    refine ⟨g, rfl, ?_, rfl, rfl, rfl, rfl⟩
    simp [hed, teHistory]
  | cons c cs ih =>
    obtain ⟨g1, hg1, hed1, hl1, hl2, hl3, hmap1⟩ :=
      applyCall_spec m g e ed c hed hn1 hn2 hb hw (hc c (by simp))
    have hext1 : (ed.extend c).n1 = ed.n1 := by cases c <;> rfl
    have hext2 : (ed.extend c).n2 = ed.n2 := by cases c <;> rfl
    obtain ⟨g2, hg2, hed2, hm1, hm2, hm3, hmap2⟩ := ih g1
      { ed.extend c with TE := ed.TE || (ed.extend c).teCondition m g } hed1
      (by rw [hl1]; simpa [hext1] using hn1) (by rw [hl1]; simpa [hext2] using hn2)
      (by
        intro b hbm
        rw [hl2]
        cases c with
        | addBodyPan b2 =>
          simp only [edge.extend, List.mem_append, List.mem_singleton] at hbm
          rcases hbm with hbm | rfl
          · exact hb b hbm
          · simpa [edgeCall.valid] using hc (edgeCall.addBodyPan b) (by simp)
        | addWakePan w2 => exact hb b hbm)
      (by
        intro w hwm
        rw [hl3]
        cases c with
        | addBodyPan b2 => exact hw w hwm
        | addWakePan w2 =>
          simp only [edge.extend, List.mem_append, List.mem_singleton] at hwm
          rcases hwm with hwm | rfl
          · exact hw w hwm
          · simpa [edgeCall.valid] using hc (edgeCall.addWakePan w) (by simp))
      (by
        intro c2 hc2
        have := hc c2 (by simp [hc2])
        cases c2 <;> simpa [edgeCall.valid, hl2, hl3] using this)
    refine ⟨g2, ?_, ?_, by omega, by omega, by omega, hmap2.trans hmap1⟩
    · simp only [applyCalls, hg1, Option.some_bind]
      exact hg2
    · rw [hed2]
      obtain ⟨h1, h2, h3, h4⟩ := foldl_extend_lists cs (ed.extend c)
        { ed.extend c with TE := ed.TE || (ed.extend c).teCondition m g } rfl rfl
      obtain ⟨-, -, h5, h6⟩ := foldl_extend_lists cs
        { ed.extend c with TE := ed.TE || (ed.extend c).teCondition m g }
        { ed.extend c with TE := ed.TE || (ed.extend c).teCondition m g } rfl rfl
      have hh := teHistory_congr m g g1 cs (ed.extend c)
        { ed.extend c with TE := ed.TE || (ed.extend c).teCondition m g } rfl rfl hmap1
      simp only [List.foldl_cons, teHistory, h1, h2, h5, h6, hh, h3, h4, Bool.or_assoc]

/-- The constructor on valid node pointers: the new edge has no panel and a clear flag, and
the panels of the geometry are the same. -/
theorem construct_spec {K : Type} (g : geometry K) (nn1 nn2 : Nat)
    (hn1 : nn1 < g.nodes.length) (hn2 : nn2 < g.nodes.length) :
    ∃ g1, edge.construct g nn1 nn2 = some (g1, g.edges.length) ∧
      g1.edges[g.edges.length]? = some ⟨nn1, nn2, [], [], false⟩ ∧
      g1.nodes.length = g.nodes.length ∧ g1.bPanels = g.bPanels ∧ g1.wPanels = g.wPanels := by
  have hn2s : ∀ x, nn2 < (g.nodes.set nn1 x).length := by intro x; simpa using hn2
  simp only [edge.construct, geometry.nodeAddEdge, Option.bind_eq_bind, Option.some_bind,
    List.getElem?_eq_getElem hn1, List.getElem?_eq_getElem (hn2s _)]
  exact ⟨_, rfl, by simp, by simp, rfl, rfl⟩

/-- C10 (amended). For an edge made by the constructor on valid node pointers and any list
of `addBodyPan` and `addWakePan` calls with valid panel pointers, all calls return, and
`isTE()` is true afterwards if and only if after one of the calls (the last one included) the
edge had (a) exactly two body panels and exactly one wake panel or (b) two body panels whose
normals make an angle above `4.7 * pi / 6` and whose surface ids agree.  In particular, if
(a) or (b) holds for the final edge then `isTE()` is true. -/
theorem isTE_iff_condition_after_some_call {K : Type} [LinearOrderedField K] (m : libm K)
    (g0 : geometry K) (nn1 nn2 : Nat) (calls : List edgeCall)
    (hn1 : nn1 < g0.nodes.length) (hn2 : nn2 < g0.nodes.length)
    (hcalls : ∀ c ∈ calls, c.valid g0 = true) :
    ∃ g1 e g2 ed2, edge.construct g0 nn1 nn2 = some (g1, e) ∧
      applyCalls m e calls g1 = some g2 ∧ g2.edges[e]? = some ed2 ∧
      (isTE g2 e = some true ↔
        ∃ k, 0 < k ∧ k ≤ calls.length ∧ ∃ gk edk, applyCalls m e (calls.take k) g1 = some gk ∧
          gk.edges[e]? = some edk ∧ (edk.twoBodyOneWake || edk.sharpSameSurface m gk) = true) ∧
      ((ed2.twoBodyOneWake || ed2.sharpSameSurface m g2) = true → isTE g2 e = some true) := by
  obtain ⟨g1, hg1, hed1, hl1, hb1, hw1⟩ := construct_spec g0 nn1 nn2 hn1 hn2
  have hvalid : ∀ cs : List edgeCall, (∀ c ∈ cs, c.valid g0 = true) → ∀ c ∈ cs, c.valid g1 = true := by
    intro cs h c hc
    have := h c hc
    cases c <;> simpa [edgeCall.valid, hb1, hw1] using this
  have hspec : ∀ cs : List edgeCall, (∀ c ∈ cs, c.valid g0 = true) →
      ∃ g2, applyCalls m g0.edges.length cs g1 = some g2 ∧
        g2.edges[g0.edges.length]? = some { cs.foldl edge.extend ⟨nn1, nn2, [], [], false⟩ with
          TE := false || teHistory m g1 ⟨nn1, nn2, [], [], false⟩ cs } ∧
        g2.nodes.length = g1.nodes.length ∧ g2.bPanels.length = g1.bPanels.length ∧
        g2.wPanels.length = g1.wPanels.length ∧
        g2.bPanels.map (fun p => (p.normal, p.ID)) = g1.bPanels.map (fun p => (p.normal, p.ID)) :=
    fun cs h => applyCalls_spec m g0.edges.length cs g1 ⟨nn1, nn2, [], [], false⟩ hed1
      (by rw [hl1]; exact hn1) (by rw [hl1]; exact hn2) (by simp) (by simp) (hvalid cs h)
  obtain ⟨g2, hg2, hed2, -, -, -, hmap2⟩ := hspec calls hcalls
  have hcond : ∀ (cs : List edgeCall) (gk : geometry K) (edk : edge),
      (∀ c ∈ cs, c.valid g0 = true) → applyCalls m g0.edges.length cs g1 = some gk →
      gk.edges[g0.edges.length]? = some edk →
      (edk.twoBodyOneWake || edk.sharpSameSurface m gk) =
        (cs.foldl edge.extend ⟨nn1, nn2, [], [], false⟩).teCondition m g1 := by
    intro cs gk edk h hgk hedk
    obtain ⟨gk2, hgk2, hedk2, -, -, -, hmapk⟩ := hspec cs h
    rw [hgk] at hgk2
    cases Option.some.inj hgk2
    rw [hedk] at hedk2
    cases Option.some.inj hedk2
    exact teCondition_congr m g1 gk _ _ rfl rfl hmapk
  refine ⟨g1, g0.edges.length, g2, _, hg1, hg2, hed2, ?_, ?_⟩
  · simp only [isTE, hed2, Option.map_some', Option.some.injEq, Bool.false_or]
    rw [teHistory_iff]
    constructor
    · rintro ⟨k, h0, hk, h⟩
      have hv : ∀ c ∈ calls.take k, c.valid g0 = true :=
        fun c hc => hcalls c (List.mem_of_mem_take hc)
      obtain ⟨gk, hgk, hedk, -⟩ := hspec (calls.take k) hv
      exact ⟨k, h0, hk, gk, _, hgk, hedk, (hcond _ gk _ hv hgk hedk).trans h⟩
    · rintro ⟨k, h0, hk, gk, edk, hgk, hedk, h⟩
      have hv : ∀ c ∈ calls.take k, c.valid g0 = true :=
        fun c hc => hcalls c (List.mem_of_mem_take hc)
      exact ⟨k, h0, hk, (hcond _ gk edk hv hgk hedk).symm.trans h⟩
  · intro h
    simp only [isTE, hed2, Option.map_some', Option.some.injEq, Bool.false_or]
    rw [teHistory_iff]
    cases hc : calls with
    | nil =>
      rw [hc] at hed2 h hg2
      cases Option.some.inj hg2
      rw [hcond [] g1 _ (by simp) rfl hed2] at h
      simp [edge.teCondition, edge.twoBodyOneWake, edge.sharpSameSurface] at h
    | cons c cs =>
      refine ⟨calls.length, by simp [hc], by simp [hc], ?_⟩
      rw [← hc, List.take_length]
      exact (hcond calls g2 _ hcalls hg2 hed2).symm.trans h

theorem isTE_iff_condition_after_some_call_witness :
    (0 < (demoGeometry ℝ).nodes.length ∧ 1 < (demoGeometry ℝ).nodes.length ∧
      ∀ c ∈ demoCalls, c.valid (demoGeometry ℝ) = true) ∧
    ∃ g1 e g2 ed2, edge.construct (demoGeometry ℝ) 0 1 = some (g1, e) ∧
      applyCalls (libm.mk Real.cos Real.sin Real.arccos Real.pi Real.sqrt) e demoCalls g1 =
        some g2 ∧
      g2.edges[e]? = some ed2 ∧
      (isTE g2 e = some true ↔
        ∃ k, 0 < k ∧ k ≤ demoCalls.length ∧ ∃ gk edk,
          applyCalls (libm.mk Real.cos Real.sin Real.arccos Real.pi Real.sqrt) e
            (demoCalls.take k) g1 = some gk ∧
          gk.edges[e]? = some edk ∧
          (edk.twoBodyOneWake ||
            edk.sharpSameSurface (libm.mk Real.cos Real.sin Real.arccos Real.pi Real.sqrt) gk) =
            true) ∧
      ((ed2.twoBodyOneWake ||
          ed2.sharpSameSurface (libm.mk Real.cos Real.sin Real.arccos Real.pi Real.sqrt) g2) = true →
        isTE g2 e = some true) :=
  ⟨⟨by simp [demoGeometry], by simp [demoGeometry],
      by simp [demoCalls, edgeCall.valid, demoGeometry]⟩,
    isTE_iff_condition_after_some_call _ (demoGeometry ℝ) 0 1 demoCalls
      (by simp [demoGeometry]) (by simp [demoGeometry])
      (by simp [demoCalls, edgeCall.valid, demoGeometry])⟩

/-- C10 (counterexample). Over the reals with the real `acos`: an edge to which two body
panels with different surface ids, then two wake panels are added has `isTE()` true, although
it has two wake panels, so (a) fails, and its body panels differ in surface id, so (b)
fails. -/
theorem isTE_true_without_current_condition :
    ∃ g1 e g2 ed2, edge.construct (demoGeometry ℝ) 0 1 = some (g1, e) ∧
      applyCalls (libm.mk Real.cos Real.sin Real.arccos Real.pi Real.sqrt) e demoCalls g1 =
        some g2 ∧
      g2.edges[e]? = some ed2 ∧ isTE g2 e = some true ∧
      ed2.bodyPans = [0, 1] ∧ ed2.wakePans = [0, 1] ∧
      ed2.twoBodyOneWake = false ∧
      ed2.sharpSameSurface (libm.mk Real.cos Real.sin Real.arccos Real.pi Real.sqrt) g2 = false := by
  obtain ⟨g1, hg1, hed1, hl1, hb1, hw1⟩ := construct_spec (demoGeometry ℝ) 0 1
    (by simp [demoGeometry]) (by simp [demoGeometry])
  obtain ⟨g2, hg2, hed2, -, -, -, hmap2⟩ := applyCalls_spec
    (libm.mk Real.cos Real.sin Real.arccos Real.pi Real.sqrt) (demoGeometry ℝ).edges.length
    demoCalls g1 ⟨0, 1, [], [], false⟩ hed1 (by rw [hl1]; simp [demoGeometry])
    (by rw [hl1]; simp [demoGeometry]) (by simp) (by simp)
    (by simp [demoCalls, edgeCall.valid, hb1, hw1, demoGeometry])
  refine ⟨g1, _, g2, _, hg1, hg2, hed2, ?_, ?_, ?_, ?_, ?_⟩
  · simp [isTE, hed2, demoCalls, teHistory, edge.extend, edge.teCondition, edge.twoBodyOneWake]
  · simp [demoCalls, edge.extend]
  · simp [demoCalls, edge.extend]
  · simp [demoCalls, edge.extend, edge.twoBodyOneWake]
  · rw [sharp_congr (libm.mk Real.cos Real.sin Real.arccos Real.pi Real.sqrt) g1 g2
      ⟨0, 1, [0, 1], [0, 1], false⟩ _ (by simp [demoCalls, edge.extend]) hmap2]
    simp [edge.sharpSameSurface, hb1, demoGeometry]

/-! ## The driver `run` -/

/-- The flag of the last solve of a history extended by one call. -/
theorem lastSolve_append (t : List call) (c : call) :
    lastSolve (t ++ [c]) =
      match c.solveFlag with
      | some b => some b
      | none => lastSolve t := by
  unfold lastSolve
  rw [List.foldl_append]
  rfl

/-- `hasParents` reads only the two parent pointers. -/
theorem hasParents_congr {K : Type} (wl wl2 : List (wakePanel K)) (n : Nat)
    (h : wl2.map (fun w => (w.upperPan, w.lowerPan)) = wl.map (fun w => (w.upperPan, w.lowerPan)))
    (hp : ∀ w ∈ wl, w.hasParents n = true) : ∀ w ∈ wl2, w.hasParents n = true := by
  intro w hw
  have hm : (w.upperPan, w.lowerPan) ∈ wl2.map (fun w => (w.upperPan, w.lowerPan)) :=
    List.mem_map_of_mem _ hw
  rw [h, List.mem_map] at hm
  obtain ⟨v, hv, hvw⟩ := hm
  have := hp v hv
  unfold wakePanel.hasParents at this ⊢
  rw [← (Prod.mk.inj hvw).1, ← (Prod.mk.inj hvw).2]
  exact this

/-- `setSourceStrengths` returns and keeps the case ready for a solve. -/
theorem setSourceStrengths_keeps {K : Type} [Field K] (ext : externals K) :
    keepsWellFormed (setSourceStrengths ext) := by
  intro s hs
  refine ⟨_, setSourceStrengths_eq ext s, ?_, ?_⟩
  · simpa using hs.1
  · simpa using hs.2

/-- `compVelocity` returns and keeps the case ready for a solve. -/
theorem compVelocity_keeps {K : Type} [Field K] (ext : externals K) :
    keepsWellFormed (compVelocity ext) := by
  intro s hs
  obtain ⟨bl, hbl, -, hc⟩ := compVelocity_eq ext s
  refine ⟨_, hc s.Fbody s.CM, ?_, ?_⟩
  · simpa [hbl] using hs.1
  · simpa [hbl] using hs.2

/-- Both solves return on a case that is ready, and keep it ready. -/
theorem solve_keeps {K : Type} [LinearOrderedField K] (ext : externals K)
    (hsolver : ∀ A b, (ext.bicgstab A b).1.length = A.length) (s : cpCase K)
    (hs : wellFormed s) (prev : Bool) :
    ∃ c s2, (if prev then solveVPmatrixEq ext s else solveMatrixEq ext s) = some (c, s2) ∧
      wellFormed s2 := by
  have hx : (solverResult ext s).1.length = s.bPanels.length := by
    unfold solverResult
    rw [hsolver, hs.1]
  obtain ⟨bl, wl, h, hb, hp, -, -⟩ := solve_spec ext s hx hs.2 prev
  have hbl : bl.length = s.bPanels.length := by
    rw [← hx, ← hb, List.length_map]
  refine ⟨_, _, h, ?_, ?_⟩
  · simpa [hbl] using hs.1
  · simp only [hbl]
    exact hasParents_congr s.wPanels wl _ hp hs.2

/-- A recorded call of a member function that keeps the case ready, other than a solve,
keeps the invariant of `run`. -/
theorem call_good {K : Type} (f : cpCase K → Option (cpCase K)) (hf : keepsWellFormed f)
    (name : call) (hname : name.solveFlag = none) (conv : Bool) (r : runState K)
    (hr : runGood (conv, r)) : ∃ r2, r.call name f = some r2 ∧ runGood (conv, r2) := by
  obtain ⟨s2, hs2, hwf⟩ := hf r.c hr.1
  refine ⟨{ r with c := s2, trace := r.trace ++ [name] }, ?_, hwf, hr.2.1, ?_⟩
  · simp [runState.call, hs2]
  · show lastSolve (r.trace ++ [name]) = some conv
    rw [lastSolve_append, hname]
    exact hr.2.2

/-- Insertions other than the warning keep the invariant of `run`. -/
theorem print_good {K : Type} (items : List (coutItem K))
    (hitems : coutItem.str warning ∉ items) (conv : Bool) (r : runState K)
    (hr : runGood (conv, r)) : runGood (conv, r.print items) := by
  refine ⟨hr.1, ?_, hr.2.2⟩
  show coutItem.str warning ∉ r.cout ++ items
  simp only [List.mem_append, not_or]
  exact ⟨hr.2.1, hitems⟩

/-- A solve keeps the invariant of `run`, with the flag it returns as the new value of
`converged`. -/
theorem solve_good {K : Type} [LinearOrderedField K] (ext : externals K)
    (hsolver : ∀ A b, (ext.bicgstab A b).1.length = A.length) (prev : Bool) (conv : Bool)
    (r : runState K) (hr : runGood (conv, r)) :
    ∃ c s2, (if prev then solveVPmatrixEq ext r.c else solveMatrixEq ext r.c) = some (c, s2) ∧
      runGood (c, { r with
        c := s2
        trace := r.trace ++ [if prev then call.solveVPmatrixEq c else call.solveMatrixEq c] }) := by
  obtain ⟨c, s2, h, hwf⟩ := solve_keeps ext hsolver r.c hr.1 prev
  refine ⟨c, s2, h, hwf, hr.2.1, ?_⟩
  show lastSolve (r.trace ++ [if prev then call.solveVPmatrixEq c else call.solveMatrixEq c]) =
    some c
  rw [lastSolve_append]
  cases prev <;> rfl

/-- The rebuild of the octree keeps the case ready for a solve. -/
theorem rebuildOctree_keeps {K : Type} [Field K] :
    keepsWellFormed (fun s : cpCase K => some (rebuildOctree s)) := by
  intro s hs
  exact ⟨_, rfl, hs.1, hs.2⟩

/-- One time step of `run` returns and keeps the invariant of `run`. -/
theorem runStep_good {K : Type} [LinearOrderedField K] (ext : externals K) (ops : runOps K)
    (hsolver : ∀ A b, (ext.bicgstab A b).1.length = A.length) (hops : ops.keep)
    (st : Bool × runState K) (hst : runGood st) :
    ∃ st2, runStep ext ops st = some st2 ∧ runGood st2 := by
  obtain ⟨conv, r⟩ := st
  obtain ⟨hwrite, hcollapse, hconvect, -, -, -⟩ := hops
  have g0 := print_good [coutItem.str "Time step ", coutItem.int r.c.timeStep, coutItem.str "/",
    coutItem.dbl (r.c.numSteps : K), coutItem.str ". Flow time = ",
    coutItem.dbl ((r.c.timeStep : K) * r.c.dt), coutItem.endl] (by simp [warning]) conv r hst
  obtain ⟨r1, h1, g1⟩ := call_good _ hcollapse call.collapseWakeForEachEdge rfl conv _ g0
  obtain ⟨r2, h2, g2⟩ : ∃ r2, (if r1.c.accelerate then
      r1.call call.rebuildOctree (fun s => some (rebuildOctree s)) else some r1) = some r2 ∧
      runGood (conv, r2) := by
    cases r1.c.accelerate
    · exact ⟨r1, rfl, g1⟩
    · exact call_good _ rebuildOctree_keeps call.rebuildOctree rfl conv r1 g1
  have g3 := print_good [coutItem.str "Setting source strengths...", coutItem.endl]
    (by simp [warning]) conv r2 g2
  obtain ⟨r4, h4, g4⟩ := call_good _ (setSourceStrengths_keeps ext) call.setSourceStrengths rfl
    conv _ g3
  have g5 := print_good [coutItem.str "Solving singularity strengths...", coutItem.endl]
    (by simp [warning]) conv r4 g4
  obtain ⟨c, s6, h6, g6⟩ := solve_good ext hsolver true conv _ g5
  simp only [if_true] at h6 g6
  have g7 := print_good [coutItem.str "writing files", coutItem.endl] (by simp [warning]) c _ g6
  obtain ⟨r8, h8, g8⟩ := call_good _ hwrite call.writeFiles rfl c _ g7
  have g9 : runGood (c, r8.incTimeStep) := ⟨⟨g8.1.1, g8.1.2⟩, g8.2.1, g8.2.2⟩
  have g10 := print_good [coutItem.str "Convecting ",
    coutItem.int r8.incTimeStep.c.particles.length, coutItem.str " particles", coutItem.endl]
    (by simp [warning]) c _ g9
  obtain ⟨r11, h11, g11⟩ := call_good _ hconvect call.convectParticles rfl c _ g10
  refine ⟨(c, r11), ?_, g11⟩
  simp only [runStep, Option.bind_eq_bind]
  rw [h1]
  simp only [Option.some_bind]
  rw [h2]
  simp only [Option.some_bind]
  rw [h4]
  simp only [Option.some_bind]
  have h6b : solveVPmatrixEq ext (r4.print [coutItem.str "Solving singularity strengths...",
      coutItem.endl]).c = some (c, s6) := h6
  rw [h6b]
  simp only [Option.some_bind]
  rw [h8]
  simp only [Option.some_bind]
  rw [h11]
  simp only [Option.some_bind]

/-- The insertion of a mark keeps the invariant of `run`. -/
theorem mark_good {K : Type} (printFlag : Bool) (width : Nat) (text : String)
    (last : coutItem K) (htext : text ≠ warning) (hlast : last ≠ coutItem.str warning)
    (conv : Bool) (r : runState K) (hr : runGood (conv, r)) :
    runGood (conv, r.mark printFlag width text last) := by
  unfold runState.mark
  cases printFlag
  · exact hr
  · apply print_good _ _ conv r hr
    simp only [List.mem_cons, List.mem_singleton, List.not_mem_nil, or_false, not_or]
    refine ⟨by simp, by simp, ?_, fun h => hlast h.symm⟩
    intro h
    exact htext (coutItem.str.inj h).symm

/-- The block of a vortex-particle case returns and keeps the invariant of `run`. -/
theorem runUnsteady_good {K : Type} [LinearOrderedField K] (ext : externals K) (ops : runOps K)
    (hsolver : ∀ A b, (ext.bicgstab A b).1.length = A.length) (hops : ops.keep)
    (st : Bool × runState K) (hst : runGood st) :
    ∃ st2, runUnsteady ext ops st = some st2 ∧ runGood st2 := by
  obtain ⟨conv, r⟩ := st
  have g0 := print_good [coutItem.str "Writing timestep ", coutItem.int r.c.timeStep,
    coutItem.str " files...", coutItem.endl] (by simp [warning]) conv r hst
  obtain ⟨r1, h1, g1⟩ := call_good _ (compVelocity_keeps ext) call.compVelocity rfl conv _ g0
  obtain ⟨r2, h2, g2⟩ := call_good _ hops.1 call.writeFiles rfl conv _ g1
  have g3 : runGood (conv, r2.incTimeStep) := ⟨⟨g2.1.1, g2.1.2⟩, g2.2.1, g2.2.2⟩
  obtain ⟨st4, h4, g4⟩ := forLoop_invariant (fun _ st => runStep ext ops st)
    (fun _ st => runGood st) r2.incTimeStep.c.numSteps (conv, r2.incTimeStep) g3
    (fun _ t _ ht => runStep_good ext ops hsolver hops t ht)
  obtain ⟨c4, r4⟩ := st4
  have g5 := print_good [coutItem.str "CL=["] (by simp [warning]) c4 r4 g4
  have g6 := print_good
    ((r4.print [coutItem.str "CL=["]).c.CL.flatMap (fun cl => [coutItem.dbl cl, coutItem.str ", "]))
    (by simp [warning]) c4 _ g5
  have g7 := print_good [coutItem.str "];", coutItem.endl] (by simp [warning]) c4 _ g6
  refine ⟨_, ?_, g7⟩
  simp only [runUnsteady, Option.bind_eq_bind]
  rw [h1]
  simp only [Option.some_bind]
  rw [h2]
  simp only [Option.some_bind]
  rw [h4]
  simp only [Option.some_bind]

/-- The function `run` returns when its parts do; the warning is among its insertions
exactly when `printFlag` is set and the last solve returned `false`. -/
theorem run_spec {K : Type} [LinearOrderedField K] (ext : externals K) (ops : runOps K)
    (hsolver : ∀ A b, (ext.bicgstab A b).1.length = A.length) (hops : ops.keep)
    (printFlag surfStreamFlag stabDerivFlag vortPartFlag : Bool) (s : cpCase K)
    (hs : wellFormed s) :
    ∃ r conv, run ext ops printFlag surfStreamFlag stabDerivFlag vortPartFlag s = some r ∧
      lastSolve r.trace = some conv ∧
      (coutItem.str warning ∈ r.cout ↔ conv = false ∧ printFlag = true) := by
  obtain ⟨s1, hs1, hwf1⟩ := setSourceStrengths_keeps ext s hs
  obtain ⟨c0, s2, hs2, hwf2⟩ := solve_keeps ext hsolver s1 hwf1 false
  simp only [Bool.false_eq_true, if_false] at hs2
  have g2 : runGood (c0, (runState.mk s2 [] [call.setSourceStrengths, call.solveMatrixEq c0])) :=
    ⟨hwf2, by simp, rfl⟩
  have g3 := print_good [coutItem.str "starting wake", coutItem.endl] (by simp [warning]) c0 _ g2
  obtain ⟨st4, h4, g4⟩ : ∃ st4, (if vortPartFlag then runUnsteady ext ops (c0,
      (runState.mk s2 [] [call.setSourceStrengths, call.solveMatrixEq c0]).print [coutItem.str "starting wake", coutItem.endl])
      else some (c0, (runState.mk s2 [] [call.setSourceStrengths, call.solveMatrixEq c0]).print
          [coutItem.str "starting wake", coutItem.endl])) = some st4 ∧ runGood st4 := by
    cases vortPartFlag
    · exact ⟨_, rfl, g3⟩
    · exact runUnsteady_good ext ops hsolver hops _ g3
  obtain ⟨conv, r4⟩ := st4
  obtain ⟨hwrite, hcollapse, hconvect, htrefftz, hstream, hstab⟩ := hops
  have hcheck : check ≠ warning := by decide
  have hX : "X" ≠ warning := by decide
  have g5 := mark_good printFlag 17 check coutItem.flush hcheck (by simp) conv r4 g4
  obtain ⟨r6, h6, g6⟩ := call_good _ (compVelocity_keeps ext) call.compVelocity rfl conv _ g5
  have g7 := mark_good printFlag 17 check coutItem.flush hcheck (by simp) conv r6 g6
  obtain ⟨r8, h8, g8⟩ := call_good _ htrefftz call.trefftzPlaneAnalysis rfl conv _ g7
  have g9 := mark_good printFlag 18 check coutItem.flush hcheck (by simp) conv r8 g8
  obtain ⟨r10, h10, g10⟩ : ∃ r10, (if surfStreamFlag then
      ((r8.mark printFlag 18 check coutItem.flush).call call.createStreamlines
        ops.createStreamlines).map (fun r => r.mark printFlag 16 check coutItem.flush)
      else some ((r8.mark printFlag 18 check coutItem.flush).mark printFlag 16 "X"
        coutItem.flush)) = some r10 ∧ runGood (conv, r10) := by
    cases surfStreamFlag
    · exact ⟨_, rfl, mark_good printFlag 16 "X" coutItem.flush hX (by simp) conv _ g9⟩
    · obtain ⟨ra, ha, ga⟩ := call_good _ hstream call.createStreamlines rfl conv _ g9
      exact ⟨_, by simp [ha], mark_good printFlag 16 check coutItem.flush hcheck (by simp) conv _ ga⟩
  obtain ⟨r11, h11, g11⟩ : ∃ r11, (if stabDerivFlag then
      (r10.call call.stabilityDerivatives ops.stabilityDerivatives).map
        (fun r => r.mark printFlag 23 check coutItem.endl)
      else some (r10.mark printFlag 23 "X" coutItem.endl)) = some r11 ∧ runGood (conv, r11) := by
    cases stabDerivFlag
    · exact ⟨_, rfl, mark_good printFlag 23 "X" coutItem.endl hX (by simp) conv _ g10⟩
    · obtain ⟨ra, ha, ga⟩ := call_good _ hstab call.stabilityDerivatives rfl conv _ g10
      exact ⟨_, by simp [ha], mark_good printFlag 23 check coutItem.endl hcheck (by simp) conv _ ga⟩
  obtain ⟨r12, hr12⟩ : ∃ r12 : runState K, r12 =
      if !conv && printFlag then r11.print [coutItem.str warning, coutItem.endl] else r11 :=
    ⟨_, rfl⟩
  have g12 : wellFormed r12.c ∧ lastSolve r12.trace = some conv ∧
      (coutItem.str warning ∈ r12.cout ↔ conv = false ∧ printFlag = true) := by
    rw [hr12]
    cases conv <;> cases printFlag <;>
      simp [runState.print, g11.1, g11.2.2, g11.2.1]
  obtain ⟨r13, h13, g13⟩ : ∃ r13, (if printFlag then
      (if !vortPartFlag then r12.call call.writeFiles ops.writeFiles else some r12)
      else some r12) = some r13 ∧ lastSolve r13.trace = some conv ∧
      (coutItem.str warning ∈ r13.cout ↔ conv = false ∧ printFlag = true) := by
    have hcall : ∃ r13, r12.call call.writeFiles ops.writeFiles = some r13 ∧
        lastSolve r13.trace = some conv ∧
        (coutItem.str warning ∈ r13.cout ↔ conv = false ∧ printFlag = true) := by
      obtain ⟨sa, hsa, -⟩ := hwrite r12.c g12.1
      refine ⟨{ r12 with c := sa, trace := r12.trace ++ [call.writeFiles] }, ?_, ?_, g12.2.2⟩
      · simp [runState.call, hsa]
      · show lastSolve (r12.trace ++ [call.writeFiles]) = some conv
        rw [lastSolve_append]
        exact g12.2.1
    cases hp : printFlag
    · exact ⟨r12, rfl, g12.2.1, by simpa [hp] using g12.2.2⟩
    · cases vortPartFlag
      · simpa [hp] using hcall
      · exact ⟨r12, rfl, g12.2.1, by simpa [hp] using g12.2.2⟩
  refine ⟨r13, conv, ?_, g13⟩
  simp only [run, Option.bind_eq_bind]
  have hs1b : ({ c := s, cout := [], trace := [] } : runState K).call call.setSourceStrengths
      (setSourceStrengths ext) = some { c := s1, cout := [], trace := [call.setSourceStrengths] } := by
    simp [runState.call, hs1]
  rw [hs1b]
  simp only [Option.some_bind]
  rw [hs2]
  simp only [Option.some_bind, List.singleton_append]
  rw [h4]
  simp only [Option.some_bind]
  rw [h6]
  simp only [Option.some_bind]
  rw [h8]
  simp only [Option.some_bind]
  rw [h10]
  simp only [Option.some_bind]
  rw [h11]
  simp only [Option.some_bind]
  rw [← hr12, h13]
  simp only [Option.some_bind]

/-- C4 (amended). When the solver returns one value per row of `A`, the member functions
called by `run` return and keep the case ready for a solve, and the case is ready at the
start, `run` returns whatever the solves report; if `printFlag` is set and the last solve
made by `run` returned `false`, the warning `*** Warning : Solution did not converge ***` is
among the insertions of `run` into `std::cout`; if `printFlag` is clear it is not. -/
theorem run_warns_when_printing_and_last_solve_failed {K : Type} [LinearOrderedField K]
    (ext : externals K) (ops : runOps K)
    (hsolver : ∀ A b, (ext.bicgstab A b).1.length = A.length) (hops : ops.keep)
    (printFlag surfStreamFlag stabDerivFlag vortPartFlag : Bool) (s : cpCase K)
    (hs : wellFormed s) :
    ∃ r, run ext ops printFlag surfStreamFlag stabDerivFlag vortPartFlag s = some r ∧
      (printFlag = true → lastSolve r.trace = some false → coutItem.str warning ∈ r.cout) ∧
      (printFlag = false → coutItem.str warning ∉ r.cout) := by
  obtain ⟨r, conv, hrun, hlast, hiff⟩ := run_spec ext ops hsolver hops printFlag surfStreamFlag
    stabDerivFlag vortPartFlag s hs
  refine ⟨r, hrun, ?_, ?_⟩
  · intro hp hl
    rw [hlast] at hl
    exact hiff.mpr ⟨Option.some.inj hl, hp⟩
  · intro hp hmem
    have := (hiff.mp hmem).2
    rw [hp] at this
    exact absurd this (by simp)

/-- The solver of the examples returns one value per row of the matrix. -/
theorem demoExt_solver (A : MatrixXd ℚ) (b : VectorXd ℚ) :
    (demoExt.bicgstab A b).1.length = A.length := by
  simp [demoExt, mulVecXd]

/-- The member functions of the examples return and keep the case ready for a solve. -/
theorem demoOps_keep : demoOps.keep :=
  ⟨fun s hs => ⟨s, rfl, hs⟩, fun _ hs => ⟨_, rfl, hs.1, hs.2⟩, fun s hs => ⟨s, rfl, hs⟩,
    fun s hs => ⟨s, rfl, hs⟩, fun s hs => ⟨s, rfl, hs⟩, fun s hs => ⟨s, rfl, hs⟩⟩

theorem run_warns_when_printing_and_last_solve_failed_witness :
    ((∀ A b, (demoExt.bicgstab A b).1.length = A.length) ∧ demoOps.keep ∧ wellFormed demoCase) ∧
    ∃ r, run demoExt demoOps true false false true demoCase = some r ∧
      (true = true → lastSolve r.trace = some false → coutItem.str warning ∈ r.cout) ∧
      (true = false → coutItem.str warning ∉ r.cout) :=
  ⟨⟨demoExt_solver, demoOps_keep, rfl, by decide⟩,
    run_warns_when_printing_and_last_solve_failed demoExt demoOps demoExt_solver demoOps_keep
      true false false true demoCase ⟨rfl, by decide⟩⟩

/-- The calls of the run of the one-panel example without printing. -/
theorem tinyCase_trace_quiet :
    (run demoExtBack demoOps false false false false tinyCase).map (fun r => r.trace) =
      some [call.setSourceStrengths, call.solveMatrixEq false, call.compVelocity,
        call.trefftzPlaneAnalysis] := by
  simp [run, runState.call, runState.print, runState.mark,
    setSourceStrengths_eq, tinyCase, demoExtBack, demoExt, demoOps, demoBody,
    solveMatrixEq, writeBodyMu, forLoop, RHS, mulVecXd, negXd, rowDot,
    sourceVelocity, dot, bodyPanel.setSigma, bodyPanel.setMu, bodyPanel.setPotential,
    compVelocity, bodyPanel.computeVelocity, bodyPanel.computeCp, bodyToWind, vdiv]
  norm_num

set_option maxHeartbeats 4000000 in
/-- The calls of the vortex-particle run of the one-panel example with printing. -/
theorem tinyCase_trace_unsteady :
    (run demoExtBack demoOps true false false true tinyCase).map (fun r => r.trace) =
      some [call.setSourceStrengths, call.solveMatrixEq false, call.compVelocity, call.writeFiles,
        call.collapseWakeForEachEdge, call.setSourceStrengths, call.solveVPmatrixEq true,
        call.writeFiles, call.convectParticles, call.compVelocity,
        call.trefftzPlaneAnalysis] := by
  simp [run, runUnsteady, runStep, runState.call, runState.print, runState.mark,
    runState.incTimeStep, setSourceStrengths_eq, tinyCase, demoExtBack, demoExt, demoOps, demoBody,
    solveMatrixEq, solveVPmatrixEq, writeBodyMu, forLoop, RHS, mulVecXd, negXd, rowDot,
    sourceVelocity, dot, bodyPanel.setSigma, bodyPanel.setMu, bodyPanel.setPotential,
    compVelocity, bodyPanel.computeVelocity, bodyPanel.computeCp, bodyToWind, vdiv]
  norm_num

/-- C4 (counterexample). Two runs of the one-panel example in which the first solve does not
converge and the warning is not written: one with `printFlag` clear, and one vortex-particle
run of one time step with `printFlag` set, whose second and last solve converges. -/
theorem run_silent_after_failed_solve :
    (∃ r, run demoExtBack demoOps false false false false tinyCase = some r ∧
      call.solveMatrixEq false ∈ r.trace ∧ coutItem.str warning ∉ r.cout) ∧
    (∃ r, run demoExtBack demoOps true false false true tinyCase = some r ∧
      call.solveMatrixEq false ∈ r.trace ∧ call.solveVPmatrixEq true ∈ r.trace ∧
      coutItem.str warning ∉ r.cout) := by
  have hsolver : ∀ A b, (demoExtBack.bicgstab A b).1.length = A.length := demoExt_solver
  have hwf : wellFormed tinyCase := ⟨rfl, by decide⟩
  constructor
  · obtain ⟨r, conv, hrun, -, hiff⟩ := run_spec demoExtBack demoOps hsolver demoOps_keep
      false false false false tinyCase hwf
    have ht := tinyCase_trace_quiet
    rw [hrun] at ht
    have ht2 : r.trace = _ := Option.some.inj ht
    refine ⟨r, hrun, by rw [ht2]; simp, ?_⟩
    intro hmem
    exact absurd (hiff.mp hmem).2 (by simp)
  · obtain ⟨r, conv, hrun, hlast, hiff⟩ := run_spec demoExtBack demoOps hsolver demoOps_keep
      true false false true tinyCase hwf
    have ht := tinyCase_trace_unsteady
    rw [hrun] at ht
    have ht2 : r.trace = _ := Option.some.inj ht
    refine ⟨r, hrun, by rw [ht2]; simp, by rw [ht2]; simp, ?_⟩
    intro hmem
    have hc := (hiff.mp hmem).1
    rw [ht2, hc] at hlast
    exact absurd hlast (by decide)

/-! ## The parents of a trailing-edge wake panel -/

/-- C13. For edge number 2 (the far edge) of a wake panel whose ordered nodes 2 and 3 are the
points `R2` and `R3`, `edgeStrength` returns `(mu - mu_prev) * (R3 - R2)` when `startingWake`
is set and the zero vector otherwise. -/
theorem edgeStrength_far_edge {K : Type} [Field K] (wx : wakeExternals K) (g : geometry K)
    (s : cpCase K) (pan curEdge n2 n3 : Nat) (p : wakePanel K) (R2 R3 : Vector3d K)
    (hp : s.wPanels[pan]? = some p)
    (h2 : (wx.pointsInOrder pan)[2]? = some n2) (h3 : (wx.pointsInOrder pan)[3]? = some n3)
    (hR2 : getPnt g n2 = some R2) (hR3 : getPnt g n3 = some R3) :
    (s.startingWake = true → edgeStrength wx g s pan curEdge 2 =
      some ((p.doubletStrength - p.prevStrength) • (R3 - R2))) ∧
    (s.startingWake = false → edgeStrength wx g s pan curEdge 2 = some 0) := by
  constructor
  · intro hs
    simp [edgeStrength, hp, h2, h3, hR2, hR3, hs]
  · intro hs
    simp [edgeStrength, hp, h2, h3, hR2, hR3, hs]

theorem edgeStrength_far_edge_witness :
    ((wakeDemoCase ℚ 1 [] []).startingWake = true →
      edgeStrength (wakeDemoExt ℚ) (wakeDemoGeometry ℚ) (wakeDemoCase ℚ 1 [] []) 0 2 2 =
        some (((wakeDemoPanel ℚ 3 1).doubletStrength - (wakeDemoPanel ℚ 3 1).prevStrength) •
          ((![1, 0, 0] : Vector3d ℚ) - ![1, 1, 0]))) ∧
    ((wakeDemoCase ℚ 1 [] []).startingWake = false →
      edgeStrength (wakeDemoExt ℚ) (wakeDemoGeometry ℚ) (wakeDemoCase ℚ 1 [] []) 0 2 2 = some 0) :=
  edgeStrength_far_edge (wakeDemoExt ℚ) (wakeDemoGeometry ℚ) (wakeDemoCase ℚ 1 [] []) 0 2 4 3
    (wakeDemoPanel ℚ 3 1) ![1, 1, 0] ![1, 0, 0] rfl rfl rfl rfl rfl

/-- C14. For a side edge (edge number 1 or 3) of a wake panel with doublet strength `mu` whose
ordered nodes are the points `R0`, `R1`, `R2`, `R3`, with `d = R2 - R1` for edge number 1 and
`d = R0 - R3` for edge number 3: `edgeStrength` returns `(mu - mu_q) * d` when
`getOtherWakePan` finds another wake panel `q` on the edge, and `mu * d` when it finds
none. -/
theorem edgeStrength_side_edge {K : Type} [Field K] (wx : wakeExternals K) (g : geometry K)
    (s : cpCase K) (pan curEdge edgeNum n0 n1 n2 n3 : Nat) (p : wakePanel K) (ed : edge)
    (R0 R1 R2 R3 : Vector3d K) (hnum : edgeNum = 1 ∨ edgeNum = 3)
    (hp : s.wPanels[pan]? = some p) (hed : g.edges[curEdge]? = some ed)
    (h0 : (wx.pointsInOrder pan)[0]? = some n0) (h1 : (wx.pointsInOrder pan)[1]? = some n1)
    (h2 : (wx.pointsInOrder pan)[2]? = some n2) (h3 : (wx.pointsInOrder pan)[3]? = some n3)
    (hR0 : getPnt g n0 = some R0) (hR1 : getPnt g n1 = some R1)
    (hR2 : getPnt g n2 = some R2) (hR3 : getPnt g n3 = some R3) :
    (∀ (q : Nat) (other : wakePanel K), ed.getOtherWakePan pan = some q →
      s.wPanels[q]? = some other →
      edgeStrength wx g s pan curEdge edgeNum =
        some ((p.doubletStrength - other.doubletStrength) •
          (if edgeNum = 1 then R2 - R1 else R0 - R3))) ∧
    (ed.getOtherWakePan pan = none →
      edgeStrength wx g s pan curEdge edgeNum =
        some (p.doubletStrength • (if edgeNum = 1 then R2 - R1 else R0 - R3))) := by
  rcases hnum with rfl | rfl
  · constructor
    · intro q other hq hother
      simp [edgeStrength, hp, hed, h1, h2, hR1, hR2, hq, hother]
    · intro hq
      simp [edgeStrength, hp, hed, h1, h2, hR1, hR2, hq]
  · constructor
    · intro q other hq hother
      simp [edgeStrength, hp, hed, h0, h3, hR0, hR3, hq, hother]
    · intro hq
      simp [edgeStrength, hp, hed, h0, h3, hR0, hR3, hq]

theorem edgeStrength_side_edge_witness :
    (1 = 1 ∨ 1 = 3) ∧
    (∀ (q : Nat) (other : wakePanel ℚ),
      (edge.mk 1 4 [] [0, 1] false).getOtherWakePan 0 = some q →
      (wakeDemoCase ℚ 1 [] []).wPanels[q]? = some other →
      edgeStrength (wakeDemoExt ℚ) (wakeDemoGeometry ℚ) (wakeDemoCase ℚ 1 [] []) 0 1 1 =
        some (((wakeDemoPanel ℚ 3 1).doubletStrength - other.doubletStrength) •
          (if 1 = 1 then (![1, 1, 0] : Vector3d ℚ) - ![0, 1, 0] else ![0, 0, 0] - ![1, 0, 0]))) ∧
    ((edge.mk 1 4 [] [0, 1] false).getOtherWakePan 0 = none →
      edgeStrength (wakeDemoExt ℚ) (wakeDemoGeometry ℚ) (wakeDemoCase ℚ 1 [] []) 0 1 1 =
        some ((wakeDemoPanel ℚ 3 1).doubletStrength •
          (if 1 = 1 then (![1, 1, 0] : Vector3d ℚ) - ![0, 1, 0] else ![0, 0, 0] - ![1, 0, 0]))) :=
  ⟨Or.inl rfl,
    edgeStrength_side_edge (wakeDemoExt ℚ) (wakeDemoGeometry ℚ) (wakeDemoCase ℚ 1 [] []) 0 1 1
      0 1 4 3 (wakeDemoPanel ℚ 3 1) (edge.mk 1 4 [] [0, 1] false)
      ![0, 0, 0] ![0, 1, 0] ![1, 1, 0] ![1, 0, 0] (Or.inl rfl) rfl rfl rfl rfl rfl rfl
      rfl rfl rfl rfl⟩

/-- What holds before a loop and is kept by every pass that returns holds after the loop,
if it returns. -/
theorem forLoop_preserves {σ : Type} (body : Nat → σ → Option σ) (P : σ → Prop) (n : Nat)
    (hstep : ∀ k t t', k < n → P t → body k t = some t' → P t') (s t : σ) (hs : P s)
    (h : forLoop body n s = some t) : P t := by
  induction n generalizing t with
  | zero =>
    simp only [forLoop, Option.some.injEq] at h
    exact h ▸ hs
  | succ k ih =>
    simp only [forLoop] at h
    cases hk : forLoop body k s with
    | none => simp [hk] at h
    | some u =>
      rw [hk] at h
      exact hstep k u t (Nat.lt_succ_self k)
        (ih (fun j a b hj => hstep j a b (Nat.lt_succ_of_lt hj)) u hk) h

/-- The edge numbers 0 to 3 never take `seedPos` to its error branch. -/
theorem seedPos_not_exited {K : Type} [Field K] (m : libm K) (wx : wakeExternals K)
    (s : cpCase K) (pan j : Nat) (hj : j ≤ 3) : seedPos m wx s pan j ≠ some exits.exited := by
  have h4 : j = 0 ∨ j = 1 ∨ j = 2 ∨ j = 3 := by omega
  rcases h4 with rfl | rfl | rfl | rfl
  · unfold seedPos
    cases h0 : (wx.pointsInOrder pan)[0]? <;> cases h1 : (wx.pointsInOrder pan)[1]? <;> simp [h0, h1]
  · unfold seedPos
    cases h1 : (wx.pointsInOrder pan)[1]? <;> simp [h1]
  · unfold seedPos
    cases h0 : (wx.pointsInOrder pan)[0]? <;> cases h1 : (wx.pointsInOrder pan)[1]? <;> simp [h0, h1]
  · unfold seedPos
    cases h0 : (wx.pointsInOrder pan)[0]? <;> simp [h0]

/-- A pass of the inner loop of the collapse for an edge number from 1 to 3 does not exit. -/
theorem collapseEdge_not_exited {K : Type} [Field K] (m : libm K) (wx : wakeExternals K)
    (g : geometry K) (i j : Nat) (hj : j ≤ 3) (st st' : exits (List Nat × cpCase K))
    (hst : st ≠ exits.exited) (h : collapseEdge m wx g i j st = some st') :
    st' ≠ exits.exited := by
  cases st with
  | exited => exact absurd rfl hst
  | returned x =>
    obtain ⟨used, s⟩ := x
    intro hex
    subst hex
    unfold collapseEdge at h
    cases he : (wx.edgesInOrder i)[j]? with
    | none => simp [he] at h
    | some e =>
      by_cases hu : edgeIsUsed e used = true
      · simp [he, hu] at h
      · cases hsp : seedPos m wx s i j with
        | none => simp [he, hu, hsp] at h
        | some r =>
          cases r with
          | exited => exact seedPos_not_exited m wx s i j hj hsp
          | returned pos =>
            cases hes : edgeStrength wx g s i e j with
            | none => simp [he, hu, hsp, hes] at h
            | some str => simp [he, hu, hsp, hes] at h

/-- The collapse of the wake never exits. -/
theorem collapse_not_exited {K : Type} [Field K] (m : libm K) (wx : wakeExternals K)
    (g : geometry K) (s : cpCase K) : collapseWakeForEachEdge m wx g s ≠ some exits.exited := by
  intro h
  unfold collapseWakeForEachEdge at h
  cases hp : collapseParticles m wx g s with
  | none => simp [hp] at h
  | some st =>
    have hne : st ≠ exits.exited := by
      refine forLoop_preserves _ (fun t => t ≠ exits.exited) _ ?_ _ _ (by simp) hp
      intro i t t' _ ht hbody
      refine forLoop_preserves _ (fun t => t ≠ exits.exited) 3 ?_ t t' ht hbody
      intro k u u' hk hu hbk
      exact collapseEdge_not_exited m wx g i (k + 1) (by omega) u u' hu hbk
    cases st with
    | exited => exact hne rfl
    | returned x =>
      obtain ⟨used, s2⟩ := x
      cases hf : collapseFilaments wx g s2 with
      | none => simp [hp, hf] at h
      | some s3 => simp [hp, hf] at h

/-- C15. For a wake panel whose ordered nodes 0 and 1 are `n0` and `n1`, and for every edge
number from 0 to 3, `seedPos` returns the midpoint of two projected nodes of the panel:
the first projections of `n0` and `n1` for edge 0, the first and second projection of `n1`
for edge 1, the second projections of `n0` and `n1` for edge 2, and the first and second
projection of `n0` for edge 3.  The error branch is taken exactly for the edge numbers above
3, and `collapseWakeForEachEdge` never ends in it. -/
theorem seedPos_is_midpoint {K : Type} [Field K] (m : libm K) (wx : wakeExternals K)
    (s : cpCase K) (pan n0 n1 : Nat)
    (h0 : (wx.pointsInOrder pan)[0]? = some n0) (h1 : (wx.pointsInOrder pan)[1]? = some n1) :
    seedPos m wx s pan 0 = some (exits.returned (vdiv
      (wx.firstProjNode n0 s.dt (norm3 m s.Vinf) + wx.firstProjNode n1 s.dt (norm3 m s.Vinf)) 2)) ∧
    seedPos m wx s pan 1 = some (exits.returned (vdiv
      (wx.firstProjNode n1 s.dt (norm3 m s.Vinf) + wx.secProjNode n1 s.dt (norm3 m s.Vinf)) 2)) ∧
    seedPos m wx s pan 2 = some (exits.returned (vdiv
      (wx.secProjNode n0 s.dt (norm3 m s.Vinf) + wx.secProjNode n1 s.dt (norm3 m s.Vinf)) 2)) ∧
    seedPos m wx s pan 3 = some (exits.returned (vdiv
      (wx.firstProjNode n0 s.dt (norm3 m s.Vinf) + wx.secProjNode n0 s.dt (norm3 m s.Vinf)) 2)) ∧
    (∀ j, seedPos m wx s pan j = some exits.exited ↔ 3 < j) ∧
    (∀ (g : geometry K) (c : cpCase K), collapseWakeForEachEdge m wx g c ≠ some exits.exited) := by
  refine ⟨by simp [seedPos, h0, h1], by simp [seedPos, h1], by simp [seedPos, h0, h1],
    by simp [seedPos, h0], ?_, fun g c => collapse_not_exited m wx g c⟩
  intro j
  constructor
  · intro hj
    by_contra hle
    exact seedPos_not_exited m wx s pan j (by omega) hj
  · intro hj
    have e0 : j ≠ 0 := by omega
    have e1 : j ≠ 1 := by omega
    have e2 : j ≠ 2 := by omega
    have e3 : j ≠ 3 := by omega
    simp [seedPos, e0, e1, e2, e3]

theorem seedPos_is_midpoint_witness :
    seedPos demoLibm (wakeDemoExt ℚ) (wakeDemoCase ℚ 1 [] []) 0 0 = some (exits.returned (vdiv
      ((wakeDemoExt ℚ).firstProjNode 0 (wakeDemoCase ℚ 1 [] []).dt
          (norm3 demoLibm (wakeDemoCase ℚ 1 [] []).Vinf) +
        (wakeDemoExt ℚ).firstProjNode 1 (wakeDemoCase ℚ 1 [] []).dt
          (norm3 demoLibm (wakeDemoCase ℚ 1 [] []).Vinf)) 2)) ∧
    seedPos demoLibm (wakeDemoExt ℚ) (wakeDemoCase ℚ 1 [] []) 0 1 = some (exits.returned (vdiv
      ((wakeDemoExt ℚ).firstProjNode 1 (wakeDemoCase ℚ 1 [] []).dt
          (norm3 demoLibm (wakeDemoCase ℚ 1 [] []).Vinf) +
        (wakeDemoExt ℚ).secProjNode 1 (wakeDemoCase ℚ 1 [] []).dt
          (norm3 demoLibm (wakeDemoCase ℚ 1 [] []).Vinf)) 2)) ∧
    seedPos demoLibm (wakeDemoExt ℚ) (wakeDemoCase ℚ 1 [] []) 0 2 = some (exits.returned (vdiv
      ((wakeDemoExt ℚ).secProjNode 0 (wakeDemoCase ℚ 1 [] []).dt
          (norm3 demoLibm (wakeDemoCase ℚ 1 [] []).Vinf) +
        (wakeDemoExt ℚ).secProjNode 1 (wakeDemoCase ℚ 1 [] []).dt
          (norm3 demoLibm (wakeDemoCase ℚ 1 [] []).Vinf)) 2)) ∧
    seedPos demoLibm (wakeDemoExt ℚ) (wakeDemoCase ℚ 1 [] []) 0 3 = some (exits.returned (vdiv
      ((wakeDemoExt ℚ).firstProjNode 0 (wakeDemoCase ℚ 1 [] []).dt
          (norm3 demoLibm (wakeDemoCase ℚ 1 [] []).Vinf) +
        (wakeDemoExt ℚ).secProjNode 0 (wakeDemoCase ℚ 1 [] []).dt
          (norm3 demoLibm (wakeDemoCase ℚ 1 [] []).Vinf)) 2)) ∧
    (∀ j, seedPos demoLibm (wakeDemoExt ℚ) (wakeDemoCase ℚ 1 [] []) 0 j = some exits.exited ↔
      3 < j) ∧
    (∀ (g : geometry ℚ) (c : cpCase ℚ),
      collapseWakeForEachEdge demoLibm (wakeDemoExt ℚ) g c ≠ some exits.exited) :=
  seedPos_is_midpoint demoLibm (wakeDemoExt ℚ) (wakeDemoCase ℚ 1 [] []) 0 0 1 rfl rfl

/-! ## Wake collapse: one particle for each edge -/

theorem edgeIsUsed_iff (e : Nat) (l : List Nat) : edgeIsUsed e l = true ↔ e ∈ l := by
  induction l with
  | nil => simp [edgeIsUsed]
  | cons a l ih =>
    by_cases h : e = a
    · simp [edgeIsUsed, h]
    · simp [edgeIsUsed, h, ih]

theorem getOtherWakePan_mem (ed : edge) (pan q : Nat) (h : ed.getOtherWakePan pan = some q) :
    q ∈ ed.wakePans :=
  List.mem_of_find?_eq_some h

/-- With valid pointers `edgeStrength` returns for the edge numbers 1 to 3. -/
theorem edgeStrength_some {K : Type} [Field K] (wx : wakeExternals K) (g : geometry K)
    (s : cpCase K) (h : wakeReady wx g s) (i j e : Nat) (hi : i < s.wPanels.length)
    (h1 : 1 ≤ j) (h3 : j ≤ 3) (he : (wx.edgesInOrder i)[j]? = some e) :
    ∃ str, edgeStrength wx g s i e j = some str := by
  obtain ⟨-, n0, nd0, hn0, hd0⟩ := h i hi 0 (by omega)
  obtain ⟨-, n1, nd1, hn1, hd1⟩ := h i hi 1 (by omega)
  obtain ⟨-, n2, nd2, hn2, hd2⟩ := h i hi 2 (by omega)
  obtain ⟨-, n3, nd3, hn3, hd3⟩ := h i hi 3 (by omega)
  obtain ⟨⟨e', ed, he', hed, hwp⟩, -⟩ := h i hi j (by omega)
  rw [he] at he'
  cases he'
  have hp : s.wPanels[i]? = some (s.wPanels[i]) := List.getElem?_eq_getElem hi
  have hother : ∀ q, ed.getOtherWakePan i = some q → ∃ w, s.wPanels[q]? = some w := by
    intro q hq
    exact ⟨_, List.getElem?_eq_getElem (hwp q (getOtherWakePan_mem ed i q hq))⟩
  have h3cases : j = 1 ∨ j = 2 ∨ j = 3 := by omega
  rcases h3cases with rfl | rfl | rfl
  · cases hq : ed.getOtherWakePan i with
    | none => exact Option.isSome_iff_exists.mp (by simp [edgeStrength, hp, hed, hn1, hn2, getPnt, hd1, hd2, hq])
    | some q =>
      obtain ⟨w, hw⟩ := hother q hq
      exact Option.isSome_iff_exists.mp (by simp [edgeStrength, hp, hed, hn1, hn2, getPnt, hd1, hd2, hq, hw])
  · by_cases hs : s.startingWake = true
    · exact Option.isSome_iff_exists.mp (by simp [edgeStrength, hp, hn2, hn3, getPnt, hd2, hd3, hs])
    · exact Option.isSome_iff_exists.mp (by simp [edgeStrength, hp, hn2, hn3, getPnt, hd2, hd3, hs])
  · cases hq : ed.getOtherWakePan i with
    | none => exact Option.isSome_iff_exists.mp (by simp [edgeStrength, hp, hed, hn0, hn3, getPnt, hd0, hd3, hq])
    | some q =>
      obtain ⟨w, hw⟩ := hother q hq
      exact Option.isSome_iff_exists.mp (by simp [edgeStrength, hp, hed, hn0, hn3, getPnt, hd0, hd3, hq, hw])

/-- With valid pointers `seedPos` returns a point for the edge numbers 1 to 3. -/
theorem seedPos_some {K : Type} [Field K] (m : libm K) (wx : wakeExternals K) (g : geometry K)
    (s : cpCase K) (h : wakeReady wx g s) (i j : Nat) (hi : i < s.wPanels.length)
    (h3 : j ≤ 3) : ∃ pos, seedPos m wx s i j = some (exits.returned pos) := by
  obtain ⟨-, n0, nd0, hn0, -⟩ := h i hi 0 (by omega)
  obtain ⟨-, n1, nd1, hn1, -⟩ := h i hi 1 (by omega)
  have h4 : j = 0 ∨ j = 1 ∨ j = 2 ∨ j = 3 := by omega
  rcases h4 with rfl | rfl | rfl | rfl
  · exact ⟨_, by simp [seedPos, hn0, hn1]; rfl⟩
  · exact ⟨_, by simp [seedPos, hn0, hn1]; rfl⟩
  · exact ⟨_, by simp [seedPos, hn0, hn1]; rfl⟩
  · exact ⟨_, by simp [seedPos, hn0, hn1]; rfl⟩

/-- One pass of the inner loop of the collapse keeps the invariant. -/
theorem collapseEdge_inv {K : Type} [Field K] (m : libm K) (wx : wakeExternals K)
    (g : geometry K) (s : cpCase K) (h : wakeReady wx g s) (i k : Nat)
    (hi : i < s.wPanels.length) (hk : k < 3) (st : exits (List Nat × cpCase K))
    (hinv : collapseInv m wx g s i k st) :
    ∃ st', collapseEdge m wx g i (k + 1) st = some st' ∧ collapseInv m wx g s i (k + 1) st' := by
  obtain ⟨emitted, news, used, rfl, hmap, hseed, hmem, hnd, hcov⟩ := hinv
  obtain ⟨⟨e, ed, he, -, -⟩, -⟩ := h i hi (k + 1) (by omega)
  obtain ⟨pos, hpos⟩ := seedPos_some m wx g s h i (k + 1) hi (by omega)
  obtain ⟨str, hstr⟩ := edgeStrength_some wx g s h i (k + 1) e hi (by omega) (by omega) he
  have hpos' : seedPos m wx { s with particles := s.particles ++ news } i (k + 1) =
      some (exits.returned pos) := hpos
  have hstr' : edgeStrength wx g { s with particles := s.particles ++ news } i e (k + 1) =
      some str := hstr
  have hat : edgeAt wx (i, k + 1) = some e := he
  have hpass : ∀ c : Nat × Nat, passedBy i k c → passedBy i (k + 1) c := by
    intro c hc
    rcases hc with hc | ⟨hc1, hc2⟩
    · exact Or.inl hc
    · exact Or.inr ⟨hc1, by omega⟩
  have hlast : ∀ c : Nat × Nat, passedBy i k c → passedBy i (k + 1) c ∧ ¬ (c.1 = i ∧ c.2 = k + 1) := by
    intro c hc
    refine ⟨hpass c hc, ?_⟩
    rintro ⟨h1, h2⟩
    rcases hc with hc | ⟨-, hc2⟩ <;> omega
  by_cases hu : e ∈ used
  · refine ⟨exits.returned (used, { s with particles := s.particles ++ news }), ?_, ?_⟩
    · simp [collapseEdge, he, (edgeIsUsed_iff e used).2 hu]
    · refine ⟨emitted, news, used, rfl, hmap, hseed, ?_, hnd, ?_⟩
      · intro c hc
        obtain ⟨a, b, c3, d⟩ := hmem c hc
        exact ⟨a, b, c3, hpass c d⟩
      · intro c hc1 hc2 hc3 hc4
        by_cases hnew : c.1 = i ∧ c.2 = k + 1
        · have hce : edgeAt wx c = some e := by
            obtain ⟨c1, c2⟩ := c
            obtain ⟨rfl, rfl⟩ := hnew
            exact hat
          have hin : some e ∈ emitted.map (edgeAt wx) := by
            rw [hmap]
            exact List.mem_map_of_mem some hu
          obtain ⟨c', hc', hce'⟩ := List.mem_map.1 hin
          refine ⟨c', hc', by rw [hce', hce], ?_⟩
          obtain ⟨-, -, -, hp⟩ := hmem c' hc'
          rcases hp with hp | ⟨hp1, hp2⟩
          · exact Or.inl (by omega)
          · exact Or.inr ⟨by omega, by omega⟩
        · have hold : passedBy i k c := by
            rcases hc4 with hc4 | ⟨hc41, hc42⟩
            · exact Or.inl hc4
            · exact Or.inr ⟨hc41, by
                by_contra hgt
                exact hnew ⟨hc41, by omega⟩⟩
          exact hcov c hc1 hc2 hc3 hold
  · have hu' : edgeIsUsed e used = false := by
      cases hb : edgeIsUsed e used with
      | false => rfl
      | true => exact absurd ((edgeIsUsed_iff e used).1 hb) hu
    have hsp : seedParticle m wx g s i (k + 1) = some
        { pos := pos, strength := str, radius := wx.getPartRadius i s.Vinf s.dt,
          previousVelInfl := 0, previousStrengthUpdate := 0, velOn := wx.velOn } := by
      simp [seedParticle, he, hpos, hstr]
    refine ⟨exits.returned (used ++ [e], { s with particles := s.particles ++ (news ++
      [{ pos := pos, strength := str, radius := wx.getPartRadius i s.Vinf s.dt,
         previousVelInfl := 0, previousStrengthUpdate := 0, velOn := wx.velOn }]) }), ?_, ?_⟩
    · simp [collapseEdge, he, hu', hpos', hstr']
    · refine ⟨emitted ++ [(i, k + 1)], _, used ++ [e], rfl, ?_, ?_, ?_, ?_, ?_⟩
      · simp [hmap, hat]
      · simp [hseed, hsp]
      · intro c hc
        rcases List.mem_append.1 hc with hc | hc
        · obtain ⟨a, b, c3, d⟩ := hmem c hc
          exact ⟨a, b, c3, hpass c d⟩
        · have hceq : c = (i, k + 1) := by simpa using hc
          subst hceq
          exact ⟨hi, by simp, by simp; omega, Or.inr ⟨rfl, le_refl _⟩⟩
      · rw [List.nodup_append]
        refine ⟨hnd, by simp, ?_⟩
        intro a ha hb
        have : a = e := by simpa using hb
        exact hu (this ▸ ha)
      · intro c hc1 hc2 hc3 hc4
        by_cases hnew : c.1 = i ∧ c.2 = k + 1
        · refine ⟨(i, k + 1), by simp, ?_, ?_⟩
          · obtain ⟨c1, c2⟩ := c
            obtain ⟨rfl, rfl⟩ := hnew
            rfl
          · exact Or.inr ⟨hnew.1.symm, by simp [hnew.2]⟩
        · have hold : passedBy i k c := by
            rcases hc4 with hc4 | ⟨hc41, hc42⟩
            · exact Or.inl hc4
            · exact Or.inr ⟨hc41, by
                by_contra hgt
                exact hnew ⟨hc41, by omega⟩⟩
          obtain ⟨c', hc', hce', hp'⟩ := hcov c hc1 hc2 hc3 hold
          exact ⟨c', List.mem_append_left _ hc', hce', hp'⟩

/-- The first loop nest of the collapse returns, with the invariant for all positions. -/
theorem collapseParticles_inv {K : Type} [Field K] (m : libm K) (wx : wakeExternals K)
    (g : geometry K) (s : cpCase K) (h : wakeReady wx g s) :
    ∃ st, collapseParticles m wx g s = some st ∧
      collapseInv m wx g s s.wPanels.length 0 st := by
  have hnext : ∀ (i : Nat) (st : exits (List Nat × cpCase K)),
      collapseInv m wx g s i 3 st → collapseInv m wx g s (i + 1) 0 st := by
    rintro i st ⟨emitted, news, used, rfl, hmap, hseed, hmem, hnd, hcov⟩
    refine ⟨emitted, news, used, rfl, hmap, hseed, ?_, hnd, ?_⟩
    · intro c hc
      obtain ⟨a, b, c3, d⟩ := hmem c hc
      refine ⟨a, b, c3, Or.inl ?_⟩
      rcases d with d | ⟨d1, -⟩ <;> omega
    · intro c hc1 hc2 hc3 hc4
      refine hcov c hc1 hc2 hc3 ?_
      rcases hc4 with hc4 | ⟨-, hc42⟩
      · by_cases hlt : c.1 < i
        · exact Or.inl hlt
        · exact Or.inr ⟨by omega, hc3⟩
      · omega
  unfold collapseParticles
  refine forLoop_invariant _ (fun (i : Nat) (st : exits (List Nat × cpCase K)) =>
    collapseInv m wx g s i 0 st) s.wPanels.length _ ?_ ?_
  · refine ⟨[], [], [], by simp, rfl, rfl, by simp, by simp, ?_⟩
    intro c _ hc2 _ hc4
    rcases hc4 with hc4 | ⟨-, hc42⟩ <;> omega
  · intro i st hi hinv
    obtain ⟨st', hst', hinv'⟩ := forLoop_invariant
      (fun k st => collapseEdge m wx g i (k + 1) st)
      (fun (k : Nat) (st : exits (List Nat × cpCase K)) => collapseInv m wx g s i k st)
      3 st hinv (fun k t hk ht => collapseEdge_inv m wx g s h i k hi hk t ht)
    exact ⟨st', hst', hnext i st' hinv'⟩

/-! ## Wake collapse: the filaments -/

/-- The loop that creates the filaments returns: it appends one filament for each wake panel,
from node 2 to node 3 of the panel, and records it in the panel. -/
theorem createFilament_loop {K : Type} [Field K] (wx : wakeExternals K) (g : geometry K)
    (s : cpCase K) (h : wakeReady wx g s) :
    ∃ (fl : List (vortexFil K)) (wl : List (wakePanel K)),
      forLoop (createFilament wx g) s.wPanels.length s =
        some { s with filaments := s.filaments ++ fl, wPanels := wl } ∧
      fl.length = s.wPanels.length ∧ wl.length = s.wPanels.length ∧
      (∀ i, wl[i]? = (s.wPanels[i]?).map
        (fun (w : wakePanel K) => { w with vortFil := some (s.filaments.length + i) })) ∧
      (∀ i, i < s.wPanels.length → ∃ w n2 n3 R2 R3, s.wPanels[i]? = some w ∧
        (wx.pointsInOrder i)[2]? = some n2 ∧ (wx.pointsInOrder i)[3]? = some n3 ∧
        getPnt g n2 = some R2 ∧ getPnt g n3 = some R3 ∧
        fl[i]? = some { p1 := R2, p2 := R3,
                        strength := if s.startingWake then -w.doubletStrength else 0,
                        parentPan := i }) := by
  have hinv := forLoop_invariant (createFilament wx g)
    (fun (k : Nat) (t : cpCase K) => ∃ (fl : List (vortexFil K)) (wl : List (wakePanel K)),
      t = { s with filaments := s.filaments ++ fl, wPanels := wl } ∧
      fl.length = k ∧ wl.length = s.wPanels.length ∧
      (∀ i, wl[i]? = if i < k then (s.wPanels[i]?).map
        (fun (w : wakePanel K) => { w with vortFil := some (s.filaments.length + i) })
        else s.wPanels[i]?) ∧
      (∀ i, i < k → ∃ w n2 n3 R2 R3, s.wPanels[i]? = some w ∧
        (wx.pointsInOrder i)[2]? = some n2 ∧ (wx.pointsInOrder i)[3]? = some n3 ∧
        getPnt g n2 = some R2 ∧ getPnt g n3 = some R3 ∧
        fl[i]? = some { p1 := R2, p2 := R3,
                        strength := if s.startingWake then -w.doubletStrength else 0,
                        parentPan := i }))
    s.wPanels.length s
    ⟨[], s.wPanels, by simp, rfl, rfl, by simp, by simp⟩
    (by
      rintro k t hk ⟨fl, wl, rfl, hfl, hwl, hget, hfil⟩
      obtain ⟨-, n2, nd2, hn2, hd2⟩ := h k hk 2 (by omega)
      obtain ⟨-, n3, nd3, hn3, hd3⟩ := h k hk 3 (by omega)
      have hwk : wl[k]? = some (s.wPanels[k]) := by
        rw [hget k]
        simp [List.getElem?_eq_getElem hk]
      refine ⟨{ s with
        filaments := s.filaments ++ (fl ++ [vortexFil.mk nd2.pnt nd3.pnt
          (if s.startingWake then -(s.wPanels[k]).doubletStrength else 0) k])
        wPanels := wl.set k { s.wPanels[k] with vortFil := some (s.filaments.length + k) } },
        ?_, _, _, rfl, by simp [hfl], by simp [hwl], ?_, ?_⟩
      · by_cases hs : s.startingWake = true
        · simp [createFilament, hwk, hn2, hn3, getPnt, hd2, hd3, hs, hfl]
        · simp [createFilament, hwk, hn2, hn3, getPnt, hd2, hd3, hs, hfl]
      · intro i
        rw [List.getElem?_set]
        by_cases hik : k = i
        · subst hik
          simp [hwl, hk, List.getElem?_eq_getElem hk]
        · have hne : i ≠ k := fun e => hik e.symm
          simp only [hik, if_false]
          rw [hget i]
          by_cases hlt : i < k
          · simp [hlt, Nat.lt_succ_of_lt hlt]
          · have : ¬ i < k + 1 := by omega
            simp [hlt, this]
      · intro i hi
        by_cases hlt : i < k
        · obtain ⟨w, m2, m3, R2, R3, a, b, c, d, e, f⟩ := hfil i hlt
          refine ⟨w, m2, m3, R2, R3, a, b, c, d, e, ?_⟩
          rw [List.getElem?_append_left (by omega)]
          exact f
        · have hik : i = k := by omega
          subst hik
          refine ⟨s.wPanels[i], n2, n3, nd2.pnt, nd3.pnt, List.getElem?_eq_getElem hk, hn2, hn3,
            by simp [getPnt, hd2], by simp [getPnt, hd3], ?_⟩
          rw [List.getElem?_append_right (by omega)]
          simp [hfl])
  obtain ⟨t, ht, fl, wl, rfl, hfl, hwl, hget, hfil⟩ := hinv
  refine ⟨fl, wl, ht, hfl, hwl, ?_, hfil⟩
  intro i
  rw [hget i]
  by_cases hi : i < s.wPanels.length
  · simp [hi]
  · simp only [hi, if_false]
    have : s.wPanels[i]? = none := by simp; omega
    simp [this]

/-- The loop that resets the filaments returns: filament `i` gets the circulation `-mu` of wake
panel `i`, and nothing else changes. -/
theorem resetFilament_loop {K : Type} [Field K] (s : cpCase K)
    (hlen : s.wPanels.length ≤ s.filaments.length) :
    ∃ fl : List (vortexFil K),
      forLoop resetFilament s.wPanels.length s = some { s with filaments := fl } ∧
      fl.length = s.filaments.length ∧
      (∀ i, i < s.wPanels.length → ∃ f w, s.filaments[i]? = some f ∧ s.wPanels[i]? = some w ∧
        fl[i]? = some { f with strength := -w.doubletStrength }) ∧
      (∀ i, s.wPanels.length ≤ i → fl[i]? = s.filaments[i]?) := by
  have hinv := forLoop_invariant resetFilament
    (fun (k : Nat) (t : cpCase K) => ∃ fl : List (vortexFil K),
      t = { s with filaments := fl } ∧ fl.length = s.filaments.length ∧
      (∀ i, i < k → ∃ f w, s.filaments[i]? = some f ∧ s.wPanels[i]? = some w ∧
        fl[i]? = some { f with strength := -w.doubletStrength }) ∧
      (∀ i, k ≤ i → fl[i]? = s.filaments[i]?))
    s.wPanels.length s ⟨s.filaments, rfl, rfl, by simp, by simp⟩
    (by
      rintro k t hk ⟨fl, rfl, hfl, hlow, hhigh⟩
      have hkf : k < s.filaments.length := by omega
      have hflk : fl[k]? = some (s.filaments[k]) := by
        rw [hhigh k (le_refl k)]
        exact List.getElem?_eq_getElem hkf
      obtain ⟨fk, hfk⟩ : ∃ fk : vortexFil K,
          fk = { s.filaments[k] with strength := -(s.wPanels[k]).doubletStrength } := ⟨_, rfl⟩
      refine ⟨{ s with filaments := fl.set k fk }, ?_, _, rfl, by simp [hfl], ?_, ?_⟩
      · simp [resetFilament, hflk, List.getElem?_eq_getElem hk, hfk]
      · intro i hi
        by_cases hlt : i < k
        · obtain ⟨f, w, a, b, c⟩ := hlow i hlt
          refine ⟨f, w, a, b, ?_⟩
          rw [List.getElem?_set_ne (by omega)]
          exact c
        · have hik : i = k := by omega
          subst hik
          refine ⟨s.filaments[i], s.wPanels[i], List.getElem?_eq_getElem hkf,
            List.getElem?_eq_getElem hk, ?_⟩
          rw [List.getElem?_set_self (by omega), hfk]
      · intro i hi
        rw [List.getElem?_set_ne (by omega)]
        exact hhigh i (by omega))
  obtain ⟨t, ht, fl, rfl, hfl, hlow, hhigh⟩ := hinv
  exact ⟨fl, ht, hfl, hlow, hhigh⟩

/-! ## Wake collapse: the whole call -/

/-- After the first loop nest the collapse runs its filament part on the resulting case. -/
theorem collapse_unfold {K : Type} [Field K] (m : libm K) (wx : wakeExternals K)
    (g : geometry K) (s s1 : cpCase K) (used : List Nat)
    (h : collapseParticles m wx g s = some (exits.returned (used, s1))) :
    collapseWakeForEachEdge m wx g s = (collapseFilaments wx g s1).map exits.returned := by
  unfold collapseWakeForEachEdge
  rw [h]
  cases hf : collapseFilaments wx g s1 <;> simp [hf]

/-- With valid pointers and enough filaments the filament part of the collapse returns and
changes only the filaments and the wake panels. -/
theorem collapseFilaments_frame {K : Type} [Field K] (wx : wakeExternals K) (g : geometry K)
    (s : cpCase K) (h : wakeReady wx g s)
    (hfil : s.timeStep = 1 ∨ s.wPanels.length ≤ s.filaments.length) :
    ∃ (fl : List (vortexFil K)) (wl : List (wakePanel K)),
      collapseFilaments wx g s = some { s with filaments := fl, wPanels := wl } := by
  unfold collapseFilaments
  by_cases ht : s.timeStep = 1
  · obtain ⟨fl, wl, hloop, -⟩ := createFilament_loop wx g s h
    exact ⟨s.filaments ++ fl, wl, by rw [if_pos ht, hloop]⟩
  · have hlen : s.wPanels.length ≤ s.filaments.length := by
      rcases hfil with hfil | hfil
      · exact absurd hfil ht
      · exact hfil
    obtain ⟨fl, hloop, -⟩ := resetFilament_loop s hlen
    refine ⟨fl, s.wPanels, ?_⟩
    rw [if_neg ht, ite_self, hloop]

/-- The example wake has valid pointers. -/
theorem wakeDemo_ready (K : Type) [Field K] (timeStep : Nat) (particles : List (particle K))
    (filaments : List (vortexFil K)) :
    wakeReady (wakeDemoExt K) (wakeDemoGeometry K) (wakeDemoCase K timeStep particles filaments) := by
  intro i hi j hj
  have hi2 : i < 2 := hi
  interval_cases i <;> interval_cases j <;>
    simp [wakeDemoExt, wakeDemoGeometry, wakeDemoCase]

/-- C12. One call of `collapseWakeForEachEdge` on a wake with valid pointers returns and
appends to the particles, leaving the earlier ones as they were, the seed particles of a
list `emitted` of positions (wake panel, edge number): every emitted position has an edge
number from 1 to 3, the edges at the emitted positions are all different, and every edge at an
edge number from 1 to 3 of some wake panel is the edge at exactly such an emitted position,
one that the loops visit no later (so a shared edge is seeded once, from the first panel). -/
theorem collapse_one_particle_per_edge {K : Type} [Field K] (m : libm K)
    (wx : wakeExternals K) (g : geometry K) (s : cpCase K) (h : wakeReady wx g s)
    (hfil : s.timeStep = 1 ∨ s.wPanels.length ≤ s.filaments.length) :
    ∃ (s2 : cpCase K) (emitted : List (Nat × Nat)) (news : List (particle K)),
      collapseWakeForEachEdge m wx g s = some (exits.returned s2) ∧
      s2.particles = s.particles ++ news ∧
      emitted.map (fun c => seedParticle m wx g s c.1 c.2) = news.map some ∧
      (∀ c ∈ emitted, c.1 < s.wPanels.length ∧ 1 ≤ c.2 ∧ c.2 ≤ 3) ∧
      (emitted.map (edgeAt wx)).Nodup ∧
      (∀ i j, i < s.wPanels.length → 1 ≤ j → j ≤ 3 →
        ∃ c ∈ emitted, edgeAt wx c = edgeAt wx (i, j) ∧ (c.1 < i ∨ (c.1 = i ∧ c.2 ≤ j))) := by
  obtain ⟨st, hst, emitted, news, used, rfl, hmap, hseed, hmem, hnd, hcov⟩ :=
    collapseParticles_inv m wx g s h
  obtain ⟨fl, wl, hf⟩ := collapseFilaments_frame wx g
    { s with particles := s.particles ++ news } h hfil
  refine ⟨{ s with particles := s.particles ++ news, filaments := fl, wPanels := wl },
    emitted, news, ?_, ?_, hseed, ?_, ?_, ?_⟩
  · rw [collapse_unfold m wx g s _ used hst, hf]
    rfl
  · rfl
  · intro c hc
    obtain ⟨a, b, c3, -⟩ := hmem c hc
    exact ⟨a, b, c3⟩
  · rw [hmap]
    exact hnd.map (Option.some_injective _)
  · intro i j hi h1 h3
    exact hcov (i, j) hi h1 h3 (Or.inl hi)

theorem collapse_one_particle_per_edge_witness :
    (wakeReady (wakeDemoExt ℚ) (wakeDemoGeometry ℚ) (wakeDemoCase ℚ 1 [] []) ∧
      ((wakeDemoCase ℚ 1 [] []).timeStep = 1 ∨
        (wakeDemoCase ℚ 1 [] []).wPanels.length ≤ (wakeDemoCase ℚ 1 [] []).filaments.length)) ∧
    ∃ (s2 : cpCase ℚ) (emitted : List (Nat × Nat)) (news : List (particle ℚ)),
      collapseWakeForEachEdge demoLibm (wakeDemoExt ℚ) (wakeDemoGeometry ℚ)
        (wakeDemoCase ℚ 1 [] []) = some (exits.returned s2) ∧
      s2.particles = (wakeDemoCase ℚ 1 [] []).particles ++ news ∧
      emitted.map (fun c => seedParticle demoLibm (wakeDemoExt ℚ) (wakeDemoGeometry ℚ)
        (wakeDemoCase ℚ 1 [] []) c.1 c.2) = news.map some ∧
      (∀ c ∈ emitted, c.1 < (wakeDemoCase ℚ 1 [] []).wPanels.length ∧ 1 ≤ c.2 ∧ c.2 ≤ 3) ∧
      (emitted.map (edgeAt (wakeDemoExt ℚ))).Nodup ∧
      (∀ i j, i < (wakeDemoCase ℚ 1 [] []).wPanels.length → 1 ≤ j → j ≤ 3 →
        ∃ c ∈ emitted, edgeAt (wakeDemoExt ℚ) c = edgeAt (wakeDemoExt ℚ) (i, j) ∧
          (c.1 < i ∨ (c.1 = i ∧ c.2 ≤ j))) :=
  ⟨⟨wakeDemo_ready ℚ 1 [] [], Or.inl rfl⟩,
    collapse_one_particle_per_edge demoLibm (wakeDemoExt ℚ) (wakeDemoGeometry ℚ)
      (wakeDemoCase ℚ 1 [] []) (wakeDemo_ready ℚ 1 [] []) (Or.inl rfl)⟩

/-- C16. With `startingWake` set (its initial value, which nothing changes) and valid
pointers: the collapse at time step 1, entered without filaments, creates exactly one filament
for each wake panel, from node 2 to node 3 of the panel and with circulation `-mu` of the
panel; the collapse at any other time step, entered with one filament for each wake panel,
adds no filament, keeps the end points and the parent of every filament, and resets the
circulation of filament `i` to `-mu` of wake panel `i`.  In both cases the collapse leaves the
doublet strengths of the wake panels as they were, and after it there is one filament for
each wake panel, with circulation `-mu` of that panel. -/
theorem collapse_filaments_follow_wake {K : Type} [Field K] (m : libm K)
    (wx : wakeExternals K) (g : geometry K) (s : cpCase K) (h : wakeReady wx g s)
    (hsw : s.startingWake = true)
    (hstep : (s.timeStep = 1 ∧ s.filaments = []) ∨
      (s.timeStep ≠ 1 ∧ s.filaments.length = s.wPanels.length)) :
    ∃ s2 : cpCase K, collapseWakeForEachEdge m wx g s = some (exits.returned s2) ∧
      s2.wPanels.map (fun (w : wakePanel K) => w.doubletStrength) =
        s.wPanels.map (fun (w : wakePanel K) => w.doubletStrength) ∧
      s2.filaments.length = s2.wPanels.length ∧
      (∀ (i : Nat) (w : wakePanel K), s2.wPanels[i]? = some w →
        ∃ f, s2.filaments[i]? = some f ∧ f.strength = -w.doubletStrength) ∧
      (s.timeStep = 1 → ∀ (i : Nat) (w : wakePanel K), s.wPanels[i]? = some w →
        ∃ n2 n3 R2 R3, (wx.pointsInOrder i)[2]? = some n2 ∧
          (wx.pointsInOrder i)[3]? = some n3 ∧ getPnt g n2 = some R2 ∧ getPnt g n3 = some R3 ∧
          s2.filaments[i]? =
            some { p1 := R2, p2 := R3, strength := -w.doubletStrength, parentPan := i }) ∧
      (s.timeStep ≠ 1 → s2.filaments.length = s.filaments.length ∧
        ∀ (i : Nat) (f : vortexFil K), s.filaments[i]? = some f →
          ∃ f2, s2.filaments[i]? = some f2 ∧ f2.p1 = f.p1 ∧ f2.p2 = f.p2 ∧
            f2.parentPan = f.parentPan) := by
  obtain ⟨st, hst, emitted, news, used, rfl, -⟩ := collapseParticles_inv m wx g s h
  rw [collapse_unfold m wx g s _ used hst]
  rcases hstep with ⟨ht, hnil⟩ | ⟨ht, hlen⟩
  · obtain ⟨fl, wl, hloop, hfl, hwl, hget, hfil⟩ :=
      createFilament_loop wx g { s with particles := s.particles ++ news } h
    simp only [hnil, List.length_nil, Nat.zero_add, hsw, if_true] at hfl hwl hget hfil
    have hrun : collapseFilaments wx g { s with particles := s.particles ++ news } =
        some { s with particles := s.particles ++ news, filaments := fl, wPanels := wl } := by
      unfold collapseFilaments
      rw [if_pos (show ({ s with particles := s.particles ++ news } : cpCase K).timeStep = 1
        from ht)]
      rw [hloop]
      simp [hnil]
    refine ⟨{ s with particles := s.particles ++ news, filaments := fl, wPanels := wl },
      by rw [hrun]; rfl, ?_, ?_, ?_, ?_, ?_⟩
    · apply List.ext_getElem?
      intro i
      simp only [List.getElem?_map, hget i, Option.map_map]
      rfl
    · show fl.length = wl.length
      rw [hfl, hwl]
    · intro i w hw
      have hw' : wl[i]? = some w := hw
      rw [hget i] at hw'
      have hi : i < s.wPanels.length := by
        by_contra hge
        have : s.wPanels[i]? = none := by simp; omega
        rw [this] at hw'
        simp at hw'
      obtain ⟨w0, n2, n3, R2, R3, hw0, -, -, -, -, hf⟩ := hfil i hi
      rw [hw0] at hw'
      simp only [Option.map_some', Option.some.injEq] at hw'
      refine ⟨_, hf, ?_⟩
      rw [← hw']
    · intro _ i w hw
      have hi : i < s.wPanels.length := by
        by_contra hge
        have : s.wPanels[i]? = none := by simp; omega
        rw [this] at hw
        simp at hw
      obtain ⟨w0, n2, n3, R2, R3, hw0, a, b, c, d, hf⟩ := hfil i hi
      rw [hw] at hw0
      cases hw0
      exact ⟨n2, n3, R2, R3, a, b, c, d, hf⟩
    · intro hne
      exact absurd ht hne
  · obtain ⟨fl, hloop, hfl, hlow, hhigh⟩ :=
      resetFilament_loop { s with particles := s.particles ++ news } (le_of_eq hlen.symm)
    have hrun : collapseFilaments wx g { s with particles := s.particles ++ news } =
        some { s with particles := s.particles ++ news, filaments := fl } := by
      unfold collapseFilaments
      rw [if_neg (show ¬ ({ s with particles := s.particles ++ news } : cpCase K).timeStep = 1
        from ht), ite_self, hloop]
    refine ⟨{ s with particles := s.particles ++ news, filaments := fl },
      by rw [hrun]; rfl, rfl, ?_, ?_, ?_, ?_⟩
    · show fl.length = s.wPanels.length
      rw [← hlen]
      exact hfl
    · intro i w hw
      have hw' : s.wPanels[i]? = some w := hw
      have hi : i < s.wPanels.length := by
        by_contra hge
        have : s.wPanels[i]? = none := by simp; omega
        rw [this] at hw'
        simp at hw'
      obtain ⟨f, w0, hf, hw0, hfli⟩ := hlow i hi
      have hw0' : s.wPanels[i]? = some w0 := hw0
      rw [hw'] at hw0'
      cases hw0'
      exact ⟨_, hfli, rfl⟩
    · intro heq
      exact absurd heq ht
    · intro _
      refine ⟨hfl, ?_⟩
      intro i f hf
      by_cases hi : i < s.wPanels.length
      · obtain ⟨f0, w0, hf0, -, hfli⟩ := hlow i hi
        have hf0' : s.filaments[i]? = some f0 := hf0
        rw [hf] at hf0'
        cases hf0'
        exact ⟨_, hfli, rfl, rfl, rfl⟩
      · have := hhigh i (by
          show s.wPanels.length ≤ i
          omega)
        exact ⟨f, by rw [show fl[i]? = s.filaments[i]? from this]; exact hf, rfl, rfl, rfl⟩

theorem collapse_filaments_follow_wake_witness :
    (wakeReady (wakeDemoExt ℚ) (wakeDemoGeometry ℚ) (wakeDemoCase ℚ 1 [] []) ∧
      (wakeDemoCase ℚ 1 [] []).startingWake = true ∧
      (((wakeDemoCase ℚ 1 [] []).timeStep = 1 ∧ (wakeDemoCase ℚ 1 [] []).filaments = []) ∨
        ((wakeDemoCase ℚ 1 [] []).timeStep ≠ 1 ∧
          (wakeDemoCase ℚ 1 [] []).filaments.length = (wakeDemoCase ℚ 1 [] []).wPanels.length))) ∧
    ∃ s2 : cpCase ℚ,
      collapseWakeForEachEdge demoLibm (wakeDemoExt ℚ) (wakeDemoGeometry ℚ)
        (wakeDemoCase ℚ 1 [] []) = some (exits.returned s2) ∧
      s2.wPanels.map (fun (w : wakePanel ℚ) => w.doubletStrength) =
        (wakeDemoCase ℚ 1 [] []).wPanels.map (fun (w : wakePanel ℚ) => w.doubletStrength) ∧
      s2.filaments.length = s2.wPanels.length ∧
      (∀ (i : Nat) (w : wakePanel ℚ), s2.wPanels[i]? = some w →
        ∃ f, s2.filaments[i]? = some f ∧ f.strength = -w.doubletStrength) ∧
      ((wakeDemoCase ℚ 1 [] []).timeStep = 1 → ∀ (i : Nat) (w : wakePanel ℚ),
        (wakeDemoCase ℚ 1 [] []).wPanels[i]? = some w →
        ∃ n2 n3 R2 R3, ((wakeDemoExt ℚ).pointsInOrder i)[2]? = some n2 ∧
          ((wakeDemoExt ℚ).pointsInOrder i)[3]? = some n3 ∧
          getPnt (wakeDemoGeometry ℚ) n2 = some R2 ∧ getPnt (wakeDemoGeometry ℚ) n3 = some R3 ∧
          s2.filaments[i]? =
            some { p1 := R2, p2 := R3, strength := -w.doubletStrength, parentPan := i }) ∧
      ((wakeDemoCase ℚ 1 [] []).timeStep ≠ 1 →
        s2.filaments.length = (wakeDemoCase ℚ 1 [] []).filaments.length ∧
        ∀ (i : Nat) (f : vortexFil ℚ), (wakeDemoCase ℚ 1 [] []).filaments[i]? = some f →
          ∃ f2, s2.filaments[i]? = some f2 ∧ f2.p1 = f.p1 ∧ f2.p2 = f.p2 ∧
            f2.parentPan = f.parentPan) :=
  ⟨⟨wakeDemo_ready ℚ 1 [] [], rfl, Or.inl ⟨rfl, rfl⟩⟩,
    collapse_filaments_follow_wake demoLibm (wakeDemoExt ℚ) (wakeDemoGeometry ℚ)
      (wakeDemoCase ℚ 1 [] []) (wakeDemo_ready ℚ 1 [] []) rfl (Or.inl ⟨rfl, rfl⟩)⟩

/-! ## Particle convection -/

/-- The total velocity is the same on a case whose particles induce the same velocities. -/
theorem velocity_congr {K : Type} [Field K] (ext : externals K) (wx : wakeExternals K)
    (s : cpCase K) (pl : List (particle K)) (POI : Vector3d K)
    (hmap : s.accelerate = false → pl.map (fun p => ext.partVelInfl p POI) =
      s.particles.map (fun p => ext.partVelInfl p POI)) :
    velocityInflFromEverything ext wx { s with particles := pl } POI =
      velocityInflFromEverything ext wx s POI := by
  simp only [velocityInflFromEverything]
  by_cases ha : s.accelerate = true
  · simp only [ha, if_true]
  · simp only [ha]
    rw [foldl_add_eq_sum (fun p => ext.partVelInfl p POI) pl,
      foldl_add_eq_sum (fun p => ext.partVelInfl p POI) s.particles,
      hmap (by simpa using ha)]

/-- The first loop of `convectParticles` with the Adams-Bashforth integrator returns the new
positions and stores the new previous velocities; all velocities are those on the case at
the start. -/
theorem convectStep_loop_ab {K : Type} [LinearOrderedField K] (ext : externals K)
    (wx : wakeExternals K) (s : cpCase K) (hprev : s.accelerate = false → ignoresPrevVelInfl ext)
    (hrk : s.rungeKuttaStep = false) :
    forLoop (convectStep ext wx) s.particles.length ([], s) =
      some (s.particles.map (newPosition ext wx s),
        { s with particles := s.particles.map (fun (p : particle K) =>
            { p with previousVelInfl := newPrevVelInfl ext wx s p }) }) := by
  have hinv := forLoop_invariant (convectStep ext wx)
    (fun (k : Nat) (t : List (Vector3d K) × cpCase K) => ∃ (pl : List (particle K)),
      t.2 = { s with particles := pl } ∧ pl.length = s.particles.length ∧
      (∀ i, pl[i]? = if i < k then (s.particles[i]?).map (fun (p : particle K) =>
          { p with previousVelInfl := newPrevVelInfl ext wx s p }) else s.particles[i]?) ∧
      t.1 = (s.particles.take k).map (newPosition ext wx s))
    s.particles.length ([], s) ⟨s.particles, rfl, rfl, by simp, by simp⟩
    (by
      rintro k ⟨np, t⟩ hk ⟨pl, ht, hlen, hget, hnp⟩
      simp only at ht hnp
      subst ht hnp
      have hpk : pl[k]? = some (s.particles[k]) := by
        rw [hget k]
        simp [List.getElem?_eq_getElem hk]
      have hvel : ∀ POI, velocityInflFromEverything ext wx { s with particles := pl } POI =
          velocityInflFromEverything ext wx s POI := by
        intro POI
        apply velocity_congr
        intro hacc
        apply List.ext_getElem?
        intro i
        simp only [List.getElem?_map, hget i]
        by_cases hik : i < k
        · simp only [hik, if_true, Option.map_map]
          cases s.particles[i]? with
          | none => rfl
          | some p => simp [hprev hacc p _ POI]
        · simp only [hik, if_false]
      obtain ⟨pk, hpkdef⟩ : ∃ pk : particle K, pk = { s.particles[k] with
          previousVelInfl := newPrevVelInfl ext wx s (s.particles[k]) } := ⟨_, rfl⟩
      refine ⟨((s.particles.take (k + 1)).map (newPosition ext wx s),
        { s with particles := pl.set k pk }), ?_, pl.set k pk, rfl, by simp [hlen], ?_, rfl⟩
      · have hnew : newPosition ext wx s (s.particles[k]) =
            if isZero (s.particles[k]).previousVelInfl = true then (s.particles[k]).pos +
              s.dt • velocityInflFromEverything ext wx s (s.particles[k]).pos
            else (s.particles[k]).pos + s.dt • ((1.5 : K) •
              velocityInflFromEverything ext wx s (s.particles[k]).pos -
              (0.5 : K) • (s.particles[k]).previousVelInfl) := by
          simp only [newPosition, hrk, Bool.false_eq_true, if_false]
        have hnp : newPrevVelInfl ext wx s (s.particles[k]) =
            velocityInflFromEverything ext wx s (s.particles[k]).pos := by
          simp only [newPrevVelInfl, hrk, Bool.false_eq_true, if_false]
        simp only [convectStep, hpk, Option.bind_eq_bind, Option.some_bind]
        rw [if_neg (by simp [hrk])]
        simp only [hvel, hpkdef, hnp, List.take_succ, List.getElem?_eq_getElem hk, List.map_append,
          Option.toList_some, List.map_cons, List.map_nil, hnew]
      · intro i
        rw [List.getElem?_set]
        by_cases hik : k = i
        · subst hik
          simp [hlen, hk, List.getElem?_eq_getElem hk, hpkdef]
        · simp only [hik, if_false]
          rw [hget i]
          by_cases hlt : i < k
          · simp [hlt, Nat.lt_succ_of_lt hlt]
          · have : ¬ i < k + 1 := by omega
            simp [hlt, this])
  obtain ⟨⟨np, t⟩, hloop, pl, ht, hlen, hget, hnp⟩ := hinv
  simp only at ht hnp
  subst ht hnp
  rw [hloop]
  have hpl : pl = s.particles.map (fun (p : particle K) =>
      { p with previousVelInfl := newPrevVelInfl ext wx s p }) := by
    apply List.ext_getElem?
    intro i
    rw [hget i, List.getElem?_map]
    by_cases hi : i < s.particles.length
    · simp [hi]
    · have : s.particles[i]? = none := by simp; omega
      simp [hi, this]
  rw [hpl, List.take_length]

/-- The first loop of `convectParticles` with the Runge-Kutta integrator returns the new
positions and leaves the case as it is. -/
theorem convectStep_loop_rk {K : Type} [LinearOrderedField K] (ext : externals K)
    (wx : wakeExternals K) (s : cpCase K) (hrk : s.rungeKuttaStep = true) :
    forLoop (convectStep ext wx) s.particles.length ([], s) =
      some (s.particles.map (newPosition ext wx s), s) := by
  have hinv := forLoop_invariant (convectStep ext wx)
    (fun (k : Nat) (t : List (Vector3d K) × cpCase K) =>
      t = ((s.particles.take k).map (newPosition ext wx s), s))
    s.particles.length ([], s) (by simp)
    (by
      rintro k t hk rfl
      refine ⟨_, ?_, rfl⟩
      simp only [convectStep, List.getElem?_eq_getElem hk, Option.bind_eq_bind,
        Option.some_bind, hrk, if_true, List.take_succ, List.map_append, Option.toList_some,
        List.map_cons, List.map_nil, newPosition])
  obtain ⟨t, hloop, rfl⟩ := hinv
  rw [hloop, List.take_length]

/-- The second loop of `convectParticles` writes the new positions into the particles. -/
theorem convectSetPos_loop {K : Type} (s : cpCase K) (np : List (Vector3d K))
    (hlen : np.length = s.particles.length) :
    forLoop (convectSetPos np) s.particles.length s = some { s with
      particles := List.zipWith (fun (p : particle K) pos => { p with pos := pos })
        s.particles np } := by
  have hlift := forLoop_lift (fun l => ({ s with particles := l } : cpCase K))
    (convectSetPos np)
    (fun i m => (m[i]?).bind (fun a =>
      ((np[i]?).map (fun pos => ({ a with pos := pos } : particle K))).bind
        (fun b => some (m.set i b))))
    (by
      intro i l
      cases hl : l[i]? <;> cases hn : np[i]? <;> simp [convectSetPos, hl, hn])
    s.particles.length s.particles
  have hset := forLoop_set
    (fun i (a : particle K) => (np[i]?).map (fun pos => ({ a with pos := pos } : particle K)))
    s.particles
    (List.zipWith (fun (p : particle K) pos => { p with pos := pos }) s.particles np)
    (by simp [hlen])
    (by
      intro j h h'
      have hj : j < np.length := by omega
      simp [List.getElem?_eq_getElem hj])
  rw [hset] at hlift
  exact hlift

/-- Closed form of `convectParticles`: every particle gets its new position and its new
previous velocity, both computed on the case at the start of the call. -/
theorem convectParticles_eq {K : Type} [LinearOrderedField K] (ext : externals K)
    (wx : wakeExternals K) (s : cpCase K)
    (hprev : s.rungeKuttaStep = false → s.accelerate = false → ignoresPrevVelInfl ext) :
    convectParticles ext wx s = some { s with
      particles := s.particles.map (fun (p : particle K) =>
        { p with pos := newPosition ext wx s p
                 previousVelInfl := newPrevVelInfl ext wx s p }) } := by
  unfold convectParticles
  by_cases hrk : s.rungeKuttaStep = true
  · rw [convectStep_loop_rk ext wx s hrk]
    simp only [Option.bind_eq_bind, Option.some_bind]
    rw [convectSetPos_loop s _ (by simp)]
    congr 2
    apply List.ext_getElem?
    intro i
    simp only [List.getElem?_map, List.getElem?_zipWith]
    cases s.particles[i]? with
    | none => rfl
    | some p => simp [newPrevVelInfl, hrk]
  · have hrk' : s.rungeKuttaStep = false := by simpa using hrk
    rw [convectStep_loop_ab ext wx s (hprev hrk') hrk']
    simp only [Option.bind_eq_bind, Option.some_bind]
    have h2 := convectSetPos_loop
      { s with particles := s.particles.map (fun (p : particle K) =>
          { p with previousVelInfl := newPrevVelInfl ext wx s p }) }
      (s.particles.map (newPosition ext wx s)) (by simp)
    rw [h2]
    congr 2
    apply List.ext_getElem?
    intro i
    simp only [List.getElem?_map, List.getElem?_zipWith]
    cases s.particles[i]? with
    | none => rfl
    | some p => simp

/-- Eigen's `isZero` holds of the zero vector. -/
theorem isZero_zero {K : Type} [LinearOrderedField K] : isZero (0 : Vector3d K) = true := by
  simp only [isZero, Pi.zero_apply, abs_zero, and_self, decide_eq_true_eq]
  norm_num

/-- A particle that the collapse constructs has the previous velocity zero. -/
theorem seedParticle_prev {K : Type} [Field K] (m : libm K) (wx : wakeExternals K)
    (g : geometry K) (s : cpCase K) (i j : Nat) (q : particle K)
    (h : seedParticle m wx g s i j = some q) : q.previousVelInfl = 0 := by
  unfold seedParticle at h
  cases he : (wx.edgesInOrder i)[j]? with
  | none => simp [he] at h
  | some e =>
    cases hp : seedPos m wx s i j with
    | none => simp [he, hp] at h
    | some r =>
      cases r with
      | exited => simp [he, hp] at h
      | returned pos =>
        cases hs : edgeStrength wx g s i e j with
        | none => simp [he, hp, hs] at h
        | some str =>
          simp [he, hp, hs] at h
          rw [← h]

/-- The particles after `convectParticles`, one by one. -/
theorem convectParticles_getElem {K : Type} [LinearOrderedField K] (ext : externals K)
    (wx : wakeExternals K) (s : cpCase K)
    (hprev : s.rungeKuttaStep = false → s.accelerate = false → ignoresPrevVelInfl ext) :
    ∃ s2 : cpCase K, convectParticles ext wx s = some s2 ∧
      s2 = { s with particles := s2.particles } ∧
      s2.particles.length = s.particles.length ∧
      ∀ (i : Nat) (p : particle K), s.particles[i]? = some p →
        s2.particles[i]? = some { p with pos := newPosition ext wx s p
                                         previousVelInfl := newPrevVelInfl ext wx s p } := by
  refine ⟨_, convectParticles_eq ext wx s hprev, rfl, by simp, ?_⟩
  intro i p hp
  simp [List.getElem?_map, hp]

/-- C17 (amended). With the Adams-Bashforth integrator `convectParticles` returns, keeps the
number of particles, and for every particle, where `V` is the total velocity at the
position of the particle on the case at the start of the call: the stored previous velocity
becomes `V`; a particle whose stored previous velocity passes Eigen's `isZero` moves by
forward Euler, to `pos + dt * V`; any other particle moves to
`pos + dt * (1.5 * V - 0.5 * V_prev)`.  The zero vector passes `isZero`, and a particle that
the collapse constructs stores the previous velocity zero, so that a particle moves by
forward Euler on its first convection. -/
theorem convectParticles_adams_bashforth {K : Type} [LinearOrderedField K] (ext : externals K)
    (wx : wakeExternals K) (s : cpCase K) (hrk : s.rungeKuttaStep = false)
    (hprev : s.accelerate = false → ignoresPrevVelInfl ext) :
    (∃ s2 : cpCase K, convectParticles ext wx s = some s2 ∧
      s2.particles.length = s.particles.length ∧
      ∀ (i : Nat) (p : particle K), s.particles[i]? = some p →
        ∃ p2 : particle K, s2.particles[i]? = some p2 ∧
          p2.previousVelInfl = velocityInflFromEverything ext wx s p.pos ∧
          (isZero p.previousVelInfl = true →
            p2.pos = p.pos + s.dt • velocityInflFromEverything ext wx s p.pos) ∧
          (isZero p.previousVelInfl = false →
            p2.pos = p.pos + s.dt • ((1.5 : K) • velocityInflFromEverything ext wx s p.pos -
              (0.5 : K) • p.previousVelInfl))) ∧
    isZero (0 : Vector3d K) = true ∧
    (∀ (m : libm K) (g : geometry K) (c : cpCase K) (i j : Nat) (q : particle K),
      seedParticle m wx g c i j = some q → q.previousVelInfl = 0) := by
  refine ⟨?_, isZero_zero, fun m g c i j q h => seedParticle_prev m wx g c i j q h⟩
  obtain ⟨s2, hs2, -, hlen, hget⟩ := convectParticles_getElem ext wx s (fun _ => hprev)
  refine ⟨s2, hs2, hlen, ?_⟩
  intro i p hp
  refine ⟨_, hget i p hp, ?_, ?_, ?_⟩
  · simp only [newPrevVelInfl, hrk, Bool.false_eq_true, if_false]
  · intro hz
    simp only [newPosition, hrk, Bool.false_eq_true, if_false, hz, if_true]
  · intro hz
    simp only [newPosition, hrk, Bool.false_eq_true, if_false, hz]

theorem convectParticles_adams_bashforth_witness :
    ((driftCase 1 [freshParticle]).rungeKuttaStep = false ∧
      ((driftCase 1 [freshParticle]).accelerate = false → ignoresPrevVelInfl stillExt)) ∧
    ((∃ s2 : cpCase ℚ,
      convectParticles stillExt (wakeDemoExt ℚ) (driftCase 1 [freshParticle]) = some s2 ∧
      s2.particles.length = (driftCase 1 [freshParticle]).particles.length ∧
      ∀ (i : Nat) (p : particle ℚ), (driftCase 1 [freshParticle]).particles[i]? = some p →
        ∃ p2 : particle ℚ, s2.particles[i]? = some p2 ∧
          p2.previousVelInfl = velocityInflFromEverything stillExt (wakeDemoExt ℚ)
            (driftCase 1 [freshParticle]) p.pos ∧
          (isZero p.previousVelInfl = true →
            p2.pos = p.pos + (driftCase 1 [freshParticle]).dt •
              velocityInflFromEverything stillExt (wakeDemoExt ℚ)
                (driftCase 1 [freshParticle]) p.pos) ∧
          (isZero p.previousVelInfl = false →
            p2.pos = p.pos + (driftCase 1 [freshParticle]).dt •
              ((1.5 : ℚ) • velocityInflFromEverything stillExt (wakeDemoExt ℚ)
                (driftCase 1 [freshParticle]) p.pos - (0.5 : ℚ) • p.previousVelInfl))) ∧
    isZero (0 : Vector3d ℚ) = true ∧
    (∀ (m : libm ℚ) (g : geometry ℚ) (c : cpCase ℚ) (i j : Nat) (q : particle ℚ),
      seedParticle m (wakeDemoExt ℚ) g c i j = some q → q.previousVelInfl = 0)) :=
  ⟨⟨rfl, fun _ _ _ _ => rfl⟩,
    convectParticles_adams_bashforth stillExt (wakeDemoExt ℚ) (driftCase 1 [freshParticle]) rfl
      (fun _ _ _ _ => rfl)⟩

/-- The example externals ignore the previous velocity of a particle. -/
theorem stillExt_ignores : ignoresPrevVelInfl stillExt := fun _ _ _ => rfl

/-- The total velocity on the example case is `(1 + mu, 0, 0)`. -/
theorem driftCase_velocity (mu : ℚ) (ps : List (particle ℚ)) (POI : Vector3d ℚ) :
    velocityInflFromEverything stillExt (wakeDemoExt ℚ) (driftCase mu ps) POI =
      ![1 + mu, 0, 0] := by
  have hsum : ∀ (l : List (particle ℚ)) (a : Vector3d ℚ),
      l.foldl (fun acc p => acc + stillExt.partVelInfl p POI) a = a := by
    intro l
    induction l with
    | nil => intro a; rfl
    | cons p l ih =>
      intro a
      simp only [List.foldl_cons]
      rw [ih]
      simp [stillExt]
  simp only [velocityInflFromEverything, driftCase, wakeDemoCase, List.foldl_nil,
    List.foldl_cons, Bool.false_eq_true, if_false, hsum]
  funext i
  fin_cases i <;> simp [wakeDemoExt, wakeDemoPanel]

/-- A call of `convectParticles` on the example case, for a particle at the origin whose
stored previous velocity is zero. -/
theorem driftCase_convect (mu : ℚ) :
    convectParticles stillExt (wakeDemoExt ℚ) (driftCase mu [freshParticle]) =
      some (driftCase mu [{ freshParticle with pos := ![1 + mu, 0, 0]
                                               previousVelInfl := ![1 + mu, 0, 0] }]) := by
  rw [convectParticles_eq stillExt (wakeDemoExt ℚ) _ (fun _ _ => stillExt_ignores)]
  have hrk : (driftCase mu [freshParticle]).rungeKuttaStep = false := rfl
  have hdt : (driftCase mu [freshParticle]).dt = 1 := rfl
  have hps : (driftCase mu [freshParticle]).particles = [freshParticle] := rfl
  have hz : isZero freshParticle.previousVelInfl = true := isZero_zero
  have hpos : newPosition stillExt (wakeDemoExt ℚ) (driftCase mu [freshParticle])
      freshParticle = ![1 + mu, 0, 0] := by
    simp only [newPosition, hrk, Bool.false_eq_true, if_false, hz, if_true, hdt,
      driftCase_velocity, one_smul]
    funext i
    fin_cases i <;> simp [freshParticle]
  have hpv : newPrevVelInfl stillExt (wakeDemoExt ℚ) (driftCase mu [freshParticle])
      freshParticle = ![1 + mu, 0, 0] := by
    simp only [newPrevVelInfl, hrk, Bool.false_eq_true, if_false, driftCase_velocity]
  rw [hps]
  simp only [List.map_cons, List.map_nil, hpos, hpv]
  rfl

/-- C17 (counterexample). A particle whose total velocity was zero on its first convection is
moved by forward Euler on its second convection too.  On the example case with doublet
strength -1 the total velocity is zero and the particle stays at the origin; after the wake
panel has received the doublet strength 1 the total velocity is `(2, 0, 0)`, and the second
convection moves the particle to `(2, 0, 0)`, not to the point `(3, 0, 0)` of the two-step
formula. -/
theorem convect_second_step_forward_euler :
    ∃ (s1 s2 : cpCase ℚ) (p1 p2 : particle ℚ),
      convectParticles stillExt (wakeDemoExt ℚ) (driftCase (-1) [freshParticle]) = some s1 ∧
      s1.particles = [p1] ∧
      p1.previousVelInfl = velocityInflFromEverything stillExt (wakeDemoExt ℚ)
        (driftCase (-1) [freshParticle]) freshParticle.pos ∧
      convectParticles stillExt (wakeDemoExt ℚ)
        { s1 with wPanels := [wakeDemoPanel ℚ 1 0] } = some s2 ∧
      s2.particles = [p2] ∧
      p2.pos = ![2, 0, 0] ∧
      p1.pos + s1.dt • ((1.5 : ℚ) • velocityInflFromEverything stillExt (wakeDemoExt ℚ)
        { s1 with wPanels := [wakeDemoPanel ℚ 1 0] } p1.pos -
          (0.5 : ℚ) • p1.previousVelInfl) = ![3, 0, 0] ∧
      p2.pos ≠ p1.pos + s1.dt • ((1.5 : ℚ) • velocityInflFromEverything stillExt (wakeDemoExt ℚ)
        { s1 with wPanels := [wakeDemoPanel ℚ 1 0] } p1.pos -
          (0.5 : ℚ) • p1.previousVelInfl) := by
  have hfresh : ({ freshParticle with pos := ![1 + (-1 : ℚ), 0, 0]
                                      previousVelInfl := ![1 + (-1 : ℚ), 0, 0] } : particle ℚ) =
      freshParticle := by
    have h0 : (![1 + (-1 : ℚ), 0, 0] : Vector3d ℚ) = 0 := by
      funext i
      fin_cases i <;> simp
    rw [h0]
    rfl
  have h1 := driftCase_convect (-1)
  rw [hfresh] at h1
  have hs : ({ driftCase (-1) [freshParticle] with wPanels := [wakeDemoPanel ℚ 1 0] } :
      cpCase ℚ) = driftCase 1 [freshParticle] := rfl
  have h2 := driftCase_convect 1
  have hformula : freshParticle.pos + (driftCase (-1) [freshParticle]).dt •
      ((1.5 : ℚ) • velocityInflFromEverything stillExt (wakeDemoExt ℚ)
        { driftCase (-1) [freshParticle] with wPanels := [wakeDemoPanel ℚ 1 0] }
        freshParticle.pos - (0.5 : ℚ) • freshParticle.previousVelInfl) = ![3, 0, 0] := by
    rw [hs, driftCase_velocity]
    funext i
    fin_cases i <;> simp [freshParticle, driftCase, wakeDemoCase]
    norm_num
  refine ⟨driftCase (-1) [freshParticle],
    driftCase 1 [{ freshParticle with pos := ![1 + 1, 0, 0]
                                      previousVelInfl := ![1 + 1, 0, 0] }],
    freshParticle,
    { freshParticle with pos := ![1 + 1, 0, 0], previousVelInfl := ![1 + 1, 0, 0] },
    h1, rfl, ?_, ?_, rfl, ?_, hformula, ?_⟩
  · rw [driftCase_velocity]
    funext i
    fin_cases i <;> simp [freshParticle]
  · rw [hs]
    exact h2
  · funext i
    fin_cases i <;> simp
    norm_num
  · rw [hformula]
    intro h
    have := congrFun h 0
    simp at this
    norm_num at this

/-- C18. `convectParticles` returns.  Its first loop evaluates the new position of every
particle on the case at the start of the call (`newPosition` on `s`) and writes no position,
strength or radius; the call changes nothing but the particles, keeps their number, gives
every particle the new position so computed, and keeps its strength and radius.  (When the
particle velocities are summed directly, with the Adams-Bashforth integrator, this needs the
velocity a particle induces not to read its stored previous velocity, which the first loop
overwrites.) -/
theorem convectParticles_barrier {K : Type} [LinearOrderedField K] (ext : externals K)
    (wx : wakeExternals K) (s : cpCase K)
    (hprev : s.rungeKuttaStep = false → s.accelerate = false → ignoresPrevVelInfl ext) :
    (∃ (np : List (Vector3d K)) (s1 : cpCase K),
      forLoop (convectStep ext wx) s.particles.length ([], s) = some (np, s1) ∧
      np = s.particles.map (newPosition ext wx s) ∧
      s1.particles.map (fun (p : particle K) => (p.pos, p.strength, p.radius)) =
        s.particles.map (fun (p : particle K) => (p.pos, p.strength, p.radius))) ∧
    ∃ s2 : cpCase K, convectParticles ext wx s = some s2 ∧
      s2 = { s with particles := s2.particles } ∧
      s2.particles.length = s.particles.length ∧
      ∀ (i : Nat) (p : particle K), s.particles[i]? = some p →
        ∃ p2 : particle K, s2.particles[i]? = some p2 ∧ p2.pos = newPosition ext wx s p ∧
          p2.strength = p.strength ∧ p2.radius = p.radius := by
  constructor
  · by_cases hrk : s.rungeKuttaStep = true
    · exact ⟨_, _, convectStep_loop_rk ext wx s hrk, rfl, rfl⟩
    · have hrk' : s.rungeKuttaStep = false := by simpa using hrk
      refine ⟨_, _, convectStep_loop_ab ext wx s (hprev hrk') hrk', rfl, ?_⟩
      simp [List.map_map, Function.comp_def]
  · obtain ⟨s2, hs2, hframe, hlen, hget⟩ := convectParticles_getElem ext wx s hprev
    exact ⟨s2, hs2, hframe, hlen, fun i p hp => ⟨_, hget i p hp, rfl, rfl, rfl⟩⟩

theorem convectParticles_barrier_witness :
    ((driftCase 1 [freshParticle]).rungeKuttaStep = false →
      (driftCase 1 [freshParticle]).accelerate = false → ignoresPrevVelInfl stillExt) ∧
    ((∃ (np : List (Vector3d ℚ)) (s1 : cpCase ℚ),
      forLoop (convectStep stillExt (wakeDemoExt ℚ))
        (driftCase 1 [freshParticle]).particles.length ([], driftCase 1 [freshParticle]) =
          some (np, s1) ∧
      np = (driftCase 1 [freshParticle]).particles.map
        (newPosition stillExt (wakeDemoExt ℚ) (driftCase 1 [freshParticle])) ∧
      s1.particles.map (fun (p : particle ℚ) => (p.pos, p.strength, p.radius)) =
        (driftCase 1 [freshParticle]).particles.map
          (fun (p : particle ℚ) => (p.pos, p.strength, p.radius))) ∧
    ∃ s2 : cpCase ℚ,
      convectParticles stillExt (wakeDemoExt ℚ) (driftCase 1 [freshParticle]) = some s2 ∧
      s2 = { driftCase 1 [freshParticle] with particles := s2.particles } ∧
      s2.particles.length = (driftCase 1 [freshParticle]).particles.length ∧
      ∀ (i : Nat) (p : particle ℚ), (driftCase 1 [freshParticle]).particles[i]? = some p →
        ∃ p2 : particle ℚ, s2.particles[i]? = some p2 ∧
          p2.pos = newPosition stillExt (wakeDemoExt ℚ) (driftCase 1 [freshParticle]) p ∧
          p2.strength = p.strength ∧ p2.radius = p.radius) :=
  ⟨fun _ _ => stillExt_ignores,
    convectParticles_barrier stillExt (wakeDemoExt ℚ) (driftCase 1 [freshParticle])
      (fun _ _ => stillExt_ignores)⟩

/-! ## The driver `run`: the calls and the lift history of a vortex-particle run -/

/-- A recorded call that returns has called the function and extended the history. -/
theorem call_some {K : Type} (r r2 : runState K) (name : call)
    (f : cpCase K → Option (cpCase K)) (h : r.call name f = some r2) :
    ∃ c2, f r.c = some c2 ∧ r2 = { r with c := c2, trace := r.trace ++ [name] } := by
  unfold runState.call at h
  cases hf : f r.c with
  | none => simp [hf] at h
  | some c2 =>
    simp only [hf, Option.bind_eq_bind, Option.some_bind, Option.some.injEq] at h
    exact ⟨c2, rfl, h.symm⟩

/-- What a time step of `run` that returns has done. -/
theorem runStep_some {K : Type} [LinearOrderedField K] (ext : externals K) (ops : runOps K)
    (st st2 : Bool × runState K) (h : runStep ext ops st = some st2) :
    ∃ (c1 c2 c3 c4 c5 : cpCase K) (conv : Bool),
      ops.collapseWakeForEachEdge st.2.c = some c1 ∧
      setSourceStrengths ext (if c1.accelerate then rebuildOctree c1 else c1) = some c2 ∧
      solveVPmatrixEq ext c2 = some (conv, c3) ∧
      ops.writeFiles c3 = some c4 ∧
      ops.convectParticles { c4 with timeStep := c4.timeStep + 1 } = some c5 ∧
      st2.1 = conv ∧ st2.2.c = c5 ∧
      st2.2.trace = st.2.trace ++ ([call.collapseWakeForEachEdge] ++
        (if c1.accelerate then [call.rebuildOctree] else []) ++
        [call.setSourceStrengths, call.solveVPmatrixEq conv, call.writeFiles,
          call.convectParticles]) := by
  obtain ⟨conv0, r⟩ := st
  simp only [runStep, Option.bind_eq_bind] at h
  obtain ⟨r1, h1, h⟩ := Option.bind_eq_some.1 h
  obtain ⟨c1, hc1, rfl⟩ := call_some _ _ _ _ h1
  obtain ⟨r2, h2, h⟩ := Option.bind_eq_some.1 h
  obtain ⟨r3, h3, h⟩ := Option.bind_eq_some.1 h
  obtain ⟨c2, hc2, rfl⟩ := call_some _ _ _ _ h3
  obtain ⟨res, h4, h⟩ := Option.bind_eq_some.1 h
  obtain ⟨conv, c3⟩ := res
  obtain ⟨r5, h5, h⟩ := Option.bind_eq_some.1 h
  obtain ⟨c4, hc4, rfl⟩ := call_some _ _ _ _ h5
  obtain ⟨r6, h6, h⟩ := Option.bind_eq_some.1 h
  obtain ⟨c5, hc5, rfl⟩ := call_some _ _ _ _ h6
  simp only [Option.some.injEq] at h
  subst h
  cases hacc : c1.accelerate with
  | false =>
    simp only [hacc, Bool.false_eq_true, if_false, Option.some.injEq] at h2
    subst h2
    refine ⟨c1, c2, c3, c4, c5, conv, hc1, ?_, h4, hc4, hc5, rfl, rfl, ?_⟩
    · simpa [hacc] using hc2
    · simp [runState.print, runState.incTimeStep, hacc]
  | true =>
    simp only [hacc, if_true] at h2
    obtain ⟨c1b, hc1b, rfl⟩ := call_some _ _ _ _ h2
    simp only [Option.some.injEq] at hc1b
    subst hc1b
    refine ⟨c1, c2, c3, c4, c5, conv, hc1, ?_, h4, hc4, hc5, rfl, rfl, ?_⟩
    · simpa [hacc] using hc2
    · simp [runState.print, runState.incTimeStep, hacc]

/-- An indexed property that holds before a loop and is kept by every pass that returns holds
after the loop, if it returns. -/
theorem forLoop_preserves_at {σ : Type} (body : Nat → σ → Option σ) (P : Nat → σ → Prop)
    (n : Nat) (hstep : ∀ k t t', k < n → P k t → body k t = some t' → P (k + 1) t') (s t : σ)
    (hs : P 0 s) (h : forLoop body n s = some t) : P n t := by
  induction n generalizing t with
  | zero =>
    simp only [forLoop, Option.some.injEq] at h
    exact h ▸ hs
  | succ k ih =>
    simp only [forLoop] at h
    cases hk : forLoop body k s with
    | none => simp [hk] at h
    | some u =>
      rw [hk] at h
      exact hstep k u t (Nat.lt_succ_self k)
        (ih (fun j a b hj => hstep j a b (Nat.lt_succ_of_lt hj)) u hk) h

theorem sameSeries_refl {K : Type} (s : cpCase K) : sameSeries s s := ⟨rfl, rfl⟩

theorem sameSeries_trans {K : Type} {a b c : cpCase K} (h1 : sameSeries a b)
    (h2 : sameSeries b c) : sameSeries a c :=
  ⟨h2.1.trans h1.1, h2.2.trans h1.2⟩

/-- `setSourceStrengths` leaves `CL` and the number of time steps as they are. -/
theorem setSourceStrengths_series {K : Type} [Field K] (ext : externals K) :
    keepsSeries (setSourceStrengths ext) := by
  intro s s2 h
  rw [setSourceStrengths_eq] at h
  simp only [Option.some.injEq] at h
  subst h
  exact ⟨rfl, rfl⟩

/-- The loop over the body panels of the solves leaves `CL` and the number of time steps as
they are. -/
theorem writeBodyMu_series {K : Type} (ext : externals K) (x : VectorXd K) :
    keepsSeries (writeBodyMu ext x) := by
  intro s s2 h
  unfold writeBodyMu at h
  refine forLoop_preserves _ (fun t => sameSeries s t) _ ?_ s s2 (sameSeries_refl s) h
  intro k t t' _ ht hbody
  cases hp : t.bPanels[k]? with
  | none => simp [hp] at hbody
  | some p =>
    cases hd : x[k]? with
    | none => simp [hp, hd] at hbody
    | some d =>
      simp only [hp, hd, Option.bind_eq_bind, Option.some_bind, Option.some.injEq] at hbody
      subst hbody
      exact ht

/-- Both solves leave `CL` and the number of time steps as they are. -/
theorem solve_series {K : Type} [LinearOrderedField K] (ext : externals K) (s s2 : cpCase K)
    (prev c : Bool)
    (h : (if prev then solveVPmatrixEq ext s else solveMatrixEq ext s) = some (c, s2)) :
    sameSeries s s2 := by
  cases prev
  · simp only [Bool.false_eq_true, if_false, solveMatrixEq, Option.bind_eq_bind] at h
    obtain ⟨s1, h1, h⟩ := Option.bind_eq_some.1 h
    obtain ⟨s3, h3, h⟩ := Option.bind_eq_some.1 h
    simp only [Option.some.injEq, Prod.mk.injEq] at h
    obtain ⟨-, rfl⟩ := h
    refine sameSeries_trans (writeBodyMu_series ext _ s s1 h1) ?_
    refine forLoop_preserves _ (fun t => sameSeries s1 t) _ ?_ s1 s3 (sameSeries_refl s1) h3
    intro k t t' _ ht hbody
    cases hw : t.wPanels[k]? with
    | none => simp [hw] at hbody
    | some w =>
      cases hm : w.setMu t.bPanels with
      | none => simp [hw, hm] at hbody
      | some w2 =>
        simp only [hw, hm, Option.bind_eq_bind, Option.some_bind, Option.some.injEq] at hbody
        subst hbody
        exact ht
  · simp only [if_true, solveVPmatrixEq, Option.bind_eq_bind] at h
    obtain ⟨s1, h1, h⟩ := Option.bind_eq_some.1 h
    obtain ⟨s3, h3, h⟩ := Option.bind_eq_some.1 h
    simp only [Option.some.injEq, Prod.mk.injEq] at h
    obtain ⟨-, rfl⟩ := h
    refine sameSeries_trans (writeBodyMu_series ext _ s s1 h1) ?_
    refine forLoop_preserves _ (fun t => sameSeries s1 t) _ ?_ s1 s3 (sameSeries_refl s1) h3
    intro k t t' _ ht hbody
    cases hw : t.wPanels[k]? with
    | none => simp [hw] at hbody
    | some w =>
      cases hm : (w.setPrevStrength w.doubletStrength).setMu t.bPanels with
      | none => simp [hw, hm] at hbody
      | some w2 =>
        simp only [hw, hm, Option.bind_eq_bind, Option.some_bind, Option.some.injEq] at hbody
        subst hbody
        exact ht

/-- `compVelocity` appends the z component of the body force it has computed to `CL`. -/
theorem compVelocity_series {K : Type} [Field K] (ext : externals K) (s s2 : cpCase K)
    (h : compVelocity ext s = some s2) :
    s2.CL = s.CL ++ [s2.Fbody 2] ∧ s2.numSteps = s.numSteps := by
  obtain ⟨bl, -, -, hc⟩ := compVelocity_eq ext s
  have hc' := hc s.Fbody s.CM
  have hs : ({ s with Fbody := s.Fbody, CM := s.CM } : cpCase K) = s := rfl
  rw [hs, h] at hc'
  simp only [Option.some.injEq] at hc'
  subst hc'
  exact ⟨rfl, rfl⟩

/-- A time step of `run` that returns has made the calls of a step, in their order, and has
left `CL` and the number of time steps as they were. -/
theorem runStep_calls {K : Type} [LinearOrderedField K] (ext : externals K) (ops : runOps K)
    (st st2 : Bool × runState K) (h : runStep ext ops st = some st2) :
    (∃ block, stepCalls block ∧ st2.2.trace = st.2.trace ++ block) ∧
    (ops.keepSeries → sameSeries st.2.c st2.2.c) := by
  obtain ⟨c1, c2, c3, c4, c5, conv, h1, h2, h3, h4, h5, -, hc, ht⟩ := runStep_some ext ops st st2 h
  constructor
  · refine ⟨_, ⟨conv, ?_⟩, ht⟩
    cases c1.accelerate
    · exact Or.inl rfl
    · exact Or.inr rfl
  · rintro ⟨hwrite, hcollapse, hconvect, -, -, -⟩
    have e1 := hcollapse _ _ h1
    have e2 : sameSeries c1 (if c1.accelerate then rebuildOctree c1 else c1) := by
      cases c1.accelerate
      · exact sameSeries_refl c1
      · exact ⟨rfl, rfl⟩
    have e3 := setSourceStrengths_series ext _ _ h2
    have e4 := solve_series ext c2 c3 true conv h3
    have e5 := hwrite _ _ h4
    have e6 : sameSeries c4 { c4 with timeStep := c4.timeStep + 1 } := ⟨rfl, rfl⟩
    have e7 := hconvect _ _ h5
    rw [hc]
    exact sameSeries_trans e1 (sameSeries_trans e2 (sameSeries_trans e3 (sameSeries_trans e4
      (sameSeries_trans e5 (sameSeries_trans e6 e7)))))

/-- The loop over the time steps, if it returns, has made the calls of one step after the
other, and has left `CL` and the number of time steps as they were. -/
theorem runStep_loop_calls {K : Type} [LinearOrderedField K] (ext : externals K)
    (ops : runOps K) (n : Nat) (st st2 : Bool × runState K)
    (h : forLoop (fun _ st => runStep ext ops st) n st = some st2) :
    ∃ blocks : List (List call), blocks.length = n ∧ (∀ b ∈ blocks, stepCalls b) ∧
      st2.2.trace = st.2.trace ++ blocks.flatten ∧
      (ops.keepSeries → sameSeries st.2.c st2.2.c) := by
  refine forLoop_preserves_at (fun _ st => runStep ext ops st)
    (fun (k : Nat) (t : Bool × runState K) => ∃ blocks : List (List call), blocks.length = k ∧
      (∀ b ∈ blocks, stepCalls b) ∧ t.2.trace = st.2.trace ++ blocks.flatten ∧
      (ops.keepSeries → sameSeries st.2.c t.2.c))
    n ?_ st st2 ⟨[], rfl, by simp, by simp, fun _ => sameSeries_refl _⟩ h
  rintro k t t' _ ⟨blocks, hlen, hall, htr, hser⟩ hstep
  obtain ⟨⟨block, hblock, htr'⟩, hser'⟩ := runStep_calls ext ops t t' hstep
  refine ⟨blocks ++ [block], by simp [hlen], ?_, ?_, ?_⟩
  · intro b hb
    rcases List.mem_append.1 hb with hb | hb
    · exact hall b hb
    · rw [List.mem_singleton.1 hb]
      exact hblock
  · rw [htr', htr]
    simp
  · intro hk
    exact sameSeries_trans (hser hk) (hser' hk)

/-- What the block of a vortex-particle case has done if it returns: the forces of time step
0, the output files, and then the time steps. -/
theorem runUnsteady_calls {K : Type} [LinearOrderedField K] (ext : externals K)
    (ops : runOps K) (st st2 : Bool × runState K) (h : runUnsteady ext ops st = some st2) :
    ∃ (c1 : cpCase K) (blocks : List (List call)),
      compVelocity ext st.2.c = some c1 ∧ (∀ b ∈ blocks, stepCalls b) ∧
      st2.2.trace = st.2.trace ++ [call.compVelocity, call.writeFiles] ++ blocks.flatten ∧
      (ops.keepSeries → blocks.length = st.2.c.numSteps ∧
        st2.2.c.CL = st.2.c.CL ++ [c1.Fbody 2] ∧ st2.2.c.numSteps = st.2.c.numSteps) := by
  obtain ⟨conv0, r⟩ := st
  simp only [runUnsteady, Option.bind_eq_bind] at h
  obtain ⟨r1, h1, h⟩ := Option.bind_eq_some.1 h
  obtain ⟨c1, hc1, rfl⟩ := call_some _ _ _ _ h1
  obtain ⟨r2, h2, h⟩ := Option.bind_eq_some.1 h
  obtain ⟨c2, hc2, rfl⟩ := call_some _ _ _ _ h2
  obtain ⟨stL, hL, h⟩ := Option.bind_eq_some.1 h
  simp only [Option.some.injEq] at h
  subst h
  obtain ⟨blocks, hlen, hall, htr, hser⟩ := runStep_loop_calls ext ops _ _ _ hL
  have hcv := compVelocity_series ext _ _ hc1
  refine ⟨c1, blocks, hc1, hall, ?_, ?_⟩
  · simp only [runState.print, htr, runState.incTimeStep]
    simp
  · intro hk
    have e2 := hk.1 _ _ hc2
    have e3 := hser hk
    simp only [runState.incTimeStep, runState.print] at hlen e3 hcv e2 ⊢
    refine ⟨?_, ?_, ?_⟩
    · rw [hlen, e2.2, hcv.2]
    · rw [e3.1, e2.1, hcv.1]
    · rw [e3.2, e2.2, hcv.2]

/-- A mark changes neither the case nor the history of the calls. -/
theorem mark_c {K : Type} (r : runState K) (printFlag : Bool) (width : Nat) (text : String)
    (last : coutItem K) :
    (r.mark printFlag width text last).c = r.c ∧
      (r.mark printFlag width text last).trace = r.trace := by
  cases printFlag <;> exact ⟨rfl, rfl⟩

/-- What a vortex-particle run has done if it returns: the steady solve, the forces and the
output files of time step 0, the time steps, and the closing calls; `CL` has received the
two lift values of the two calls of `compVelocity`. -/
theorem run_unsteady_calls {K : Type} [LinearOrderedField K] (ext : externals K)
    (ops : runOps K) (printFlag surfStreamFlag stabDerivFlag : Bool) (s : cpCase K)
    (r : runState K)
    (h : run ext ops printFlag surfStreamFlag stabDerivFlag true s = some r) :
    ∃ (conv0 : Bool) (blocks : List (List call)) (ca cb : cpCase K),
      (∀ b ∈ blocks, stepCalls b) ∧
      r.trace = [call.setSourceStrengths, call.solveMatrixEq conv0, call.compVelocity,
          call.writeFiles] ++ blocks.flatten ++ [call.compVelocity, call.trefftzPlaneAnalysis] ++
        (if surfStreamFlag then [call.createStreamlines] else []) ++
        (if stabDerivFlag then [call.stabilityDerivatives] else []) ∧
      (∃ c, compVelocity ext c = some ca) ∧ (∃ c, compVelocity ext c = some cb) ∧
      (ops.keepSeries → blocks.length = s.numSteps ∧
        r.c.CL = s.CL ++ [ca.Fbody 2, cb.Fbody 2]) := by
  simp only [run, Option.bind_eq_bind, if_true] at h
  obtain ⟨r1, h1, h⟩ := Option.bind_eq_some.1 h
  obtain ⟨c1, hc1, rfl⟩ := call_some _ _ _ _ h1
  obtain ⟨res, h2, h⟩ := Option.bind_eq_some.1 h
  obtain ⟨conv0, c2⟩ := res
  obtain ⟨st, h3, h⟩ := Option.bind_eq_some.1 h
  obtain ⟨ca, blocks, hca, hall, htr, hser⟩ := runUnsteady_calls ext ops _ _ h3
  obtain ⟨r4, h4, h⟩ := Option.bind_eq_some.1 h
  obtain ⟨cb, hcb, rfl⟩ := call_some _ _ _ _ h4
  obtain ⟨r5, h5, h⟩ := Option.bind_eq_some.1 h
  obtain ⟨c5, hc5, rfl⟩ := call_some _ _ _ _ h5
  obtain ⟨r6, h6, h⟩ := Option.bind_eq_some.1 h
  obtain ⟨r7, h7, h⟩ := Option.bind_eq_some.1 h
  have hlast : r = if (!st.1 && printFlag) = true then
      r7.print [coutItem.str warning, coutItem.endl] else r7 := by
    cases printFlag <;> simpa using h.symm
  have hr : r.trace = r7.trace ∧ r.c = r7.c := by
    rw [hlast]
    split <;> exact ⟨rfl, rfl⟩
  have h6' : ∃ c6, r6.c = c6 ∧ (ops.keepSeries → sameSeries c5 c6) ∧
      r6.trace = st.2.trace ++ [call.compVelocity, call.trefftzPlaneAnalysis] ++
        (if surfStreamFlag then [call.createStreamlines] else []) := by
    cases surfStreamFlag
    · simp only [Bool.false_eq_true, if_false, Option.some.injEq] at h6
      subst h6
      exact ⟨c5, by cases printFlag <;> rfl, fun _ => sameSeries_refl c5,
        by cases printFlag <;> simp [runState.mark, runState.print]⟩
    · simp only [if_true, Option.map_eq_some'] at h6
      obtain ⟨ra, ha, rfl⟩ := h6
      obtain ⟨c6, hc6, rfl⟩ := call_some _ _ _ _ ha
      refine ⟨c6, by cases printFlag <;> rfl, fun hk => hk.2.2.2.2.1 _ _ ?_,
        by cases printFlag <;> simp [runState.mark, runState.print]⟩
      cases printFlag <;> exact hc6
  obtain ⟨c6, hc6, hser6, htr6⟩ := h6'
  have h7' : ∃ c7, r7.c = c7 ∧ (ops.keepSeries → sameSeries c6 c7) ∧
      r7.trace = r6.trace ++ (if stabDerivFlag then [call.stabilityDerivatives] else []) := by
    cases stabDerivFlag
    · simp only [Bool.false_eq_true, if_false, Option.some.injEq] at h7
      subst h7
      exact ⟨c6, by cases printFlag <;> exact hc6, fun _ => sameSeries_refl c6,
        by cases printFlag <;> simp [runState.mark, runState.print]⟩
    · simp only [if_true, Option.map_eq_some'] at h7
      obtain ⟨ra, ha, rfl⟩ := h7
      obtain ⟨c7, hc7, rfl⟩ := call_some _ _ _ _ ha
      refine ⟨c7, by cases printFlag <;> rfl, fun hk => hk.2.2.2.2.2 _ _ ?_,
        by cases printFlag <;> simp [runState.mark, runState.print]⟩
      rw [← hc6]
      exact hc7
  obtain ⟨c7, hc7, hser7, htr7⟩ := h7'
  refine ⟨conv0, blocks, ca, cb, hall, ?_, ⟨_, hca⟩, ⟨_, hcb⟩, ?_⟩
  · rw [hr.1, htr7, htr6, htr]
    simp [runState.print]
  · intro hk
    obtain ⟨hlen, hCL, hN⟩ := hser hk
    have e1 := setSourceStrengths_series ext _ _ hc1
    have e2 := solve_series ext c1 c2 false conv0 (by simpa using h2)
    have e12 := sameSeries_trans e1 e2
    have ecb := compVelocity_series ext _ _ hcb
    have e5 := hk.2.2.2.1 _ _ hc5
    have e67 := sameSeries_trans (hser6 hk) (hser7 hk)
    simp only [runState.print] at hlen hCL hN
    simp only [(mark_c _ _ _ _ _).1] at e5 ecb
    refine ⟨by rw [hlen, e12.2], ?_⟩
    rw [hr.2, hc7, e67.1, e5.1, ecb.1, hCL, e12.1]
    simp

/-- The member functions of the examples leave `CL` and the number of time steps as they
are. -/
theorem demoOps_keepSeries : demoOps.keepSeries := by
  refine ⟨?_, ?_, ?_, ?_, ?_, ?_⟩ <;>
  · intro s s2 h
    simp only [demoOps, Option.some.injEq] at h
    subst h
    exact ⟨rfl, rfl⟩

/-- `setSourceStrengths` leaves the flag `accelerate` as it is. -/
theorem setSourceStrengths_accelerate {K : Type} [Field K] (ext : externals K) :
    keepsAccelerate (setSourceStrengths ext) := by
  intro s s2 h
  rw [setSourceStrengths_eq] at h
  simp only [Option.some.injEq] at h
  subst h
  rfl

/-- The loop over the body panels of the solves leaves the flag `accelerate` as it is. -/
theorem writeBodyMu_accelerate {K : Type} (ext : externals K) (x : VectorXd K) :
    keepsAccelerate (writeBodyMu ext x) := by
  intro s s2 h
  unfold writeBodyMu at h
  refine forLoop_preserves _ (fun t => t.accelerate = s.accelerate) _ ?_ s s2 rfl h
  intro k t t' _ ht hbody
  cases hp : t.bPanels[k]? with
  | none => simp [hp] at hbody
  | some p =>
    cases hd : x[k]? with
    | none => simp [hp, hd] at hbody
    | some d =>
      simp only [hp, hd, Option.bind_eq_bind, Option.some_bind, Option.some.injEq] at hbody
      subst hbody
      exact ht

/-- Both solves leave the flag `accelerate` as it is. -/
theorem solve_accelerate {K : Type} [LinearOrderedField K] (ext : externals K)
    (s s2 : cpCase K) (prev c : Bool)
    (h : (if prev then solveVPmatrixEq ext s else solveMatrixEq ext s) = some (c, s2)) :
    s2.accelerate = s.accelerate := by
  cases prev
  · simp only [Bool.false_eq_true, if_false, solveMatrixEq, Option.bind_eq_bind] at h
    obtain ⟨s1, h1, h⟩ := Option.bind_eq_some.1 h
    obtain ⟨s3, h3, h⟩ := Option.bind_eq_some.1 h
    simp only [Option.some.injEq, Prod.mk.injEq] at h
    obtain ⟨-, rfl⟩ := h
    refine (forLoop_preserves _ (fun t => t.accelerate = s1.accelerate) _ ?_ s1 s3 rfl h3).trans
      (writeBodyMu_accelerate ext _ s s1 h1)
    intro k t t' _ ht hbody
    cases hw : t.wPanels[k]? with
    | none => simp [hw] at hbody
    | some w =>
      cases hm : w.setMu t.bPanels with
      | none => simp [hw, hm] at hbody
      | some w2 =>
        simp only [hw, hm, Option.bind_eq_bind, Option.some_bind, Option.some.injEq] at hbody
        subst hbody
        exact ht
  · simp only [if_true, solveVPmatrixEq, Option.bind_eq_bind] at h
    obtain ⟨s1, h1, h⟩ := Option.bind_eq_some.1 h
    obtain ⟨s3, h3, h⟩ := Option.bind_eq_some.1 h
    simp only [Option.some.injEq, Prod.mk.injEq] at h
    obtain ⟨-, rfl⟩ := h
    refine (forLoop_preserves _ (fun t => t.accelerate = s1.accelerate) _ ?_ s1 s3 rfl h3).trans
      (writeBodyMu_accelerate ext _ s s1 h1)
    intro k t t' _ ht hbody
    cases hw : t.wPanels[k]? with
    | none => simp [hw] at hbody
    | some w =>
      cases hm : (w.setPrevStrength w.doubletStrength).setMu t.bPanels with
      | none => simp [hw, hm] at hbody
      | some w2 =>
        simp only [hw, hm, Option.bind_eq_bind, Option.some_bind, Option.some.injEq] at hbody
        subst hbody
        exact ht

/-- `compVelocity` leaves the flag `accelerate` as it is. -/
theorem compVelocity_accelerate {K : Type} [Field K] (ext : externals K) (s s2 : cpCase K)
    (h : compVelocity ext s = some s2) : s2.accelerate = s.accelerate := by
  obtain ⟨bl, -, -, hc⟩ := compVelocity_eq ext s
  have hc' := hc s.Fbody s.CM
  have hs : ({ s with Fbody := s.Fbody, CM := s.CM } : cpCase K) = s := rfl
  rw [hs, h] at hc'
  simp only [Option.some.injEq] at hc'
  subst hc'
  rfl

/-- A time step of `run` that returns has made the calls of a step with the rebuild of the
octree exactly when the flag `accelerate` is set after the collapse; when the member functions
leave the flag alone, that is its value at the start of the step, and the step leaves it
alone. -/
theorem runStep_flag {K : Type} [LinearOrderedField K] (ext : externals K) (ops : runOps K)
    (st st2 : Bool × runState K) (h : runStep ext ops st = some st2) :
    ∃ acc conv : Bool, st2.2.trace = st.2.trace ++ stepBlock acc conv ∧
      (∃ c1, ops.collapseWakeForEachEdge st.2.c = some c1 ∧ c1.accelerate = acc) ∧
      (ops.keepAccelerate →
        acc = st.2.c.accelerate ∧ st2.2.c.accelerate = st.2.c.accelerate) := by
  obtain ⟨c1, c2, c3, c4, c5, conv, h1, h2, h3, h4, h5, -, hc, ht⟩ := runStep_some ext ops st st2 h
  refine ⟨c1.accelerate, conv, ht, ⟨c1, h1, rfl⟩, ?_⟩
  rintro ⟨hwrite, hcollapse, hconvect⟩
  have e1 := hcollapse _ _ h1
  have e2 : (if c1.accelerate then rebuildOctree c1 else c1).accelerate = c1.accelerate := by
    by_cases hacc : c1.accelerate = true
    · rw [if_pos hacc]
      rfl
    · rw [if_neg hacc]
  have e3 := setSourceStrengths_accelerate ext _ _ h2
  have e4 := solve_accelerate ext c2 c3 true conv h3
  have e5 := hwrite _ _ h4
  have e7 := hconvect _ _ h5
  refine ⟨e1, ?_⟩
  rw [hc, e7]
  show c4.accelerate = _
  rw [e5, e4, e3, e2, e1]

/-- The loop over the time steps, if it returns, has made the calls of one step after the
other, each with the rebuild of the octree exactly when its flag is set; when the member
functions leave the flag `accelerate` alone, every flag is its value before the loop. -/
theorem runStep_loop_flags {K : Type} [LinearOrderedField K] (ext : externals K)
    (ops : runOps K) (n : Nat) (st st2 : Bool × runState K)
    (h : forLoop (fun _ st => runStep ext ops st) n st = some st2) :
    ∃ steps : List (Bool × Bool), steps.length = n ∧
      st2.2.trace = st.2.trace ++ steps.flatMap (fun p => stepBlock p.1 p.2) ∧
      (ops.keepAccelerate →
        (∀ p ∈ steps, p.1 = st.2.c.accelerate) ∧ st2.2.c.accelerate = st.2.c.accelerate) := by
  refine forLoop_preserves_at (fun _ st => runStep ext ops st)
    (fun (k : Nat) (t : Bool × runState K) => ∃ steps : List (Bool × Bool), steps.length = k ∧
      t.2.trace = st.2.trace ++ steps.flatMap (fun p => stepBlock p.1 p.2) ∧
      (ops.keepAccelerate →
        (∀ p ∈ steps, p.1 = st.2.c.accelerate) ∧ t.2.c.accelerate = st.2.c.accelerate))
    n ?_ st st2 ⟨[], rfl, by simp, fun _ => ⟨by simp, rfl⟩⟩ h
  rintro k t t' _ ⟨steps, hlen, htr, hacc⟩ hstep
  obtain ⟨acc, conv, htr', -, hacc'⟩ := runStep_flag ext ops t t' hstep
  refine ⟨steps ++ [(acc, conv)], by simp [hlen], ?_, ?_⟩
  · rw [htr', htr]
    simp
  · intro hk
    obtain ⟨ha, hb⟩ := hacc hk
    obtain ⟨ha', hb'⟩ := hacc' hk
    refine ⟨?_, hb'.trans hb⟩
    intro p hp
    rcases List.mem_append.1 hp with hp | hp
    · exact ha p hp
    · rw [List.mem_singleton.1 hp]
      exact ha'.trans hb

/-- What the block of a vortex-particle case has done if it returns: the forces of time step
0, the output files, and then the time steps, each with its flag. -/
theorem runUnsteady_flags {K : Type} [LinearOrderedField K] (ext : externals K)
    (ops : runOps K) (st st2 : Bool × runState K) (h : runUnsteady ext ops st = some st2) :
    ∃ steps : List (Bool × Bool),
      st2.2.trace = st.2.trace ++ [call.compVelocity, call.writeFiles] ++
        steps.flatMap (fun p => stepBlock p.1 p.2) ∧
      (ops.keepSeries → steps.length = st.2.c.numSteps) ∧
      (ops.keepAccelerate → ∀ p ∈ steps, p.1 = st.2.c.accelerate) := by
  obtain ⟨conv0, r⟩ := st
  simp only [runUnsteady, Option.bind_eq_bind] at h
  obtain ⟨r1, h1, h⟩ := Option.bind_eq_some.1 h
  obtain ⟨c1, hc1, rfl⟩ := call_some _ _ _ _ h1
  obtain ⟨r2, h2, h⟩ := Option.bind_eq_some.1 h
  obtain ⟨c2, hc2, rfl⟩ := call_some _ _ _ _ h2
  obtain ⟨stL, hL, h⟩ := Option.bind_eq_some.1 h
  simp only [Option.some.injEq] at h
  subst h
  obtain ⟨steps, hlen, htr, hacc⟩ := runStep_loop_flags ext ops _ _ _ hL
  have hcv := compVelocity_series ext _ _ hc1
  have hca := compVelocity_accelerate ext _ _ hc1
  refine ⟨steps, ?_, ?_, ?_⟩
  · simp only [runState.print, htr, runState.incTimeStep]
    simp
  · intro hk
    have e2 := hk.1 _ _ hc2
    simp only [runState.incTimeStep, runState.print] at hlen hcv e2 ⊢
    rw [hlen, e2.2, hcv.2]
  · intro hk p hp
    have e2 := hk.1 _ _ hc2
    have e3 := (hacc hk).1 p hp
    simp only [runState.incTimeStep, runState.print] at e3 hca e2 ⊢
    rw [e3, e2, hca]

/-- What a vortex-particle run has done if it returns: the steady solve, the forces and the
output files of time step 0, the time steps, each with its flag, and the closing calls. -/
theorem run_unsteady_flags {K : Type} [LinearOrderedField K] (ext : externals K)
    (ops : runOps K) (printFlag surfStreamFlag stabDerivFlag : Bool) (s : cpCase K)
    (r : runState K)
    (h : run ext ops printFlag surfStreamFlag stabDerivFlag true s = some r) :
    ∃ (conv0 : Bool) (steps : List (Bool × Bool)),
      r.trace = [call.setSourceStrengths, call.solveMatrixEq conv0, call.compVelocity,
          call.writeFiles] ++ steps.flatMap (fun p => stepBlock p.1 p.2) ++
        [call.compVelocity, call.trefftzPlaneAnalysis] ++
        (if surfStreamFlag then [call.createStreamlines] else []) ++
        (if stabDerivFlag then [call.stabilityDerivatives] else []) ∧
      (ops.keepSeries → steps.length = s.numSteps) ∧
      (ops.keepAccelerate → ∀ p ∈ steps, p.1 = s.accelerate) := by
  simp only [run, Option.bind_eq_bind, if_true] at h
  obtain ⟨r1, h1, h⟩ := Option.bind_eq_some.1 h
  obtain ⟨c1, hc1, rfl⟩ := call_some _ _ _ _ h1
  obtain ⟨res, h2, h⟩ := Option.bind_eq_some.1 h
  obtain ⟨conv0, c2⟩ := res
  obtain ⟨st, h3, h⟩ := Option.bind_eq_some.1 h
  obtain ⟨steps, htr, hser, hacc⟩ := runUnsteady_flags ext ops _ _ h3
  obtain ⟨r4, h4, h⟩ := Option.bind_eq_some.1 h
  obtain ⟨cb, hcb, rfl⟩ := call_some _ _ _ _ h4
  obtain ⟨r5, h5, h⟩ := Option.bind_eq_some.1 h
  obtain ⟨c5, hc5, rfl⟩ := call_some _ _ _ _ h5
  obtain ⟨r6, h6, h⟩ := Option.bind_eq_some.1 h
  obtain ⟨r7, h7, h⟩ := Option.bind_eq_some.1 h
  have hlast : r = if (!st.1 && printFlag) = true then
      r7.print [coutItem.str warning, coutItem.endl] else r7 := by
    cases printFlag <;> simpa using h.symm
  have hr : r.trace = r7.trace := by
    rw [hlast]
    split <;> rfl
  have htr6 : r6.trace = st.2.trace ++ [call.compVelocity, call.trefftzPlaneAnalysis] ++
      (if surfStreamFlag then [call.createStreamlines] else []) := by
    cases surfStreamFlag
    · simp only [Bool.false_eq_true, if_false, Option.some.injEq] at h6
      subst h6
      cases printFlag <;> simp [runState.mark, runState.print]
    · simp only [if_true, Option.map_eq_some'] at h6
      obtain ⟨ra, ha, rfl⟩ := h6
      obtain ⟨c6, hc6, rfl⟩ := call_some _ _ _ _ ha
      cases printFlag <;> simp [runState.mark, runState.print]
  have htr7 : r7.trace = r6.trace ++
      (if stabDerivFlag then [call.stabilityDerivatives] else []) := by
    cases stabDerivFlag
    · simp only [Bool.false_eq_true, if_false, Option.some.injEq] at h7
      subst h7
      cases printFlag <;> simp [runState.mark, runState.print]
    · simp only [if_true, Option.map_eq_some'] at h7
      obtain ⟨ra, ha, rfl⟩ := h7
      obtain ⟨c7, hc7, rfl⟩ := call_some _ _ _ _ ha
      cases printFlag <;> simp [runState.mark, runState.print]
  have e1 := setSourceStrengths_series ext _ _ hc1
  have e2 := solve_series ext c1 c2 false conv0 (by simpa using h2)
  have a1 := setSourceStrengths_accelerate ext _ _ hc1
  have a2 := solve_accelerate ext c1 c2 false conv0 (by simpa using h2)
  refine ⟨conv0, steps, ?_, ?_, ?_⟩
  · rw [hr, htr7, htr6, htr]
    simp [runState.print]
  · intro hk
    have hlen := hser hk
    simp only [runState.print] at hlen
    rw [hlen, e2.2, e1.2]
  · intro hk p hp
    have hp' := hacc hk p hp
    simp only [runState.print] at hp'
    rw [hp', a2, a1]

/-- The member functions of the examples leave the flag `accelerate` as it is. -/
theorem demoOps_keepAccelerate : demoOps.keepAccelerate := by
  refine ⟨?_, ?_, ?_⟩ <;>
  · intro s s2 h
    simp only [demoOps, Option.some.injEq] at h
    subst h
    rfl

/-- C19 (amended). A vortex-particle run on a case that is ready for its solves returns, and
the calls it has made are: the steady solve, the forces and output files of time step 0,
then for every unsteady time step a block of calls, then the closing calls.  The block of a
step is, in this order, the wake collapse, the rebuild of the octree exactly when the flag of
the step is set, the source strengths, the doublet solve `solveVPmatrixEq`, the output files
and the particle convection; it holds no particle strength update.  When the member functions
that are parameters leave `accelerate` as it is, the flag of every step is the flag
`accelerate` of the case; when they keep `numSteps`, there are `numSteps` blocks. -/
theorem run_step_order {K : Type} [LinearOrderedField K] (ext : externals K) (ops : runOps K)
    (hsolver : ∀ A b, (ext.bicgstab A b).1.length = A.length) (hops : ops.keep)
    (printFlag surfStreamFlag stabDerivFlag : Bool) (s : cpCase K) (hs : wellFormed s) :
    ∃ (r : runState K) (conv0 : Bool) (steps : List (Bool × Bool)),
      run ext ops printFlag surfStreamFlag stabDerivFlag true s = some r ∧
      r.trace = [call.setSourceStrengths, call.solveMatrixEq conv0, call.compVelocity,
          call.writeFiles] ++
        steps.flatMap (fun p =>
          [call.collapseWakeForEachEdge] ++ (if p.1 then [call.rebuildOctree] else []) ++
            [call.setSourceStrengths, call.solveVPmatrixEq p.2, call.writeFiles,
              call.convectParticles]) ++
        [call.compVelocity, call.trefftzPlaneAnalysis] ++
        (if surfStreamFlag then [call.createStreamlines] else []) ++
        (if stabDerivFlag then [call.stabilityDerivatives] else []) ∧
      (ops.keepAccelerate → ∀ p ∈ steps, p.1 = s.accelerate) ∧
      (ops.keepSeries → steps.length = s.numSteps) := by
  obtain ⟨r, -, hrun, -⟩ := run_spec ext ops hsolver hops printFlag surfStreamFlag
    stabDerivFlag true s hs
  obtain ⟨conv0, steps, htr, hser, hacc⟩ :=
    run_unsteady_flags ext ops printFlag surfStreamFlag stabDerivFlag s r hrun
  exact ⟨r, conv0, steps, hrun, htr, hacc, hser⟩

theorem run_step_order_witness :
    ((∀ A b, (demoExt.bicgstab A b).1.length = A.length) ∧ demoOps.keep ∧
      wellFormed demoCase ∧ demoOps.keepAccelerate ∧ demoOps.keepSeries) ∧
    ∃ (r : runState ℚ) (conv0 : Bool) (steps : List (Bool × Bool)),
      run demoExt demoOps true false false true demoCase = some r ∧
      r.trace = [call.setSourceStrengths, call.solveMatrixEq conv0, call.compVelocity,
          call.writeFiles] ++
        steps.flatMap (fun p =>
          [call.collapseWakeForEachEdge] ++ (if p.1 then [call.rebuildOctree] else []) ++
            [call.setSourceStrengths, call.solveVPmatrixEq p.2, call.writeFiles,
              call.convectParticles]) ++
        [call.compVelocity, call.trefftzPlaneAnalysis] ++
        (if false then [call.createStreamlines] else []) ++
        (if false then [call.stabilityDerivatives] else []) ∧
      (∀ p ∈ steps, p.1 = true) ∧ steps.length = 1 := by
  obtain ⟨r, conv0, steps, hrun, htr, hacc, hser⟩ :=
    run_step_order demoExt demoOps demoExt_solver demoOps_keep true false false demoCase
      ⟨rfl, by decide⟩
  exact ⟨⟨demoExt_solver, demoOps_keep, ⟨rfl, by decide⟩, demoOps_keepAccelerate,
    demoOps_keepSeries⟩, r, conv0, steps, hrun, htr, hacc demoOps_keepAccelerate,
    hser demoOps_keepSeries⟩

/-- C19 (counterexample). In the vortex-particle run of the one-panel example, which has one
unsteady time step, the wake collapse (call 4) comes before the source strengths (call 5) and
the doublet solve (call 6) of the step, not after them. -/
theorem run_collapses_before_source_strengths :
    tinyCase.numSteps = 1 ∧
    ∃ r, run demoExtBack demoOps true false false true tinyCase = some r ∧
      r.trace = [call.setSourceStrengths, call.solveMatrixEq false, call.compVelocity,
        call.writeFiles, call.collapseWakeForEachEdge, call.setSourceStrengths,
        call.solveVPmatrixEq true, call.writeFiles, call.convectParticles, call.compVelocity,
        call.trefftzPlaneAnalysis] ∧
      r.trace[4]? = some call.collapseWakeForEachEdge ∧
      r.trace[5]? = some call.setSourceStrengths ∧
      r.trace[6]? = some (call.solveVPmatrixEq true) := by
  refine ⟨rfl, ?_⟩
  have h := tinyCase_trace_unsteady
  cases hr : run demoExtBack demoOps true false false true tinyCase with
  | none => simp [hr] at h
  | some r =>
    rw [hr] at h
    simp only [Option.map_some', Option.some.injEq] at h
    exact ⟨r, rfl, h, by rw [h]; rfl, by rw [h]; rfl, by rw [h]; rfl⟩

/-- C20 (amended). A vortex-particle run on a case that is ready for its solves, with member
functions that leave `CL` and `numSteps` alone, returns after `numSteps` unsteady time steps
and has appended exactly two values to `CL`: the z component of the body force that
`compVelocity` computed at time step 0, before the first unsteady step, and the one it
computed after the last step.  The unsteady steps themselves hold no call of `compVelocity`
and append nothing. -/
theorem run_appends_two_lift_values {K : Type} [LinearOrderedField K] (ext : externals K)
    (ops : runOps K) (hsolver : ∀ A b, (ext.bicgstab A b).1.length = A.length)
    (hops : ops.keep) (hseries : ops.keepSeries)
    (printFlag surfStreamFlag stabDerivFlag : Bool) (s : cpCase K) (hs : wellFormed s) :
    ∃ (r : runState K) (conv0 : Bool) (blocks : List (List call)) (ca cb : cpCase K),
      run ext ops printFlag surfStreamFlag stabDerivFlag true s = some r ∧
      blocks.length = s.numSteps ∧
      (∀ b ∈ blocks, call.compVelocity ∉ b) ∧
      r.trace = [call.setSourceStrengths, call.solveMatrixEq conv0, call.compVelocity,
          call.writeFiles] ++ blocks.flatten ++ [call.compVelocity, call.trefftzPlaneAnalysis] ++
        (if surfStreamFlag then [call.createStreamlines] else []) ++
        (if stabDerivFlag then [call.stabilityDerivatives] else []) ∧
      (∃ c, compVelocity ext c = some ca) ∧ (∃ c, compVelocity ext c = some cb) ∧
      r.c.CL = s.CL ++ [ca.Fbody 2, cb.Fbody 2] ∧
      r.c.CL.length = s.CL.length + 2 := by
  obtain ⟨r, -, hrun, -⟩ := run_spec ext ops hsolver hops printFlag surfStreamFlag
    stabDerivFlag true s hs
  obtain ⟨conv0, blocks, ca, cb, hall, htr, hca, hcb, hser⟩ :=
    run_unsteady_calls ext ops printFlag surfStreamFlag stabDerivFlag s r hrun
  obtain ⟨hlen, hCL⟩ := hser hseries
  refine ⟨r, conv0, blocks, ca, cb, hrun, hlen, ?_, htr, hca, hcb, hCL, by simp [hCL]⟩
  intro b hb
  obtain ⟨conv, hb' | hb'⟩ := hall b hb <;> simp [hb']

theorem run_appends_two_lift_values_witness :
    ((∀ A b, (demoExtBack.bicgstab A b).1.length = A.length) ∧ demoOps.keep ∧
      demoOps.keepSeries ∧ wellFormed twoStepCase) ∧
    ∃ (r : runState ℚ) (conv0 : Bool) (blocks : List (List call)) (ca cb : cpCase ℚ),
      run demoExtBack demoOps true false false true twoStepCase = some r ∧
      blocks.length = twoStepCase.numSteps ∧
      (∀ b ∈ blocks, call.compVelocity ∉ b) ∧
      r.trace = [call.setSourceStrengths, call.solveMatrixEq conv0, call.compVelocity,
          call.writeFiles] ++ blocks.flatten ++ [call.compVelocity, call.trefftzPlaneAnalysis] ++
        (if false then [call.createStreamlines] else []) ++
        (if false then [call.stabilityDerivatives] else []) ∧
      (∃ c, compVelocity demoExtBack c = some ca) ∧
      (∃ c, compVelocity demoExtBack c = some cb) ∧
      r.c.CL = twoStepCase.CL ++ [ca.Fbody 2, cb.Fbody 2] ∧
      r.c.CL.length = twoStepCase.CL.length + 2 :=
  ⟨⟨demoExt_solver, demoOps_keep, demoOps_keepSeries, rfl, by decide⟩,
    run_appends_two_lift_values demoExtBack demoOps demoExt_solver demoOps_keep
      demoOps_keepSeries true false false twoStepCase ⟨rfl, by decide⟩⟩

/-- C20 (counterexample). The vortex-particle run of the one-panel example with two unsteady
time steps, entered with an empty `CL`, leaves two values in `CL`, not one for time step 0
and one for each of the two steps. -/
theorem run_two_steps_two_lift_values :
    twoStepCase.numSteps = 2 ∧ twoStepCase.CL = [] ∧
    ∃ r, run demoExtBack demoOps true false false true twoStepCase = some r ∧
      r.c.CL.length = 2 ∧ r.c.CL.length ≠ twoStepCase.numSteps + 1 := by
  refine ⟨rfl, rfl, ?_⟩
  obtain ⟨r, -, hrun, -⟩ := run_spec demoExtBack demoOps demoExt_solver demoOps_keep
    true false false true twoStepCase ⟨rfl, by decide⟩
  obtain ⟨conv0, blocks, ca, cb, -, -, -, -, hser⟩ :=
    run_unsteady_calls demoExtBack demoOps true false false twoStepCase r hrun
  obtain ⟨-, hCL⟩ := hser demoOps_keepSeries
  have hlen : r.c.CL.length = 2 := by
    rw [hCL]
    rfl
  refine ⟨r, hrun, hlen, ?_⟩
  rw [hlen]
  decide

/-! ## The interaction kernels of the particles -/

theorem cdiv_of_ne {K : Type} [LinearOrderedField K] (a b : K) (h : b ≠ 0) :
    cdiv a b = some (a / b) := by
  simp [cdiv, h]

theorem cdiv_zero {K : Type} [LinearOrderedField K] (a : K) : cdiv a 0 = none := by
  simp [cdiv]

/-- The Euclidean norm of a non-zero real vector is positive. -/
theorem norm3_pos (v : Vector3d ℝ) (h : v ≠ 0) :
    0 < norm3 (libm.mk Real.cos Real.sin Real.arccos Real.pi Real.sqrt) v := by
  unfold norm3
  apply Real.sqrt_pos.2
  have hne : v 0 ≠ 0 ∨ v 1 ≠ 0 ∨ v 2 ≠ 0 := by
    by_contra hall
    push_neg at hall
    apply h
    funext i
    fin_cases i
    · exact hall.1
    · exact hall.2.1
    · exact hall.2.2
  unfold dot
  rcases hne with h0 | h1 | h2
  · have := mul_self_pos.2 h0
    nlinarith [mul_self_nonneg (v 1), mul_self_nonneg (v 2)]
  · have := mul_self_pos.2 h1
    nlinarith [mul_self_nonneg (v 0), mul_self_nonneg (v 2)]
  · have := mul_self_pos.2 h2
    nlinarith [mul_self_nonneg (v 0), mul_self_nonneg (v 1)]

/-- The symmetrised core size of two particles is positive when one of the cores is not
zero. -/
theorem sigma_pos (c r1 r2 : ℝ) (h : c * r1 ≠ 0 ∨ c * r2 ≠ 0) :
    0 < Real.sqrt ((c * r1) ^ 2 + (c * r2) ^ 2) / Real.sqrt 2 := by
  apply div_pos
  · apply Real.sqrt_pos.2
    rcases h with h | h
    · have := pow_pos (abs_pos.2 h) 2
      rw [sq_abs] at this
      nlinarith [sq_nonneg (c * r2)]
    · have := pow_pos (abs_pos.2 h) 2
      rw [sq_abs] at this
      nlinarith [sq_nonneg (c * r1)]
  · exact Real.sqrt_pos.2 (by norm_num)

/-- C21. Over the reals, with the `sqrt`, `pow`, `exp` and `pi` of the real numbers and any
function `erf`: for two distinct particles at distinct positions, of which one has a core that
is not zero, `velInfl(part)` returns `-K(rho)/sigma^3 * (x_part - x_this) x alpha_this`, where
`sigma = sqrt((c r_this)^2 + (c r_part)^2)/sqrt 2`, `rho = |x_part - x_this|/sigma` and
`K(rho) = (erf(rho/sqrt 2)/(4 pi rho) - exp(-rho^2/2)/(2 pi)^(3/2))/rho^2`; and `sigma` is the
same when the two particles are exchanged. -/
theorem velInfl_gaussian (erf : ℝ → ℝ) (c : ℝ) (thisPtr partPtr : Nat)
    (this part : particle ℝ) (sigma rho kern : ℝ)
    (hptr : thisPtr ≠ partPtr) (hpos : this.pos ≠ part.pos)
    (hcore : c * this.radius ≠ 0 ∨ c * part.radius ≠ 0)
    (hsigma : sigma = Real.sqrt ((c * this.radius) ^ 2 + (c * part.radius) ^ 2) / Real.sqrt 2)
    (hrho : rho = Real.sqrt (dot (part.pos - this.pos) (part.pos - this.pos)) / sigma)
    (hkern : kern = (erf (rho / Real.sqrt 2) / (4 * Real.pi * rho) -
      Real.exp (-rho ^ 2 / 2) / (2 * Real.pi) ^ ((3 : ℝ) / 2)) / rho ^ 2) :
    particle.velInfl (libm.mk Real.cos Real.sin Real.arccos Real.pi Real.sqrt)
        (kernelMath.mk (fun x y => x ^ y) Real.exp erf c) thisPtr partPtr this part =
      some ((-kern / sigma ^ 3) • cross (part.pos - this.pos) this.strength) ∧
    sigmaPair (libm.mk Real.cos Real.sin Real.arccos Real.pi Real.sqrt)
        (kernelMath.mk (fun x y => x ^ y) Real.exp erf c) this.radius part.radius = some sigma ∧
    sigmaPair (libm.mk Real.cos Real.sin Real.arccos Real.pi Real.sqrt)
        (kernelMath.mk (fun x y => x ^ y) Real.exp erf c) part.radius this.radius = some sigma := by
  have hs2 : Real.sqrt 2 ≠ 0 := (Real.sqrt_pos.2 (by norm_num)).ne'
  have hsig := sigma_pos c this.radius part.radius hcore
  rw [← hsigma] at hsig
  have hd : part.pos - this.pos ≠ 0 := fun h => hpos (sub_eq_zero.1 h).symm
  have hn := norm3_pos _ hd
  have hrho0 : 0 < rho := by
    rw [hrho]
    exact div_pos hn hsig
  have hpi := Real.pi_pos
  have hp2 : (2 : ℝ) ^ (0.5 : ℝ) = Real.sqrt 2 := by
    rw [Real.sqrt_eq_rpow]
    norm_num
  have hp3 : (1.5 : ℝ) = 3 / 2 := by norm_num
  have hpp : (0 : ℝ) < (2 * Real.pi) ^ ((3 : ℝ) / 2) := Real.rpow_pos_of_pos (by positivity) _
  have hsp : sigmaPair (libm.mk Real.cos Real.sin Real.arccos Real.pi Real.sqrt)
      (kernelMath.mk (fun x y => x ^ y) Real.exp erf c) this.radius part.radius = some sigma := by
    unfold sigmaPair
    rw [cdiv_of_ne _ _ hs2, hsigma]
  refine ⟨?_, hsp, ?_⟩
  · unfold particle.velInfl
    rw [if_neg hptr, if_neg hptr, hsp]
    have hnorm : norm3 (libm.mk Real.cos Real.sin Real.arccos Real.pi Real.sqrt)
        (part.pos - this.pos) / sigma = rho := by
      rw [hrho]
      rfl
    simp only [Option.bind_eq_bind, Option.some_bind]
    rw [cdiv_of_ne _ _ hsig.ne', hnorm]
    simp only [Option.some_bind, velKernel, Option.bind_eq_bind]
    rw [cdiv_of_ne _ _ (by positivity : 4 * Real.pi * rho ≠ 0)]
    simp only [Option.some_bind, hp2, hp3]
    rw [cdiv_of_ne _ _ hs2]
    simp only [Option.some_bind]
    rw [cdiv_of_ne _ _ hpp.ne']
    simp only [Option.some_bind]
    rw [cdiv_of_ne _ _ (by positivity : rho * rho ≠ 0)]
    simp only [Option.some_bind]
    rw [cdiv_of_ne _ _ (by positivity : sigma ^ 3 ≠ 0)]
    simp only [Option.some_bind, Option.some.injEq]
    congr 1
    rw [hkern]
    have he : (-0.5 : ℝ) * rho * rho = -rho ^ 2 / 2 := by
      norm_num
      ring
    rw [he]
    have hr : rho ≠ 0 := hrho0.ne'
    have hs : sigma ≠ 0 := hsig.ne'
    have hP := hpp.ne'
    generalize erf (rho / Real.sqrt 2) = A
    generalize Real.exp (-rho ^ 2 / 2) = B
    generalize (2 * Real.pi) ^ ((3 : ℝ) / 2) = P at hP
    field_simp
    left
    ring
  · unfold sigmaPair
    rw [cdiv_of_ne _ _ hs2, hsigma, add_comm]

theorem velInfl_gaussian_witness :
    ∃ sigma rho kern : ℝ,
      ((0 : Nat) ≠ 1 ∧ (kernelParticle ℝ 0 1).pos ≠ (kernelParticle ℝ 1 1).pos ∧
        ((1 : ℝ) * (kernelParticle ℝ 0 1).radius ≠ 0 ∨
          (1 : ℝ) * (kernelParticle ℝ 1 1).radius ≠ 0) ∧
        sigma = Real.sqrt (((1 : ℝ) * (kernelParticle ℝ 0 1).radius) ^ 2 +
          ((1 : ℝ) * (kernelParticle ℝ 1 1).radius) ^ 2) / Real.sqrt 2 ∧
        rho = Real.sqrt (dot ((kernelParticle ℝ 1 1).pos - (kernelParticle ℝ 0 1).pos)
          ((kernelParticle ℝ 1 1).pos - (kernelParticle ℝ 0 1).pos)) / sigma ∧
        kern = ((fun x : ℝ => x) (rho / Real.sqrt 2) / (4 * Real.pi * rho) -
          Real.exp (-rho ^ 2 / 2) / (2 * Real.pi) ^ ((3 : ℝ) / 2)) / rho ^ 2) ∧
      (particle.velInfl (libm.mk Real.cos Real.sin Real.arccos Real.pi Real.sqrt)
          (kernelMath.mk (fun x y => x ^ y) Real.exp (fun x => x) 1) 0 1
          (kernelParticle ℝ 0 1) (kernelParticle ℝ 1 1) =
        some ((-kern / sigma ^ 3) •
          cross ((kernelParticle ℝ 1 1).pos - (kernelParticle ℝ 0 1).pos)
            (kernelParticle ℝ 0 1).strength) ∧
      sigmaPair (libm.mk Real.cos Real.sin Real.arccos Real.pi Real.sqrt)
          (kernelMath.mk (fun x y => x ^ y) Real.exp (fun x => x) 1)
          (kernelParticle ℝ 0 1).radius (kernelParticle ℝ 1 1).radius = some sigma ∧
      sigmaPair (libm.mk Real.cos Real.sin Real.arccos Real.pi Real.sqrt)
          (kernelMath.mk (fun x y => x ^ y) Real.exp (fun x => x) 1)
          (kernelParticle ℝ 1 1).radius (kernelParticle ℝ 0 1).radius = some sigma) :=
  ⟨_, _, _, ⟨by decide, fun h => by simpa [kernelParticle] using congrFun h 0,
      Or.inl (by simp [kernelParticle]), rfl, rfl, rfl⟩,
    velInfl_gaussian (fun x => x) 1 0 1 (kernelParticle ℝ 0 1) (kernelParticle ℝ 1 1) _ _ _
      (by decide) (fun h => by simpa [kernelParticle] using congrFun h 0)
      (Or.inl (by simp [kernelParticle])) rfl rfl rfl⟩

/-- Two distinct particles at the same position: `velInfl(part)` divides by zero. -/
theorem velInfl_colocated (erf : ℝ → ℝ) (c : ℝ) (thisPtr partPtr : Nat)
    (this part : particle ℝ) (hptr : thisPtr ≠ partPtr) (hpos : this.pos = part.pos) :
    particle.velInfl (libm.mk Real.cos Real.sin Real.arccos Real.pi Real.sqrt)
      (kernelMath.mk (fun x y => x ^ y) Real.exp erf c) thisPtr partPtr this part = none := by
  have hs2 : Real.sqrt 2 ≠ 0 := (Real.sqrt_pos.2 (by norm_num)).ne'
  unfold particle.velInfl
  rw [if_neg hptr, if_neg hptr]
  unfold sigmaPair
  rw [cdiv_of_ne _ _ hs2]
  simp only [Option.bind_eq_bind, Option.some_bind]
  have hn : norm3 (libm.mk Real.cos Real.sin Real.arccos Real.pi Real.sqrt)
      (part.pos - this.pos) = 0 := by
    rw [hpos, sub_self]
    simp [norm3, dot]
  rw [hn]
  by_cases hsig : Real.sqrt ((c * this.radius) ^ 2 + (c * part.radius) ^ 2) / Real.sqrt 2 = 0
  · rw [hsig, cdiv_zero]
    rfl
  · rw [cdiv_of_ne _ _ hsig]
    simp only [Option.some_bind, zero_div, velKernel, mul_zero, cdiv_zero, Option.bind_eq_bind,
      Option.none_bind]

/-- C22 (amended). Over the reals, with the `sqrt`, `pow`, `exp` and `pi` of the real numbers
and any function `erf`: `velInfl(part)` returns the zero vector when `part` is the particle
itself, which it recognises by its address; `velInfl(POI)` returns the zero vector when `POI`
is the position of the particle; in neither case is a kernel evaluated. -/
theorem velInfl_short_circuits (erf : ℝ → ℝ) (c : ℝ) (thisPtr : Nat)
    (this part : particle ℝ) :
    particle.velInfl (libm.mk Real.cos Real.sin Real.arccos Real.pi Real.sqrt)
      (kernelMath.mk (fun x y => x ^ y) Real.exp erf c) thisPtr thisPtr this part = some 0 ∧
    particle.velInflPOI (libm.mk Real.cos Real.sin Real.arccos Real.pi Real.sqrt)
      (kernelMath.mk (fun x y => x ^ y) Real.exp erf c) this this.pos = some 0 := by
  refine ⟨by simp [particle.velInfl], ?_⟩
  unfold particle.velInflPOI
  rw [if_pos (by simp [norm3, dot])]

/-- C22 (counterexample). Two distinct particles (addresses 0 and 1) at the origin, both of
radius 1, with `coreOverlap = 1.3`: `velInfl(part)` does not return the zero vector, it
divides by zero. -/
theorem velInfl_divides_by_zero_when_colocated :
    (0 : Nat) ≠ 1 ∧ (kernelParticle ℝ 0 1).pos = (kernelParticle ℝ 0 1).pos ∧
    particle.velInfl (libm.mk Real.cos Real.sin Real.arccos Real.pi Real.sqrt)
      (kernelMath.mk (fun x y => x ^ y) Real.exp (fun _ => 0) 1.3) 0 1
      (kernelParticle ℝ 0 1) (kernelParticle ℝ 0 1) = none ∧
    particle.velInfl (libm.mk Real.cos Real.sin Real.arccos Real.pi Real.sqrt)
      (kernelMath.mk (fun x y => x ^ y) Real.exp (fun _ => 0) 1.3) 0 1
      (kernelParticle ℝ 0 1) (kernelParticle ℝ 0 1) ≠ some 0 := by
  have h := velInfl_colocated (fun _ => 0) 1.3 0 1 (kernelParticle ℝ 0 1) (kernelParticle ℝ 0 1)
    (by decide) rfl
  refine ⟨by decide, rfl, h, ?_⟩
  rw [h]
  simp

/-- The norm of the real vector `(x, 0, 0)` with `x ≥ 0`. -/
theorem norm3_axis (x : ℝ) (hx : 0 ≤ x) :
    norm3 (libm.mk Real.cos Real.sin Real.arccos Real.pi Real.sqrt) ![x, 0, 0] = x := by
  simp only [norm3, dot, Matrix.cons_val_zero, Matrix.cons_val_one, Matrix.head_cons,
    Matrix.cons_val_two, Matrix.tail_cons, mul_zero, add_zero]
  exact Real.sqrt_mul_self hx

/-- C23. `vortexStretching` returns the zero vector whenever the distance between the
particle (`this`, the influenced one) and `part` exceeds 5 times the radius of `this`,
whatever the radius of `part`; otherwise it evaluates its kernel.  The cutoff is not
symmetric: over the reals, for the particle at the origin with radius 1 and the particle at
`(6, 0, 0)` with radius 2, the first is cut off from the second but the second is not cut off
from the first. -/
theorem vortexStretching_cutoff {K : Type} [LinearOrderedField K] (m : libm K)
    (km : kernelMath K) (this part : particle K) :
    (norm3 m (this.pos - part.pos) > 5 * this.radius →
      ∀ r : K, particle.vortexStretching m km this { part with radius := r } = some 0) ∧
    (¬ norm3 m (this.pos - part.pos) > 5 * this.radius →
      particle.vortexStretching m km this part = this.stretchingKernel m km part) ∧
    (norm3 (libm.mk Real.cos Real.sin Real.arccos Real.pi Real.sqrt)
        ((kernelParticle ℝ 0 1).pos - (kernelParticle ℝ 6 2).pos) >
        5 * (kernelParticle ℝ 0 1).radius ∧
      ¬ norm3 (libm.mk Real.cos Real.sin Real.arccos Real.pi Real.sqrt)
        ((kernelParticle ℝ 6 2).pos - (kernelParticle ℝ 0 1).pos) >
        5 * (kernelParticle ℝ 6 2).radius) := by
  refine ⟨?_, ?_, ?_, ?_⟩
  · intro h r
    unfold particle.vortexStretching
    rw [if_pos h]
  · intro h
    unfold particle.vortexStretching
    rw [if_neg h]
  · have hn : norm3 (libm.mk Real.cos Real.sin Real.arccos Real.pi Real.sqrt)
        ((kernelParticle ℝ 0 1).pos - (kernelParticle ℝ 6 2).pos) = 6 := by
      have hv : (kernelParticle ℝ 0 1).pos - (kernelParticle ℝ 6 2).pos = -![6, 0, 0] := by
        funext i
        fin_cases i <;> simp [kernelParticle]
      have hneg : ∀ v : Vector3d ℝ,
          norm3 (libm.mk Real.cos Real.sin Real.arccos Real.pi Real.sqrt) (-v) =
          norm3 (libm.mk Real.cos Real.sin Real.arccos Real.pi Real.sqrt) v := by
        intro v
        simp [norm3, dot]
      rw [hv, hneg, norm3_axis 6 (by norm_num)]
    rw [hn]
    simp [kernelParticle]
    norm_num
  · have hn : norm3 (libm.mk Real.cos Real.sin Real.arccos Real.pi Real.sqrt)
        ((kernelParticle ℝ 6 2).pos - (kernelParticle ℝ 0 1).pos) = 6 := by
      have hv : (kernelParticle ℝ 6 2).pos - (kernelParticle ℝ 0 1).pos = ![6, 0, 0] := by
        funext i
        fin_cases i <;> simp [kernelParticle]
      rw [hv, norm3_axis 6 (by norm_num)]
    rw [hn]
    simp [kernelParticle]
    norm_num

/-- C24. Over the reals, with the `sqrt`, `pow`, `exp` and `pi` of the real numbers: for two
particles at distinct positions, of which one has a core that is not zero,
`viscousDiffusion(part)` returns `(2 nu/sigma^2) * xi(rho)/rho^3 * (V_i alpha_j - V_j alpha_i)`
with `sigma` and `rho` as for `velInfl(part)`, `xi(rho) = exp(-rho^2/2)/(2 pi)^(3/2)`,
`V_k = (4 pi/3) r_k^3`, `nu = 1.983e-5`, `i` the particle and `j` the argument. -/
theorem viscousDiffusion_formula (erf : ℝ → ℝ) (c : ℝ) (this part : particle ℝ)
    (sigma rho xi Vi Vj : ℝ) (hpos : this.pos ≠ part.pos)
    (hcore : c * this.radius ≠ 0 ∨ c * part.radius ≠ 0)
    (hsigma : sigma = Real.sqrt ((c * this.radius) ^ 2 + (c * part.radius) ^ 2) / Real.sqrt 2)
    (hrho : rho = Real.sqrt (dot (this.pos - part.pos) (this.pos - part.pos)) / sigma)
    (hxi : xi = Real.exp (-rho ^ 2 / 2) / (2 * Real.pi) ^ ((3 : ℝ) / 2))
    (hVi : Vi = 4 * Real.pi / 3 * this.radius ^ 3)
    (hVj : Vj = 4 * Real.pi / 3 * part.radius ^ 3) :
    particle.viscousDiffusion (libm.mk Real.cos Real.sin Real.arccos Real.pi Real.sqrt)
        (kernelMath.mk (fun x y => x ^ y) Real.exp erf c) this part =
      some ((2 * 1.983e-5 / sigma ^ 2 * (xi / rho ^ 3)) •
        (Vi • part.strength - Vj • this.strength)) := by
  have hs2 : Real.sqrt 2 ≠ 0 := (Real.sqrt_pos.2 (by norm_num)).ne'
  have hsig := sigma_pos c this.radius part.radius hcore
  rw [← hsigma] at hsig
  have hd : this.pos - part.pos ≠ 0 := fun h => hpos (sub_eq_zero.1 h)
  have hn := norm3_pos _ hd
  have hrho0 : 0 < rho := by
    rw [hrho]
    exact div_pos hn hsig
  have hpi := Real.pi_pos
  have hp3 : (1.5 : ℝ) = 3 / 2 := by norm_num
  have hpp : (0 : ℝ) < (2 * Real.pi) ^ ((3 : ℝ) / 2) := Real.rpow_pos_of_pos (by positivity) _
  have hsp : sigmaPair (libm.mk Real.cos Real.sin Real.arccos Real.pi Real.sqrt)
      (kernelMath.mk (fun x y => x ^ y) Real.exp erf c) this.radius part.radius = some sigma := by
    unfold sigmaPair
    rw [cdiv_of_ne _ _ hs2, hsigma]
  have hnorm : norm3 (libm.mk Real.cos Real.sin Real.arccos Real.pi Real.sqrt)
      (this.pos - part.pos) / sigma = rho := by
    rw [hrho]
    rfl
  unfold particle.viscousDiffusion
  rw [hsp]
  simp only [Option.bind_eq_bind, Option.some_bind]
  rw [cdiv_of_ne _ _ hsig.ne', hnorm]
  simp only [Option.some_bind, hp3]
  rw [cdiv_of_ne _ _ (by positivity : (2 * Real.pi) ^ ((3 : ℝ) / 2) * rho ^ 3 ≠ 0)]
  simp only [Option.some_bind]
  rw [cdiv_of_ne _ _ (by positivity : sigma * sigma ≠ 0)]
  simp only [Option.some_bind, Option.some.injEq, ← hVi, ← hVj]
  congr 1
  rw [hxi]
  have he : -rho * rho / 2 = -rho ^ 2 / 2 := by ring
  rw [he]
  have hr : rho ≠ 0 := hrho0.ne'
  have hs : sigma ≠ 0 := hsig.ne'
  have hP := hpp.ne'
  generalize Real.exp (-rho ^ 2 / 2) = B
  generalize (2 * Real.pi) ^ ((3 : ℝ) / 2) = P at hP
  field_simp
  left
  ring

theorem viscousDiffusion_formula_witness :
    ∃ sigma rho xi Vi Vj : ℝ,
      ((kernelParticle ℝ 0 1).pos ≠ (kernelParticle ℝ 1 1).pos ∧
        ((1 : ℝ) * (kernelParticle ℝ 0 1).radius ≠ 0 ∨
          (1 : ℝ) * (kernelParticle ℝ 1 1).radius ≠ 0) ∧
        sigma = Real.sqrt (((1 : ℝ) * (kernelParticle ℝ 0 1).radius) ^ 2 +
          ((1 : ℝ) * (kernelParticle ℝ 1 1).radius) ^ 2) / Real.sqrt 2 ∧
        rho = Real.sqrt (dot ((kernelParticle ℝ 0 1).pos - (kernelParticle ℝ 1 1).pos)
          ((kernelParticle ℝ 0 1).pos - (kernelParticle ℝ 1 1).pos)) / sigma ∧
        xi = Real.exp (-rho ^ 2 / 2) / (2 * Real.pi) ^ ((3 : ℝ) / 2) ∧
        Vi = 4 * Real.pi / 3 * (kernelParticle ℝ 0 1).radius ^ 3 ∧
        Vj = 4 * Real.pi / 3 * (kernelParticle ℝ 1 1).radius ^ 3) ∧
      particle.viscousDiffusion (libm.mk Real.cos Real.sin Real.arccos Real.pi Real.sqrt)
          (kernelMath.mk (fun x y => x ^ y) Real.exp (fun x => x) 1)
          (kernelParticle ℝ 0 1) (kernelParticle ℝ 1 1) =
        some ((2 * 1.983e-5 / sigma ^ 2 * (xi / rho ^ 3)) •
          (Vi • (kernelParticle ℝ 1 1).strength - Vj • (kernelParticle ℝ 0 1).strength)) :=
  ⟨_, _, _, _, _, ⟨fun h => by simpa [kernelParticle] using congrFun h 0,
      Or.inl (by simp [kernelParticle]), rfl, rfl, rfl, rfl, rfl⟩,
    viscousDiffusion_formula (fun x => x) 1 (kernelParticle ℝ 0 1) (kernelParticle ℝ 1 1)
      _ _ _ _ _ (fun h => by simpa [kernelParticle] using congrFun h 0)
      (Or.inl (by simp [kernelParticle])) rfl rfl rfl rfl rfl⟩

/-! ## The edge as an unordered pair of nodes -/

/-- The inner product of a vector with itself does not change when the vector is negated. -/
theorem dot_neg_self {K : Type} [Field K] (v : Vector3d K) : dot (-v) (-v) = dot v v := by
  simp only [dot, Pi.neg_apply]
  ring

/-- The cross product taken from the other end of a segment is the opposite vector. -/
theorem cross_other_end {K : Type} [Field K] (p p1 p2 : Vector3d K) :
    cross (p - p2) (p1 - p2) = -cross (p - p1) (p2 - p1) := by
  funext i
  fin_cases i <;> simp [cross] <;> ring

/-- C30. An edge behaves as an unordered pair of nodes.  `sameEdge(a, b)` equals
`sameEdge(b, a)` and is true for the two ends of the edge in either order.  `flipDir` applied
twice gives the edge back.  After one `flipDir`, `getVector()` is the opposite vector (and is
read through the same two pointers, so it fails exactly when it failed before), while
`sameEdge`, `length()`, `getMidPoint()` and `distToEdge(p)` for every point `p` are as before.
At two valid nodes `getVector()` is the difference of the two positions. -/
theorem edge_unordered_pair {K : Type} [LinearOrderedField K] (m : libm K) (g : geometry K)
    (ed : edge) :
    (∀ a b : Nat, ed.sameEdge a b = ed.sameEdge b a) ∧
    ed.sameEdge ed.n1 ed.n2 = true ∧ ed.sameEdge ed.n2 ed.n1 = true ∧
    ed.flipDir.flipDir = ed ∧
    ed.flipDir.getVector g = (ed.getVector g).map (fun v => -v) ∧
    (∀ a b : Nat, ed.flipDir.sameEdge a b = ed.sameEdge a b) ∧
    ed.flipDir.length m g = ed.length m g ∧
    ed.flipDir.getMidPoint g = ed.getMidPoint g ∧
    (∀ p : Vector3d K, ed.flipDir.distToEdge m g p = ed.distToEdge m g p) ∧
    (∀ nd1 nd2 : cpNode K, g.nodes[ed.n1]? = some nd1 ∧ g.nodes[ed.n2]? = some nd2 →
      ed.getVector g = some (nd2.pnt - nd1.pnt) ∧
      ed.flipDir.getVector g = some (nd1.pnt - nd2.pnt)) := by
  refine ⟨?_, ?_, ?_, ?_, ?_, ?_, ?_, ?_, ?_, ?_⟩
  · intro a b
    unfold edge.sameEdge
    by_cases h1 : a = ed.n1 <;> by_cases h2 : b = ed.n2 <;> by_cases h3 : a = ed.n2 <;>
      by_cases h4 : b = ed.n1 <;> simp [h1, h2, h3, h4]
  · simp [edge.sameEdge]
  · simp [edge.sameEdge]
  · rfl
  · simp only [edge.getVector, edge.flipDir, getPnt, Option.bind_eq_bind]
    cases g.nodes[ed.n1]? <;> cases g.nodes[ed.n2]? <;> simp
  · intro a b
    simp only [edge.sameEdge, edge.flipDir]
    by_cases h1 : a = ed.n1 <;> by_cases h2 : b = ed.n2 <;> by_cases h3 : a = ed.n2 <;>
      by_cases h4 : b = ed.n1 <;> simp [h1, h2, h3, h4]
  · simp only [edge.length, edge.flipDir, getPnt, Option.bind_eq_bind]
    cases h1 : g.nodes[ed.n1]? with
    | none => cases g.nodes[ed.n2]? <;> simp
    | some nd1 =>
      cases h2 : g.nodes[ed.n2]? with
      | none => simp
      | some nd2 =>
        simp only [Option.map_some', Option.some_bind, Option.some.injEq, norm3]
        rw [← dot_neg_self (nd2.pnt - nd1.pnt), neg_sub]
  · simp only [edge.getMidPoint, edge.getVector, edge.flipDir, getPnt, Option.bind_eq_bind]
    cases h1 : g.nodes[ed.n1]? with
    | none => cases g.nodes[ed.n2]? <;> simp
    | some nd1 =>
      cases h2 : g.nodes[ed.n2]? with
      | none => simp
      | some nd2 =>
        simp only [Option.map_some', Option.some_bind, Option.some.injEq]
        funext i
        simp only [Pi.add_apply, Pi.smul_apply, Pi.sub_apply, smul_eq_mul]
        norm_num
        ring
  · intro p
    simp only [edge.distToEdge, edge.flipDir, getPnt, Option.bind_eq_bind]
    cases h1 : g.nodes[ed.n1]? with
    | none => cases g.nodes[ed.n2]? <;> simp
    | some nd1 =>
      cases h2 : g.nodes[ed.n2]? with
      | none => simp
      | some nd2 =>
        simp only [Option.map_some', Option.some_bind, norm3]
        rw [cross_other_end, dot_neg_self, ← dot_neg_self (nd2.pnt - nd1.pnt), neg_sub]
  · rintro nd1 nd2 ⟨h1, h2⟩
    simp [edge.getVector, edge.flipDir, getPnt, h1, h2]

/-! ## wake.cpp: the test for duplicate wakes -/

/-- The tolerance `pow(10, -2)` of `wake::isSameWake` is one hundredth. -/
theorem isSameWake_eps {K : Type} [LinearOrderedField K] : (10 : K) ^ (-2 : ℤ) = 1e-2 := by
  norm_num

/-- C27. `isSameWake(other)` is true exactly when `other` is a different wake object and the
four differences of `x0`, `z0`, `xf` and `zf` are all smaller than `1e-2` in absolute value.
It is false for a wake compared with itself, it is symmetric in the two wakes, and it does not
depend on the y extents of the two wakes. -/
theorem isSameWake_iff {K : Type} [LinearOrderedField K] (thisPtr otherPtr : Nat)
    (w other : wake K) :
    (w.isSameWake thisPtr otherPtr other = true ↔
      otherPtr ≠ thisPtr ∧ |w.x0 - other.x0| < 1e-2 ∧ |w.z0 - other.z0| < 1e-2 ∧
        |w.xf - other.xf| < 1e-2 ∧ |w.zf - other.zf| < 1e-2) ∧
    w.isSameWake thisPtr thisPtr w = false ∧
    other.isSameWake otherPtr thisPtr w = w.isSameWake thisPtr otherPtr other ∧
    (∀ a b c d : K,
      wake.isSameWake thisPtr otherPtr { w with yMin := a, yMax := b }
        { other with yMin := c, yMax := d } = w.isSameWake thisPtr otherPtr other) := by
  refine ⟨?_, ?_, ?_, ?_⟩
  · unfold wake.isSameWake
    rw [isSameWake_eps]
    by_cases hp : otherPtr = thisPtr
    · simp [hp]
    · simp only [hp, if_false, ne_eq, not_false_eq_true, true_and]
      rw [abs_sub_comm other.x0, abs_sub_comm other.z0, abs_sub_comm other.xf,
        abs_sub_comm other.zf]
      simp
  · simp [wake.isSameWake]
  · unfold wake.isSameWake
    by_cases hp : otherPtr = thisPtr
    · simp [hp]
    · have hp' : ¬ thisPtr = otherPtr := fun h => hp h.symm
      simp only [hp, hp', if_false]
      rw [abs_sub_comm other.x0, abs_sub_comm other.z0, abs_sub_comm other.xf,
        abs_sub_comm other.zf]
  · intro a b c d
    rfl

/-! ## wake.cpp: the bounding box -/

/-- What one axis of the bounding-box update does to an ordered pair of bounds. -/
theorem growBounds_spec {K : Type} [LinearOrderedField K] (c : K) (b : K × K)
    (h : b.1 ≤ b.2) :
    (growBounds c b).1 ≤ c ∧ c ≤ (growBounds c b).2 ∧
    (growBounds c b).1 ≤ b.1 ∧ b.2 ≤ (growBounds c b).2 ∧
    ((growBounds c b).1 = b.1 ∨ (growBounds c b).1 = c) ∧
    ((growBounds c b).2 = b.2 ∨ (growBounds c b).2 = c) := by
  unfold growBounds
  by_cases h1 : c > b.2
  · rw [if_pos h1]
    exact ⟨by linarith, le_refl _, le_refl _, le_of_lt h1, Or.inl rfl, Or.inr rfl⟩
  · rw [if_neg h1]
    by_cases h2 : c < b.1
    · rw [if_pos h2]
      exact ⟨le_refl _, by linarith, le_of_lt h2, le_refl _, Or.inr rfl, Or.inl rfl⟩
    · rw [if_neg h2]
      exact ⟨not_lt.1 h2, not_lt.1 h1, le_refl _, le_refl _, Or.inl rfl, Or.inl rfl⟩

/-- A tight bounding box has ordered bounds. -/
theorem boxOf_ordered {K : Type} [LinearOrderedField K] (S : List (Vector3d K)) (w : wake K)
    (h : boxOf S w) : w.x0 ≤ w.xf ∧ w.yMin ≤ w.yMax ∧ w.z0 ≤ w.zf := by
  obtain ⟨hin, ⟨q, hq, _⟩, _⟩ := h
  obtain ⟨h1, h2, h3, h4, h5, h6⟩ := hin q hq
  exact ⟨le_trans h1 h2, le_trans h3 h4, le_trans h5 h6⟩

/-- A tight bounding box depends on the points only as a set. -/
theorem boxOf_congr {K : Type} [LinearOrderedField K] (S T : List (Vector3d K)) (w : wake K)
    (hST : ∀ q, q ∈ S ↔ q ∈ T) (h : boxOf S w) : boxOf T w := by
  obtain ⟨hin, a, b, c, d, e, f⟩ := h
  refine ⟨fun q hq => hin q ((hST q).2 hq), ?_, ?_, ?_, ?_, ?_, ?_⟩
  · obtain ⟨q, hq, h⟩ := a
    exact ⟨q, (hST q).1 hq, h⟩
  · obtain ⟨q, hq, h⟩ := b
    exact ⟨q, (hST q).1 hq, h⟩
  · obtain ⟨q, hq, h⟩ := c
    exact ⟨q, (hST q).1 hq, h⟩
  · obtain ⟨q, hq, h⟩ := d
    exact ⟨q, (hST q).1 hq, h⟩
  · obtain ⟨q, hq, h⟩ := e
    exact ⟨q, (hST q).1 hq, h⟩
  · obtain ⟨q, hq, h⟩ := f
    exact ⟨q, (hST q).1 hq, h⟩

/-- One bound of a box that has been grown by a point is attained: by the point, or where the
old bound was. -/
theorem attained_grow {K : Type} (S : List (Vector3d K)) (q : Vector3d K) (i : Fin 3)
    (old new : K) (h : ∃ p ∈ S, p i = old) (hnew : new = old ∨ new = q i) :
    ∃ p ∈ S ++ [q], p i = new := by
  rcases hnew with h1 | h1
  · obtain ⟨p, hp, hpe⟩ := h
    exact ⟨p, List.mem_append_left _ hp, by rw [h1, hpe]⟩
  · exact ⟨q, by simp, h1.symm⟩

/-- The body of the loop of `addPanel` keeps the box tight when one more point is seen. -/
theorem addPanelNode_box {K : Type} [LinearOrderedField K] (g : geometry K) (nodes : List Nat)
    (i : Nat) (w : wake K) (S : List (Vector3d K)) (n : Nat) (q : Vector3d K)
    (hn : nodes[i]? = some n) (hq : getPnt g n = some q) (h : boxOf S w) :
    ∃ w2, addPanelNode g nodes i w = some w2 ∧ boxOf (S ++ [q]) w2 ∧
      w2.wpanels = w.wpanels ∧ w2.wakeLines = w.wakeLines := by
  obtain ⟨hx, hy, hz⟩ := boxOf_ordered S w h
  obtain ⟨hin, a, b, c, d, e, f⟩ := h
  obtain ⟨x1, x2, x3, x4, x5, x6⟩ := growBounds_spec (q 0) (w.x0, w.xf) hx
  obtain ⟨y1, y2, y3, y4, y5, y6⟩ := growBounds_spec (q 1) (w.yMin, w.yMax) hy
  obtain ⟨z1, z2, z3, z4, z5, z6⟩ := growBounds_spec (q 2) (w.z0, w.zf) hz
  have hrun : addPanelNode g nodes i w = some
      { w with yMin := (growBounds (q 1) (w.yMin, w.yMax)).1,
               yMax := (growBounds (q 1) (w.yMin, w.yMax)).2,
               x0 := (growBounds (q 0) (w.x0, w.xf)).1,
               xf := (growBounds (q 0) (w.x0, w.xf)).2,
               z0 := (growBounds (q 2) (w.z0, w.zf)).1,
               zf := (growBounds (q 2) (w.z0, w.zf)).2 } := by
    simp only [addPanelNode, hn, hq, Option.bind_eq_bind, Option.some_bind]
  refine ⟨_, hrun, ⟨?_, ?_, ?_, ?_, ?_, ?_, ?_⟩, rfl, rfl⟩
  · intro p hp
    rcases List.mem_append.1 hp with hp | hp
    · obtain ⟨h1, h2, h3, h4, h5, h6⟩ := hin p hp
      exact ⟨le_trans x3 h1, le_trans h2 x4, le_trans y3 h3, le_trans h4 y4, le_trans z3 h5,
        le_trans h6 z4⟩
    · rw [List.mem_singleton.1 hp]
      exact ⟨x1, x2, y1, y2, z1, z2⟩
  · exact attained_grow S q 0 _ _ a x5
  · exact attained_grow S q 0 _ _ b x6
  · exact attained_grow S q 1 _ _ c y5
  · exact attained_grow S q 1 _ _ d y6
  · exact attained_grow S q 2 _ _ e z5
  · exact attained_grow S q 2 _ _ f z6

/-- The loop of `addPanel` over nodes that exist returns, and keeps the box tight for the
points seen before and the points of the nodes. -/
theorem addPanel_loop_box {K : Type} [LinearOrderedField K] (g : geometry K)
    (nodes : List Nat) (w : wake K) (S : List (Vector3d K))
    (hv : ∀ n ∈ nodes, (getPnt g n).isSome = true) (h : boxOf S w) :
    ∃ w2, forLoop (addPanelNode g nodes) nodes.length w = some w2 ∧
      boxOf (S ++ nodes.filterMap (getPnt g)) w2 ∧
      w2.wpanels = w.wpanels ∧ w2.wakeLines = w.wakeLines := by
  obtain ⟨w2, hw2, hP⟩ := forLoop_invariant (addPanelNode g nodes)
    (fun k t => boxOf (S ++ (nodes.take k).filterMap (getPnt g)) t ∧
      t.wpanels = w.wpanels ∧ t.wakeLines = w.wakeLines)
    nodes.length w (by simpa using h)
    (by
      rintro k t hk ⟨hb, hp, hl⟩
      have hn : nodes[k]? = some (nodes.get ⟨k, hk⟩) := by
        simp [List.getElem?_eq_getElem hk]
      obtain ⟨q, hq⟩ := Option.isSome_iff_exists.1 (hv _ (List.get_mem nodes k hk))
      obtain ⟨t2, ht2, hb2, hp2, hl2⟩ := addPanelNode_box g nodes k t _ _ q hn hq hb
      refine ⟨t2, ht2, ?_, hp2.trans hp, hl2.trans hl⟩
      have htake : nodes.take (k + 1) = nodes.take k ++ [nodes.get ⟨k, hk⟩] := by
        rw [List.take_succ, hn]
        rfl
      rw [htake, List.filterMap_append, List.filterMap_cons_some hq, List.filterMap_nil,
        ← List.append_assoc]
      exact hb2)
  refine ⟨w2, hw2, ?_, hP.2.1, hP.2.2⟩
  simpa using hP.1

/-- One call of `addPanel` with valid pointers returns, appends the panel, and leaves the box
tight for the points of all the panels of the wake; the first panel has to have a node. -/
theorem addPanel_box {K : Type} [LinearOrderedField K] (wp : wakeParams K) (g : geometry K)
    (w : wake K) (done : List Nat) (p : Nat) (hw : w.wpanels = done)
    (hb : done ≠ [] → boxOf (panelPoints wp g done) w)
    (hp : (g.wPanels[p]?).isSome = true)
    (hv : ∀ n ∈ wp.getNodes p, (getPnt g n).isSome = true)
    (hfirst : done = [] → wp.getNodes p ≠ []) :
    ∃ w2, w.addPanel wp g p = some w2 ∧ w2.wpanels = done ++ [p] ∧
      boxOf (panelPoints wp g (done ++ [p])) w2 ∧ w2.wakeLines = w.wakeLines := by
  have hpts : panelPoints wp g (done ++ [p]) =
      panelPoints wp g done ++ (wp.getNodes p).filterMap (getPnt g) := by
    simp [panelPoints]
  by_cases hd : done = []
  · obtain ⟨n0, rest, hnodes⟩ := List.exists_cons_of_ne_nil (hfirst hd)
    obtain ⟨q0, hq0⟩ := Option.isSome_iff_exists.1 (hv n0 (by rw [hnodes]; simp))
    obtain ⟨pan, hpan⟩ := Option.isSome_iff_exists.1 hp
    have hinit : addPanelInit wp g w p = some
        { w with yMax := q0 1, yMin := q0 1, x0 := q0 0, xf := q0 0, z0 := q0 2, zf := q0 2,
                 normal := pan.normal } := by
      simp [addPanelInit, hw, hd, hnodes, hq0, hpan]
    have hbox0 : boxOf [q0]
        ({ w with yMax := q0 1, yMin := q0 1, x0 := q0 0, xf := q0 0, z0 := q0 2, zf := q0 2,
                  normal := pan.normal } : wake K) := by
      refine ⟨?_, ⟨q0, by simp, rfl⟩, ⟨q0, by simp, rfl⟩, ⟨q0, by simp, rfl⟩,
        ⟨q0, by simp, rfl⟩, ⟨q0, by simp, rfl⟩, ⟨q0, by simp, rfl⟩⟩
      intro q hq
      rw [List.mem_singleton.1 hq]
      exact ⟨le_refl _, le_refl _, le_refl _, le_refl _, le_refl _, le_refl _⟩
    obtain ⟨w2, hw2, hb2, hp2, hl2⟩ := addPanel_loop_box g (wp.getNodes p) _ [q0] hv hbox0
    refine ⟨{ w2 with wpanels := w2.wpanels ++ [p] }, ?_, ?_, ?_, hl2⟩
    · simp only [wake.addPanel, hinit, hw2, Option.bind_eq_bind, Option.some_bind]
    · simp only [hp2, hw]
    · apply boxOf_congr _ _ _ _ (show boxOf _ { w2 with wpanels := w2.wpanels ++ [p] } from hb2)
      intro q
      rw [hpts, hd]
      have hmem : q0 ∈ (wp.getNodes p).filterMap (getPnt g) := by
        rw [hnodes, List.filterMap_cons_some hq0]
        simp
      simp only [panelPoints, List.flatMap_nil, List.nil_append, List.mem_append,
        List.mem_singleton]
      constructor
      · rintro (h | h)
        · rw [h]
          exact hmem
        · exact h
      · intro h
        exact Or.inr h
  · have hinit : addPanelInit wp g w p = some w := by
      have : w.wpanels.length ≠ 0 := by
        rw [hw]
        exact fun h => hd (List.length_eq_zero.1 h)
      simp [addPanelInit, this]
    obtain ⟨w2, hw2, hb2, hp2, hl2⟩ :=
      addPanel_loop_box g (wp.getNodes p) w (panelPoints wp g done) hv (hb hd)
    refine ⟨{ w2 with wpanels := w2.wpanels ++ [p] }, ?_, ?_, ?_, hl2⟩
    · simp only [wake.addPanel, hinit, hw2, Option.bind_eq_bind, Option.some_bind]
    · simp only [hp2, hw]
    · rw [hpts]
      exact hb2

/-- A sequence of calls of `addPanel` with valid pointers returns and leaves the box tight for
the points of all the panels of the wake. -/
theorem addPanels_box {K : Type} [LinearOrderedField K] (wp : wakeParams K) (g : geometry K)
    (rest : List Nat) :
    ∀ (done : List Nat) (w : wake K), w.wpanels = done →
      (done ≠ [] → boxOf (panelPoints wp g done) w) →
      (∀ p ∈ rest, (g.wPanels[p]?).isSome = true ∧
        ∀ n ∈ wp.getNodes p, (getPnt g n).isSome = true) →
      (done = [] → ∀ p, rest.head? = some p → wp.getNodes p ≠ []) →
      ∃ w2, wake.addPanels wp g rest w = some w2 ∧ w2.wpanels = done ++ rest ∧
        (done ++ rest ≠ [] → boxOf (panelPoints wp g (done ++ rest)) w2) ∧
        w2.wakeLines = w.wakeLines := by
  induction rest with
  | nil =>
    intro done w hw hb _ _
    exact ⟨w, rfl, by simp [hw], by simpa using hb, rfl⟩
  | cons p ps ih =>
    intro done w hw hb hv hfirst
    obtain ⟨w1, hw1, hp1, hb1, hl1⟩ := addPanel_box wp g w done p hw hb
      (hv p (by simp)).1 (hv p (by simp)).2 (fun hd => hfirst hd p rfl)
    obtain ⟨w2, hw2, hp2, hb2, hl2⟩ := ih (done ++ [p]) w1 hp1 (fun _ => hb1)
      (fun q hq => hv q (List.mem_cons_of_mem _ hq)) (fun hd => absurd hd (by simp))
    refine ⟨w2, ?_, ?_, ?_, hl2.trans hl1⟩
    · simp only [wake.addPanels, hw1, Option.some_bind, hw2]
    · simpa using hp2
    · intro _
      have := hb2 (by simp)
      simpa using this

/-- C29. On a wake without panels, any sequence of calls of `addPanel` that is not empty, with
valid pointers and at least one node in the first panel, returns; afterwards `x0 <= xf`,
`yMin <= yMax`, `z0 <= zf`, every node of every added panel is inside the box, and each of the
six bounds is the coordinate of a node of an added panel. -/
theorem addPanel_bounding_box {K : Type} [LinearOrderedField K] (wp : wakeParams K)
    (g : geometry K) (w : wake K) (pans : List Nat) (hw : w.wpanels = []) (hne : pans ≠ [])
    (hv : ∀ p ∈ pans, (g.wPanels[p]?).isSome = true ∧
      ∀ n ∈ wp.getNodes p, (getPnt g n).isSome = true)
    (hfirst : ∀ p, pans.head? = some p → wp.getNodes p ≠ []) :
    ∃ w2, wake.addPanels wp g pans w = some w2 ∧ w2.wpanels = pans ∧
      w2.x0 ≤ w2.xf ∧ w2.yMin ≤ w2.yMax ∧ w2.z0 ≤ w2.zf ∧
      (∀ q ∈ panelPoints wp g pans, w2.x0 ≤ q 0 ∧ q 0 ≤ w2.xf ∧ w2.yMin ≤ q 1 ∧
        q 1 ≤ w2.yMax ∧ w2.z0 ≤ q 2 ∧ q 2 ≤ w2.zf) ∧
      (∃ q ∈ panelPoints wp g pans, q 0 = w2.x0) ∧
      (∃ q ∈ panelPoints wp g pans, q 0 = w2.xf) ∧
      (∃ q ∈ panelPoints wp g pans, q 1 = w2.yMin) ∧
      (∃ q ∈ panelPoints wp g pans, q 1 = w2.yMax) ∧
      (∃ q ∈ panelPoints wp g pans, q 2 = w2.z0) ∧
      (∃ q ∈ panelPoints wp g pans, q 2 = w2.zf) := by
  obtain ⟨w2, hw2, hp2, hb2, _⟩ := addPanels_box wp g pans [] w hw (fun h => absurd rfl h) hv
    (fun _ => hfirst)
  have hb : boxOf (panelPoints wp g pans) w2 := by
    simpa using hb2 (by simpa using hne)
  obtain ⟨hx, hy, hz⟩ := boxOf_ordered _ _ hb
  exact ⟨w2, hw2, by simpa using hp2, hx, hy, hz, hb⟩

theorem addPanel_bounding_box_witness :
    ((emptyWake ℚ).wpanels = [] ∧
      (∀ p ∈ [0, 1], ((wakeBoxGeometry ℚ).wPanels[p]?).isSome = true ∧
        ∀ n ∈ (demoWakeParams ℚ).getNodes p, (getPnt (wakeBoxGeometry ℚ) n).isSome = true)) ∧
    ∃ w2, wake.addPanels (demoWakeParams ℚ) (wakeBoxGeometry ℚ) [0, 1] (emptyWake ℚ) = some w2 ∧
      w2.wpanels = [0, 1] ∧
      w2.x0 ≤ w2.xf ∧ w2.yMin ≤ w2.yMax ∧ w2.z0 ≤ w2.zf ∧
      (∀ q ∈ panelPoints (demoWakeParams ℚ) (wakeBoxGeometry ℚ) [0, 1],
        w2.x0 ≤ q 0 ∧ q 0 ≤ w2.xf ∧ w2.yMin ≤ q 1 ∧ q 1 ≤ w2.yMax ∧ w2.z0 ≤ q 2 ∧
          q 2 ≤ w2.zf) ∧
      (∃ q ∈ panelPoints (demoWakeParams ℚ) (wakeBoxGeometry ℚ) [0, 1], q 0 = w2.x0) ∧
      (∃ q ∈ panelPoints (demoWakeParams ℚ) (wakeBoxGeometry ℚ) [0, 1], q 0 = w2.xf) ∧
      (∃ q ∈ panelPoints (demoWakeParams ℚ) (wakeBoxGeometry ℚ) [0, 1], q 1 = w2.yMin) ∧
      (∃ q ∈ panelPoints (demoWakeParams ℚ) (wakeBoxGeometry ℚ) [0, 1], q 1 = w2.yMax) ∧
      (∃ q ∈ panelPoints (demoWakeParams ℚ) (wakeBoxGeometry ℚ) [0, 1], q 2 = w2.z0) ∧
      (∃ q ∈ panelPoints (demoWakeParams ℚ) (wakeBoxGeometry ℚ) [0, 1], q 2 = w2.zf) :=
  ⟨⟨rfl, by decide⟩,
    addPanel_bounding_box (demoWakeParams ℚ) (wakeBoxGeometry ℚ) (emptyWake ℚ) [0, 1] rfl
      (by decide) (by decide) (by decide)⟩

/-! ## wake.cpp: the sorted list of wake lines -/

/-- The call `addWakeLine` with a `std::sort` that sorts leaves a sorted list with the old
lines and the new one. -/
theorem addWakeLine_lines {K : Type} [LinearOrderedField K] (wp : wakeParams K)
    (hs : sortsLines wp) (w : wake K) (wl : wakeLine K) :
    (w.addWakeLine wp wl).wakeLines.Perm (w.wakeLines ++ [wl]) ∧
    (w.addWakeLine wp wl).wakeLines.Pairwise lineLE :=
  hs (w.wakeLines ++ [wl])

/-- The first loop of `mergeWake` returns when the panels of the other wake exist, and does
not touch the lines. -/
theorem mergePanel_loop {K : Type} (thisPtr : Nat) (pans : List Nat) (w : wake K)
    (store : List (wakePanel K)) (hv : ∀ p ∈ pans, p < store.length) :
    ∃ st, forLoop (mergePanel thisPtr pans) pans.length (w, store) = some st ∧
      st.1.wakeLines = w.wakeLines ∧ st.2.length = store.length := by
  apply forLoop_invariant (mergePanel thisPtr pans)
    (fun _ t => t.1.wakeLines = w.wakeLines ∧ t.2.length = store.length)
    pans.length (w, store) ⟨rfl, rfl⟩
  rintro k t hk ⟨hl, hlen⟩
  have hn : pans[k]? = some (pans.get ⟨k, hk⟩) := by
    simp [List.getElem?_eq_getElem hk]
  have hlt : pans.get ⟨k, hk⟩ < t.2.length := by
    rw [hlen]
    exact hv _ (List.get_mem pans k hk)
  have hp : t.2[pans.get ⟨k, hk⟩]? = some (t.2.get ⟨_, hlt⟩) := by
    simp [List.getElem?_eq_getElem hlt]
  have hrun : mergePanel thisPtr pans k t = some
      ({ t.1 with wpanels := t.1.wpanels ++ [pans.get ⟨k, hk⟩] },
        t.2.set (pans.get ⟨k, hk⟩) { t.2.get ⟨_, hlt⟩ with parentWake := some thisPtr }) := by
    simp only [mergePanel, hn, hp, Option.bind_eq_bind, Option.some_bind]
  refine ⟨_, hrun, hl, ?_⟩
  simp [hlen]

/-- The second loop of `mergeWake` returns and leaves a sorted list with the old lines and
those of the other wake. -/
theorem mergeLine_loop {K : Type} [LinearOrderedField K] (wp : wakeParams K)
    (hs : sortsLines wp) (lines : List (wakeLine K)) (w : wake K)
    (h0 : w.wakeLines.Pairwise lineLE) :
    ∃ w2, forLoop (mergeLine wp lines) lines.length w = some w2 ∧
      w2.wakeLines.Perm (w.wakeLines ++ lines) ∧ w2.wakeLines.Pairwise lineLE := by
  obtain ⟨w2, hw2, hP⟩ := forLoop_invariant (mergeLine wp lines)
    (fun k t => t.wakeLines.Perm (w.wakeLines ++ lines.take k) ∧ t.wakeLines.Pairwise lineLE)
    lines.length w ⟨by simp, h0⟩
    (by
      rintro k t hk ⟨hperm, _⟩
      have hn : lines[k]? = some (lines.get ⟨k, hk⟩) := by
        simp [List.getElem?_eq_getElem hk]
      obtain ⟨h1, h2⟩ := addWakeLine_lines wp hs t (lines.get ⟨k, hk⟩)
      refine ⟨_, by simp only [mergeLine, hn, Option.bind_eq_bind, Option.some_bind], ?_, h2⟩
      have htake : lines.take (k + 1) = lines.take k ++ [lines.get ⟨k, hk⟩] := by
        rw [List.take_succ, hn]
        rfl
      rw [htake, ← List.append_assoc]
      exact h1.trans (List.Perm.append_right _ hperm))
  refine ⟨w2, hw2, ?_, hP.2⟩
  simpa using hP.1

/-- The call `mergeWake` with another wake whose panels exist returns and leaves a sorted list
with the old lines and one copy of each line of the other wake. -/
theorem mergeWake_lines {K : Type} [LinearOrderedField K] (wp : wakeParams K)
    (hs : sortsLines wp) (thisPtr : Nat) (w other : wake K) (store : List (wakePanel K))
    (h0 : w.wakeLines.Pairwise lineLE) (hv : ∀ p ∈ other.wpanels, p < store.length) :
    ∃ st, w.mergeWake wp thisPtr other store = some st ∧
      st.1.wakeLines.Perm (w.wakeLines ++ other.wakeLines) ∧
      st.1.wakeLines.Pairwise lineLE ∧ st.2.length = store.length := by
  obtain ⟨st1, hst1, hl1, hlen1⟩ := mergePanel_loop thisPtr other.wpanels w store hv
  obtain ⟨w2, hw2, hperm, hsort⟩ := mergeLine_loop wp hs other.wakeLines st1.1 (hl1 ▸ h0)
  rw [hl1] at hperm
  have hrun : w.mergeWake wp thisPtr other store = some
      ((if other.yMax > (if other.yMin < w2.yMin then { w2 with yMin := other.yMin }
          else w2).yMax
        then { (if other.yMin < w2.yMin then { w2 with yMin := other.yMin } else w2) with
          yMax := other.yMax }
        else (if other.yMin < w2.yMin then { w2 with yMin := other.yMin } else w2)), st1.2) := by
    simp only [wake.mergeWake, hst1, hw2, Option.bind_eq_bind, Option.some_bind]
  have hlines : ∀ (c d : Prop) [Decidable c] [Decidable d] (a b : K),
      (if d then { (if c then { w2 with yMin := a } else w2) with yMax := b }
        else (if c then { w2 with yMin := a } else w2)).wakeLines = w2.wakeLines := by
    intro c d _ _ a b
    by_cases hc : c <;> by_cases hd : d <;> simp [hc, hd]
  refine ⟨_, hrun, ?_, ?_, hlen1⟩
  · rw [hlines]
    exact hperm
  · rw [hlines]
    exact hsort

/-- C28. With a `std::sort` that sorts, on a wake whose lines are sorted (a new wake has
none), any sequence of calls of `addWakeLine` and of `mergeWake` with other wakes whose panels
exist returns; afterwards the lines are in non-decreasing order of `getY()`, and they are the
lines the wake had together with the lines added, one copy of each line of every merged wake,
none lost and none twice. -/
theorem wakeLines_sorted_complete {K : Type} [LinearOrderedField K] (wp : wakeParams K)
    (thisPtr : Nat) (calls : List (wakeCall K)) (w : wake K) (store : List (wakePanel K))
    (hs : sortsLines wp) (h0 : w.wakeLines.Pairwise (fun a b => a.Y ≤ b.Y))
    (hv : ∀ c ∈ calls, ∀ other, c = wakeCall.mergeWake other →
      ∀ p ∈ other.wpanels, p < store.length) :
    ∃ st, applyWakeCalls wp thisPtr calls (w, store) = some st ∧
      st.1.wakeLines.Pairwise (fun a b => a.Y ≤ b.Y) ∧
      st.1.wakeLines.Perm (w.wakeLines ++ calls.flatMap wakeCall.lines) := by
  suffices h : ∀ (calls : List (wakeCall K)) (w : wake K) (store2 : List (wakePanel K)),
      store2.length = store.length → w.wakeLines.Pairwise lineLE →
      (∀ c ∈ calls, ∀ other, c = wakeCall.mergeWake other →
        ∀ p ∈ other.wpanels, p < store.length) →
      ∃ st, applyWakeCalls wp thisPtr calls (w, store2) = some st ∧
        st.1.wakeLines.Pairwise lineLE ∧
        st.1.wakeLines.Perm (w.wakeLines ++ calls.flatMap wakeCall.lines) from
    h calls w store rfl h0 hv
  intro calls
  induction calls with
  | nil =>
    intro w store2 _ h0 _
    exact ⟨(w, store2), rfl, h0, by simp⟩
  | cons c cs ih =>
    intro w store2 hlen h0 hv
    have hv2 : ∀ c2 ∈ cs, ∀ other, c2 = wakeCall.mergeWake other →
        ∀ p ∈ other.wpanels, p < store.length :=
      fun c2 hc2 => hv c2 (List.mem_cons_of_mem _ hc2)
    cases c with
    | addWakeLine wl =>
      obtain ⟨h1, h2⟩ := addWakeLine_lines wp hs w wl
      obtain ⟨st, hst, hsort, hperm⟩ := ih (w.addWakeLine wp wl) store2 hlen h2 hv2
      refine ⟨st, by simpa [applyWakeCalls, applyWakeCall] using hst, hsort, ?_⟩
      refine hperm.trans ?_
      simp only [List.flatMap_cons, wakeCall.lines, ← List.append_assoc]
      exact List.Perm.append_right _ h1
    | mergeWake other =>
      obtain ⟨st1, hst1, hperm1, hsort1, hlen1⟩ := mergeWake_lines wp hs thisPtr w other store2
        h0 (fun p hp => hlen ▸ hv _ (List.mem_cons_self _ _) other rfl p hp)
      obtain ⟨st, hst, hsort, hperm⟩ := ih st1.1 st1.2 (hlen1.trans hlen) hsort1 hv2
      refine ⟨st, by simpa [applyWakeCalls, applyWakeCall, hst1] using hst, hsort, ?_⟩
      refine hperm.trans ?_
      simp only [List.flatMap_cons, wakeCall.lines, ← List.append_assoc]
      exact List.Perm.append_right _ hperm1

/-- The insertion of a line rearranges the list with the line in front. -/
theorem insertLine_perm {K : Type} [LinearOrderedField K] (a : wakeLine K)
    (l : List (wakeLine K)) : (insertLine a l).Perm (a :: l) := by
  induction l with
  | nil => exact List.Perm.refl _
  | cons b l ih =>
    unfold insertLine
    by_cases h : a.Y ≤ b.Y
    · rw [if_pos h]
    · rw [if_neg h]
      exact (List.Perm.cons b ih).trans (List.Perm.swap a b l)

/-- The insertion of a line into a sorted list gives a sorted list. -/
theorem insertLine_sorted {K : Type} [LinearOrderedField K] (a : wakeLine K)
    (l : List (wakeLine K)) (h : l.Pairwise lineLE) : (insertLine a l).Pairwise lineLE := by
  induction l with
  | nil => simp [insertLine]
  | cons b l ih =>
    obtain ⟨hb, hl⟩ := List.pairwise_cons.1 h
    unfold insertLine
    by_cases hab : a.Y ≤ b.Y
    · rw [if_pos hab]
      refine List.pairwise_cons.2 ⟨?_, h⟩
      intro c hc
      rcases List.mem_cons.1 hc with hc | hc
      · rw [hc]
        exact hab
      · exact le_trans hab (hb c hc)
    · rw [if_neg hab]
      refine List.pairwise_cons.2 ⟨?_, ih hl⟩
      intro c hc
      rcases List.mem_cons.1 ((insertLine_perm a l).mem_iff.1 hc) with hc | hc
      · rw [hc]
        exact le_of_lt (not_le.1 hab)
      · exact hb c hc

/-- The sort of the examples sorts. -/
theorem demoWakeParams_sorts (K : Type) [LinearOrderedField K] :
    sortsLines (demoWakeParams K) := by
  intro l
  show (l.foldr insertLine []).Perm l ∧ (l.foldr insertLine []).Pairwise lineLE
  induction l with
  | nil => simp
  | cons a l ih =>
    simp only [List.foldr_cons]
    exact ⟨(insertLine_perm a _).trans (List.Perm.cons a ih.1), insertLine_sorted a _ ih.2⟩

theorem wakeLines_sorted_complete_witness :
    (sortsLines (demoWakeParams ℚ) ∧
      (emptyWake ℚ).wakeLines.Pairwise (fun a b => a.Y ≤ b.Y) ∧
      ∀ c ∈ demoWakeCalls, ∀ other, c = wakeCall.mergeWake other →
        ∀ p ∈ other.wpanels, p < (wakeBoxGeometry ℚ).wPanels.length) ∧
    ∃ st, applyWakeCalls (demoWakeParams ℚ) 0 demoWakeCalls
        (emptyWake ℚ, (wakeBoxGeometry ℚ).wPanels) = some st ∧
      st.1.wakeLines.Pairwise (fun a b => a.Y ≤ b.Y) ∧
      st.1.wakeLines.Perm ((emptyWake ℚ).wakeLines ++ demoWakeCalls.flatMap wakeCall.lines) :=
  have hv : ∀ c ∈ demoWakeCalls, ∀ other, c = wakeCall.mergeWake other →
      ∀ p ∈ other.wpanels, p < (wakeBoxGeometry ℚ).wPanels.length := by
    intro c hc other he p hp
    subst he
    simp only [demoWakeCalls, List.mem_cons, List.mem_singleton, wakeCall.mergeWake.injEq,
      List.not_mem_nil, or_false, false_or, reduceCtorEq] at hc
    subst hc
    simp only [List.mem_singleton] at hp
    subst hp
    decide
  ⟨⟨demoWakeParams_sorts ℚ, List.Pairwise.nil, hv⟩,
    wakeLines_sorted_complete (demoWakeParams ℚ) 0 demoWakeCalls (emptyWake ℚ)
      (wakeBoxGeometry ℚ).wPanels (demoWakeParams_sorts ℚ) List.Pairwise.nil hv⟩

/-! ## wake.cpp: the Trefftz-plane survey -/

/-- The function `pntInWake` reads only the panels of the wake. -/
theorem pntInWake_frame {K : Type} [LinearOrderedField K] (wp : wakeParams K) (g : geometry K)
    (wk w : wake K) (h : wk.wpanels = w.wpanels) (x y : K) :
    wk.pntInWake wp g x y = w.pntInWake wp g x y := by
  unfold wake.pntInWake
  rw [h]

/-- The function `Vradial` reads only `yMin` and `yMax` of the wake. -/
theorem Vradial_frame {K : Type} [LinearOrderedField K] (m : libm K) (wp : wakeParams K)
    (wk w : wake K) (h1 : wk.yMin = w.yMin) (h2 : wk.yMax = w.yMax) (p : Vector3d K) :
    wk.Vradial m wp p = w.Vradial m wp p := by
  unfold wake.Vradial radialOffset radialPOI
  rw [h1, h2]

/-- The function `wakeStrength` reads only the lines of the wake. -/
theorem wakeStrength_frame {K : Type} [LinearOrderedField K] (wk w : wake K)
    (h : wk.wakeLines = w.wakeLines) (y : K) : wk.wakeStrength y = w.wakeStrength y := by
  unfold wake.wakeStrength bracketLines
  rw [h]

/-- One probe of the survey, when its three calls return and the freestream and the
reference area are not zero. -/
theorem trefftzProbe_some {K : Type} [LinearOrderedField K] (m : libm K) (wp : wakeParams K)
    (g : geometry K) (w wk : wake K) (Vinf Sref step xT : K) (i : Nat) (wv dPhi : List K)
    (p : Vector3d K) (wi s : K)
    (hpan : wk.wpanels = w.wpanels) (hlines : wk.wakeLines = w.wakeLines)
    (hmin : wk.yMin = w.yMin) (hmax : wk.yMax = w.yMax)
    (hV : Vinf * Sref ≠ 0)
    (hp : w.pntInWake wp g xT (w.yMin + (i : K) * step) = some p)
    (hw : w.Vradial m wp p = some wi)
    (hs : w.wakeStrength (w.yMin + (i : K) * step) = some s)
    (hy : i < wk.yLoc.length) (hl : i < wk.Cl.length) (hd : i < wk.Cd.length) :
    trefftzProbe m wp g Vinf Sref step xT i ((wv, dPhi), wk) = some
      ((wv.set i wi, dPhi.set i (-s)),
        { wk with yLoc := wk.yLoc.set i (w.yMin + (i : K) * step),
                  Cl := wk.Cl.set i (2 * -s / (Vinf * Sref)),
                  Cd := wk.Cd.set i (-s * wi / (Vinf * Vinf * Sref)) }) := by
  have hV2 : Vinf * Vinf * Sref ≠ 0 := by
    have h1 : Vinf ≠ 0 := left_ne_zero_of_mul hV
    rw [mul_assoc]
    exact mul_ne_zero h1 hV
  have h1 := pntInWake_frame wp g
    { wk with yLoc := wk.yLoc.set i (wk.yMin + (i : K) * step) } w hpan xT
    (wk.yMin + (i : K) * step)
  have h2 := Vradial_frame m wp
    { wk with yLoc := wk.yLoc.set i (wk.yMin + (i : K) * step) } w hmin hmax p
  have h3 := wakeStrength_frame
    { wk with yLoc := wk.yLoc.set i (wk.yMin + (i : K) * step) } w hlines
    (wk.yMin + (i : K) * step)
  rw [hmin] at h1 h2 h3
  rw [hp] at h1
  rw [hw] at h2
  rw [hs] at h3
  have hlen : i < (wk.yLoc.set i (wk.yMin + (i : K) * step)).length ∧ i < wk.Cl.length ∧
      i < wk.Cd.length := ⟨by simpa using hy, hl, hd⟩
  simp only [trefftzProbe, Option.bind_eq_bind]
  rw [hmin] at hlen ⊢
  rw [h1]
  simp only [Option.some_bind]
  rw [h2, h3]
  simp only [Option.some_bind, cdiv_of_ne _ _ hV, cdiv_of_ne _ _ hV2]
  rw [if_pos hlen]

/-- Writing the next inner node of a vector of nodal values. -/
theorem set_inner_node {K : Type} [Field K] (l : List K) (f : Nat → K) (k n : Nat)
    (hlen : l.length = n) (hk : k + 1 < n)
    (h : ∀ j < n, l[j]? = some (if 1 ≤ j ∧ j ≤ k then f j else 0)) :
    ∀ j < n, (l.set (k + 1) (f (k + 1)))[j]? = some (if 1 ≤ j ∧ j ≤ k + 1 then f j else 0) := by
  intro j hj
  rw [List.getElem?_set]
  by_cases hjk : k + 1 = j
  · subst hjk
    rw [if_pos rfl, if_pos (by omega), if_pos ⟨by omega, le_refl _⟩]
  · rw [if_neg hjk, h j hj]
    have hiff : (1 ≤ j ∧ j ≤ k) ↔ (1 ≤ j ∧ j ≤ k + 1) := by omega
    rw [if_congr hiff rfl rfl]

/-- The first loop of `trefftzPlane` returns when the three calls of every probe return; it
fills the inner nodes of `yLoc`, `Cl` and `Cd` and leaves the rest of the wake as it was. -/
theorem trefftz_probes {K : Type} [LinearOrderedField K] (m : libm K) (wp : wakeParams K)
    (g : geometry K) (w : wake K) (Vinf Sref step xT : K) (p : Nat → Vector3d K)
    (wr s : Nat → K) (hV : Vinf * Sref ≠ 0)
    (hp : ∀ i : Nat, 1 ≤ i → i ≤ 163 → w.pntInWake wp g xT (w.yMin + (i : K) * step) = some (p i))
    (hw : ∀ i : Nat, 1 ≤ i → i ≤ 163 → w.Vradial m wp (p i) = some (wr i))
    (hs : ∀ i : Nat, 1 ≤ i → i ≤ 163 → w.wakeStrength (w.yMin + (i : K) * step) = some (s i)) :
    ∃ st, forLoop (fun k st => trefftzProbe m wp g Vinf Sref step xT (k + 1) st) 163
        ((List.replicate 165 0, List.replicate 165 0), trefftzStart w 164) = some st ∧
      (st.2.wpanels = w.wpanels ∧ st.2.wakeLines = w.wakeLines ∧ st.2.yMin = w.yMin ∧
        st.2.yMax = w.yMax ∧ st.2.x0 = w.x0 ∧ st.2.xf = w.xf ∧ st.2.z0 = w.z0 ∧
        st.2.zf = w.zf ∧ st.2.normal = w.normal) ∧
      (st.2.yLoc.length = 165 ∧ st.2.Cl.length = 165 ∧ st.2.Cd.length = 165) ∧
      (st.2.yLoc[0]? = some w.yMin ∧ st.2.yLoc[164]? = some w.yMax ∧
        ∀ j : Nat, 1 ≤ j → j ≤ 163 → st.2.yLoc[j]? = some (w.yMin + (j : K) * step)) ∧
      (∀ j < 165, st.2.Cl[j]? =
        some (if 1 ≤ j ∧ j ≤ 163 then 2 * -s j / (Vinf * Sref) else 0)) ∧
      (∀ j < 165, st.2.Cd[j]? =
        some (if 1 ≤ j ∧ j ≤ 163 then -s j * wr j / (Vinf * Vinf * Sref) else 0)) := by
  have hres : (resizeXd w.yLoc 165).length = 165 := by
    unfold resizeXd
    by_cases h : w.yLoc.length = 165
    · rw [if_pos h]
      exact h
    · rw [if_neg h]
      exact List.length_replicate _ _
  apply forLoop_invariant
    (fun k st => trefftzProbe m wp g Vinf Sref step xT (k + 1) st)
    (fun k st =>
      (st.2.wpanels = w.wpanels ∧ st.2.wakeLines = w.wakeLines ∧ st.2.yMin = w.yMin ∧
        st.2.yMax = w.yMax ∧ st.2.x0 = w.x0 ∧ st.2.xf = w.xf ∧ st.2.z0 = w.z0 ∧
        st.2.zf = w.zf ∧ st.2.normal = w.normal) ∧
      (st.2.yLoc.length = 165 ∧ st.2.Cl.length = 165 ∧ st.2.Cd.length = 165) ∧
      (st.2.yLoc[0]? = some w.yMin ∧ st.2.yLoc[164]? = some w.yMax ∧
        ∀ j : Nat, 1 ≤ j → j ≤ k → st.2.yLoc[j]? = some (w.yMin + (j : K) * step)) ∧
      (∀ j < 165, st.2.Cl[j]? =
        some (if 1 ≤ j ∧ j ≤ k then 2 * -s j / (Vinf * Sref) else 0)) ∧
      (∀ j < 165, st.2.Cd[j]? =
        some (if 1 ≤ j ∧ j ≤ k then -s j * wr j / (Vinf * Vinf * Sref) else 0)))
    163 _
  · refine ⟨⟨rfl, rfl, rfl, rfl, rfl, rfl, rfl, rfl, rfl⟩, ⟨?_, ?_, ?_⟩, ⟨?_, ?_, ?_⟩, ?_, ?_⟩
    · simp [trefftzStart, hres]
    · simp [trefftzStart]
    · simp [trefftzStart]
    · simp [trefftzStart, List.getElem?_set, hres]
    · simp [trefftzStart, List.getElem?_set, hres]
    · intro j h1 h2
      omega
    · intro j hj
      have : ¬ (1 ≤ j ∧ j ≤ 0) := by omega
      show (List.replicate (164 + 1) (0 : K))[j]? = _
      rw [List.getElem?_replicate, if_pos hj, if_neg this]
    · intro j hj
      have : ¬ (1 ≤ j ∧ j ≤ 0) := by omega
      show (List.replicate (164 + 1) (0 : K))[j]? = _
      rw [List.getElem?_replicate, if_pos hj, if_neg this]
  · rintro k ⟨⟨wv, dPhi⟩, wk⟩ hk ⟨⟨hpan, hlines, hmin, hmax, hx0, hxf, hz0, hzf, hnor⟩,
      ⟨hly, hlc, hld⟩, ⟨hy0, hy164, hyk⟩, hcl, hcd⟩
    simp only at hpan hlines hmin hmax hx0 hxf hz0 hzf hnor hly hlc hld hy0 hy164 hyk hcl hcd
    refine ⟨_, trefftzProbe_some m wp g w wk Vinf Sref step xT (k + 1) wv dPhi (p (k + 1))
      (wr (k + 1)) (s (k + 1)) hpan hlines hmin hmax hV (hp _ (by omega) (by omega))
      (hw _ (by omega) (by omega)) (hs _ (by omega) (by omega)) (by omega) (by omega)
      (by omega), ⟨hpan, hlines, hmin, hmax, hx0, hxf, hz0, hzf, hnor⟩, ⟨?_, ?_, ?_⟩,
      ⟨?_, ?_, ?_⟩, ?_, ?_⟩
    · simpa using hly
    · simpa using hlc
    · simpa using hld
    · show (wk.yLoc.set (k + 1) _)[0]? = _
      rw [List.getElem?_set_ne (by omega)]
      exact hy0
    · show (wk.yLoc.set (k + 1) _)[164]? = _
      rw [List.getElem?_set_ne (by omega)]
      exact hy164
    · intro j h1 h2
      show (wk.yLoc.set (k + 1) _)[j]? = _
      by_cases hj : k + 1 = j
      · subst hj
        rw [List.getElem?_set_self (by omega)]
      · rw [List.getElem?_set_ne hj]
        exact hyk j h1 (by omega)
    · exact set_inner_node wk.Cl (fun j => 2 * -s j / (Vinf * Sref)) k 165 hlc (by omega) hcl
    · exact set_inner_node wk.Cd (fun j => -s j * wr j / (Vinf * Vinf * Sref)) k 165 hld
        (by omega) hcd

/-- The second loop of `trefftzPlane` over 165 nodal values returns, and accumulates the two
composite Simpson sums in `CL` and `CD`; nothing else changes. -/
theorem simpson_loop {K : Type} [LinearOrderedField K] (step : K) (w : wake K)
    (f d : Nat → K) (hcl : ∀ j < 165, w.Cl[j]? = some (f j))
    (hcd : ∀ j < 165, w.Cd[j]? = some (d j)) :
    forLoop (fun k w => simpsonStep step (2 * k) w) 82 { w with CL := 0, CD := 0 } =
      some { w with CL := simpsonSum step f, CD := simpsonSum step d } := by
  obtain ⟨t, ht, hP⟩ := forLoop_invariant (fun k w => simpsonStep step (2 * k) w)
    (fun k t => t = { w with
      CL := ∑ j ∈ Finset.range k, 1.0 / 3 * step * (f (2 * j) + 4 * f (2 * j + 1) + f (2 * j + 2)),
      CD := ∑ j ∈ Finset.range k,
        1.0 / 3 * step * (d (2 * j) + 4 * d (2 * j + 1) + d (2 * j + 2)) })
    82 { w with CL := 0, CD := 0 } (by simp)
    (by
      rintro k t hk rfl
      refine ⟨_, ?_, rfl⟩
      simp only [simpsonStep, Option.bind_eq_bind, hcl (2 * k) (by omega),
        hcl (2 * k + 1) (by omega), hcl (2 * k + 2) (by omega), hcd (2 * k) (by omega),
        hcd (2 * k + 1) (by omega), hcd (2 * k + 2) (by omega), Option.some_bind,
        Finset.sum_range_succ])
  rw [ht, hP]
  have hsum : ∀ h : Nat → K,
      ∑ j ∈ Finset.range 82, 1.0 / 3 * step * (h (2 * j) + 4 * h (2 * j + 1) + h (2 * j + 2)) =
        simpsonSum step h := by
    intro h
    unfold simpsonSum
    rw [Finset.mul_sum]
    apply Finset.sum_congr rfl
    intro j _
    have h10 : (1.0 : K) = 1 := by norm_num
    rw [h10]
    ring
  rw [hsum f, hsum d]

/-- The run of `trefftzPlane` when the three calls of every probe return: the result, with
the nodal values and the two Simpson sums. -/
theorem trefftzPlane_run {K : Type} [LinearOrderedField K] (m : libm K) (wp : wakeParams K)
    (g : geometry K) (w : wake K) (Vinf Sref : K) (p : Nat → Vector3d K) (wr s : Nat → K)
    (hV : Vinf * Sref ≠ 0)
    (hp : ∀ i : Nat, 1 ≤ i → i ≤ 163 →
      w.pntInWake wp g (w.x0 + 2 * (w.xf - w.x0) / 3)
        (w.yMin + (i : K) * ((w.yMax - w.yMin) / 164)) = some (p i))
    (hw : ∀ i : Nat, 1 ≤ i → i ≤ 163 → w.Vradial m wp (p i) = some (wr i))
    (hs : ∀ i : Nat, 1 ≤ i → i ≤ 163 →
      w.wakeStrength (w.yMin + (i : K) * ((w.yMax - w.yMin) / 164)) = some (s i)) :
    ∃ w2, w.trefftzPlane m wp g Vinf Sref = some w2 ∧
      w2.CL = simpsonSum ((w.yMax - w.yMin) / 164)
        (innerNodes (fun i => 2 * -s i / (Vinf * Sref))) ∧
      w2.CD = simpsonSum ((w.yMax - w.yMin) / 164)
        (innerNodes (fun i => -s i * wr i / (Vinf * Vinf * Sref))) ∧
      (∀ j < 165, w2.Cl[j]? = some (innerNodes (fun i => 2 * -s i / (Vinf * Sref)) j)) ∧
      (∀ j < 165, w2.Cd[j]? =
        some (innerNodes (fun i => -s i * wr i / (Vinf * Vinf * Sref)) j)) ∧
      (w2.yLoc[0]? = some w.yMin ∧ w2.yLoc[164]? = some w.yMax ∧
        ∀ j : Nat, 1 ≤ j → j ≤ 163 →
          w2.yLoc[j]? = some (w.yMin + (j : K) * ((w.yMax - w.yMin) / 164))) ∧
      (w2.wpanels = w.wpanels ∧ w2.wakeLines = w.wakeLines ∧ w2.yMin = w.yMin ∧
        w2.yMax = w.yMax ∧ w2.x0 = w.x0 ∧ w2.xf = w.xf ∧ w2.z0 = w.z0 ∧ w2.zf = w.zf ∧
        w2.normal = w.normal) ∧
      (w2.yLoc.length = 165 ∧ w2.Cl.length = 165 ∧ w2.Cd.length = 165) := by
  obtain ⟨st, hst, hframe, ⟨hly, hlc, hld⟩, hy, hcl, hcd⟩ := trefftz_probes m wp g w Vinf Sref
    ((w.yMax - w.yMin) / 164) (w.x0 + 2 * (w.xf - w.x0) / 3) p wr s hV hp hw hs
  have hn : (if 164 % 2 ≠ 0 then 164 + 1 else 164 : Nat) = 164 := by decide
  have hrun : w.trefftzPlane m wp g Vinf Sref =
      forLoop (fun k t => simpsonStep ((w.yMax - w.yMin) / 164) (2 * k) t) 82
        { st.2 with CL := 0, CD := 0 } := by
    simp only [wake.trefftzPlane, hn, Nat.cast_ofNat, Option.bind_eq_bind]
    rw [hst]
    simp only [Option.some_bind, hlc]
  rw [hrun, simpson_loop _ st.2 _ _ hcl hcd]
  exact ⟨_, rfl, rfl, rfl, hcl, hcd, hy, hframe, hly, hlc, hld⟩

/-- In the example, `pntInWake` returns the point of the wake at the given `x` and `y`. -/
theorem demo_pntInWake (s0 s1 x y : ℚ) (h0 : 0 ≤ y) (h1 : y ≤ 1) :
    (demoTrefftzWake ℚ s0 s1).pntInWake (demoWakeParams ℚ) (wakeBoxGeometry ℚ) x y =
      some ![x, y, 0] := by
  have hneg : ¬ ((1 : ℚ) < 0) := by norm_num
  simp [wake.pntInWake, demoTrefftzWake, emptyWake, firstReturn, pntInWakePanel, demoWakeParams,
    wakeBoxGeometry, wakeDemoGeometry, wakeDemoPanel, pntInWakeEdge, getPnt, cdiv, cross, h0, h1,
    hneg]

/-- In the example, `Vradial` returns zero. -/
theorem demo_Vradial (s0 s1 : ℚ) (p : Vector3d ℚ) :
    (demoTrefftzWake ℚ s0 s1).Vradial demoLibm (demoWakeParams ℚ) p = some 0 := by
  have hz : ¬ ((0 : ℚ) > 0.3) := by norm_num
  simp [wake.Vradial, radialOffset, radialPOI, demoLibm, forLoop, radialSample,
    demoWakeParams, rowDot, hz]

/-- In the example, `wakeStrength` interpolates between the two lines. -/
theorem demo_wakeStrength (s0 s1 y : ℚ) :
    (demoTrefftzWake ℚ s0 s1).wakeStrength y = some (s0 + y * (s1 - s0)) := by
  by_cases h : y < 1
  · simp [wake.wakeStrength, bracketLines, demoTrefftzWake, emptyWake, demoLine, cdiv, h]
  · simp [wake.wakeStrength, bracketLines, demoTrefftzWake, emptyWake, demoLine, cdiv, h,
      not_lt.1 h]

/-- C25. When the three calls of each of the 163 probes return and `Vinf * Sref` is not zero,
`trefftzPlane` returns.  The probes are taken at `x = x0 + 2*(xf - x0)/3` and at the stations
`yMin + i*step`, `i = 1..163`, with `step = (yMax - yMin)/164`; the nodal values are
`Cl_i = 2*dPhi_i/(Vinf*Sref)` and `Cd_i = dPhi_i*w_i/(Vinf^2*Sref)` there, with
`dPhi_i = -wakeStrength(y_i)` and `w_i = Vradial(pntInWake(x, y_i))`, and zero at the nodes 0
and 164; `CL` and `CD` are the composite Simpson sums `(step/3)` times the sum over
`k = 0..81` of `f(2k) + 4 f(2k+1) + f(2k+2)` of these nodal values.  The stations are stored
in `yLoc` and the rest of the wake is not changed. -/
theorem trefftzPlane_simpson {K : Type} [LinearOrderedField K] (m : libm K)
    (wp : wakeParams K) (g : geometry K) (w : wake K) (Vinf Sref : K) (p : Nat → Vector3d K)
    (wr s : Nat → K) (hV : Vinf * Sref ≠ 0)
    (hp : ∀ i : Nat, 1 ≤ i → i ≤ 163 →
      w.pntInWake wp g (w.x0 + 2 * (w.xf - w.x0) / 3)
        (w.yMin + (i : K) * ((w.yMax - w.yMin) / 164)) = some (p i))
    (hw : ∀ i : Nat, 1 ≤ i → i ≤ 163 → w.Vradial m wp (p i) = some (wr i))
    (hs : ∀ i : Nat, 1 ≤ i → i ≤ 163 →
      w.wakeStrength (w.yMin + (i : K) * ((w.yMax - w.yMin) / 164)) = some (s i)) :
    ∃ w2, w.trefftzPlane m wp g Vinf Sref = some w2 ∧
      w2.CL = simpsonSum ((w.yMax - w.yMin) / 164)
        (innerNodes (fun i => 2 * -s i / (Vinf * Sref))) ∧
      w2.CD = simpsonSum ((w.yMax - w.yMin) / 164)
        (innerNodes (fun i => -s i * wr i / (Vinf * Vinf * Sref))) ∧
      (∀ j < 165, w2.Cl[j]? = some (innerNodes (fun i => 2 * -s i / (Vinf * Sref)) j)) ∧
      (∀ j < 165, w2.Cd[j]? =
        some (innerNodes (fun i => -s i * wr i / (Vinf * Vinf * Sref)) j)) ∧
      (w2.yLoc[0]? = some w.yMin ∧ w2.yLoc[164]? = some w.yMax ∧
        ∀ j : Nat, 1 ≤ j → j ≤ 163 →
          w2.yLoc[j]? = some (w.yMin + (j : K) * ((w.yMax - w.yMin) / 164))) ∧
      (w2.wpanels = w.wpanels ∧ w2.wakeLines = w.wakeLines ∧ w2.yMin = w.yMin ∧
        w2.yMax = w.yMax ∧ w2.x0 = w.x0 ∧ w2.xf = w.xf ∧ w2.z0 = w.z0 ∧ w2.zf = w.zf ∧
        w2.normal = w.normal) ∧
      (w2.yLoc.length = 165 ∧ w2.Cl.length = 165 ∧ w2.Cd.length = 165) :=
  trefftzPlane_run m wp g w Vinf Sref p wr s hV hp hw hs

/-- The stations of the probes of the example are between 0 and 1. -/
theorem demo_station (s0 s1 : ℚ) (i : Nat) (hi : i ≤ 163) :
    0 ≤ (demoTrefftzWake ℚ s0 s1).yMin +
        (i : ℚ) * (((demoTrefftzWake ℚ s0 s1).yMax - (demoTrefftzWake ℚ s0 s1).yMin) / 164) ∧
      (demoTrefftzWake ℚ s0 s1).yMin +
        (i : ℚ) * (((demoTrefftzWake ℚ s0 s1).yMax - (demoTrefftzWake ℚ s0 s1).yMin) / 164) ≤
          1 := by
  have h : (i : ℚ) ≤ 163 := by exact_mod_cast hi
  have h0 : (0 : ℚ) ≤ (i : ℚ) := Nat.cast_nonneg i
  show 0 ≤ (0 : ℚ) + (i : ℚ) * ((1 - 0) / 164) ∧ (0 : ℚ) + (i : ℚ) * ((1 - 0) / 164) ≤ 1
  constructor
  · linarith
  · linarith

theorem trefftzPlane_simpson_witness :
    ((1 : ℚ) * 1 ≠ 0 ∧
      ∀ i : Nat, 1 ≤ i → i ≤ 163 →
        (demoTrefftzWake ℚ 1 3).wakeStrength ((demoTrefftzWake ℚ 1 3).yMin +
          (i : ℚ) * (((demoTrefftzWake ℚ 1 3).yMax - (demoTrefftzWake ℚ 1 3).yMin) / 164)) =
        some (1 + ((demoTrefftzWake ℚ 1 3).yMin + (i : ℚ) *
          (((demoTrefftzWake ℚ 1 3).yMax - (demoTrefftzWake ℚ 1 3).yMin) / 164)) * (3 - 1))) ∧
    ∃ w2, (demoTrefftzWake ℚ 1 3).trefftzPlane demoLibm (demoWakeParams ℚ) (wakeBoxGeometry ℚ)
        1 1 = some w2 ∧
      w2.CL = simpsonSum (((demoTrefftzWake ℚ 1 3).yMax - (demoTrefftzWake ℚ 1 3).yMin) / 164)
        (innerNodes (fun i => 2 * -(1 + ((demoTrefftzWake ℚ 1 3).yMin + (i : ℚ) *
          (((demoTrefftzWake ℚ 1 3).yMax - (demoTrefftzWake ℚ 1 3).yMin) / 164)) * (3 - 1)) /
            (1 * 1))) ∧
      w2.CD = simpsonSum (((demoTrefftzWake ℚ 1 3).yMax - (demoTrefftzWake ℚ 1 3).yMin) / 164)
        (innerNodes (fun i => -(1 + ((demoTrefftzWake ℚ 1 3).yMin + (i : ℚ) *
          (((demoTrefftzWake ℚ 1 3).yMax - (demoTrefftzWake ℚ 1 3).yMin) / 164)) * (3 - 1)) * 0 /
            (1 * 1 * 1))) :=
  have hs := fun (i : Nat) (_ : 1 ≤ i) (_ : i ≤ 163) =>
    demo_wakeStrength 1 3 ((demoTrefftzWake ℚ 1 3).yMin +
      (i : ℚ) * (((demoTrefftzWake ℚ 1 3).yMax - (demoTrefftzWake ℚ 1 3).yMin) / 164))
  ⟨⟨by norm_num, hs⟩,
    match trefftzPlane_simpson demoLibm (demoWakeParams ℚ) (wakeBoxGeometry ℚ)
      (demoTrefftzWake ℚ 1 3) 1 1 _ (fun _ => 0) _ (by norm_num)
      (fun i _ h2 => demo_pntInWake 1 3 _ _ (demo_station 1 3 i h2).1 (demo_station 1 3 i h2).2)
      (fun _ _ _ => demo_Vradial 1 3 _) hs with
    | ⟨w2, h1, h2, h3, _⟩ => ⟨w2, h1, h2, h3⟩⟩

/-! ## wake.cpp: the survey of a wake of one panel -/

/-- The two lines that `wakeStrength` interpolates between are lines of the wake. -/
theorem bracketLines_mem {K : Type} [LinearOrderedField K] (w : wake K) (y : K)
    (a b : wakeLine K) (h : bracketLines w y = some (some (a, b))) :
    a ∈ w.wakeLines ∧ b ∈ w.wakeLines := by
  simp only [bracketLines, Option.bind_eq_bind] at h
  obtain ⟨l1, hl1, h⟩ := Option.bind_eq_some.1 h
  by_cases hy : y < l1.Y
  · rw [if_pos hy] at h
    obtain ⟨l0, hl0, h⟩ := Option.bind_eq_some.1 h
    simp only [Option.some.injEq, Prod.mk.injEq] at h
    rw [← h.1, ← h.2]
    exact ⟨List.getElem?_mem hl0, List.getElem?_mem hl1⟩
  · rw [if_neg hy] at h
    obtain ⟨last, hlast, h⟩ := Option.bind_eq_some.1 h
    by_cases hy2 : y ≥ last.Y
    · rw [if_pos hy2] at h
      obtain ⟨last2, hlast2, h⟩ := Option.bind_eq_some.1 h
      simp only [Option.some.injEq, Prod.mk.injEq] at h
      rw [← h.1, ← h.2]
      exact ⟨List.getElem?_mem hlast2, List.getElem?_mem hlast⟩
    · rw [if_neg hy2] at h
      refine forLoop_preserves (fun k st => bracketLine w.wakeLines y (k + 1) st)
        (fun st => ∀ a b, st = some (a, b) → a ∈ w.wakeLines ∧ b ∈ w.wakeLines) _ ?_ none _
        (fun _ _ hn => by simp at hn) h a b rfl
      intro k t t2 _ ht hrun c d hcd
      simp only [bracketLine, Option.bind_eq_bind] at hrun
      obtain ⟨u, hu, hrun⟩ := Option.bind_eq_some.1 hrun
      obtain ⟨v, hv, hrun⟩ := Option.bind_eq_some.1 hrun
      by_cases hc : u.Y ≤ y ∧ v.Y > y
      · rw [if_pos hc] at hrun
        rw [← Option.some.inj hrun] at hcd
        simp only [Option.some.injEq, Prod.mk.injEq] at hcd
        rw [← hcd.1, ← hcd.2]
        exact ⟨List.getElem?_mem hu, List.getElem?_mem hv⟩
      · rw [if_neg hc] at hrun
        rw [← Option.some.inj hrun] at hcd
        exact ht c d hcd

/-- With fewer than two wake lines `wakeStrength` reads past the end of `wakeLines`. -/
theorem wakeStrength_short {K : Type} [LinearOrderedField K] (w : wake K) (y : K)
    (h : w.wakeLines.length < 2) : w.wakeStrength y = none := by
  have h1 : w.wakeLines[1]? = none := List.getElem?_eq_none (by omega)
  simp [wake.wakeStrength, bracketLines, h1]

/-- A loop of at least one pass that returns has returned from its first pass. -/
theorem forLoop_first {σ : Type} (body : Nat → σ → Option σ) (n : Nat) (s t : σ)
    (h : forLoop body (n + 1) s = some t) : ∃ s1, body 0 s = some s1 := by
  induction n generalizing t with
  | zero =>
    simp only [forLoop, Option.some_bind] at h
    exact ⟨t, h⟩
  | succ k ih =>
    rw [forLoop] at h
    obtain ⟨u, hu, -⟩ := Option.bind_eq_some.1 h
    exact ih u hu

/-- With fewer than two wake lines no probe of the survey returns: its call of `wakeStrength`
reads past the end of `wakeLines`. -/
theorem trefftzProbe_short {K : Type} [LinearOrderedField K] (m : libm K) (wp : wakeParams K)
    (g : geometry K) (Vinf Sref step xT : K) (i : Nat) (st : (List K × List K) × wake K)
    (h : st.2.wakeLines.length < 2) :
    trefftzProbe m wp g Vinf Sref step xT i st = none := by
  cases hres : trefftzProbe m wp g Vinf Sref step xT i st with
  | none => rfl
  | some t =>
    simp only [trefftzProbe, Option.bind_eq_bind] at hres
    obtain ⟨p, -, hres⟩ := Option.bind_eq_some.1 hres
    obtain ⟨wi, -, hres⟩ := Option.bind_eq_some.1 hres
    obtain ⟨sv, hsv, -⟩ := Option.bind_eq_some.1 hres
    exact absurd (hsv.symm.trans (wakeStrength_short _ _ h)) (by simp)

/-- With fewer than two wake lines `trefftzPlane` does not return: its first probe reads past
the end of `wakeLines`. -/
theorem trefftzPlane_short {K : Type} [LinearOrderedField K] (m : libm K) (wp : wakeParams K)
    (g : geometry K) (w : wake K) (Vinf Sref : K) (h : w.wakeLines.length < 2) :
    w.trefftzPlane m wp g Vinf Sref = none := by
  cases hres : w.trefftzPlane m wp g Vinf Sref with
  | none => rfl
  | some t =>
    have hn : (if 164 % 2 ≠ 0 then 164 + 1 else 164 : Nat) = 164 := by decide
    simp only [wake.trefftzPlane, hn, Option.bind_eq_bind] at hres
    obtain ⟨st, hst, -⟩ := Option.bind_eq_some.1 hres
    obtain ⟨s1, hs1⟩ := forLoop_first _ 162 _ _ hst
    rw [trefftzProbe_short m wp g Vinf Sref _ _ _ _ h] at hs1
    exact absurd hs1 (by simp)

/-- C26. The wake of one wake panel has one wake line (one for each spanwise strip).  On the
example wake of one panel and one line the first probe of `trefftzPlane`, at
`x = 2/3`, `y = 1/164`, finds its point in the wake and its radial velocity, and then calls
`wakeStrength`, which reads `wakeLines[1]` past the end of the vector: `wakeStrength` returns
for no `y`, and `trefftzPlane` does not return `CL = 0` and `CD = 0`, for any `Vinf` and
`Sref`. -/
theorem trefftzPlane_single_panel_reads_past_end :
    (demoSingleWake ℚ).wpanels = [0] ∧ (demoSingleWake ℚ).wakeLines.length = 1 ∧
    (demoSingleWake ℚ).pntInWake (demoWakeParams ℚ) (wakeBoxGeometry ℚ) (2 / 3) (1 / 164) =
      some ![2 / 3, 1 / 164, 0] ∧
    (demoSingleWake ℚ).Vradial demoLibm (demoWakeParams ℚ) ![2 / 3, 1 / 164, 0] = some 0 ∧
    (demoSingleWake ℚ).wakeLines[1]? = none ∧
    (∀ y : ℚ, (demoSingleWake ℚ).wakeStrength y = none) ∧
    (∀ Vinf Sref : ℚ, (demoSingleWake ℚ).trefftzPlane demoLibm (demoWakeParams ℚ)
      (wakeBoxGeometry ℚ) Vinf Sref = none) := by
  have hshort : (demoSingleWake ℚ).wakeLines.length < 2 := by decide
  refine ⟨rfl, rfl, ?_, ?_, rfl, fun y => wakeStrength_short _ y hshort,
    fun Vinf Sref => trefftzPlane_short _ _ _ _ Vinf Sref hshort⟩
  · rw [pntInWake_frame (demoWakeParams ℚ) (wakeBoxGeometry ℚ) (demoSingleWake ℚ)
      (demoTrefftzWake ℚ 0 0) rfl]
    exact demo_pntInWake 0 0 _ _ (by norm_num) (by norm_num)
  · rw [Vradial_frame demoLibm (demoWakeParams ℚ) (demoSingleWake ℚ) (demoTrefftzWake ℚ 0 0)
      rfl rfl]
    exact demo_Vradial 0 0 _

/-! ## The interaction kernels: orthogonality, linearity, antisymmetry -/

/-- A multiple of a cross product is orthogonal to both factors. -/
theorem dot_smul_cross {K : Type} [Field K] (f : K) (d a : Vector3d K) :
    dot (f • cross d a) d = 0 ∧ dot (f • cross d a) a = 0 := by
  constructor
  · simp only [dot, cross, Pi.smul_apply, smul_eq_mul, Matrix.cons_val_zero,
      Matrix.cons_val_one, Matrix.head_cons, Matrix.cons_val_two, Matrix.tail_cons]
    ring
  · simp only [dot, cross, Pi.smul_apply, smul_eq_mul, Matrix.cons_val_zero,
      Matrix.cons_val_one, Matrix.head_cons, Matrix.cons_val_two, Matrix.tail_cons]
    ring

/-- A multiple of a cross product is linear in the second factor. -/
theorem smul_cross_linear {K : Type} [Field K] (f k : K) (d a b : Vector3d K) :
    f • cross d (k • a + b) = k • (f • cross d a) + f • cross d b := by
  funext i
  fin_cases i <;> simp [cross] <;> ring

/-- The cross product of a vector with a multiple of itself is zero. -/
theorem smul_cross_parallel {K : Type} [Field K] (f k : K) (d : Vector3d K) :
    f • cross d (k • d) = 0 := by
  have h : cross d (k • d) = 0 := by
    funext i
    fin_cases i
    · show d 1 * (k * d 2) - d 2 * (k * d 1) = 0
      ring
    · show d 2 * (k * d 0) - d 0 * (k * d 2) = 0
      ring
    · show d 0 * (k * d 1) - d 1 * (k * d 0) = 0
      ring
  rw [h, smul_zero]

/-- The norm of a vector and of its opposite are the same. -/
theorem norm3_sub_comm {K : Type} [Field K] (m : libm K) (a b : Vector3d K) :
    norm3 m (a - b) = norm3 m (b - a) := by
  unfold norm3
  rw [← dot_neg_self (a - b), neg_sub]

/-- Over the reals the scalar factor of the two functions `velInfl` is computed without a
division by zero when `sigma` and `rho` are not zero. -/
theorem velKernel_real (erf : ℝ → ℝ) (c sigma rho : ℝ) (hs : sigma ≠ 0) (hr : rho ≠ 0) :
    ∃ f, velKernel (libm.mk Real.cos Real.sin Real.arccos Real.pi Real.sqrt)
      (kernelMath.mk (fun x y => x ^ y) Real.exp erf c) sigma rho = some f := by
  have hpi := Real.pi_pos
  have h1 : 4 * Real.pi * rho ≠ 0 := mul_ne_zero (by positivity) hr
  have h2 : (2 : ℝ) ^ (0.5 : ℝ) ≠ 0 := (Real.rpow_pos_of_pos (by norm_num) _).ne'
  have h3 : (2 * Real.pi) ^ (1.5 : ℝ) ≠ 0 := (Real.rpow_pos_of_pos (by positivity) _).ne'
  have h4 : rho * rho ≠ 0 := mul_ne_zero hr hr
  have h5 : sigma ^ 3 ≠ 0 := pow_ne_zero _ hs
  simp only [velKernel, Option.bind_eq_bind, cdiv_of_ne _ _ h1, cdiv_of_ne _ _ h2,
    cdiv_of_ne _ _ h3, cdiv_of_ne _ _ h4, cdiv_of_ne _ _ h5, Option.some_bind]
  exact ⟨_, rfl⟩

/-- Over the reals the symmetrised core size is computed, and is positive, when one of the
two cores is not zero. -/
theorem sigmaPair_real (erf : ℝ → ℝ) (c r1 r2 : ℝ) (h : c * r1 ≠ 0 ∨ c * r2 ≠ 0) :
    ∃ sigma, sigmaPair (libm.mk Real.cos Real.sin Real.arccos Real.pi Real.sqrt)
      (kernelMath.mk (fun x y => x ^ y) Real.exp erf c) r1 r2 = some sigma ∧ 0 < sigma ∧
      sigma = Real.sqrt ((c * r1) ^ 2 + (c * r2) ^ 2) / Real.sqrt 2 := by
  have hs2 : Real.sqrt 2 ≠ 0 := (Real.sqrt_pos.2 (by norm_num)).ne'
  refine ⟨_, ?_, sigma_pos c r1 r2 h, rfl⟩
  unfold sigmaPair
  rw [cdiv_of_ne _ _ hs2]

/-- C33. Over the reals, for a particle with a core that is not zero: whatever its strength
`a`, `velInfl(POI)` returns `f * (POI - pos) x a` with a factor `f` that does not depend on
`a`, at every point `POI`, and `velInfl(part)` returns `g * (part.pos - pos) x a` for the
particle itself or a particle at another position.  So both velocities are orthogonal to the
separation vector and to the strength, are linear in the strength, and are zero when the
strength is parallel to the separation vector. -/
theorem velInfl_orthogonal_linear (erf : ℝ → ℝ) (c : ℝ) (thisPtr partPtr : Nat)
    (this part : particle ℝ) (POI : Vector3d ℝ) (hcore : c * this.radius ≠ 0)
    (hsep : thisPtr = partPtr ∨ this.pos ≠ part.pos) :
    ∃ f g : ℝ,
      (∀ a : Vector3d ℝ,
        particle.velInflPOI (libm.mk Real.cos Real.sin Real.arccos Real.pi Real.sqrt)
          (kernelMath.mk (fun x y => x ^ y) Real.exp erf c) { this with strength := a } POI =
            some (f • cross (POI - this.pos) a)) ∧
      (∀ a : Vector3d ℝ,
        particle.velInfl (libm.mk Real.cos Real.sin Real.arccos Real.pi Real.sqrt)
          (kernelMath.mk (fun x y => x ^ y) Real.exp erf c) thisPtr partPtr
          { this with strength := a } part = some (g • cross (part.pos - this.pos) a)) ∧
      (∀ a : Vector3d ℝ, dot (f • cross (POI - this.pos) a) (POI - this.pos) = 0 ∧
        dot (f • cross (POI - this.pos) a) a = 0 ∧
        dot (g • cross (part.pos - this.pos) a) (part.pos - this.pos) = 0 ∧
        dot (g • cross (part.pos - this.pos) a) a = 0) ∧
      (∀ (a b : Vector3d ℝ) (k : ℝ),
        f • cross (POI - this.pos) (k • a + b) =
          k • (f • cross (POI - this.pos) a) + f • cross (POI - this.pos) b ∧
        g • cross (part.pos - this.pos) (k • a + b) =
          k • (g • cross (part.pos - this.pos) a) + g • cross (part.pos - this.pos) b) ∧
      (∀ k : ℝ, f • cross (POI - this.pos) (k • (POI - this.pos)) = 0 ∧
        g • cross (part.pos - this.pos) (k • (part.pos - this.pos)) = 0) := by
  have hF : ∃ f : ℝ, ∀ a : Vector3d ℝ,
      particle.velInflPOI (libm.mk Real.cos Real.sin Real.arccos Real.pi Real.sqrt)
        (kernelMath.mk (fun x y => x ^ y) Real.exp erf c) { this with strength := a } POI =
          some (f • cross (POI - this.pos) a) := by
    by_cases h0 : norm3 (libm.mk Real.cos Real.sin Real.arccos Real.pi Real.sqrt)
        (this.pos - POI) = 0
    · refine ⟨0, fun a => ?_⟩
      unfold particle.velInflPOI
      rw [if_pos h0, zero_smul]
    · have hn : norm3 (libm.mk Real.cos Real.sin Real.arccos Real.pi Real.sqrt)
          (POI - this.pos) ≠ 0 := by
        rw [norm3_sub_comm]
        exact h0
      obtain ⟨f, hf⟩ := velKernel_real erf c (c * this.radius)
        (norm3 (libm.mk Real.cos Real.sin Real.arccos Real.pi Real.sqrt) (POI - this.pos) /
          (c * this.radius)) hcore (div_ne_zero hn hcore)
      refine ⟨f, fun a => ?_⟩
      unfold particle.velInflPOI
      rw [if_neg h0]
      simp only [Option.bind_eq_bind, cdiv_of_ne _ _ hcore, Option.some_bind, hf]
  have hG : ∃ g : ℝ, ∀ a : Vector3d ℝ,
      particle.velInfl (libm.mk Real.cos Real.sin Real.arccos Real.pi Real.sqrt)
        (kernelMath.mk (fun x y => x ^ y) Real.exp erf c) thisPtr partPtr
        { this with strength := a } part = some (g • cross (part.pos - this.pos) a) := by
    by_cases hp : thisPtr = partPtr
    · refine ⟨0, fun a => ?_⟩
      unfold particle.velInfl
      rw [if_pos hp, zero_smul]
    · have hpos : this.pos ≠ part.pos := by
        rcases hsep with h | h
        · exact absurd h hp
        · exact h
      obtain ⟨sigma, hsig, hsigpos, -⟩ := sigmaPair_real erf c this.radius part.radius
        (Or.inl hcore)
      have hn := norm3_pos (part.pos - this.pos) (fun h => hpos (sub_eq_zero.1 h).symm)
      obtain ⟨g, hg⟩ := velKernel_real erf c sigma
        (norm3 (libm.mk Real.cos Real.sin Real.arccos Real.pi Real.sqrt) (part.pos - this.pos) /
          sigma) hsigpos.ne' (div_ne_zero hn.ne' hsigpos.ne')
      refine ⟨g, fun a => ?_⟩
      unfold particle.velInfl
      rw [if_neg hp, if_neg hp]
      simp only [Option.bind_eq_bind, hsig, cdiv_of_ne _ _ hsigpos.ne', Option.some_bind, hg]
  obtain ⟨f, hf⟩ := hF
  obtain ⟨g, hg⟩ := hG
  refine ⟨f, g, hf, hg, ?_, ?_, ?_⟩
  · intro a
    exact ⟨(dot_smul_cross f _ a).1, (dot_smul_cross f _ a).2, (dot_smul_cross g _ a).1,
      (dot_smul_cross g _ a).2⟩
  · intro a b k
    exact ⟨smul_cross_linear f k _ a b, smul_cross_linear g k _ a b⟩
  · intro k
    exact ⟨smul_cross_parallel f k _, smul_cross_parallel g k _⟩

theorem velInfl_orthogonal_linear_witness :
    ((1 : ℝ) * (kernelParticle ℝ 0 1).radius ≠ 0 ∧
      ((0 : Nat) = 1 ∨ (kernelParticle ℝ 0 1).pos ≠ (kernelParticle ℝ 1 1).pos)) ∧
    ∃ f g : ℝ,
      (∀ a : Vector3d ℝ,
        particle.velInflPOI (libm.mk Real.cos Real.sin Real.arccos Real.pi Real.sqrt)
          (kernelMath.mk (fun x y => x ^ y) Real.exp (fun x => x) 1)
          { kernelParticle ℝ 0 1 with strength := a } ![0, 2, 0] =
            some (f • cross (![0, 2, 0] - (kernelParticle ℝ 0 1).pos) a)) ∧
      (∀ a : Vector3d ℝ,
        particle.velInfl (libm.mk Real.cos Real.sin Real.arccos Real.pi Real.sqrt)
          (kernelMath.mk (fun x y => x ^ y) Real.exp (fun x => x) 1) 0 1
          { kernelParticle ℝ 0 1 with strength := a } (kernelParticle ℝ 1 1) =
            some (g • cross ((kernelParticle ℝ 1 1).pos - (kernelParticle ℝ 0 1).pos) a)) :=
  have hpos : (kernelParticle ℝ 0 1).pos ≠ (kernelParticle ℝ 1 1).pos :=
    fun h => by simpa [kernelParticle] using congrFun h 0
  have hcore : (1 : ℝ) * (kernelParticle ℝ 0 1).radius ≠ 0 := by simp [kernelParticle]
  ⟨⟨hcore, Or.inr hpos⟩,
    match velInfl_orthogonal_linear (fun x => x) 1 0 1 (kernelParticle ℝ 0 1)
      (kernelParticle ℝ 1 1) ![0, 2, 0] hcore (Or.inr hpos) with
    | ⟨f, g, hf, hg, _⟩ => ⟨f, g, hf, hg⟩⟩

/-- The symmetrised core size does not depend on the order of the two radii. -/
theorem sigmaPair_comm {K : Type} [LinearOrderedField K] (m : libm K) (km : kernelMath K)
    (r1 r2 : K) : sigmaPair m km r1 r2 = sigmaPair m km r2 r1 := by
  unfold sigmaPair
  rw [add_comm]

/-- The function `viscousDiffusion` with the two particles exchanged returns the opposite
vector, and fails when the first call does. -/
theorem viscousDiffusion_swap {K : Type} [LinearOrderedField K] (m : libm K)
    (km : kernelMath K) (this part : particle K) :
    this.viscousDiffusion m km part = (part.viscousDiffusion m km this).map (fun v => -v) := by
  simp only [particle.viscousDiffusion]
  rw [sigmaPair_comm m km part.radius this.radius, norm3_sub_comm m part.pos this.pos]
  cases sigmaPair m km this.radius part.radius with
  | none => rfl
  | some sigij =>
    simp only [Option.bind_eq_bind, Option.some_bind]
    cases cdiv (norm3 m (this.pos - part.pos)) sigij with
    | none => rfl
    | some rho =>
      simp only [Option.some_bind]
      cases cdiv 1 (km.pow (2 * m.pi) 1.5 * rho ^ 3) with
      | none => rfl
      | some x =>
        simp only [Option.some_bind]
        cases cdiv (2 * (1.983e-5 : K)) (sigij * sigij) with
        | none => rfl
        | some c =>
          simp only [Option.some_bind, Option.map_some', Option.some.injEq]
          rw [← smul_neg, neg_sub]

/-- A sum over all ordered pairs of different indices of antisymmetric contributions is
zero. -/
theorem pairSum_antisymm {K : Type} [LinearOrderedField K] (d : Nat → Nat → Vector3d K)
    (n : Nat) (h : ∀ i j, i < n → j < n → i ≠ j → d i j = -d j i) : pairSum d n = 0 := by
  have hswap : pairSum d n = -pairSum d n := by
    unfold pairSum
    nth_rewrite 1 [Finset.sum_comm]
    rw [← Finset.sum_neg_distrib]
    apply Finset.sum_congr rfl
    intro i hi
    rw [← Finset.sum_neg_distrib]
    apply Finset.sum_congr rfl
    intro j hj
    by_cases hij : i = j
    · subst hij
      simp
    · have hji : j ≠ i := fun e => hij e.symm
      rw [if_pos hji, if_pos hij, h j i (Finset.mem_range.1 hj) (Finset.mem_range.1 hi) hji]
  funext k
  have hk := congrFun hswap k
  simp only [Pi.neg_apply, Pi.zero_apply] at hk ⊢
  linarith

/-- C34. `i.viscousDiffusion(j)` is the opposite of `j.viscousDiffusion(i)` for any two
particles, whatever their radii (and one call divides by zero exactly when the other does).
So, for particles whose calls on all ordered pairs of different indices return, each
contribution `d i j` is the opposite of `d j i`, and the sum of the contributions over all
ordered pairs of different indices is the zero vector. -/
theorem viscousDiffusion_antisymmetric {K : Type} [LinearOrderedField K] (m : libm K)
    (km : kernelMath K) (ps : List (particle K)) (d : Nat → Nat → Vector3d K)
    (hd : ∀ (i j : Nat) (pi pj : particle K), ps[i]? = some pi → ps[j]? = some pj → i ≠ j →
      pi.viscousDiffusion m km pj = some (d i j)) :
    (∀ this part : particle K,
      this.viscousDiffusion m km part = (part.viscousDiffusion m km this).map (fun v => -v)) ∧
    (∀ i j, i < ps.length → j < ps.length → i ≠ j → d i j = -d j i) ∧
    pairSum d ps.length = 0 := by
  have hanti : ∀ i j, i < ps.length → j < ps.length → i ≠ j → d i j = -d j i := by
    intro i j hi hj hij
    have h1 := hd i j _ _ (List.getElem?_eq_getElem hi) (List.getElem?_eq_getElem hj) hij
    have h2 := hd j i _ _ (List.getElem?_eq_getElem hj) (List.getElem?_eq_getElem hi)
      (fun e => hij e.symm)
    rw [viscousDiffusion_swap, h2] at h1
    simpa using h1.symm
  exact ⟨viscousDiffusion_swap m km, hanti, pairSum_antisymm d _ hanti⟩

/-- In the example the two calls of `viscousDiffusion` return. -/
theorem demoPair_returns :
    (∃ v, (kernelParticle ℚ 0 1).viscousDiffusion demoLibm demoKernelMath
      { kernelParticle ℚ 1 1 with strength := ![1, 0, 0] } = some v) ∧
    (∃ v, particle.viscousDiffusion demoLibm demoKernelMath
      { kernelParticle ℚ 1 1 with strength := ![1, 0, 0] } (kernelParticle ℚ 0 1) = some v) := by
  constructor
  · refine Option.isSome_iff_exists.1 ?_
    norm_num [particle.viscousDiffusion, sigmaPair, cdiv, demoLibm, demoKernelMath,
      kernelParticle, norm3, dot]
  · refine Option.isSome_iff_exists.1 ?_
    norm_num [particle.viscousDiffusion, sigmaPair, cdiv, demoLibm, demoKernelMath,
      kernelParticle, norm3, dot]

theorem viscousDiffusion_antisymmetric_witness :
    ∃ d : Nat → Nat → Vector3d ℚ,
      (∀ (i j : Nat) (pi pj : particle ℚ), demoPair[i]? = some pi → demoPair[j]? = some pj → i ≠ j →
        pi.viscousDiffusion demoLibm demoKernelMath pj = some (d i j)) ∧
      (∀ i j, i < demoPair.length → j < demoPair.length → i ≠ j → d i j = -d j i) ∧
      pairSum d demoPair.length = 0 :=
  have hd : ∀ (i j : Nat) (pi pj : particle ℚ), demoPair[i]? = some pi → demoPair[j]? = some pj → i ≠ j →
      pi.viscousDiffusion demoLibm demoKernelMath pj =
        some (((demoPair[i]?).bind (fun (pi : particle ℚ) => (demoPair[j]?).bind
          (fun (pj : particle ℚ) => pi.viscousDiffusion demoLibm demoKernelMath pj))).getD 0) := by
    intro i j pi pj hi hj hij
    rw [hi, hj]
    have hi2 : i < 2 := by
      by_contra hge
      have : demoPair[i]? = none := List.getElem?_eq_none (by simpa [demoPair] using hge)
      rw [this] at hi
      exact Option.noConfusion hi
    have hj2 : j < 2 := by
      by_contra hge
      have : demoPair[j]? = none := List.getElem?_eq_none (by simpa [demoPair] using hge)
      rw [this] at hj
      exact Option.noConfusion hj
    obtain ⟨⟨v, hv⟩, ⟨u, hu⟩⟩ := demoPair_returns
    interval_cases i <;> interval_cases j
    · exact absurd rfl hij
    · simp only [demoPair, List.getElem?_cons_zero, List.getElem?_cons_succ,
        Option.some.injEq] at hi hj
      subst hi hj
      simp [hv]
    · simp only [demoPair, List.getElem?_cons_zero, List.getElem?_cons_succ,
        Option.some.injEq] at hi hj
      subst hi hj
      simp [hu]
    · exact absurd rfl hij
  ⟨_, hd, (viscousDiffusion_antisymmetric demoLibm demoKernelMath demoPair _ hd).2⟩

/-- The product of the velocity gradient of `vortexStretching` with a vector is a multiple of
a cross product with the strength that the cross-product matrix was built from. -/
theorem velGradientTimes_cross {K : Type} [Field K] (s3 : K) (a v : Vector3d K)
    (M : Matrix3d K) :
    velGradientTimes s3 (alphaTilda a) M v = s3 • cross a (M.mulVec v) := by
  have h : (alphaTilda a).mulVec (M.mulVec v) = cross a (M.mulVec v) := by
    funext i
    fin_cases i <;>
      simp [alphaTilda, cross, Matrix.mulVec, Matrix.dotProduct, Fin.sum_univ_three] <;> ring
  unfold velGradientTimes
  rw [Matrix.smul_mulVec_assoc, ← Matrix.mulVec_mulVec, h]

/-- Over the reals the three coefficients of `vortexStretching` are computed without a
division by zero when `rho` is not zero. -/
theorem stretchingCoeffs_real (erf : ℝ → ℝ) (c rho : ℝ) (hr : rho ≠ 0) :
    ∃ x, stretchingCoeffs (libm.mk Real.cos Real.sin Real.arccos Real.pi Real.sqrt)
      (kernelMath.mk (fun x y => x ^ y) Real.exp erf c) rho = some x := by
  have hpi := Real.pi_pos
  have h1 : (2 * Real.pi) ^ (1.5 : ℝ) ≠ 0 := (Real.rpow_pos_of_pos (by positivity) _).ne'
  have h2 : 4 * Real.pi * rho ≠ 0 := mul_ne_zero (by positivity) hr
  have h3 : Real.sqrt 2 ≠ 0 := (Real.sqrt_pos.2 (by norm_num)).ne'
  have h4 : rho * rho ≠ 0 := mul_ne_zero hr hr
  simp only [stretchingCoeffs, Option.bind_eq_bind, cdiv_of_ne _ _ h1, cdiv_of_ne _ _ h2,
    cdiv_of_ne _ _ h3, cdiv_of_ne _ _ h4, Option.some_bind]
  exact ⟨_, rfl⟩

/-- C35. Over the reals, for two particles at different positions of which one has a core
that is not zero: there is a matrix `M`, the same for all strengths, such that for the
strengths `ai` of the particle and `aj` of the influencing particle `vortexStretching` returns
the zero vector outside the cutoff and `aj x (M ai) / sigma^3` inside it.  So the result is
orthogonal to `aj` and linear in `ai`. -/
theorem vortexStretching_orthogonal_linear (erf : ℝ → ℝ) (c : ℝ) (this part : particle ℝ)
    (hpos : this.pos ≠ part.pos) (hcore : c * this.radius ≠ 0 ∨ c * part.radius ≠ 0) :
    ∃ (M : Matrix3d ℝ) (S : Vector3d ℝ → Vector3d ℝ → Vector3d ℝ),
      (∀ ai aj : Vector3d ℝ, S ai aj =
        if Real.sqrt (dot (this.pos - part.pos) (this.pos - part.pos)) > 5 * this.radius then 0
        else (1 / (Real.sqrt ((c * this.radius) ^ 2 + (c * part.radius) ^ 2) /
          Real.sqrt 2) ^ 3) • cross aj (M.mulVec ai)) ∧
      (∀ ai aj : Vector3d ℝ,
        particle.vortexStretching (libm.mk Real.cos Real.sin Real.arccos Real.pi Real.sqrt)
          (kernelMath.mk (fun x y => x ^ y) Real.exp erf c) { this with strength := ai }
          { part with strength := aj } = some (S ai aj)) ∧
      (∀ ai aj : Vector3d ℝ, dot (S ai aj) aj = 0) ∧
      (∀ (ai bi aj : Vector3d ℝ) (k : ℝ), S (k • ai + bi) aj = k • S ai aj + S bi aj) := by
  obtain ⟨sigma, hsig, hsigpos, hsigeq⟩ := sigmaPair_real erf c this.radius part.radius hcore
  have hn := norm3_pos (this.pos - part.pos) (fun h => hpos (sub_eq_zero.1 h))
  obtain ⟨x, hx⟩ := stretchingCoeffs_real erf c
    (norm3 (libm.mk Real.cos Real.sin Real.arccos Real.pi Real.sqrt) (this.pos - part.pos) /
      sigma) (div_ne_zero hn.ne' hsigpos.ne')
  have h1 : sigma * sigma ≠ 0 := mul_ne_zero hsigpos.ne' hsigpos.ne'
  have h3 : sigma ^ 3 ≠ 0 := pow_ne_zero _ hsigpos.ne'
  obtain ⟨M, hM⟩ : ∃ M : Matrix3d ℝ, M =
      inflMat x.2.1 (1 / (sigma * sigma)) (-1 / (sigma * sigma)) x.2.2 this.pos part.pos :=
    ⟨_, rfl⟩
  obtain ⟨S, hS⟩ : ∃ S : Vector3d ℝ → Vector3d ℝ → Vector3d ℝ, ∀ ai aj, S ai aj =
      if Real.sqrt (dot (this.pos - part.pos) (this.pos - part.pos)) > 5 * this.radius then 0
      else (1 / (Real.sqrt ((c * this.radius) ^ 2 + (c * part.radius) ^ 2) /
        Real.sqrt 2) ^ 3) • cross aj (M.mulVec ai) := ⟨_, fun _ _ => rfl⟩
  refine ⟨M, S, hS, ?_, ?_, ?_⟩
  · intro ai aj
    rw [hS, ← hsigeq]
    have hgoal : particle.vortexStretching
        (libm.mk Real.cos Real.sin Real.arccos Real.pi Real.sqrt)
        (kernelMath.mk (fun x y => x ^ y) Real.exp erf c) { this with strength := ai }
        { part with strength := aj } =
        if Real.sqrt (dot (this.pos - part.pos) (this.pos - part.pos)) > 5 * this.radius
        then some 0
        else particle.stretchingKernel
          (libm.mk Real.cos Real.sin Real.arccos Real.pi Real.sqrt)
          (kernelMath.mk (fun x y => x ^ y) Real.exp erf c) { this with strength := ai }
          { part with strength := aj } := rfl
    rw [hgoal]
    by_cases hcut : Real.sqrt (dot (this.pos - part.pos) (this.pos - part.pos)) >
        5 * this.radius
    · rw [if_pos hcut, if_pos hcut]
    · rw [if_neg hcut, if_neg hcut, hM]
      simp only [particle.stretchingKernel, Option.bind_eq_bind, hsig, Option.some_bind,
        cdiv_of_ne _ _ hsigpos.ne', hx, cdiv_of_ne _ _ h1, cdiv_of_ne _ _ h3,
        velGradientTimes_cross]
  · intro ai aj
    rw [hS]
    by_cases hcut : Real.sqrt (dot (this.pos - part.pos) (this.pos - part.pos)) >
        5 * this.radius
    · rw [if_pos hcut]
      simp [dot]
    · rw [if_neg hcut]
      have h := dot_smul_cross (1 / (Real.sqrt ((c * this.radius) ^ 2 +
        (c * part.radius) ^ 2) / Real.sqrt 2) ^ 3) aj (M.mulVec ai)
      exact h.1
  · intro ai bi aj k
    rw [hS, hS, hS]
    by_cases hcut : Real.sqrt (dot (this.pos - part.pos) (this.pos - part.pos)) >
        5 * this.radius
    · simp only [if_pos hcut]
      simp
    · simp only [if_neg hcut]
      rw [Matrix.mulVec_add, Matrix.mulVec_smul, smul_cross_linear]

theorem vortexStretching_orthogonal_linear_witness :
    ((kernelParticle ℝ 0 1).pos ≠ (kernelParticle ℝ 1 1).pos ∧
      ((1 : ℝ) * (kernelParticle ℝ 0 1).radius ≠ 0 ∨
        (1 : ℝ) * (kernelParticle ℝ 1 1).radius ≠ 0)) ∧
    ∃ S : Vector3d ℝ → Vector3d ℝ → Vector3d ℝ,
      (∀ ai aj : Vector3d ℝ,
        particle.vortexStretching (libm.mk Real.cos Real.sin Real.arccos Real.pi Real.sqrt)
          (kernelMath.mk (fun x y => x ^ y) Real.exp (fun x => x) 1)
          { kernelParticle ℝ 0 1 with strength := ai }
          { kernelParticle ℝ 1 1 with strength := aj } = some (S ai aj)) ∧
      (∀ ai aj : Vector3d ℝ, dot (S ai aj) aj = 0) ∧
      (∀ (ai bi aj : Vector3d ℝ) (k : ℝ), S (k • ai + bi) aj = k • S ai aj + S bi aj) :=
  have hpos : (kernelParticle ℝ 0 1).pos ≠ (kernelParticle ℝ 1 1).pos :=
    fun h => by simpa [kernelParticle] using congrFun h 0
  have hcore : (1 : ℝ) * (kernelParticle ℝ 0 1).radius ≠ 0 ∨
      (1 : ℝ) * (kernelParticle ℝ 1 1).radius ≠ 0 := Or.inl (by simp [kernelParticle])
  ⟨⟨hpos, hcore⟩,
    match vortexStretching_orthogonal_linear (fun x => x) 1 (kernelParticle ℝ 0 1)
      (kernelParticle ℝ 1 1) hpos hcore with
    | ⟨_, S, _, h2, h3, h4⟩ => ⟨S, h2, h3, h4⟩⟩

/-! ## Wake collapse: a side edge shared by two wake panels -/

/-- C32. A side edge whose wake panels are exactly the two different panels `p` and `q`,
where the nodes 1 and 2 of `p` are the nodes 0 and 3 of `q`: with valid pointers,
`edgeStrength(p, e, 1)` and `edgeStrength(q, e, 3)` return the same vector,
`(mu_p - mu_q) * (R2 - R1)` with `R1` and `R2` the positions of the nodes 1 and 2 of `p`. -/
theorem edgeStrength_shared_edge {K : Type} [Field K] (wx : wakeExternals K) (g : geometry K)
    (s : cpCase K) (p q e n1 n2 : Nat) (ed : edge) (wp wq : wakePanel K) (R1 R2 : Vector3d K)
    (hpq : p ≠ q) (hed : g.edges[e]? = some ed)
    (hpans : ed.wakePans = [p, q] ∨ ed.wakePans = [q, p])
    (hp : s.wPanels[p]? = some wp) (hq : s.wPanels[q]? = some wq)
    (hp1 : (wx.pointsInOrder p)[1]? = some n1) (hp2 : (wx.pointsInOrder p)[2]? = some n2)
    (hq0 : (wx.pointsInOrder q)[0]? = some n1) (hq3 : (wx.pointsInOrder q)[3]? = some n2)
    (hR1 : getPnt g n1 = some R1) (hR2 : getPnt g n2 = some R2) :
    edgeStrength wx g s p e 1 = edgeStrength wx g s q e 3 ∧
    edgeStrength wx g s p e 1 =
      some ((wp.doubletStrength - wq.doubletStrength) • (R2 - R1)) := by
  have hqp : q ≠ p := fun h => hpq h.symm
  have hop : ed.getOtherWakePan p = some q := by
    unfold edge.getOtherWakePan
    rcases hpans with h | h <;> simp [h, hpq, hqp]
  have hoq : ed.getOtherWakePan q = some p := by
    unfold edge.getOtherWakePan
    rcases hpans with h | h <;> simp [h, hpq, hqp]
  have h1 : edgeStrength wx g s p e 1 =
      some ((wp.doubletStrength - wq.doubletStrength) • (R2 - R1)) := by
    simp [edgeStrength, hp, hed, hp1, hp2, hR1, hR2, hop, hq]
  have h3 : edgeStrength wx g s q e 3 =
      some ((wq.doubletStrength - wp.doubletStrength) • (R1 - R2)) := by
    simp [edgeStrength, hq, hed, hq0, hq3, hR1, hR2, hoq, hp]
  refine ⟨?_, h1⟩
  rw [h1, h3]
  congr 1
  rw [← neg_sub R2 R1, smul_neg, ← neg_smul, neg_sub]

theorem edgeStrength_shared_edge_witness :
    ((0 : Nat) ≠ 1 ∧ (wakeDemoGeometry ℚ).edges[1]? =
        some { n1 := 1, n2 := 4, bodyPans := [], wakePans := [0, 1], TE := false } ∧
      (wakeDemoExt ℚ).edgesInOrder 0 = [0, 1, 2, 3] ∧
      (wakeDemoExt ℚ).edgesInOrder 1 = [4, 5, 6, 1]) ∧
    edgeStrength (wakeDemoExt ℚ) (wakeDemoGeometry ℚ) (wakeDemoCase ℚ 1 [] []) 0 1 1 =
      edgeStrength (wakeDemoExt ℚ) (wakeDemoGeometry ℚ) (wakeDemoCase ℚ 1 [] []) 1 1 3 ∧
    edgeStrength (wakeDemoExt ℚ) (wakeDemoGeometry ℚ) (wakeDemoCase ℚ 1 [] []) 0 1 1 =
      some (((wakeDemoPanel ℚ 3 1).doubletStrength - (wakeDemoPanel ℚ 5 1).doubletStrength) •
        (![1, 1, 0] - ![0, 1, 0])) :=
  ⟨⟨by decide, rfl, rfl, rfl⟩,
    edgeStrength_shared_edge (wakeDemoExt ℚ) (wakeDemoGeometry ℚ) (wakeDemoCase ℚ 1 [] [])
      0 1 1 1 4 _ (wakeDemoPanel ℚ 3 1) (wakeDemoPanel ℚ 5 1) ![0, 1, 0] ![1, 1, 0]
      (by decide) rfl (Or.inl rfl) rfl rfl rfl rfl rfl rfl rfl rfl⟩
/-! ## Particle convection in a uniform velocity field -/

/-- The position that `convectParticles` computes in a uniform velocity field `V`, for the
Runge-Kutta integrator, for the forward-Euler fallback, and for the Adams-Bashforth step of
a particle whose stored previous velocity is `V`. -/
theorem newPosition_uniform {K : Type} [LinearOrderedField K] (ext : externals K)
    (wx : wakeExternals K) (s : cpCase K) (V : Vector3d K) (p : particle K)
    (huni : ∀ POI, velocityInflFromEverything ext wx s POI = V)
    (hcase : s.rungeKuttaStep = true ∨ isZero p.previousVelInfl = true ∨
      p.previousVelInfl = V) :
    newPosition ext wx s p = p.pos + s.dt • V := by
  unfold newPosition
  by_cases hrk : s.rungeKuttaStep = true
  · rw [if_pos hrk]
    simp only [huni]
    congr 2
    funext i
    simp only [Pi.add_apply, vdiv]
    ring
  · rw [if_neg hrk]
    simp only [huni]
    by_cases hz : isZero p.previousVelInfl = true
    · rw [if_pos hz]
    · rw [if_neg hz]
      rcases hcase with h | h | h
      · exact absurd h hrk
      · exact absurd h hz
      · rw [h]
        congr 2
        funext i
        simp only [Pi.sub_apply, Pi.smul_apply, smul_eq_mul]
        norm_num
        ring

/-- C38. In a uniform velocity field, where `velocityInflFromEverything` returns the same
vector `V` at every point of the case, `convectParticles` returns and moves to `pos + dt * V`
every particle that is moved by the Runge-Kutta integrator, by the forward-Euler fallback
(Adams-Bashforth selected and a stored previous velocity that passes `isZero`), or by the
Adams-Bashforth step with the stored previous velocity `V`.  The Runge-Kutta weights 1/6, 1/3,
1/3, 1/6 and the Adams-Bashforth weights 1.5, -0.5 each sum to 1. -/
theorem convectParticles_uniform_field {K : Type} [LinearOrderedField K] (ext : externals K)
    (wx : wakeExternals K) (s : cpCase K) (V : Vector3d K)
    (huni : ∀ POI, velocityInflFromEverything ext wx s POI = V)
    (hprev : s.rungeKuttaStep = false → s.accelerate = false → ignoresPrevVelInfl ext) :
    ∃ s2 : cpCase K, convectParticles ext wx s = some s2 ∧
      s2.particles.length = s.particles.length ∧
      (∀ (i : Nat) (p : particle K), s.particles[i]? = some p →
        (s.rungeKuttaStep = true ∨ isZero p.previousVelInfl = true ∨ p.previousVelInfl = V) →
        ∃ p2 : particle K, s2.particles[i]? = some p2 ∧ p2.pos = p.pos + s.dt • V) ∧
      ((1 : K) / 6 + 1 / 3 + 1 / 3 + 1 / 6 = 1 ∧ (1.5 : K) + -0.5 = 1) := by
  obtain ⟨s2, hrun, -, hlen, hget⟩ := convectParticles_getElem ext wx s hprev
  refine ⟨s2, hrun, hlen, ?_, by norm_num, by norm_num⟩
  intro i p hp hcase
  exact ⟨_, hget i p hp, newPosition_uniform ext wx s V p huni hcase⟩

theorem convectParticles_uniform_field_witness :
    ((∀ POI, velocityInflFromEverything stillExt (wakeDemoExt ℚ)
        (driftCase 2 [freshParticle, { freshParticle with previousVelInfl := ![3, 0, 0] }]) POI =
          ![1 + 2, 0, 0]) ∧
      ignoresPrevVelInfl stillExt) ∧
    ∃ s2 : cpCase ℚ, convectParticles stillExt (wakeDemoExt ℚ)
        (driftCase 2 [freshParticle, { freshParticle with previousVelInfl := ![3, 0, 0] }]) =
          some s2 ∧
      s2.particles.length =
        (driftCase 2 [freshParticle,
          { freshParticle with previousVelInfl := ![3, 0, 0] }]).particles.length ∧
      (∀ (i : Nat) (p : particle ℚ),
        (driftCase 2 [freshParticle,
          { freshParticle with previousVelInfl := ![3, 0, 0] }]).particles[i]? = some p →
        ((driftCase 2 [freshParticle,
            { freshParticle with previousVelInfl := ![3, 0, 0] }]).rungeKuttaStep = true ∨
          isZero p.previousVelInfl = true ∨ p.previousVelInfl = ![1 + 2, 0, 0]) →
        ∃ p2 : particle ℚ, s2.particles[i]? = some p2 ∧
          p2.pos = p.pos + (driftCase 2 [freshParticle,
            { freshParticle with previousVelInfl := ![3, 0, 0] }]).dt • ![1 + 2, 0, 0]) :=
  ⟨⟨driftCase_velocity 2 _, stillExt_ignores⟩,
    match convectParticles_uniform_field stillExt (wakeDemoExt ℚ)
      (driftCase 2 [freshParticle, { freshParticle with previousVelInfl := ![3, 0, 0] }])
      ![1 + 2, 0, 0] (driftCase_velocity 2 _) (fun _ _ => stillExt_ignores) with
    | ⟨s2, h1, h2, h3, _⟩ => ⟨s2, h1, h2, h3⟩⟩
/-! ## wake.cpp: the interpolation of the circulation -/

/-- The loop of `wakeStrength`, entered with `Y 1 <= y < Y (n-1)` on lines with increasing
stations, returns and finds the two lines `k` and `k + 1` with `Y k <= y < Y (k+1)`. -/
theorem bracket_loop {K : Type} [LinearOrderedField K] (lines : List (wakeLine K)) (n : Nat)
    (L : Nat → wakeLine K) (y : K) (hn : 2 ≤ n)
    (hline : ∀ k, k < n → lines[k]? = some (L k))
    (hmono : ∀ i j, i < j → j < n → (L i).Y < (L j).Y)
    (h1 : (L 1).Y ≤ y) (h2 : y < (L (n - 1)).Y) :
    ∃ k, 1 ≤ k ∧ k + 1 < n ∧ (L k).Y ≤ y ∧ y < (L (k + 1)).Y ∧
      forLoop (fun k st => bracketLine lines y (k + 1) st) (n - 1 - 1) none =
        some (some (L k, L (k + 1))) := by
  obtain ⟨st, hst, hP⟩ := forLoop_invariant (fun k st => bracketLine lines y (k + 1) st)
    (fun j st =>
      (y < (L (j + 1)).Y → ∃ k, 1 ≤ k ∧ k ≤ j ∧ (L k).Y ≤ y ∧ y < (L (k + 1)).Y ∧
        st = some (L k, L (k + 1))) ∧
      ((L (j + 1)).Y ≤ y → st = none))
    (n - 1 - 1) none
    ⟨fun h => absurd h1 (not_le.2 h), fun _ => rfl⟩
    (by
      rintro j t hj ⟨hlt, hge⟩
      have ha := hline (j + 1) (by omega)
      have hb := hline (j + 1 + 1) (by omega)
      have hstep : (L (j + 1)).Y < (L (j + 1 + 1)).Y := hmono _ _ (by omega) (by omega)
      by_cases hc : (L (j + 1)).Y ≤ y ∧ (L (j + 1 + 1)).Y > y
      · refine ⟨some (L (j + 1), L (j + 1 + 1)), ?_, ?_, ?_⟩
        · simp only [bracketLine, ha, hb, Option.bind_eq_bind, Option.some_bind]
          rw [if_pos hc]
        · intro _
          exact ⟨j + 1, by omega, le_refl _, hc.1, hc.2, rfl⟩
        · intro h
          exact absurd hc.2 (not_lt.2 h)
      · refine ⟨t, ?_, ?_, ?_⟩
        · simp only [bracketLine, ha, hb, Option.bind_eq_bind, Option.some_bind]
          rw [if_neg hc]
        · intro h
          have hy : y < (L (j + 1)).Y := by
            by_contra hcon
            exact hc ⟨not_lt.1 hcon, h⟩
          obtain ⟨k, hk1, hk2, hk3, hk4, hk5⟩ := hlt hy
          exact ⟨k, hk1, by omega, hk3, hk4, hk5⟩
        · intro h
          exact hge (le_trans (le_of_lt hstep) h))
  have hidx : n - 1 - 1 + 1 = n - 1 := by omega
  rw [hidx] at hP
  obtain ⟨k, hk1, hk2, hk3, hk4, hk5⟩ := hP.1 h2
  refine ⟨k, hk1, by omega, hk3, hk4, ?_⟩
  rw [hst, hk5]

/-- On lines with increasing stations `wakeStrength` finds two adjacent lines `k` and `k + 1`
and returns the value at `y` of the straight line through their strengths: the first two
lines for `y < Y 1`, the last two for `y >= Y (n-1)`, and otherwise the lines with
`Y k <= y < Y (k+1)`. -/
theorem wakeStrength_select {K : Type} [LinearOrderedField K] (w : wake K) (n : Nat)
    (L : Nat → wakeLine K) (hn : 2 ≤ n) (hlen : w.wakeLines.length = n)
    (hline : ∀ k, k < n → w.wakeLines[k]? = some (L k))
    (hmono : ∀ i j, i < j → j < n → (L i).Y < (L j).Y) (y : K) :
    ∃ k, k + 1 < n ∧
      w.wakeStrength y = some ((L k).strength + (y - (L k).Y) / ((L (k + 1)).Y - (L k).Y) *
        ((L (k + 1)).strength - (L k).strength)) ∧
      ((y < (L 1).Y ∧ k = 0) ∨ ((L (n - 1)).Y ≤ y ∧ k + 2 = n) ∨
        ((L k).Y ≤ y ∧ y < (L (k + 1)).Y)) := by
  have hsel : ∃ k, k + 1 < n ∧ bracketLines w y = some (some (L k, L (k + 1))) ∧
      ((y < (L 1).Y ∧ k = 0) ∨ ((L (n - 1)).Y ≤ y ∧ k + 2 = n) ∨
        ((L k).Y ≤ y ∧ y < (L (k + 1)).Y)) := by
    have h0 := hline 0 (by omega)
    have h1 := hline 1 (by omega)
    have hl := hline (n - 1) (by omega)
    have hl2 := hline (n - 2) (by omega)
    simp only [bracketLines, Option.bind_eq_bind, hlen, h1, Option.some_bind]
    by_cases hy1 : y < (L 1).Y
    · refine ⟨0, by omega, ?_, Or.inl ⟨hy1, rfl⟩⟩
      rw [if_pos hy1, h0]
      rfl
    · rw [if_neg hy1, hl]
      simp only [Option.some_bind]
      by_cases hy2 : y ≥ (L (n - 1)).Y
      · refine ⟨n - 2, by omega, ?_, Or.inr (Or.inl ⟨hy2, by omega⟩)⟩
        rw [if_pos hy2, hl2]
        have : n - 2 + 1 = n - 1 := by omega
        rw [this]
        rfl
      · rw [if_neg hy2]
        obtain ⟨k, hk1, hk2, hk3, hk4, hk5⟩ := bracket_loop w.wakeLines n L y hn hline hmono
          (not_lt.1 hy1) (not_le.1 hy2)
        exact ⟨k, hk2, hk5, Or.inr (Or.inr ⟨hk3, hk4⟩)⟩
  obtain ⟨k, hk, hb, hcase⟩ := hsel
  refine ⟨k, hk, ?_, hcase⟩
  have hne : (L (k + 1)).Y - (L k).Y ≠ 0 :=
    sub_ne_zero.2 (hmono k (k + 1) (by omega) hk).ne'
  simp only [wake.wakeStrength, hb, Option.bind_eq_bind, Option.some_bind, cdiv_of_ne _ _ hne]

/-- Stations that increase strictly compare as their indices do. -/
theorem stations_lt {K : Type} [LinearOrderedField K] (n : Nat) (L : Nat → wakeLine K)
    (hmono : ∀ i j, i < j → j < n → (L i).Y < (L j).Y) (i j : Nat) (hi : i < n) (_hj : j < n) :
    ((L i).Y < (L j).Y → i < j) ∧ ((L i).Y ≤ (L j).Y → i ≤ j) := by
  constructor
  · intro h
    by_contra hcon
    rcases Nat.eq_or_lt_of_le (not_lt.1 hcon) with e | e
    · rw [e] at h
      exact lt_irrefl _ h
    · exact lt_asymm h (hmono j i e hi)
  · intro h
    by_contra hcon
    exact absurd (hmono j i (not_le.1 hcon) hi) (not_lt.2 h)

/-- C36. For a wake with `n >= 2` wake lines `L 0, ..., L (n-1)` whose stations increase
strictly, `wakeStrength(y)` returns for every `y`, from two adjacent lines `k` and `k + 1`
(no null pointer, no division by zero): the value at `y` of the straight line through their
strengths.  It returns the strength of line `k` at `y = Y k` for every `k`, the linear
interpolant between the lines `k` and `k + 1` for `Y k <= y <= Y (k+1)`, the extrapolation
from the first two lines below `Y 0` and the extrapolation from the last two lines above
`Y (n-1)`. -/
theorem wakeStrength_interpolates {K : Type} [LinearOrderedField K] (w : wake K) (n : Nat)
    (L : Nat → wakeLine K) (hn : 2 ≤ n) (hlen : w.wakeLines.length = n)
    (hline : ∀ k, k < n → w.wakeLines[k]? = some (L k))
    (hmono : ∀ i j, i < j → j < n → (L i).Y < (L j).Y) :
    (∀ y : K, ∃ k, k + 1 < n ∧
      w.wakeStrength y = some ((L k).strength + (y - (L k).Y) / ((L (k + 1)).Y - (L k).Y) *
        ((L (k + 1)).strength - (L k).strength))) ∧
    (∀ k, k < n → w.wakeStrength (L k).Y = some (L k).strength) ∧
    (∀ (k : Nat) (y : K), k + 1 < n → (L k).Y ≤ y → y ≤ (L (k + 1)).Y →
      w.wakeStrength y = some ((L k).strength + (y - (L k).Y) / ((L (k + 1)).Y - (L k).Y) *
        ((L (k + 1)).strength - (L k).strength))) ∧
    (∀ y : K, y < (L 0).Y →
      w.wakeStrength y = some ((L 0).strength + (y - (L 0).Y) / ((L 1).Y - (L 0).Y) *
        ((L 1).strength - (L 0).strength))) ∧
    (∀ y : K, (L (n - 1)).Y < y →
      w.wakeStrength y = some ((L (n - 2)).strength +
        (y - (L (n - 2)).Y) / ((L (n - 1)).Y - (L (n - 2)).Y) *
          ((L (n - 1)).strength - (L (n - 2)).strength))) := by
  have hinterp : ∀ (k : Nat) (y : K), k + 1 < n → (L k).Y ≤ y → y ≤ (L (k + 1)).Y →
      w.wakeStrength y = some ((L k).strength + (y - (L k).Y) / ((L (k + 1)).Y - (L k).Y) *
        ((L (k + 1)).strength - (L k).strength)) := by
    intro k0 y hk0 hlo hhi
    obtain ⟨k, hk, hval, hcase⟩ := wakeStrength_select w n L hn hlen hline hmono y
    have hsame : k = k0 → w.wakeStrength y = some ((L k0).strength +
        (y - (L k0).Y) / ((L (k0 + 1)).Y - (L k0).Y) *
          ((L (k0 + 1)).strength - (L k0).strength)) := by
      intro e
      rw [← e]
      exact hval
    rcases hcase with ⟨hy, hk0'⟩ | ⟨hy, hkn⟩ | ⟨hy1, hy2⟩
    · have : k0 < 1 := (stations_lt n L hmono k0 1 (by omega) (by omega)).1
        (lt_of_le_of_lt hlo hy)
      exact hsame (by omega)
    · have : n - 1 ≤ k0 + 1 := (stations_lt n L hmono (n - 1) (k0 + 1) (by omega) hk0).2
        (le_trans hy hhi)
      exact hsame (by omega)
    · have hle1 : k0 < k + 1 := (stations_lt n L hmono k0 (k + 1) (by omega) hk).1
        (lt_of_le_of_lt hlo hy2)
      have hle2 : k ≤ k0 + 1 := (stations_lt n L hmono k (k0 + 1) (by omega) hk0).2
        (le_trans hy1 hhi)
      rcases Nat.eq_or_lt_of_le hle2 with e | e
      · have hy : y = (L (k0 + 1)).Y := by
          rw [e] at hy1
          exact le_antisymm hhi hy1
        have hne : (L (k0 + 1)).Y - (L k0).Y ≠ 0 :=
          sub_ne_zero.2 (hmono k0 (k0 + 1) (by omega) hk0).ne'
        rw [hval, e, hy, sub_self, zero_div, zero_mul, add_zero, div_self hne, one_mul]
        congr 1
        ring
      · exact hsame (by omega)
  refine ⟨?_, ?_, hinterp, ?_, ?_⟩
  · intro y
    obtain ⟨k, hk, hval, -⟩ := wakeStrength_select w n L hn hlen hline hmono y
    exact ⟨k, hk, hval⟩
  · intro k hk
    by_cases hlast : k + 1 < n
    · rw [hinterp k (L k).Y hlast (le_refl _)
        (le_of_lt (hmono k (k + 1) (by omega) hlast))]
      rw [sub_self, zero_div, zero_mul, add_zero]
    · have hk1 : k - 1 + 1 = k := by omega
      have hne : (L k).Y - (L (k - 1)).Y ≠ 0 :=
        sub_ne_zero.2 (hmono (k - 1) k (by omega) hk).ne'
      have h := hinterp (k - 1) (L k).Y (by omega)
        (le_of_lt (hmono (k - 1) k (by omega) hk)) (by rw [hk1])
      rw [hk1] at h
      rw [h, div_self hne, one_mul]
      congr 1
      ring
  · intro y hy
    obtain ⟨k, hk, hval, hcase⟩ := wakeStrength_select w n L hn hlen hline hmono y
    have hy1 : y < (L 1).Y := lt_trans hy (hmono 0 1 (by omega) (by omega))
    have hk0 : k = 0 := by
      rcases hcase with ⟨-, h⟩ | ⟨h, -⟩ | ⟨h, -⟩
      · exact h
      · have : (L 1).Y ≤ (L (n - 1)).Y := by
          rcases Nat.eq_or_lt_of_le (show 1 ≤ n - 1 by omega) with e | e
          · rw [← e]
          · exact le_of_lt (hmono 1 (n - 1) e (by omega))
        exact absurd (lt_of_le_of_lt (le_trans this h) hy1) (lt_irrefl _)
      · by_contra hne
        have : (L 0).Y < (L k).Y := hmono 0 k (by omega) (by omega)
        exact absurd (lt_trans (lt_of_lt_of_le this h) hy) (lt_irrefl _)
    rw [hval, hk0]
  · intro y hy
    obtain ⟨k, hk, hval, hcase⟩ := wakeStrength_select w n L hn hlen hline hmono y
    have hkn : k = n - 2 := by
      rcases hcase with ⟨h, h0⟩ | ⟨-, h⟩ | ⟨-, h⟩
      · have : (L 1).Y ≤ (L (n - 1)).Y := by
          rcases Nat.eq_or_lt_of_le (show 1 ≤ n - 1 by omega) with e | e
          · rw [← e]
          · exact le_of_lt (hmono 1 (n - 1) e (by omega))
        exact absurd (lt_trans (lt_of_le_of_lt this hy) h) (lt_irrefl _)
      · omega
      · by_contra hne
        have : (L (k + 1)).Y ≤ (L (n - 1)).Y := by
          rcases Nat.eq_or_lt_of_le (show k + 1 ≤ n - 1 by omega) with e | e
          · rw [← e]
          · exact le_of_lt (hmono (k + 1) (n - 1) e (by omega))
        exact absurd (lt_trans (lt_of_lt_of_le h this) hy) (lt_irrefl _)
    have hidx : n - 2 + 1 = n - 1 := by omega
    rw [hval, hkn, hidx]

theorem wakeStrength_interpolates_witness :
    (2 ≤ 3 ∧ demoThreeLines.wakeLines.length = 3 ∧
      (∀ k, k < 3 → demoThreeLines.wakeLines[k]? = some (demoThreeLine k)) ∧
      (∀ i j, i < j → j < 3 → (demoThreeLine i).Y < (demoThreeLine j).Y)) ∧
    (∀ k, k < 3 → demoThreeLines.wakeStrength (demoThreeLine k).Y =
      some (demoThreeLine k).strength) :=
  have hline : ∀ k, k < 3 → demoThreeLines.wakeLines[k]? = some (demoThreeLine k) := by
    intro k hk
    interval_cases k <;> rfl
  have hmono : ∀ i j, i < j → j < 3 → (demoThreeLine i).Y < (demoThreeLine j).Y := by
    intro i j hij hj
    interval_cases j <;> interval_cases i <;>
      first
      | exact absurd hij (by decide)
      | norm_num [demoThreeLine, demoLine]
  ⟨⟨by decide, rfl, hline, hmono⟩,
    (wakeStrength_interpolates demoThreeLines 3 demoThreeLine (by decide) rfl hline hmono).2.1⟩

/-! ## wake.cpp: the point of the wake above a point of the plane -/

/-- A loop with an early `return` returns at the first element whose body returns. -/
theorem firstReturn_hit {α β : Type} (body : α → Option (Option β)) (pre post : List α)
    (a : α) (b : β) (hpre : ∀ c ∈ pre, body c = some none) (ha : body a = some (some b)) :
    firstReturn body (pre ++ a :: post) = some (some b) := by
  induction pre with
  | nil => simp only [List.nil_append, firstReturn, ha]
  | cons c l ih =>
    have hc := hpre c (List.mem_cons_self _ _)
    simp only [List.cons_append, firstReturn, hc]
    exact ih (fun d h => hpre d (List.mem_cons_of_mem _ h))

/-- A loop with an early `return` ends without it when no body returns. -/
theorem firstReturn_miss {α β : Type} (body : α → Option (Option β)) (l : List α)
    (h : ∀ c ∈ l, body c = some none) : firstReturn body l = some none := by
  induction l with
  | nil => rfl
  | cons c l ih =>
    simp only [firstReturn, h c (List.mem_cons_self _ _)]
    exact ih (fun d hd => h d (List.mem_cons_of_mem _ hd))

/-- An edge that fails one of the two tests does not make the inner loop return. -/
theorem pntInWakeEdge_miss {K : Type} [LinearOrderedField K] (g : geometry K)
    (normal : Vector3d K) (x y : K) (e : Nat) (h : edgeMisses g y e) :
    pntInWakeEdge g normal x y e = some none := by
  obtain ⟨ed, hed, h⟩ := h
  by_cases hTE : ed.TE = true
  · rcases h with hf | ⟨p1, p2, h1, h2, hspan⟩
    · rw [hf] at hTE
      exact absurd hTE (by decide)
    · simp only [pntInWakeEdge, hed, Option.bind_eq_bind, Option.some_bind, hTE, if_true, h1, h2]
      rw [if_neg hspan]
  · simp only [pntInWakeEdge, hed, Option.bind_eq_bind, Option.some_bind]
    rw [if_neg hTE]

/-- A wake panel that is no trailing-edge panel, or whose parent has no edge that passes the
two tests, does not make the outer loop return. -/
theorem pntInWakePanel_miss {K : Type} [LinearOrderedField K] (wp : wakeParams K)
    (g : geometry K) (x y : K) (i : Nat) (h : panelMisses wp g y i) :
    pntInWakePanel wp g x y i = some none := by
  by_cases hTE : wp.isTEpanel i = true
  · rcases h with hf | ⟨p, u, hp, hu, hb, hedges⟩
    · rw [hf] at hTE
      exact absurd hTE (by decide)
    · obtain ⟨b, hb⟩ := Option.isSome_iff_exists.1 hb
      simp only [pntInWakePanel, hTE, if_true, hp, hu, hb, Option.bind_eq_bind,
        Option.some_bind]
      exact firstReturn_miss _ _ (fun e he => pntInWakeEdge_miss g p.normal x y e (hedges e he))
  · simp only [pntInWakePanel]
    rw [if_neg hTE]

/-- A trailing edge whose ends have different y coordinates that span `y` makes the inner
loop return a point with the coordinates `x` and `y`, when the x component of the outflow
direction is not zero. -/
theorem pntInWakeEdge_hit {K : Type} [LinearOrderedField K] (g : geometry K)
    (normal : Vector3d K) (x y : K) (e : Nat) (ed : edge) (p1 p2 : Vector3d K)
    (hed : g.edges[e]? = some ed) (hTE : ed.TE = true) (h1 : getPnt g ed.n1 = some p1)
    (h2 : getPnt g ed.n2 = some p2)
    (hspan : (p1 1 ≤ y ∧ p2 1 ≥ y) ∨ (p1 1 ≥ y ∧ p2 1 ≤ y)) (hne : p1 1 ≠ p2 1)
    (hout : (-(cross normal ![0, 1, 0])) 0 ≠ 0) :
    ∃ r, pntInWakeEdge g normal x y e = some (some r) ∧ r 0 = x ∧ r 1 = y := by
  have hd : p2 1 - p1 1 ≠ 0 := sub_ne_zero.2 (Ne.symm hne)
  obtain ⟨out, hdef⟩ : ∃ out : Vector3d K, out =
      if (-(cross normal ![0, 1, 0])) 0 < 0 then (-1 : K) • (-(cross normal ![0, 1, 0]))
      else -(cross normal ![0, 1, 0]) := ⟨_, rfl⟩
  have hout0 : out 0 ≠ 0 := by
    rw [hdef]
    by_cases hneg : (-(cross normal ![0, 1, 0])) 0 < 0
    · rw [if_pos hneg]
      simpa using hout
    · rw [if_neg hneg]
      exact hout
  have hout1 : out 1 = 0 := by
    rw [hdef]
    by_cases hneg : (-(cross normal ![0, 1, 0])) 0 < 0
    · rw [if_pos hneg]
      simp [cross]
    · rw [if_neg hneg]
      simp [cross]
  have hrun : pntInWakeEdge g normal x y e = some (some
      ((p1 + ((y - p1 1) / (p2 1 - p1 1)) • (p2 - p1)) +
        ((x - (p1 + ((y - p1 1) / (p2 1 - p1 1)) • (p2 - p1)) 0) / out 0) • out)) := by
    simp only [pntInWakeEdge, hed, Option.bind_eq_bind, Option.some_bind, hTE, if_true, h1, h2]
    rw [if_pos hspan, cdiv_of_ne _ _ hd]
    simp only [Option.some_bind]
    rw [← hdef, cdiv_of_ne _ _ hout0]
    rfl
  refine ⟨_, hrun, ?_, ?_⟩
  · simp only [Pi.add_apply, Pi.smul_apply, smul_eq_mul]
    rw [div_mul_cancel₀ _ hout0]
    ring
  · simp only [Pi.add_apply, Pi.smul_apply, Pi.sub_apply, smul_eq_mul, hout1, mul_zero,
      add_zero]
    rw [div_mul_cancel₀ _ hd]
    ring

/-- C31. The function `pntInWake(x, y)` walks the wake panels and, for a trailing-edge panel,
the edges of its upper parent.  When the first edge that is a trailing edge whose ends span
`y` has ends with different y coordinates, and the x component of the outflow direction
`-normal x (0,1,0)` of that wake panel is not zero, it returns a point whose x coordinate is
`x` and whose y coordinate is `y`.  When no wake panel has such an edge, it returns the zero
vector. -/
theorem pntInWake_keeps_x_y {K : Type} [LinearOrderedField K] (wp : wakeParams K)
    (g : geometry K) (w : wake K) (x y : K) :
    (∀ (pre post : List Nat) (i : Nat) (p : wakePanel K) (u : Nat) (epre epost : List Nat)
        (e : Nat) (ed : edge) (p1 p2 : Vector3d K),
      w.wpanels = pre ++ i :: post → (∀ k ∈ pre, panelMisses wp g y k) →
      wp.isTEpanel i = true → g.wPanels[i]? = some p → p.upperPan = some u →
      (g.bPanels[u]?).isSome = true →
      wp.getEdges u = epre ++ e :: epost → (∀ k ∈ epre, edgeMisses g y k) →
      g.edges[e]? = some ed → ed.TE = true →
      getPnt g ed.n1 = some p1 → getPnt g ed.n2 = some p2 →
      ((p1 1 ≤ y ∧ p2 1 ≥ y) ∨ (p1 1 ≥ y ∧ p2 1 ≤ y)) → p1 1 ≠ p2 1 →
      (-(cross p.normal ![0, 1, 0])) 0 ≠ 0 →
      ∃ r, w.pntInWake wp g x y = some r ∧ r 0 = x ∧ r 1 = y) ∧
    ((∀ k ∈ w.wpanels, panelMisses wp g y k) → w.pntInWake wp g x y = some 0) := by
  constructor
  · intro pre post i p u epre epost e ed p1 p2 hw hpre hTEp hp hu hb hedges hepre hed hTE h1 h2
      hspan hne hout
    obtain ⟨r, hr, hx, hy⟩ := pntInWakeEdge_hit g p.normal x y e ed p1 p2 hed hTE h1 h2 hspan
      hne hout
    obtain ⟨b, hb⟩ := Option.isSome_iff_exists.1 hb
    have hpanel : pntInWakePanel wp g x y i = some (some r) := by
      simp only [pntInWakePanel, hTEp, if_true, hp, hu, hb, Option.bind_eq_bind,
        Option.some_bind]
      rw [hedges]
      exact firstReturn_hit _ _ _ _ _
        (fun k hk => pntInWakeEdge_miss g p.normal x y k (hepre k hk)) hr
    refine ⟨r, ?_, hx, hy⟩
    unfold wake.pntInWake
    rw [hw, firstReturn_hit _ _ _ _ _
      (fun k hk => pntInWakePanel_miss wp g x y k (hpre k hk)) hpanel]
    rfl
  · intro h
    unfold wake.pntInWake
    rw [firstReturn_miss _ _ (fun k hk => pntInWakePanel_miss wp g x y k (h k hk))]
    rfl

theorem pntInWake_keeps_x_y_witness :
    (∃ r, (demoTrefftzWake ℚ 0 1).pntInWake (demoWakeParams ℚ) (wakeBoxGeometry ℚ) 7 (3 / 2) =
      some r ∧ r 0 = 7 ∧ r 1 = 3 / 2) ∧
    (demoTrefftzWake ℚ 0 1).pntInWake (demoWakeParams ℚ) (wakeBoxGeometry ℚ) 7 5 = some 0 :=
  ⟨(pntInWake_keeps_x_y (demoWakeParams ℚ) (wakeBoxGeometry ℚ) (demoTrefftzWake ℚ 0 1) 7
      (3 / 2)).1 [] [] 0 { wakeDemoPanel ℚ 3 1 with upperPan := some 0 } 0 [0] [] 4
      { n1 := 1, n2 := 2, bodyPans := [], wakePans := [1], TE := true } ![0, 1, 0] ![0, 2, 0]
      rfl (by simp) rfl rfl rfl rfl rfl
      (by
        intro k hk
        rw [List.mem_singleton.1 hk]
        exact ⟨{ n1 := 0, n2 := 1, bodyPans := [], wakePans := [0], TE := true }, rfl,
          Or.inr ⟨![0, 0, 0], ![0, 1, 0], rfl, rfl, by norm_num⟩⟩)
      rfl rfl rfl rfl (by norm_num) (by norm_num) (by simp [cross, wakeDemoPanel]),
    (pntInWake_keeps_x_y (demoWakeParams ℚ) (wakeBoxGeometry ℚ) (demoTrefftzWake ℚ 0 1) 7
      5).2 (by
        intro k hk
        have hk0 : k = 0 := by simpa [demoTrefftzWake, emptyWake] using hk
        rw [hk0]
        refine Or.inr ⟨{ wakeDemoPanel ℚ 3 1 with upperPan := some 0 }, 0, rfl, rfl, rfl, ?_⟩
        intro e he
        have he2 : e = 0 ∨ e = 4 := by simpa [demoWakeParams] using he
        rcases he2 with h0 | h4
        · rw [h0]
          exact ⟨{ n1 := 0, n2 := 1, bodyPans := [], wakePans := [0], TE := true }, rfl,
            Or.inr ⟨![0, 0, 0], ![0, 1, 0], rfl, rfl, by norm_num⟩⟩
        · rw [h4]
          exact ⟨{ n1 := 1, n2 := 2, bodyPans := [], wakePans := [1], TE := true }, rfl,
            Or.inr ⟨![0, 1, 0], ![0, 2, 0], rfl, rfl, by norm_num⟩⟩)⟩

/-! ## edge.cpp: the circulation of a trailing edge -/

/-- The squared norm of a non-zero vector is positive. -/
theorem dot_self_pos {K : Type} [LinearOrderedField K] (v : Vector3d K) (h : v ≠ 0) :
    0 < dot v v := by
  have hne : v 0 ≠ 0 ∨ v 1 ≠ 0 ∨ v 2 ≠ 0 := by
    by_contra hall
    push_neg at hall
    apply h
    funext i
    fin_cases i
    · exact hall.1
    · exact hall.2.1
    · exact hall.2.2
  unfold dot
  rcases hne with h0 | h1 | h2
  · have := mul_self_pos.2 h0
    nlinarith [mul_self_nonneg (v 1), mul_self_nonneg (v 2)]
  · have := mul_self_pos.2 h1
    nlinarith [mul_self_nonneg (v 0), mul_self_nonneg (v 2)]
  · have := mul_self_pos.2 h2
    nlinarith [mul_self_nonneg (v 0), mul_self_nonneg (v 1)]

/-- C37 (amended). The function `TEgamma` returns the zero vector for an edge whose flag `TE`
is false, without a read.  For an edge whose flag is true and that has at least one wake
panel, with valid pointers, it returns `mu(wakePans[0])` times the normalized edge vector
`p2 - p1`, which is the edge vector divided by its norm when the two ends differ. -/
theorem TEgamma_zero_or_scaled_unit {K : Type} [LinearOrderedField K] (m : libm K)
    (g : geometry K) (ed : edge) :
    (ed.TE = false → ed.TEgamma m g = some 0) ∧
    (∀ (w : Nat) (rest : List Nat) (wp : wakePanel K) (p1 p2 : Vector3d K),
      ed.TE = true → ed.wakePans = w :: rest → g.wPanels[w]? = some wp →
      getPnt g ed.n1 = some p1 → getPnt g ed.n2 = some p2 →
      ed.TEgamma m g = some (wp.doubletStrength • normalized m (p2 - p1)) ∧
      (p1 ≠ p2 → normalized m (p2 - p1) = vdiv (p2 - p1) (norm3 m (p2 - p1)))) := by
  constructor
  · intro h
    simp only [edge.TEgamma, h]
    rfl
  · intro w rest wp p1 p2 hTE hw hwp h1 h2
    constructor
    · simp only [edge.TEgamma, hTE, if_true, hw, List.getElem?_cons_zero, hwp, edge.getVector,
        h1, h2, Option.bind_eq_bind, Option.some_bind]
    · intro hne
      have hpos : dot (p2 - p1) (p2 - p1) > 0 :=
        dot_self_pos _ (sub_ne_zero.2 (Ne.symm hne))
      simp only [normalized]
      rw [if_pos hpos]
      rfl

theorem TEgamma_zero_or_scaled_unit_witness :
    edge.TEgamma demoLibm (wakeBoxGeometry ℚ)
      { n1 := 0, n2 := 1, bodyPans := [], wakePans := [0], TE := true } =
        some ((3 : ℚ) • normalized demoLibm (![0, 1, 0] - ![0, 0, 0])) ∧
    normalized demoLibm ((![0, 1, 0] : Vector3d ℚ) - ![0, 0, 0]) =
      vdiv (![0, 1, 0] - ![0, 0, 0]) (norm3 demoLibm (![0, 1, 0] - ![0, 0, 0])) :=
  have h := ((TEgamma_zero_or_scaled_unit demoLibm (wakeBoxGeometry ℚ)
    { n1 := 0, n2 := 1, bodyPans := [], wakePans := [0], TE := true }).2 0 []
    { wakeDemoPanel ℚ 3 1 with upperPan := some 0 } ![0, 0, 0] ![0, 1, 0] rfl rfl rfl rfl rfl)
  ⟨h.1, h.2 (by
    intro hcon
    have := congrFun hcon 1
    simp at this)⟩

/-- C37 (counterexample). Over the reals with the real `acos`: the edge made by the
constructor, to which the two body panels of one surface with opposite normals are added, has
the flag `TE` set by the second branch of `checkTE` and has no wake panel; `TEgamma` then
reads `wakePans[0]` past the end. -/
theorem TEgamma_sharp_edge_has_no_wake_panel :
    ∃ g1 e g2 ed2, edge.construct (sharpGeometry ℝ) 0 1 = some (g1, e) ∧
      applyCalls (libm.mk Real.cos Real.sin Real.arccos Real.pi Real.sqrt) e
        [edgeCall.addBodyPan 0, edgeCall.addBodyPan 1] g1 = some g2 ∧
      g2.edges[e]? = some ed2 ∧ ed2.TE = true ∧ ed2.wakePans = [] ∧
      ed2.TEgamma (libm.mk Real.cos Real.sin Real.arccos Real.pi Real.sqrt) g2 = none := by
  obtain ⟨g1, hg1, hed1, hl1, hb1, hw1⟩ := construct_spec (sharpGeometry ℝ) 0 1
    (by simp [sharpGeometry, demoGeometry]) (by simp [sharpGeometry, demoGeometry])
  obtain ⟨g2, hg2, hed2, -, -, -, -⟩ := applyCalls_spec
    (libm.mk Real.cos Real.sin Real.arccos Real.pi Real.sqrt) (sharpGeometry ℝ).edges.length
    [edgeCall.addBodyPan 0, edgeCall.addBodyPan 1] g1 ⟨0, 1, [], [], false⟩ hed1
    (by rw [hl1]; simp [sharpGeometry, demoGeometry])
    (by rw [hl1]; simp [sharpGeometry, demoGeometry]) (by simp) (by simp)
    (by simp [edgeCall.valid, hb1, sharpGeometry])
  have hpi : (4.7 : ℝ) * Real.pi / 6 < Real.pi := by
    have := Real.pi_pos
    linarith
  have hTE : (false || teHistory (libm.mk Real.cos Real.sin Real.arccos Real.pi Real.sqrt) g1
      ⟨0, 1, [], [], false⟩ [edgeCall.addBodyPan 0, edgeCall.addBodyPan 1]) = true := by
    simp [teHistory, edge.extend, edge.teCondition, edge.twoBodyOneWake, edge.sharpSameSurface,
      hb1, sharpGeometry, teBodyUpper, teBodyLower, dot, Real.arccos_neg_one, hpi]
  refine ⟨g1, _, g2, _, hg1, hg2, hed2, hTE, ?_, ?_⟩
  · simp [edge.extend]
  · simp only [edge.TEgamma, hTE, if_true]
    simp [edge.extend]

/-! ## The vortex-particle run: time steps and particles -/

/-- The positions of the wake: the panels below `n` and the edge numbers 1, 2 and 3. -/
theorem mem_wakePositions (n : Nat) (c : Nat × Nat) :
    c ∈ wakePositions n ↔ c.1 < n ∧ 1 ≤ c.2 ∧ c.2 ≤ 3 := by
  obtain ⟨i, j⟩ := c
  simp only [wakePositions, List.mem_flatMap, List.mem_range, List.mem_cons, Prod.mk.injEq,
    List.mem_singleton, List.not_mem_nil, or_false]
  constructor
  · rintro ⟨a, ha, h | h | h⟩ <;> obtain ⟨rfl, rfl⟩ := h <;> exact ⟨ha, by omega, by omega⟩
  · rintro ⟨hi, h1, h3⟩
    refine ⟨i, hi, ?_⟩
    have : j = 1 ∨ j = 2 ∨ j = 3 := by omega
    rcases this with h | h | h
    · exact Or.inl ⟨rfl, h⟩
    · exact Or.inr (Or.inl ⟨rfl, h⟩)
    · exact Or.inr (Or.inr ⟨rfl, h⟩)

/-- The pointers of the wake are valid for every case with as many wake panels. -/
theorem wakeReady_congr {K : Type} (wx : wakeExternals K) (g : geometry K) (s s2 : cpCase K)
    (hlen : s2.wPanels.length = s.wPanels.length) (h : wakeReady wx g s) :
    wakeReady wx g s2 := by
  unfold wakeReady at h ⊢
  rw [hlen]
  exact h

/-- A particle that the collapse constructs has the previous strength update zero. -/
theorem seedParticle_update {K : Type} [Field K] (m : libm K) (wx : wakeExternals K)
    (g : geometry K) (s : cpCase K) (i j : Nat) (q : particle K)
    (h : seedParticle m wx g s i j = some q) : q.previousStrengthUpdate = 0 := by
  unfold seedParticle at h
  cases he : (wx.edgesInOrder i)[j]? with
  | none => simp [he] at h
  | some e =>
    cases hp : seedPos m wx s i j with
    | none => simp [he, hp] at h
    | some r =>
      cases r with
      | exited => simp [he, hp] at h
      | returned pos =>
        cases hs : edgeStrength wx g s i e j with
        | none => simp [he, hp, hs] at h
        | some str =>
          simp only [he, hp, hs, Option.bind_eq_bind, Option.some_bind,
            Option.some.injEq] at h
          rw [← h]

/-- The first loop nest of the collapse appends one particle for each of the different edges
at the positions 1 to 3 of the wake panels, each with the previous velocity and the previous
strength update zero. -/
theorem collapseParticles_count {K : Type} [Field K] (m : libm K) (wx : wakeExternals K)
    (g : geometry K) (s : cpCase K) (h : wakeReady wx g s) :
    ∃ (used : List Nat) (news : List (particle K)),
      collapseParticles m wx g s =
        some (exits.returned (used, { s with particles := s.particles ++ news })) ∧
      news.length = distinctWakeEdges wx s.wPanels.length ∧
      ∀ p ∈ news, p.previousVelInfl = 0 ∧ p.previousStrengthUpdate = 0 := by
  obtain ⟨st, hst, emitted, news, used, rfl, hmap, hseed, hmem, hnd, hcov⟩ :=
    collapseParticles_inv m wx g s h
  refine ⟨used, news, hst, ?_, ?_⟩
  · have h1 : news.length = emitted.length := by
      have := congrArg List.length hseed
      simpa using this.symm
    have h2 : used.length = emitted.length := by
      have := congrArg List.length hmap
      simpa using this.symm
    have hset : used.toFinset = ((wakePositions s.wPanels.length).filterMap (edgeAt wx)).toFinset := by
      ext e
      simp only [List.mem_toFinset, List.mem_filterMap]
      constructor
      · intro he
        have hs : some e ∈ used.map some := List.mem_map_of_mem _ he
        rw [← hmap, List.mem_map] at hs
        obtain ⟨c, hc, hce⟩ := hs
        obtain ⟨a, b, d, -⟩ := hmem c hc
        exact ⟨c, (mem_wakePositions _ c).2 ⟨a, b, d⟩, hce⟩
      · rintro ⟨c, hc, hce⟩
        obtain ⟨a, b, d⟩ := (mem_wakePositions _ c).1 hc
        obtain ⟨c2, hc2, he2, -⟩ := hcov c a b d (Or.inl a)
        have hs : edgeAt wx c2 ∈ emitted.map (edgeAt wx) := List.mem_map_of_mem _ hc2
        rw [hmap, he2, hce, List.mem_map] at hs
        obtain ⟨e2, he2m, he2e⟩ := hs
        rw [← Option.some.inj he2e]
        exact he2m
    unfold distinctWakeEdges
    rw [h1, ← h2, ← List.toFinset_card_of_nodup hnd, hset, List.card_toFinset]
  · intro p hp
    have hs : some p ∈ news.map some := List.mem_map_of_mem _ hp
    rw [← hseed, List.mem_map] at hs
    obtain ⟨c, -, hc⟩ := hs
    exact ⟨seedParticle_prev m wx g s c.1 c.2 p hc, seedParticle_update m wx g s c.1 c.2 p hc⟩

/-- The filament part of the collapse returns with as many wake panels, whose parents are
unchanged, and with at least one filament for each wake panel. -/
theorem collapseFilaments_counts {K : Type} [Field K] (wx : wakeExternals K) (g : geometry K)
    (s : cpCase K) (h : wakeReady wx g s)
    (hfil : s.timeStep = 1 ∨ s.wPanels.length ≤ s.filaments.length) :
    ∃ (fl : List (vortexFil K)) (wl : List (wakePanel K)),
      collapseFilaments wx g s = some { s with filaments := fl, wPanels := wl } ∧
      wl.length = s.wPanels.length ∧ s.wPanels.length ≤ fl.length ∧
      wl.map (fun w => (w.upperPan, w.lowerPan)) =
        s.wPanels.map (fun w => (w.upperPan, w.lowerPan)) := by
  unfold collapseFilaments
  by_cases ht : s.timeStep = 1
  · obtain ⟨fl, wl, hloop, hfl, hwl, hget, -⟩ := createFilament_loop wx g s h
    refine ⟨s.filaments ++ fl, wl, by rw [if_pos ht, hloop], hwl, ?_, ?_⟩
    · rw [List.length_append, hfl]
      omega
    · apply List.ext_getElem?
      intro i
      rw [List.getElem?_map, List.getElem?_map, hget i]
      cases s.wPanels[i]? <;> rfl
  · have hlen : s.wPanels.length ≤ s.filaments.length := by
      rcases hfil with hfil | hfil
      · exact absurd hfil ht
      · exact hfil
    obtain ⟨fl, hloop, hfl, -⟩ := resetFilament_loop s hlen
    refine ⟨fl, s.wPanels, ?_, rfl, by rw [hfl]; exact hlen, rfl⟩
    rw [if_neg ht, ite_self, hloop]

/-- The collapse of the wake, on a case that is ready, with valid pointers and at time step 1
or with a filament for each wake panel: it returns, keeps the case ready, appends one
particle for each of the different edges at the positions 1 to 3 of the wake panels, each
with the previous velocity and the previous strength update zero, and leaves a filament for
each wake panel. -/
theorem collapse_counts {K : Type} [Field K] (m : libm K) (wx : wakeExternals K)
    (g : geometry K) (s : cpCase K) (h : wakeReady wx g s) (hwf : wellFormed s)
    (hfil : s.timeStep = 1 ∨ s.wPanels.length ≤ s.filaments.length) :
    ∃ (s2 : cpCase K) (news : List (particle K)),
      collapseOrExit m wx g s = some s2 ∧ wellFormed s2 ∧
      s2.particles = s.particles ++ news ∧
      news.length = distinctWakeEdges wx s.wPanels.length ∧
      (∀ p ∈ news, p.previousVelInfl = 0 ∧ p.previousStrengthUpdate = 0) ∧
      s2.timeStep = s.timeStep ∧ s2.numSteps = s.numSteps ∧
      s2.wPanels.length = s.wPanels.length ∧ s.wPanels.length ≤ s2.filaments.length := by
  obtain ⟨used, news, hrun, hlen, hzero⟩ := collapseParticles_count m wx g s h
  obtain ⟨fl, wl, hf, hwl, hfl, hpar⟩ := collapseFilaments_counts wx g
    { s with particles := s.particles ++ news } h hfil
  refine ⟨{ s with particles := s.particles ++ news, filaments := fl, wPanels := wl }, news,
    ?_, ⟨hwf.1, ?_⟩, rfl, hlen, hzero, rfl, rfl, hwl, hfl⟩
  · unfold collapseOrExit
    rw [collapse_unfold m wx g s _ used hrun, hf]
    rfl
  · exact hasParents_congr s.wPanels wl _ hpar hwf.2

/-- `setSourceStrengths` leaves the counts as they are. -/
theorem setSourceStrengths_counts {K : Type} [Field K] (ext : externals K) :
    keepsCounts (setSourceStrengths ext) := by
  intro s hs
  refine ⟨_, setSourceStrengths_eq ext s, ⟨?_, ?_⟩, rfl⟩
  · simpa using hs.1
  · simpa using hs.2

/-- `compVelocity` leaves the counts as they are. -/
theorem compVelocity_counts {K : Type} [Field K] (ext : externals K) :
    keepsCounts (compVelocity ext) := by
  intro s hs
  obtain ⟨bl, hbl, -, hc⟩ := compVelocity_eq ext s
  refine ⟨_, hc s.Fbody s.CM, ⟨?_, ?_⟩, rfl⟩
  · simpa [hbl] using hs.1
  · simpa [hbl] using hs.2

/-- The rebuild of the octree leaves the counts as they are. -/
theorem rebuildOctree_counts {K : Type} [Field K] :
    keepsCounts (fun s : cpCase K => some (rebuildOctree s)) := by
  intro s hs
  exact ⟨_, rfl, ⟨hs.1, hs.2⟩, by simp [caseCounts, rebuildOctree]⟩

/-- The convection leaves the counts as they are. -/
theorem convectParticles_counts {K : Type} [LinearOrderedField K] (ext : externals K)
    (wx : wakeExternals K) (hprev : ignoresPrevVelInfl ext) :
    keepsCounts (convectParticles ext wx) := by
  intro s hs
  exact ⟨_, convectParticles_eq ext wx s (fun _ _ => hprev), ⟨hs.1, hs.2⟩,
    by simp [caseCounts]⟩

/-- Both solves return on a case that is ready, keep it ready and leave the counts as they
are. -/
theorem solve_counts {K : Type} [LinearOrderedField K] (ext : externals K)
    (hsolver : ∀ A b, (ext.bicgstab A b).1.length = A.length) (s : cpCase K)
    (hs : wellFormed s) (prev : Bool) :
    ∃ c s2, (if prev then solveVPmatrixEq ext s else solveMatrixEq ext s) = some (c, s2) ∧
      wellFormed s2 ∧ caseCounts s2 = caseCounts s := by
  have hx : (solverResult ext s).1.length = s.bPanels.length := by
    unfold solverResult
    rw [hsolver, hs.1]
  obtain ⟨bl, wl, h, hb, hp, -, -⟩ := solve_spec ext s hx hs.2 prev
  have hbl : bl.length = s.bPanels.length := by
    rw [← hx, ← hb, List.length_map]
  have hwl : wl.length = s.wPanels.length := by
    have := congrArg List.length hp
    simpa using this
  refine ⟨_, _, h, ⟨?_, ?_⟩, ?_⟩
  · simpa [hbl] using hs.1
  · simp only [hbl]
    exact hasParents_congr s.wPanels wl _ hp hs.2
  · simp [caseCounts, hwl]

/-- A recorded call of a member function that leaves the counts as they are. -/
theorem call_counts {K : Type} (f : cpCase K → Option (cpCase K)) (hf : keepsCounts f)
    (name : call) (r : runState K) (hr : wellFormed r.c) :
    ∃ r2, r.call name f = some r2 ∧ wellFormed r2.c ∧ caseCounts r2.c = caseCounts r.c ∧
      r2.trace = r.trace ++ [name] := by
  obtain ⟨s2, hs2, hwf, hc⟩ := hf r.c hr
  exact ⟨{ r with c := s2, trace := r.trace ++ [name] }, by simp [runState.call, hs2], hwf,
    hc, rfl⟩

/-- One time step of a vortex-particle run, entered after `k` steps: it returns, makes the
calls of a step, appends the particles of one collapse and adds one to the time step. -/
theorem vortexStep_counts {K : Type} [LinearOrderedField K] (m : libm K) (ext : externals K)
    (wx : wakeExternals K) (g : geometry K) (outOps : runOps K)
    (hsolver : ∀ A b, (ext.bicgstab A b).1.length = A.length) (hout : outOps.keepCounts)
    (hprev : ignoresPrevVelInfl ext) (s0 : cpCase K) (hready : wakeReady wx g s0)
    (st : Bool × runState K) (k N F : Nat) (hwf : wellFormed st.2.c)
    (hc : caseCounts st.2.c =
      (k * distinctWakeEdges wx s0.wPanels.length, k + 1, N, s0.wPanels.length, F))
    (hF : k = 0 ∨ s0.wPanels.length ≤ F) :
    ∃ (st2 : Bool × runState K) (F2 : Nat) (block : List call),
      runStep ext (vortexOps m ext wx g outOps) st = some st2 ∧ wellFormed st2.2.c ∧
      caseCounts st2.2.c =
        ((k + 1) * distinctWakeEdges wx s0.wPanels.length, k + 2, N, s0.wPanels.length, F2) ∧
      s0.wPanels.length ≤ F2 ∧ stepCalls block ∧ st2.2.trace = st.2.trace ++ block := by
  obtain ⟨conv, r⟩ := st
  simp only [caseCounts, Prod.mk.injEq] at hc
  obtain ⟨hp, ht, hN, hn, hf⟩ := hc
  have hfil : r.c.timeStep = 1 ∨ r.c.wPanels.length ≤ r.c.filaments.length := by
    rcases hF with h0 | h0
    · left
      rw [ht, h0]
    · right
      rw [hn, hf]
      exact h0
  obtain ⟨s1, news, hs1, hwf1, hpart1, hnews, -, ht1, hN1, hn1, hf1⟩ :=
    collapse_counts m wx g r.c (wakeReady_congr wx g s0 r.c hn hready) hwf hfil
  obtain ⟨r1, h1, g1, hc1⟩ : ∃ r1, (r.print [coutItem.str "Time step ",
      coutItem.int r.c.timeStep, coutItem.str "/", coutItem.dbl (r.c.numSteps : K),
      coutItem.str ". Flow time = ", coutItem.dbl ((r.c.timeStep : K) * r.c.dt),
      coutItem.endl]).call call.collapseWakeForEachEdge
        (vortexOps m ext wx g outOps).collapseWakeForEachEdge = some r1 ∧ wellFormed r1.c ∧
      caseCounts r1.c = ((k + 1) * distinctWakeEdges wx s0.wPanels.length, k + 1, N,
        s0.wPanels.length, r1.c.filaments.length) ∧ s0.wPanels.length ≤ r1.c.filaments.length := by
    refine ⟨{ r.print [coutItem.str "Time step ",
      coutItem.int r.c.timeStep, coutItem.str "/", coutItem.dbl (r.c.numSteps : K),
      coutItem.str ". Flow time = ", coutItem.dbl ((r.c.timeStep : K) * r.c.dt),
      coutItem.endl] with c := s1, trace := r.trace ++ [call.collapseWakeForEachEdge] },
      ?_, hwf1, ?_, ?_⟩
    · have hs1b : collapseOrExit m wx g (r.print [coutItem.str "Time step ",
          coutItem.int r.c.timeStep, coutItem.str "/", coutItem.dbl (r.c.numSteps : K),
          coutItem.str ". Flow time = ", coutItem.dbl ((r.c.timeStep : K) * r.c.dt),
          coutItem.endl]).c = some s1 := hs1
      simp only [runState.call, vortexOps, hs1b, Option.bind_eq_bind, Option.some_bind]
      rfl
    · simp only [caseCounts, Prod.mk.injEq]
      refine ⟨?_, by rw [ht1, ht], by rw [hN1, hN], by rw [hn1, hn], trivial⟩
      rw [hpart1, List.length_append, hp, hnews, hn]
      ring
    · show s0.wPanels.length ≤ s1.filaments.length
      rw [← hn]
      exact hf1
  obtain ⟨hc1, hF1⟩ := hc1
  obtain ⟨r2, h2, g2, hc2, htr2⟩ : ∃ r2, (if r1.c.accelerate then
      r1.call call.rebuildOctree (fun s => some (rebuildOctree s)) else some r1) = some r2 ∧
      wellFormed r2.c ∧ caseCounts r2.c = caseCounts r1.c ∧ True := by
    cases r1.c.accelerate
    · exact ⟨r1, rfl, g1, rfl, trivial⟩
    · obtain ⟨r2, h2, g2, hc2, -⟩ := call_counts _ rebuildOctree_counts call.rebuildOctree r1 g1
      exact ⟨r2, h2, g2, hc2, trivial⟩
  obtain ⟨r4, h4, g4, hc4, -⟩ := call_counts _ (setSourceStrengths_counts ext)
    call.setSourceStrengths (r2.print [coutItem.str "Setting source strengths...",
      coutItem.endl]) g2
  obtain ⟨c, s6, h6, g6, hc6⟩ := solve_counts ext hsolver
    (r4.print [coutItem.str "Solving singularity strengths...", coutItem.endl]).c g4 true
  simp only [if_true] at h6
  obtain ⟨r8, h8, g8, hc8, -⟩ := call_counts _ hout.1 call.writeFiles
    (({ r4.print [coutItem.str "Solving singularity strengths...", coutItem.endl] with
        c := s6
        trace := (r4.print [coutItem.str "Solving singularity strengths...",
          coutItem.endl]).trace ++ [call.solveVPmatrixEq c] } : runState K).print
      [coutItem.str "writing files", coutItem.endl]) g6
  have g9 : wellFormed (r8.incTimeStep.print [coutItem.str "Convecting ",
      coutItem.int r8.incTimeStep.c.particles.length, coutItem.str " particles",
      coutItem.endl]).c := ⟨g8.1, g8.2⟩
  obtain ⟨r11, h11, g11, hc11, -⟩ := call_counts _ (convectParticles_counts ext wx hprev)
    call.convectParticles _ g9
  have hrun : runStep ext (vortexOps m ext wx g outOps) (conv, r) = some (c, r11) := by
    simp only [runStep, Option.bind_eq_bind]
    rw [h1]
    simp only [Option.some_bind]
    rw [h2]
    simp only [Option.some_bind]
    rw [h4]
    simp only [Option.some_bind]
    rw [h6]
    simp only [Option.some_bind]
    have h8b : (({ r4.print [coutItem.str "Solving singularity strengths...",
        coutItem.endl] with
        c := s6
        trace := (r4.print [coutItem.str "Solving singularity strengths...",
          coutItem.endl]).trace ++ [call.solveVPmatrixEq c] } : runState K).print
      [coutItem.str "writing files", coutItem.endl]).call call.writeFiles
        (vortexOps m ext wx g outOps).writeFiles = some r8 := h8
    rw [h8b]
    simp only [Option.some_bind]
    have h11b : (r8.incTimeStep.print [coutItem.str "Convecting ",
        coutItem.int r8.incTimeStep.c.particles.length, coutItem.str " particles",
        coutItem.endl]).call call.convectParticles
          (vortexOps m ext wx g outOps).convectParticles = some r11 := h11
    rw [h11b]
    simp only [Option.some_bind]
  obtain ⟨⟨block, hblock, htrace⟩, -⟩ := runStep_calls ext (vortexOps m ext wx g outOps) (conv, r)
    (c, r11) hrun
  refine ⟨(c, r11), r1.c.filaments.length, block, hrun, g11, ?_, hF1, hblock, htrace⟩
  rw [hc11]
  have hinc : caseCounts (r8.incTimeStep.print [coutItem.str "Convecting ",
      coutItem.int r8.incTimeStep.c.particles.length, coutItem.str " particles",
      coutItem.endl]).c = (r8.c.particles.length, r8.c.timeStep + 1, r8.c.numSteps,
        r8.c.wPanels.length, r8.c.filaments.length) := rfl
  have h8c : caseCounts r8.c = caseCounts r1.c := by
    rw [hc8]
    show caseCounts s6 = _
    rw [hc6]
    show caseCounts r4.c = _
    rw [hc4]
    show caseCounts r2.c = _
    rw [hc2]
  rw [hc1] at h8c
  simp only [caseCounts, Prod.mk.injEq] at h8c
  obtain ⟨e1, e2, e3, e4, e5⟩ := h8c
  rw [hinc, e1, e2, e3, e4, e5]

/-- The block of a vortex-particle case on a fresh case: it returns after `numSteps` time
steps, each with the calls of a step, with the time step `numSteps + 1` and with the
particles of `numSteps` collapses. -/
theorem vortexUnsteady_counts {K : Type} [LinearOrderedField K] (m : libm K)
    (ext : externals K) (wx : wakeExternals K) (g : geometry K) (outOps : runOps K)
    (hsolver : ∀ A b, (ext.bicgstab A b).1.length = A.length) (hout : outOps.keepCounts)
    (hprev : ignoresPrevVelInfl ext) (s0 : cpCase K) (hready : wakeReady wx g s0)
    (st : Bool × runState K) (F : Nat) (hwf : wellFormed st.2.c)
    (hc : caseCounts st.2.c = (0, 0, s0.numSteps, s0.wPanels.length, F)) :
    ∃ (st2 : Bool × runState K) (F2 : Nat) (blocks : List (List call)),
      runUnsteady ext (vortexOps m ext wx g outOps) st = some st2 ∧ wellFormed st2.2.c ∧
      caseCounts st2.2.c = (s0.numSteps * distinctWakeEdges wx s0.wPanels.length,
        s0.numSteps + 1, s0.numSteps, s0.wPanels.length, F2) ∧
      blocks.length = s0.numSteps ∧ (∀ b ∈ blocks, stepCalls b) ∧
      st2.2.trace = st.2.trace ++ [call.compVelocity, call.writeFiles] ++ blocks.flatten := by
  obtain ⟨conv, r⟩ := st
  obtain ⟨r1, h1, g1, hc1, ht1⟩ := call_counts _ (compVelocity_counts ext) call.compVelocity
    (r.print [coutItem.str "Writing timestep ", coutItem.int r.c.timeStep,
      coutItem.str " files...", coutItem.endl]) hwf
  obtain ⟨r2, h2, g2, hc2, ht2⟩ := call_counts _ hout.1 call.writeFiles r1 g1
  have hc3 : caseCounts r2.c = (0, 0, s0.numSteps, s0.wPanels.length, F) := by
    rw [hc2, hc1]
    exact hc
  simp only [caseCounts, Prod.mk.injEq] at hc3
  obtain ⟨e1, e2, e3, e4, e5⟩ := hc3
  have hN : r2.incTimeStep.c.numSteps = s0.numSteps := e3
  obtain ⟨st4, h4, g4, ⟨F4, hc4, -⟩, blocks, hlen, hall, htr⟩ :=
    forLoop_invariant (fun _ st => runStep ext (vortexOps m ext wx g outOps) st)
      (fun k (t : Bool × runState K) => wellFormed t.2.c ∧
        (∃ F2, caseCounts t.2.c = (k * distinctWakeEdges wx s0.wPanels.length, k + 1,
          s0.numSteps, s0.wPanels.length, F2) ∧ (k = 0 ∨ s0.wPanels.length ≤ F2)) ∧
        ∃ blocks : List (List call), blocks.length = k ∧ (∀ b ∈ blocks, stepCalls b) ∧
          t.2.trace = r2.trace ++ blocks.flatten)
      s0.numSteps (conv, r2.incTimeStep)
      ⟨⟨g2.1, g2.2⟩, ⟨F, by
          simp only [caseCounts, Prod.mk.injEq]
          exact ⟨by rw [zero_mul]; exact e1, by
            show r2.c.timeStep + 1 = 0 + 1
            rw [e2], e3, e4, e5⟩, Or.inl rfl⟩,
        ⟨[], rfl, by simp, by simp [runState.incTimeStep]⟩⟩
      (by
        rintro k t - ⟨hw, ⟨Fk, hck, hFk⟩, blocks, hlen, hall, htr⟩
        obtain ⟨t2, F2, block, hrun, hw2, hc2, hF2, hb, htr2⟩ :=
          vortexStep_counts m ext wx g outOps hsolver hout hprev s0 hready t k s0.numSteps Fk hw hck
            hFk
        refine ⟨t2, hrun, hw2, ⟨F2, hc2, Or.inr hF2⟩, blocks ++ [block], by simp [hlen], ?_, ?_⟩
        · intro b hb2
          rcases List.mem_append.1 hb2 with hb2 | hb2
          · exact hall b hb2
          · rw [List.mem_singleton.1 hb2]
            exact hb
        · rw [htr2, htr]
          simp)
  obtain ⟨c4, r4⟩ := st4
  refine ⟨(c4, ((r4.print [coutItem.str "CL=["]).print
    ((r4.print [coutItem.str "CL=["]).c.CL.flatMap
      (fun cl => [coutItem.dbl cl, coutItem.str ", "]))).print
    [coutItem.str "];", coutItem.endl]), F4, blocks, ?_, g4, hc4, hlen, hall, ?_⟩
  · simp only [runUnsteady, Option.bind_eq_bind]
    rw [h1]
    simp only [Option.some_bind]
    have h2b : r1.call call.writeFiles (vortexOps m ext wx g outOps).writeFiles = some r2 := h2
    rw [h2b]
    simp only [Option.some_bind]
    rw [hN, h4]
    simp only [Option.some_bind]
  · show r4.trace = _
    rw [htr, ht2, ht1]
    simp [runState.print]

/-- A mark keeps what is known of the case and of the history. -/
theorem mark_tail {K : Type} (r : runState K) (printFlag : Bool) (width : Nat) (text : String)
    (last : coutItem K) (C : Nat × Nat × Nat × Nat × Nat) (T : List call)
    (h : wellFormed r.c ∧ caseCounts r.c = C ∧ r.trace = T) :
    wellFormed (r.mark printFlag width text last).c ∧
      caseCounts (r.mark printFlag width text last).c = C ∧
      (r.mark printFlag width text last).trace = T := by
  rw [(mark_c r printFlag width text last).1, (mark_c r printFlag width text last).2]
  exact h

/-- A recorded call of a member function that leaves the counts as they are keeps what is
known of the case and extends the history. -/
theorem call_tail {K : Type} (f : cpCase K → Option (cpCase K)) (hf : keepsCounts f)
    (name : call) (r : runState K) (C : Nat × Nat × Nat × Nat × Nat) (T : List call)
    (h : wellFormed r.c ∧ caseCounts r.c = C ∧ r.trace = T) :
    ∃ r2, r.call name f = some r2 ∧
      (wellFormed r2.c ∧ caseCounts r2.c = C ∧ r2.trace = T ++ [name]) := by
  obtain ⟨r2, h2, g2, hc2, ht2⟩ := call_counts f hf name r h.1
  exact ⟨r2, h2, g2, by rw [hc2, h.2.1], by rw [ht2, h.2.2]⟩

/-- C39. A vortex-particle run on a fresh case (time step 0, no particles) that is ready for
its solves and whose wake has valid pointers, with a solver that returns one value per row,
particles whose induced velocity does not depend on their stored previous velocity, and
output and post-processing functions that return and leave the counts of the case as they
are: the run returns; between the calls of time step 0 and the closing calls it has made
exactly `numSteps` blocks of calls, each the collapse, the rebuild of the octree when
`accelerate` is set, the source strengths, the solve, the output files and the convection;
it ends with `timeStep = numSteps + 1` and with `numSteps * E` particles, where `E` is the
number of different edges at the positions 1 to 3 of the wake panels.  Every call of the
collapse that the run makes appends `E` particles, each with the previous velocity and the
previous strength update zero. -/
theorem run_vortex_particle_steps {K : Type} [LinearOrderedField K] (m : libm K)
    (ext : externals K) (wx : wakeExternals K) (g : geometry K) (outOps : runOps K)
    (hsolver : ∀ A b, (ext.bicgstab A b).1.length = A.length) (hout : outOps.keepCounts)
    (hprev : ignoresPrevVelInfl ext) (printFlag surfStreamFlag stabDerivFlag : Bool)
    (s : cpCase K) (hwf : wellFormed s) (hready : wakeReady wx g s)
    (hfresh : s.timeStep = 0 ∧ s.particles = []) :
    ∃ (r : runState K) (conv0 : Bool) (blocks : List (List call)),
      run ext (vortexOps m ext wx g outOps) printFlag surfStreamFlag stabDerivFlag true s =
        some r ∧
      r.trace = [call.setSourceStrengths, call.solveMatrixEq conv0, call.compVelocity,
          call.writeFiles] ++ blocks.flatten ++ [call.compVelocity, call.trefftzPlaneAnalysis] ++
        (if surfStreamFlag then [call.createStreamlines] else []) ++
        (if stabDerivFlag then [call.stabilityDerivatives] else []) ∧
      blocks.length = s.numSteps ∧ (∀ b ∈ blocks, stepCalls b) ∧
      r.c.timeStep = s.numSteps + 1 ∧
      r.c.particles.length = s.numSteps * distinctWakeEdges wx s.wPanels.length ∧
      (∀ c : cpCase K, wellFormed c → c.wPanels.length = s.wPanels.length →
        (c.timeStep = 1 ∨ c.wPanels.length ≤ c.filaments.length) →
        ∃ (c2 : cpCase K) (news : List (particle K)),
          (vortexOps m ext wx g outOps).collapseWakeForEachEdge c = some c2 ∧
          c2.particles = c.particles ++ news ∧
          news.length = distinctWakeEdges wx s.wPanels.length ∧
          ∀ p ∈ news, p.previousVelInfl = 0 ∧ p.previousStrengthUpdate = 0) := by
  obtain ⟨s1, hs1, hwf1, hc1⟩ := setSourceStrengths_counts ext s hwf
  obtain ⟨c0, s2, hs2, hwf2, hc2⟩ := solve_counts ext hsolver s1 hwf1 false
  simp only [Bool.false_eq_true, if_false] at hs2
  have hc3 : caseCounts s2 = (0, 0, s.numSteps, s.wPanels.length, s.filaments.length) := by
    rw [hc2, hc1]
    simp [caseCounts, hfresh.1, hfresh.2]
  obtain ⟨st4, F4, blocks, h4, g4, hc4, hlen, hall, htr4⟩ :=
    vortexUnsteady_counts m ext wx g outOps hsolver hout hprev s hready
      (c0, (runState.mk s2 [] [call.setSourceStrengths, call.solveMatrixEq c0]).print
        [coutItem.str "starting wake", coutItem.endl]) s.filaments.length hwf2 hc3
  obtain ⟨conv, r4⟩ := st4
  have g5 := mark_tail r4 printFlag 17 check coutItem.flush _ _ ⟨g4, hc4, htr4⟩
  obtain ⟨r6, h6, g6⟩ := call_tail _ (compVelocity_counts ext) call.compVelocity _ _ _ g5
  have g7 := mark_tail r6 printFlag 17 check coutItem.flush _ _ g6
  obtain ⟨r8, h8, g8⟩ := call_tail (vortexOps m ext wx g outOps).trefftzPlaneAnalysis hout.2.1
    call.trefftzPlaneAnalysis _ _ _ g7
  have g9 := mark_tail r8 printFlag 18 check coutItem.flush _ _ g8
  obtain ⟨r10, h10, g10⟩ : ∃ r10, (if surfStreamFlag then
      ((r8.mark printFlag 18 check coutItem.flush).call call.createStreamlines
        (vortexOps m ext wx g outOps).createStreamlines).map
          (fun r => r.mark printFlag 16 check coutItem.flush)
      else some ((r8.mark printFlag 18 check coutItem.flush).mark printFlag 16 "X"
        coutItem.flush)) = some r10 ∧
      (wellFormed r10.c ∧ caseCounts r10.c = _ ∧ r10.trace = _ ++
        (if surfStreamFlag then [call.createStreamlines] else [])) := by
    cases surfStreamFlag
    · exact ⟨_, rfl, by simpa using mark_tail _ printFlag 16 "X" coutItem.flush _ _ g9⟩
    · obtain ⟨ra, ha, ga⟩ := call_tail (vortexOps m ext wx g outOps).createStreamlines hout.2.2.1
        call.createStreamlines _ _ _ g9
      exact ⟨ra.mark printFlag 16 check coutItem.flush, by simp [ha],
        by simpa using mark_tail ra printFlag 16 check coutItem.flush _ _ ga⟩
  obtain ⟨r11, h11, g11⟩ : ∃ r11, (if stabDerivFlag then
      (r10.call call.stabilityDerivatives (vortexOps m ext wx g outOps).stabilityDerivatives).map
        (fun r => r.mark printFlag 23 check coutItem.endl)
      else some (r10.mark printFlag 23 "X" coutItem.endl)) = some r11 ∧
      (wellFormed r11.c ∧ caseCounts r11.c = _ ∧ r11.trace = _ ++
        (if stabDerivFlag then [call.stabilityDerivatives] else [])) := by
    cases stabDerivFlag
    · exact ⟨_, rfl, by simpa using mark_tail _ printFlag 23 "X" coutItem.endl _ _ g10⟩
    · obtain ⟨ra, ha, ga⟩ := call_tail (vortexOps m ext wx g outOps).stabilityDerivatives
        hout.2.2.2 call.stabilityDerivatives _ _ _ g10
      exact ⟨ra.mark printFlag 23 check coutItem.endl, by simp [ha],
        by simpa using mark_tail ra printFlag 23 check coutItem.endl _ _ ga⟩
  obtain ⟨r12, hr12⟩ : ∃ r12 : runState K, r12 =
      if !conv && printFlag then r11.print [coutItem.str warning, coutItem.endl] else r11 :=
    ⟨_, rfl⟩
  have g12 : r12.c = r11.c ∧ r12.trace = r11.trace := by
    rw [hr12]
    cases conv <;> cases printFlag <;> exact ⟨rfl, rfl⟩
  have hlast : (if printFlag then
      (if !true then r12.call call.writeFiles (vortexOps m ext wx g outOps).writeFiles
        else some r12)
      else some r12) = some r12 := by
    cases printFlag <;> rfl
  have hrun : run ext (vortexOps m ext wx g outOps) printFlag surfStreamFlag stabDerivFlag true s =
      some r12 := by
    simp only [run, Option.bind_eq_bind]
    have hs1b : ({ c := s, cout := [], trace := [] } : runState K).call
        call.setSourceStrengths (setSourceStrengths ext) =
          some { c := s1, cout := [], trace := [call.setSourceStrengths] } := by
      simp [runState.call, hs1]
    rw [hs1b]
    simp only [Option.some_bind]
    rw [hs2]
    simp only [Option.some_bind, List.singleton_append]
    rw [if_pos trivial, h4]
    simp only [Option.some_bind]
    rw [h6]
    simp only [Option.some_bind]
    rw [h8]
    simp only [Option.some_bind]
    rw [h10]
    simp only [Option.some_bind]
    rw [h11]
    simp only [Option.some_bind]
    rw [← hr12, hlast]
    simp only [Option.some_bind]
  have hcounts := g11.2.1
  rw [← g12.1] at hcounts
  simp only [caseCounts, Prod.mk.injEq] at hcounts
  refine ⟨r12, c0, blocks, hrun, ?_, hlen, hall, hcounts.2.1, hcounts.1, ?_⟩
  · rw [g12.2, g11.2.2]
    simp [runState.print]
  · intro c hcw hcn hcf
    obtain ⟨c2, news, hc2, -, hp2, hn2, hz2, -⟩ := collapse_counts m wx g c
      (wakeReady_congr wx g s c hcn hready) hcw hcf
    rw [hcn] at hn2
    exact ⟨c2, news, hc2, hp2, hn2, hz2⟩

/-- The solver of the still example returns one value per row of the matrix. -/
theorem stillExt_solver (A : MatrixXd ℚ) (b : VectorXd ℚ) :
    (stillExt.bicgstab A b).1.length = A.length := by
  simp [stillExt, demoExt, mulVecXd]

/-- The output functions of the examples leave the counts as they are. -/
theorem quietOps_keepCounts : quietOps.keepCounts :=
  ⟨fun s hs => ⟨s, rfl, hs, rfl⟩, fun s hs => ⟨s, rfl, hs, rfl⟩, fun s hs => ⟨s, rfl, hs, rfl⟩,
    fun s hs => ⟨s, rfl, hs, rfl⟩⟩

/-- The example wake has five different edges at the positions 1 to 3 of its two panels. -/
theorem wakeDemo_distinct : distinctWakeEdges (wakeDemoExt ℚ) 2 = 5 := by
  decide

theorem run_vortex_particle_steps_witness :
    ((∀ A b, (stillExt.bicgstab A b).1.length = A.length) ∧ quietOps.keepCounts ∧
      ignoresPrevVelInfl stillExt ∧ wellFormed vortexDemoCase ∧
      wakeReady (wakeDemoExt ℚ) (wakeDemoGeometry ℚ) vortexDemoCase ∧
      (vortexDemoCase.timeStep = 0 ∧ vortexDemoCase.particles = [])) ∧
    ∃ r, run stillExt (vortexOps demoLibm stillExt (wakeDemoExt ℚ) (wakeDemoGeometry ℚ) quietOps)
        true false false true vortexDemoCase = some r ∧
      r.c.timeStep = 2 + 1 ∧ r.c.particles.length = 2 * 5 :=
  have hwf : wellFormed vortexDemoCase := ⟨rfl, by decide⟩
  have hready : wakeReady (wakeDemoExt ℚ) (wakeDemoGeometry ℚ) vortexDemoCase :=
    wakeReady_congr _ _ (wakeDemoCase ℚ 0 [] []) vortexDemoCase rfl (wakeDemo_ready ℚ 0 [] [])
  ⟨⟨stillExt_solver, quietOps_keepCounts, stillExt_ignores, hwf, hready, rfl, rfl⟩,
    Exists.elim
      (run_vortex_particle_steps demoLibm stillExt (wakeDemoExt ℚ) (wakeDemoGeometry ℚ) quietOps
        stillExt_solver quietOps_keepCounts stillExt_ignores true false false vortexDemoCase
        hwf hready ⟨rfl, rfl⟩)
      (fun r h => Exists.elim h (fun _ h => Exists.elim h (fun _ h =>
        ⟨r, h.1, h.2.2.2.2.1, h.2.2.2.2.2.1.trans (congrArg (fun e => 2 * e) wakeDemo_distinct)⟩)))⟩

end CPanel
